import Mathlib

/-!
# XNNPACK micro-kernels: PReLU (WASM SIMD, 1x16) and tanh (scalar, FMA/LUT, WASM SIMD)

A shallow embedding of

* `src/f32-prelu/gen/wasmsimd-bitselect-1x16.c`
* `src/math/f32-tanh-scalar-expm1-rr2-p6-div.c`
* `src/math/f32-tanh-fma-expm1-rr1-lut8-p4-div.c`
* `src/math/f32-tanh-wasmsimd-expm1-rr1-p6-div-nabs-pmax.c`

A `float` is represented by its IEEE-754 binary32 bit pattern, a natural number below `2 ^ 32`.
Arithmetic is the correctly rounded (round-to-nearest, ties-to-even) binary32 arithmetic, one
rounding per C operator (`FLT_EVAL_METHOD == 0`, no contraction of `a * b + c`); `fmaf` rounds
once.  An operation that produces a NaN returns the canonical quiet NaN `0x7FC00000`: the
hardware leaves the sign and payload of such a NaN open, and no statement below depends on them
beyond "the result is a NaN".

Memory is byte addressed and little endian.  The `restrict`-qualified buffers of the PReLU kernel
are three separate memories; a pointer is a byte address inside its memory.
-/

/-! ## IEEE-754 binary32 on bit patterns -/

/-- Sign bit of a binary32 bit pattern. -/
def f32_sign (x : Nat) : Nat := x / 2 ^ 31 % 2

/-- Biased exponent field of a binary32 bit pattern. -/
def f32_exp (x : Nat) : Nat := x / 2 ^ 23 % 256

/-- Fraction field of a binary32 bit pattern. -/
def f32_frac (x : Nat) : Nat := x % 2 ^ 23

/-- NaN: exponent field all ones, fraction non-zero. -/
def f32_isNaN (x : Nat) : Bool := f32_exp x == 255 && f32_frac x != 0

/-- Infinity: exponent field all ones, fraction zero. -/
def f32_isInf (x : Nat) : Bool := f32_exp x == 255 && f32_frac x == 0

/-- Magnitude of a pattern in units of `2 ^ (-149)`: `|x| = f32_mag x / 2 ^ 149` for every finite
`x` (subnormals have exponent field 0 and no implicit bit).  For an infinity the same formula
gives `2 ^ 277`, above every finite magnitude, which is what the comparisons use. -/
def f32_mag (x : Nat) : Nat :=
  (if f32_exp x = 0 then f32_frac x else 2 ^ 23 + f32_frac x) * 2 ^ (f32_exp x - 1)

/-- Signed magnitude in units of `2 ^ (-149)`. -/
def f32_val (x : Nat) : Int := if f32_sign x = 1 then -(f32_mag x : Int) else (f32_mag x : Int)

/-- Real value of a finite pattern, as a rational number. -/
def f32_toRat (x : Nat) : ℚ := (f32_val x : ℚ) / 2 ^ 149

/-- The canonical quiet NaN. -/
def f32_qnan : Nat := 0x7FC00000

/-- Infinity with sign `s`. -/
def f32_inf (s : Nat) : Nat := s * 2 ^ 31 + 0x7F800000

/-- Position of the leading one bit of `n` (0 for `n < 2`), by repeated halving; the first
argument bounds the number of halvings and `f32_ilog2 n n` is the binary logarithm. -/
def f32_ilog2 : Nat → Nat → Nat
  | 0, _ => 0
  | f + 1, n => if n < 2 then 0 else 1 + f32_ilog2 f (n / 2)

/-- Round the exact magnitude `M / 2 ^ K` (with `149 ≤ K`) to binary32, to nearest with ties to
even, and attach the sign `s`.  `q` is the weight of the last kept bit of `M`: 24 significant
bits for a normal result, the fixed weight `2 ^ (-149)` for a subnormal one.  A rounded
significand of `2 ^ 24` carries into the exponent field by plain addition, and anything at or
above the encoding of infinity is infinity. -/
def f32_round (s M K : Nat) : Nat :=
  let q := max (f32_ilog2 M M - 23) (K - 149)
  let mant := M / 2 ^ q
  let rem := M % 2 ^ q
  let mant1 := if 2 ^ q < 2 * rem ∨ (2 * rem = 2 ^ q ∧ mant % 2 = 1) then mant + 1 else mant
  let bits := (q - (K - 149)) * 2 ^ 23 + mant1
  s * 2 ^ 31 + (if 0x7F800000 ≤ bits then 0x7F800000 else bits)

/-- Binary32 multiplication `a * b`. -/
def f32_mul (a b : Nat) : Nat :=
  let s := (f32_sign a + f32_sign b) % 2
  if f32_isNaN a || f32_isNaN b then f32_qnan
  else if f32_isInf a then (if f32_mag b = 0 then f32_qnan else f32_inf s)
  else if f32_isInf b then (if f32_mag a = 0 then f32_qnan else f32_inf s)
  else f32_round s (f32_mag a * f32_mag b) 298

/-- Binary32 addition `a + b`; an exact zero sum of opposite signs is `+0`. -/
def f32_add (a b : Nat) : Nat :=
  if f32_isNaN a || f32_isNaN b then f32_qnan
  else if f32_isInf a then (if f32_isInf b && f32_sign a != f32_sign b then f32_qnan else a)
  else if f32_isInf b then b
  else if f32_sign a = f32_sign b then f32_round (f32_sign a) (f32_mag a + f32_mag b) 149
  else if f32_mag b < f32_mag a then f32_round (f32_sign a) (f32_mag a - f32_mag b) 149
  else if f32_mag a < f32_mag b then f32_round (f32_sign b) (f32_mag b - f32_mag a) 149
  else 0

/-- Negation: flip the sign bit. -/
def f32_neg (x : Nat) : Nat := x ^^^ 0x80000000

/-- Binary32 subtraction `a - b`. -/
def f32_sub (a b : Nat) : Nat := f32_add a (f32_neg b)

/-- Binary32 division `a / b`.  The quotient is computed to 200 fractional bits and a sticky bit
records a non-zero remainder, which is enough for a correctly rounded result. -/
def f32_div (a b : Nat) : Nat :=
  let s := (f32_sign a + f32_sign b) % 2
  if f32_isNaN a || f32_isNaN b then f32_qnan
  else if f32_isInf a then (if f32_isInf b then f32_qnan else f32_inf s)
  else if f32_isInf b then s * 2 ^ 31
  else if f32_mag b = 0 then (if f32_mag a = 0 then f32_qnan else f32_inf s)
  else
    let n := f32_mag a * 2 ^ 200
    f32_round s (2 * (n / f32_mag b) + (if n % f32_mag b = 0 then 0 else 1)) 201

/-- Fused multiply-add `a * b + c` with a single rounding (C `fmaf`). -/
def fmaf (a b c : Nat) : Nat :=
  let sp := (f32_sign a + f32_sign b) % 2
  if f32_isNaN a || f32_isNaN b || f32_isNaN c then f32_qnan
  else if f32_isInf a || f32_isInf b then
    (if f32_mag a = 0 || f32_mag b = 0 then f32_qnan
     else if f32_isInf c && f32_sign c != sp then f32_qnan
     else f32_inf sp)
  else if f32_isInf c then c
  else
    let p := f32_mag a * f32_mag b
    let m := f32_mag c * 2 ^ 149
    if sp = f32_sign c then f32_round sp (p + m) 298
    else if m < p then f32_round sp (p - m) 298
    else if p < m then f32_round (f32_sign c) (m - p) 298
    else 0

/-- IEEE comparison `a < b`: false when either operand is a NaN, and `-0 < +0` is false. -/
def f32_lt (a b : Nat) : Bool := !f32_isNaN a && !f32_isNaN b && decide (f32_val a < f32_val b)

/-- IEEE comparison `a > b`. -/
def f32_gt (a b : Nat) : Bool := f32_lt b a

/-- C `fabsf`: clear the sign bit. -/
def fabsf (x : Nat) : Nat := x % 2 ^ 31

/-- C `copysignf x y`: the magnitude bits of `x` under the sign bit of `y`. -/
def copysignf (x y : Nat) : Nat := x % 2 ^ 31 + f32_sign y * 2 ^ 31

/-- The identity on bit patterns (`float_as_uint32` of `xnnpack/math.h`). -/
def float_as_uint32 (x : Nat) : Nat := x

/-- The identity on bit patterns (`uint32_as_float` of `xnnpack/math.h`). -/
def uint32_as_float (x : Nat) : Nat := x

/-- Shift of a `uint32_t` to the left, modulo `2 ^ 32`. -/
def u32_shl (x n : Nat) : Nat := x * 2 ^ n % 2 ^ 32

/-- Sum of two `uint32_t`, modulo `2 ^ 32`. -/
def u32_add (x y : Nat) : Nat := (x + y) % 2 ^ 32

/-- Arithmetic shift of a 32-bit two's complement lane to the right by `n < 32`. -/
def i32_shr (x n : Nat) : Nat :=
  if x % 2 ^ 32 < 2 ^ 31 then x % 2 ^ 32 / 2 ^ n
  else 2 ^ 32 - 1 - (2 ^ 32 - 1 - x % 2 ^ 32) / 2 ^ n

/-- WebAssembly `f32.pmax a b`, defined as `a < b ? b : a`. -/
def f32_pmax (a b : Nat) : Nat := if f32_lt a b then b else a

/-! ## Byte-addressed memory and 128-bit vectors -/

/-- A byte-addressed memory. -/
abbrev Mem := Nat → Nat

/-- A 128-bit vector seen as four 32-bit lanes: lane index `0..3` to lane bit pattern. -/
abbrev V128 := Nat → Nat

/-- Little-endian load of a 32-bit word (a `float`) at byte address `a`. -/
def load_f32 (m : Mem) (a : Nat) : Nat :=
  m a % 256 + 2 ^ 8 * (m (a + 1) % 256) + 2 ^ 16 * (m (a + 2) % 256) + 2 ^ 24 * (m (a + 3) % 256)

/-- Little-endian store of the 32-bit word `x` at byte address `a` (`*o0 = x`). -/
def store_f32 (m : Mem) (a x : Nat) : Mem :=
  fun b => if a ≤ b ∧ b < a + 4 then x / 2 ^ (8 * (b - a)) % 256 else m b

/-- Little-endian store of the 64-bit word `x` at byte address `a` (`*((double*) o0) = x`). -/
def store_f64 (m : Mem) (a x : Nat) : Mem :=
  fun b => if a ≤ b ∧ b < a + 8 then x / 2 ^ (8 * (b - a)) % 256 else m b

/-- `wasm_v128_load`: sixteen bytes at `a`, lane `i` at `a + 4 * i`. -/
def wasm_v128_load (m : Mem) (a : Nat) : V128 := fun i => load_f32 m (a + 4 * i)

/-- `wasm_v128_store`: the four lanes of `v` to the sixteen bytes at `a`. -/
def wasm_v128_store (m : Mem) (a : Nat) (v : V128) : Mem :=
  fun b => if a ≤ b ∧ b < a + 16 then v ((b - a) / 4) / 2 ^ (8 * ((b - a) % 4)) % 256 else m b

/-- `wasm_f32x4_const_splat`. -/
def wasm_f32x4_const_splat (c : Nat) : V128 := fun _ => c

/-- `wasm_f32x4_mul`, lane-wise. -/
def wasm_f32x4_mul (a b : V128) : V128 := fun i => f32_mul (a i) (b i)

/-- `wasm_f32x4_add`, lane-wise. -/
def wasm_f32x4_add (a b : V128) : V128 := fun i => f32_add (a i) (b i)

/-- `wasm_f32x4_sub`, lane-wise. -/
def wasm_f32x4_sub (a b : V128) : V128 := fun i => f32_sub (a i) (b i)

/-- `wasm_f32x4_div`, lane-wise. -/
def wasm_f32x4_div (a b : V128) : V128 := fun i => f32_div (a i) (b i)

/-- `wasm_f32x4_pmax`, lane-wise `a < b ? b : a`. -/
def wasm_f32x4_pmax (a b : V128) : V128 := fun i => f32_pmax (a i) (b i)

/-- `wasm_i32x4_shr`: arithmetic right shift of every lane. -/
def wasm_i32x4_shr (a : V128) (n : Nat) : V128 := fun i => i32_shr (a i) n

/-- `wasm_i32x4_shl`: left shift of every lane. -/
def wasm_i32x4_shl (a : V128) (n : Nat) : V128 := fun i => u32_shl (a i) n

/-- `wasm_v128_or`. -/
def wasm_v128_or (a b : V128) : V128 := fun i => a i ||| b i

/-- `wasm_v128_xor`. -/
def wasm_v128_xor (a b : V128) : V128 := fun i => a i ^^^ b i

/-- `wasm_v128_bitselect v1 v2 c`: the bits of `v1` where `c` is set, those of `v2` elsewhere. -/
def wasm_v128_bitselect (v1 v2 c : V128) : V128 :=
  fun i => (v1 i &&& c i) ||| (v2 i &&& (c i ^^^ 0xFFFFFFFF))

/-- `wasm_v32x4_shuffle a b c0 c1 c2 c3`: lane `k` of the result is lane `ck` of the
concatenation of `a` and `b`. -/
def wasm_v32x4_shuffle (a b : V128) (c0 c1 c2 c3 : Nat) : V128 :=
  fun i =>
    let sel := fun c => if c < 4 then a c else b (c - 4)
    match i with
    | 0 => sel c0
    | 1 => sel c1
    | 2 => sel c2
    | _ => sel c3

/-- `wasm_f32x4_extract_lane`. -/
def wasm_f32x4_extract_lane (v : V128) (i : Nat) : Nat := v i

/-- `wasm_f64x2_extract_lane`: 64-bit lane `i` is made of the 32-bit lanes `2 * i` (low half)
and `2 * i + 1` (high half). -/
def wasm_f64x2_extract_lane (v : V128) (i : Nat) : Nat := v (2 * i) + 2 ^ 32 * v (2 * i + 1)

/-- Subtraction of `size_t` values on a target whose `size_t` has `bits` bits. -/
def size_sub (bits n k : Nat) : Nat := (n + 2 ^ bits - k % 2 ^ bits) % 2 ^ bits

/-- `doz(a, b)`, "difference or zero" of `xnnpack/math.h`: `a - b` when `a ≥ b`, else 0. -/
def doz (a b : Nat) : Nat := if b ≤ a then a - b else 0

/-! ## `xnn_math_f32_tanh__scalar_expm1_rr2_p6_div` -/

namespace tanh_scalar_expm1_rr2_p6_div

/-- Constant `0x1.8000FEp+22f`. -/
def vmagic_bias : Nat := 0x4AC0007F
/-- Constant `-0x1.715476p+0f`. -/
def vminus_log2e : Nat := 0xBFB8AA3B
/-- Constant `0x1.62E420p-1f`. -/
def vln2_hi : Nat := 0x3F317210
/-- Constant `0x1.FDF474p-22f`. -/
def vln2_lo : Nat := 0x34FEFA3A
/-- Constant `0x1.6b7338p-4f`. -/
def vc6 : Nat := 0x3DB5B99C
/-- Constant `-0x1.12278Ep-2f`. -/
def vc5 : Nat := 0xBE8913C7
/-- Constant `0x1.555716p-1f`. -/
def vc4 : Nat := 0x3F2AAB8B
/-- Constant `-0x1.5554B0p+0f`. -/
def vc3 : Nat := 0xBFAAAA58
/-- Constant `0x1.FFFFFEp+0f`. -/
def vc2 : Nat := 0x3FFFFFFF
/-- Constant `-2.0f`. -/
def vminus_two : Nat := 0xC0000000
/-- Constant `1.0f`. -/
def vone : Nat := 0x3F800000
/-- Constant `0x1.205966p+3f`. -/
def vsat_cutoff : Nat := 0x41102CB3

/-- First value of `vn`: `vz * vminus_log2e + vmagic_bias`. -/
def vn_biased (vz : Nat) : Nat := f32_add (f32_mul vz vminus_log2e) vmagic_bias

/-- Scale `vs = uint32_as_float(float_as_uint32(vn) << 23)`. -/
def vs (vz : Nat) : Nat := uint32_as_float (u32_shl (float_as_uint32 (vn_biased vz)) 23)

/-- Final value of `vn`: `vn -= vmagic_bias`. -/
def vn (vz : Nat) : Nat := f32_sub (vn_biased vz) vmagic_bias

/-- Reduced argument: `vt = vn * vln2_hi + vz; vt = vn * vln2_lo + vt`. -/
def vt (vz : Nat) : Nat :=
  let vt := f32_add (f32_mul (vn vz) vln2_hi) vz
  f32_add (f32_mul (vn vz) vln2_lo) vt

/-- Degree-6 polynomial `vp`, by Horner's scheme with one multiply and one add per step. -/
def vp (vz : Nat) : Nat :=
  let vt := vt vz
  let vp := f32_add (f32_mul vc6 vt) vc5
  let vp := f32_add (f32_mul vp vt) vc4
  let vp := f32_add (f32_mul vp vt) vc3
  let vp := f32_add (f32_mul vp vt) vc2
  f32_add (f32_mul vp vt) vminus_two

/-- Reconstructed `expm1(-2z)`: `vem1 = vp * vts + vsm1`. -/
def vem1 (vz : Nat) : Nat :=
  let vts := f32_mul (vt vz) (vs vz)
  let vsm1 := f32_sub (vs vz) vone
  f32_add (f32_mul (vp vz) vts) vsm1

/-- Quotient `vem1 / vep1` with `vep1 = vem1 - vminus_two`, before the saturation fix-up. -/
def vabsy (vz : Nat) : Nat :=
  let vep1 := f32_sub (vem1 vz) vminus_two
  f32_div (vem1 vz) vep1

/-- One iteration of the loop body: the output `vy` for the input `vx`. -/
def vy (vx : Nat) : Nat :=
  let vz := fabsf vx
  let vabsy := if f32_gt vz vsat_cutoff then vone else vabsy vz
  copysignf vabsy vx

end tanh_scalar_expm1_rr2_p6_div

/-- The kernel: `for (; n != 0; n -= sizeof(float))` over the bytes of `input`, which is read at
`ip`, writing `output` at `op`.  `bits` is the width of `size_t`; the first argument bounds the
number of iterations and `none` means that it did not suffice. -/
def xnn_math_f32_tanh__scalar_expm1_rr2_p6_div (bits : Nat) :
    Nat → Nat → Mem → Nat → Mem → Nat → Option Mem
  | 0, _, _, _, _, _ => none
  | fuel + 1, n, input, ip, output, op =>
    if n = 0 then some output
    else
      let vx := load_f32 input ip
      let vy := tanh_scalar_expm1_rr2_p6_div.vy vx
      xnn_math_f32_tanh__scalar_expm1_rr2_p6_div bits fuel (size_sub bits n 4)
        input (ip + 4) (store_f32 output op vy) (op + 4)

/-! ## `xnn_math_f32_tanh__fma_expm1_rr1_lut8_p4_div` -/

namespace tanh_fma_expm1_rr1_lut8_p4_div

/-- Constant `0x1.800000p19f`. -/
def vmagic_bias : Nat := 0x49400000
/-- Constant `-0x1.715476p+0f`. -/
def vminus_log2e : Nat := 0xBFB8AA3B
/-- Constant `UINT32_C(0x7)`. -/
def vindex_mask : Nat := 0x7
/-- Constant `0x1.62E430p-1f`. -/
def vln2 : Nat := 0x3F317218
/-- Constant `0x1.5558ECp-1f`. -/
def vc4 : Nat := 0x3F2AAC76
/-- Constant `-0x1.555C20p+0f`. -/
def vc3 : Nat := 0xBFAAAE10
/-- Constant `0x1.000000p+1f`. -/
def vc2 : Nat := 0x40000000
/-- Constant `-2.0f`. -/
def vminus_two : Nat := 0xC0000000
/-- Constant `1.0f`. -/
def vone : Nat := 0x3F800000
/-- Constant `0x1.205966p+3f`. -/
def vsat_cutoff : Nat := 0x41102CB3

/-- First value of `vn`: `fmaf(vz, vminus_log2e, vmagic_bias)`. -/
def vn_biased (vz : Nat) : Nat := fmaf vz vminus_log2e vmagic_bias

/-- Exponent part `ven = float_as_uint32(vn) << 20`. -/
def ven (vz : Nat) : Nat := u32_shl (float_as_uint32 (vn_biased vz)) 20

/-- Table index `vidx = float_as_uint32(vn) & vindex_mask`. -/
def vidx (vz : Nat) : Nat := float_as_uint32 (vn_biased vz) &&& vindex_mask

/-- Scale `vs = uint32_as_float(xnn_table_exp2minus_k_over_8[vidx] + ven)`; the table is declared
`extern` in the source file and is a parameter here. -/
def vs (xnn_table_exp2minus_k_over_8 : Nat → Nat) (vz : Nat) : Nat :=
  uint32_as_float (u32_add (xnn_table_exp2minus_k_over_8 (vidx vz)) (ven vz))

/-- Final value of `vn`: `vn -= vmagic_bias`. -/
def vn (vz : Nat) : Nat := f32_sub (vn_biased vz) vmagic_bias

/-- Reduced argument `vt = fmaf(vn, vln2, vz)`. -/
def vt (vz : Nat) : Nat := fmaf (vn vz) vln2 vz

/-- Degree-4 polynomial `vp`, by Horner's scheme with fused multiply-adds. -/
def vp (vz : Nat) : Nat :=
  let vt := vt vz
  let vp := fmaf vc4 vt vc3
  let vp := fmaf vp vt vc2
  fmaf vp vt vminus_two

/-- Reconstructed `expm1(-2z)`: `vem1 = fmaf(vp, vts, vsm1)`. -/
def vem1 (xnn_table_exp2minus_k_over_8 : Nat → Nat) (vz : Nat) : Nat :=
  let vs := vs xnn_table_exp2minus_k_over_8 vz
  let vts := f32_mul (vt vz) vs
  let vsm1 := f32_sub vs vone
  fmaf (vp vz) vts vsm1

/-- Quotient `vem1 / vep1` with `vep1 = vem1 - vminus_two`, before the saturation fix-up. -/
def vabsy (xnn_table_exp2minus_k_over_8 : Nat → Nat) (vz : Nat) : Nat :=
  let vem1 := vem1 xnn_table_exp2minus_k_over_8 vz
  let vep1 := f32_sub vem1 vminus_two
  f32_div vem1 vep1

/-- One iteration of the loop body: the output `vy` for the input `vx`. -/
def vy (xnn_table_exp2minus_k_over_8 : Nat → Nat) (vx : Nat) : Nat :=
  let vz := fabsf vx
  let vabsy := if f32_gt vz vsat_cutoff then vone else vabsy xnn_table_exp2minus_k_over_8 vz
  copysignf vabsy vx

end tanh_fma_expm1_rr1_lut8_p4_div

/-- The kernel: `for (; n != 0; n -= sizeof(float))`, as for the scalar variant, with the
`extern` table as a parameter. -/
def xnn_math_f32_tanh__fma_expm1_rr1_lut8_p4_div (xnn_table_exp2minus_k_over_8 : Nat → Nat)
    (bits : Nat) : Nat → Nat → Mem → Nat → Mem → Nat → Option Mem
  | 0, _, _, _, _, _ => none
  | fuel + 1, n, input, ip, output, op =>
    if n = 0 then some output
    else
      let vx := load_f32 input ip
      let vy := tanh_fma_expm1_rr1_lut8_p4_div.vy xnn_table_exp2minus_k_over_8 vx
      xnn_math_f32_tanh__fma_expm1_rr1_lut8_p4_div xnn_table_exp2minus_k_over_8 bits fuel
        (size_sub bits n 4) input (ip + 4) (store_f32 output op vy) (op + 4)

/-! ## `xnn_math_f32_tanh__wasmsimd_expm1_rr1_p6_div_nabs_pmax` -/

namespace tanh_wasmsimd_expm1_rr1_p6_div_nabs_pmax

/-- Constant `-0.0f`, the mask of the sign bit. -/
def vsign_mask : V128 := wasm_f32x4_const_splat 0x80000000
/-- Constant `-0x1.205968p+3f`. -/
def vsat_cutoff : V128 := wasm_f32x4_const_splat 0xC1102CB4
/-- Constant `0x1.8000FEp+22f`. -/
def vmagic_bias : V128 := wasm_f32x4_const_splat 0x4AC0007F
/-- Constant `0x1.715476p+0f`. -/
def vlog2e : V128 := wasm_f32x4_const_splat 0x3FB8AA3B
/-- Constant `-0x1.62E430p-1f`. -/
def vminus_ln2 : V128 := wasm_f32x4_const_splat 0xBF317218
/-- Constant `0x1.6b7338p-4f`. -/
def vc6 : V128 := wasm_f32x4_const_splat 0x3DB5B99C
/-- Constant `0x1.12278Ep-2f`. -/
def vc5 : V128 := wasm_f32x4_const_splat 0x3E8913C7
/-- Constant `0x1.555716p-1f`. -/
def vc4 : V128 := wasm_f32x4_const_splat 0x3F2AAB8B
/-- Constant `0x1.5554B0p+0f`. -/
def vc3 : V128 := wasm_f32x4_const_splat 0x3FAAAA58
/-- Constant `0x1.FFFFFEp+0f`. -/
def vc2 : V128 := wasm_f32x4_const_splat 0x3FFFFFFF
/-- Constant `2.0f`. -/
def vtwo : V128 := wasm_f32x4_const_splat 0x40000000
/-- Constant `1.0f`. -/
def vone : V128 := wasm_f32x4_const_splat 0x3F800000

/-- Clipped argument: `vz = wasm_v128_or(vx, vsign_mask); vz = wasm_f32x4_pmax(vz, vsat_cutoff)`. -/
def vz (vx : V128) : V128 := wasm_f32x4_pmax (wasm_v128_or vx vsign_mask) vsat_cutoff

/-- Inverted sign mask `vinvsignx = wasm_v128_xor(vx, vz)`, taken before `vz` is clipped. -/
def vinvsignx (vx : V128) : V128 := wasm_v128_xor vx (wasm_v128_or vx vsign_mask)

/-- First value of `vn`: `vz * vlog2e + vmagic_bias`. -/
def vn_biased (vz : V128) : V128 := wasm_f32x4_add (wasm_f32x4_mul vz vlog2e) vmagic_bias

/-- Scale `vs = wasm_i32x4_shl(vn, 23)`. -/
def vs (vz : V128) : V128 := wasm_i32x4_shl (vn_biased vz) 23

/-- Final value of `vn`: `wasm_f32x4_sub(vn, vmagic_bias)`. -/
def vn (vz : V128) : V128 := wasm_f32x4_sub (vn_biased vz) vmagic_bias

/-- Reduced argument `vt = vn * vminus_ln2 + vz`. -/
def vt (vz : V128) : V128 := wasm_f32x4_add (wasm_f32x4_mul (vn vz) vminus_ln2) vz

/-- Degree-6 polynomial `vp`, by Horner's scheme with one multiply and one add per step. -/
def vp (vz : V128) : V128 :=
  let vt := vt vz
  let vp := wasm_f32x4_add (wasm_f32x4_mul vc6 vt) vc5
  let vp := wasm_f32x4_add (wasm_f32x4_mul vp vt) vc4
  let vp := wasm_f32x4_add (wasm_f32x4_mul vp vt) vc3
  let vp := wasm_f32x4_add (wasm_f32x4_mul vp vt) vc2
  wasm_f32x4_add (wasm_f32x4_mul vp vt) vtwo

/-- Reconstructed `expm1(2z)`: `vem1 = vp * vts + vsm1`. -/
def vem1 (vz : V128) : V128 :=
  let vts := wasm_f32x4_mul (vt vz) (vs vz)
  let vsm1 := wasm_f32x4_sub (vs vz) vone
  wasm_f32x4_add (wasm_f32x4_mul (vp vz) vts) vsm1

/-- Quotient `vabsy = vem1 / vep1` with `vep1 = vem1 + vtwo`. -/
def vabsy (vz : V128) : V128 :=
  let vep1 := wasm_f32x4_add (vem1 vz) vtwo
  wasm_f32x4_div (vem1 vz) vep1

/-- One iteration of the loop body: the output vector `vy` for the input vector `vx`. -/
def vy (vx : V128) : V128 := wasm_v128_xor (vabsy (vz vx)) (vinvsignx vx)

end tanh_wasmsimd_expm1_rr1_p6_div_nabs_pmax

/-- The kernel: `for (; n != 0; n -= 4 * sizeof(float))`, one 16-byte vector per iteration.
`bits` is the width of `size_t`; the first argument bounds the number of iterations and `none`
means that it did not suffice. -/
def xnn_math_f32_tanh__wasmsimd_expm1_rr1_p6_div_nabs_pmax (bits : Nat) :
    Nat → Nat → Mem → Nat → Mem → Nat → Option Mem
  | 0, _, _, _, _, _ => none
  | fuel + 1, n, input, ip, output, op =>
    if n = 0 then some output
    else
      let vx := wasm_v128_load input ip
      let vy := tanh_wasmsimd_expm1_rr1_p6_div_nabs_pmax.vy vx
      xnn_math_f32_tanh__wasmsimd_expm1_rr1_p6_div_nabs_pmax bits fuel (size_sub bits n 16)
        input (ip + 16) (wasm_v128_store output op vy) (op + 16)

/-! ## `xnn_f32_prelu_ukernel__wasmsimd_bitselect_1x16` -/

/-- The mutable state of the PReLU kernel: the row pointers `i0` and `o0` (byte addresses), the
output memory, and the start addresses of the 16-byte loads made so far from `weights` and from
`input`, oldest first. -/
structure PreluState where
  /-- Read pointer into the input memory. -/
  i0 : Nat
  /-- Write pointer into the output memory. -/
  o0 : Nat
  /-- Output memory. -/
  output : Mem
  /-- Addresses of the `wasm_v128_load`s from the weights. -/
  loads_w : List Nat
  /-- Addresses of the `wasm_v128_load`s from the input. -/
  loads_i : List Nat

namespace prelu_wasmsimd_bitselect_1x16

/-- The main loop `for (; c >= 16 * sizeof(float); c -= 16 * sizeof(float))` of one row, on the
remaining byte count `c`, the weights pointer `w` and the state.  The first argument bounds the
number of iterations; the kernel passes `channels`, which always suffices. -/
def loop16 (input weights : Mem) : Nat → Nat → Nat → PreluState → Nat × Nat × PreluState
  | 0, c, w, s => (c, w, s)
  | fuel + 1, c, w, s =>
    if 16 * 4 ≤ c then
      let vw0123 := wasm_v128_load weights w
      let vw4567 := wasm_v128_load weights (w + 4 * 4)
      let vw89AB := wasm_v128_load weights (w + 8 * 4)
      let vwCDEF := wasm_v128_load weights (w + 12 * 4)
      let vi0x0123 := wasm_v128_load input s.i0
      let vi0x4567 := wasm_v128_load input (s.i0 + 4 * 4)
      let vi0x89AB := wasm_v128_load input (s.i0 + 8 * 4)
      let vi0xCDEF := wasm_v128_load input (s.i0 + 12 * 4)
      let vacc0x0123 := wasm_f32x4_mul vi0x0123 vw0123
      let vmask0x0123 := wasm_i32x4_shr vi0x0123 31
      let vacc0x4567 := wasm_f32x4_mul vi0x4567 vw4567
      let vmask0x4567 := wasm_i32x4_shr vi0x4567 31
      let vacc0x89AB := wasm_f32x4_mul vi0x89AB vw89AB
      let vmask0x89AB := wasm_i32x4_shr vi0x89AB 31
      let vacc0xCDEF := wasm_f32x4_mul vi0xCDEF vwCDEF
      let vmask0xCDEF := wasm_i32x4_shr vi0xCDEF 31
      let vacc0x0123 := wasm_v128_bitselect vacc0x0123 vi0x0123 vmask0x0123
      let vacc0x4567 := wasm_v128_bitselect vacc0x4567 vi0x4567 vmask0x4567
      let vacc0x89AB := wasm_v128_bitselect vacc0x89AB vi0x89AB vmask0x89AB
      let vacc0xCDEF := wasm_v128_bitselect vacc0xCDEF vi0xCDEF vmask0xCDEF
      let out := wasm_v128_store s.output s.o0 vacc0x0123
      let out := wasm_v128_store out (s.o0 + 4 * 4) vacc0x4567
      let out := wasm_v128_store out (s.o0 + 8 * 4) vacc0x89AB
      let out := wasm_v128_store out (s.o0 + 12 * 4) vacc0xCDEF
      loop16 input weights fuel (c - 16 * 4) (w + 16 * 4)
        { i0 := s.i0 + 16 * 4
          o0 := s.o0 + 16 * 4
          output := out
          loads_w := s.loads_w ++ [w, w + 4 * 4, w + 8 * 4, w + 12 * 4]
          loads_i := s.loads_i ++ [s.i0, s.i0 + 4 * 4, s.i0 + 8 * 4, s.i0 + 12 * 4] }
    else (c, w, s)

/-- The loop `for (; c >= 4 * sizeof(float); c -= 4 * sizeof(float))` of one row. -/
def loop4 (input weights : Mem) : Nat → Nat → Nat → PreluState → Nat × Nat × PreluState
  | 0, c, w, s => (c, w, s)
  | fuel + 1, c, w, s =>
    if 4 * 4 ≤ c then
      let vw0123 := wasm_v128_load weights w
      let vi0x0123 := wasm_v128_load input s.i0
      let vacc0x0123 := wasm_f32x4_mul vi0x0123 vw0123
      let vmask0x0123 := wasm_i32x4_shr vi0x0123 31
      let vacc0x0123 := wasm_v128_bitselect vacc0x0123 vi0x0123 vmask0x0123
      loop4 input weights fuel (c - 4 * 4) (w + 4 * 4)
        { i0 := s.i0 + 4 * 4
          o0 := s.o0 + 4 * 4
          output := wasm_v128_store s.output s.o0 vacc0x0123
          loads_w := s.loads_w ++ [w]
          loads_i := s.loads_i ++ [s.i0] }
    else (c, w, s)

/-- The remainder `if XNN_UNLIKELY(c != 0) { ... }` of one row: a full 16-byte load of weights
and of input, then a store of two elements when `c & (2 * sizeof(float))` and of one element
when `c & (1 * sizeof(float))`. -/
def remainder (input weights : Mem) (c w : Nat) (s : PreluState) : PreluState :=
  if c ≠ 0 then
    let vw0123 := wasm_v128_load weights w
    let vi0x0123 := wasm_v128_load input s.i0
    let i0 := s.i0 + c
    let vacc0x0123 := wasm_f32x4_mul vi0x0123 vw0123
    let vmask0x0123 := wasm_i32x4_shr vi0x0123 31
    let vacc0x0123 := wasm_v128_bitselect vacc0x0123 vi0x0123 vmask0x0123
    let s1 : PreluState :=
      { i0 := i0
        o0 := s.o0
        output := s.output
        loads_w := s.loads_w ++ [w]
        loads_i := s.loads_i ++ [s.i0] }
    let (vacc0x0123, s2) :=
      if c &&& (2 * 4) ≠ 0 then
        (wasm_v32x4_shuffle vacc0x0123 vacc0x0123 2 3 2 3,
          { s1 with
            output := store_f64 s1.output s1.o0 (wasm_f64x2_extract_lane vacc0x0123 0)
            o0 := s1.o0 + 2 * 4 })
      else (vacc0x0123, s1)
    if c &&& (1 * 4) ≠ 0 then
      { s2 with
        output := store_f32 s2.output s2.o0 (wasm_f32x4_extract_lane vacc0x0123 0)
        o0 := s2.o0 + 1 * 4 }
    else s2
  else s

/-- One iteration of the `do { ... } while (rows != 0)` body: one row of `channels` bytes, then
the two pointers are advanced by `input_increment` and `output_increment`. -/
def row (channels : Nat) (input : Mem) (input_increment : Nat) (weights : Mem) (weights_ptr : Nat)
    (output_increment : Nat) (s : PreluState) : PreluState :=
  let w := weights_ptr
  let c := channels
  let (c, w, s) := loop16 input weights c c w s
  let (c, w, s) := loop4 input weights c c w s
  let s := remainder input weights c w s
  { s with i0 := s.i0 + input_increment, o0 := s.o0 + output_increment }

/-- The post-test loop `do { ... rows = doz(rows, 1); } while (rows != 0)`.  The first argument
bounds the number of iterations; the kernel passes `rows + 1`, which always suffices. -/
def rows_loop (channels : Nat) (input : Mem) (input_increment : Nat) (weights : Mem)
    (weights_ptr : Nat) (output_increment : Nat) : Nat → Nat → PreluState → PreluState
  | 0, _, s => s
  | fuel + 1, rows, s =>
    let s := row channels input input_increment weights weights_ptr output_increment s
    let rows := doz rows 1
    if rows ≠ 0 then
      rows_loop channels input input_increment weights weights_ptr output_increment fuel rows s
    else s

end prelu_wasmsimd_bitselect_1x16

/-- The kernel as compiled with `NDEBUG` (the three `assert`s are no-ops).  `input`, `weights`
and `output` are the three memories and `input_ptr`, `weights_ptr`, `output_ptr` the values of
the pointer arguments.  The increments are `size_t` differences; with `stride ≥ channels`, the
only case used below, they do not wrap. -/
def xnn_f32_prelu_ukernel__wasmsimd_bitselect_1x16 (rows channels : Nat) (input : Mem)
    (input_ptr input_stride : Nat) (weights : Mem) (weights_ptr : Nat) (output : Mem)
    (output_ptr output_stride : Nat) : PreluState :=
  let input_increment := input_stride * 1 - channels
  let output_increment := output_stride * 1 - channels
  prelu_wasmsimd_bitselect_1x16.rows_loop channels input input_increment weights weights_ptr
    output_increment (rows + 1) rows
    { i0 := input_ptr, o0 := output_ptr, output := output, loads_w := [], loads_i := [] }

/-- The kernel with its `assert`s enabled: `none` when `assert(rows != 0)`,
`assert(channels != 0)` or `assert(channels % sizeof(float) == 0)` fails and aborts. -/
def xnn_f32_prelu_ukernel__wasmsimd_bitselect_1x16_checked (rows channels : Nat) (input : Mem)
    (input_ptr input_stride : Nat) (weights : Mem) (weights_ptr : Nat) (output : Mem)
    (output_ptr output_stride : Nat) : Option PreluState :=
  if rows ≠ 0 ∧ channels ≠ 0 ∧ channels % 4 = 0 then
    some (xnn_f32_prelu_ukernel__wasmsimd_bitselect_1x16 rows channels input input_ptr
      input_stride weights weights_ptr output output_ptr output_stride)
  else none

/-! ## Reference semantics and test data -/

/-- One-element-at-a-time PReLU reference on bit patterns: `x` when the sign bit of `x` is
clear, the rounded product `x * w` otherwise. -/
def prelu_ref (x w : Nat) : Nat := if f32_sign x = 0 then x else f32_mul x w

/-- Memory image of a sequence of 32-bit words stored from address 0, zero elsewhere. -/
def mem_of_words (ws : List Nat) : Mem := fun a => ws.getD (a / 4) 0 / 2 ^ (8 * (a % 4)) % 256

/-- Byte `b` of the output of one row processed one element at a time: the byte of
`prelu_ref input[k] weights[k]` for the element `k = (b - o0) / 4` of the row that has its
weights at `w`, its input at `i0` and its output at `o0`. -/
def prelu_ref_byte (input weights : Mem) (w i0 o0 b : Nat) : Nat :=
  prelu_ref (load_f32 input (i0 + 4 * ((b - o0) / 4))) (load_f32 weights (w + 4 * ((b - o0) / 4)))
    / 2 ^ (8 * ((b - o0) % 4)) % 256

/-- Output memory after the one-element-at-a-time reference has written `len` bytes of a row. -/
def prelu_ref_row (input weights : Mem) (w i0 o0 len : Nat) (m : Mem) : Mem :=
  fun b => if o0 ≤ b ∧ b < o0 + len then prelu_ref_byte input weights w i0 o0 b else m b

/-- Output memory after the reference has written `rows` rows of `len` bytes, the rows being
`input_stride` bytes apart in the input and `output_stride` bytes apart in the output. -/
def prelu_ref_rows (input weights : Mem) (w len input_stride output_stride : Nat) :
    Nat → Nat → Nat → Mem → Mem
  | 0, _, _, m => m
  | rows + 1, i0, o0, m =>
    prelu_ref_rows input weights w len input_stride output_stride rows (i0 + input_stride)
      (o0 + output_stride) (prelu_ref_row input weights w i0 o0 len m)

/-- Weights `[2, 0.5, 1, 3]`. -/
def prelu_example_weights : Mem := mem_of_words [0x40000000, 0x3F000000, 0x3F800000, 0x40400000]

/-- Three contiguous rows `[-1, 2, -3, 4]`. -/
def prelu_example_input : Mem :=
  mem_of_words [0xBF800000, 0x40000000, 0xC0400000, 0x40800000,
    0xBF800000, 0x40000000, 0xC0400000, 0x40800000,
    0xBF800000, 0x40000000, 0xC0400000, 0x40800000]

/-- The kernel on the 3-row, 4-channel example, both strides 16 bytes, output initially zero. -/
def prelu_example : PreluState :=
  xnn_f32_prelu_ukernel__wasmsimd_bitselect_1x16 3 (4 * 4) prelu_example_input 0 16
    prelu_example_weights 0 (fun _ => 0) 0 16

/-- Seventeen input elements, `-1.0` at the even and `1.0` at the odd positions. -/
def prelu_example_input17 : Mem :=
  mem_of_words ((List.range 17).map fun k => if k % 2 = 0 then 0xBF800000 else 0x3F800000)

/-- Seventeen weights `2.0`. -/
def prelu_example_weights17 : Mem := mem_of_words (List.replicate 17 0x40000000)

/-- The kernel on one row of 17 channels (one 16-element chunk and a remainder of one element),
output initially zero. -/
def prelu_example17 : PreluState :=
  xnn_f32_prelu_ukernel__wasmsimd_bitselect_1x16 1 (4 * 17) prelu_example_input17 0 68
    prelu_example_weights17 0 (fun _ => 0) 0 68

/-- The kernel on two rows of three channels `[-1, 2, -3]` with one element of padding per row
(both strides 16 bytes) and an output memory filled with the byte `0xAA`. -/
def prelu_example_padded : PreluState :=
  xnn_f32_prelu_ukernel__wasmsimd_bitselect_1x16 2 (4 * 3)
    (mem_of_words [0xBF800000, 0x40000000, 0xC0400000, 0x7FC00000,
      0xBF800000, 0x40000000, 0xC0400000, 0x7FC00000]) 0 16
    prelu_example_weights 0 (fun _ => 0xAA) 0 16

/-- The kernel on one row with the single element `-0.0` and the single weight `-1.0`. -/
def prelu_example_negative_zero : PreluState :=
  xnn_f32_prelu_ukernel__wasmsimd_bitselect_1x16 1 (4 * 1) (mem_of_words [0x80000000]) 0 4
    (mem_of_words [0xBF800000]) 0 (fun _ => 0) 0 4

/-- The kernel called with `rows == 0` on one channel: input `-1.0`, weight `2.0`. -/
def prelu_example_zero_rows : PreluState :=
  xnn_f32_prelu_ukernel__wasmsimd_bitselect_1x16 0 (4 * 1) (mem_of_words [0xBF800000]) 0 4
    (mem_of_words [0x40000000]) 0 (fun _ => 0) 0 4

/-- One lane of the loop body of the WASM SIMD tanh kernel, as a function of the lane of the
input. -/
def tanh_wasmsimd_lane (x : Nat) : Nat :=
  tanh_wasmsimd_expm1_rr1_p6_div_nabs_pmax.vy (fun _ => x) 0

/-- Output memory after `len` bytes at `op` have been written one element at a time, element
`k` being `f` of the element `k` of the input at `ip`; every other byte is the byte of `m`. -/
def tanh_ref_mem (f : Nat → Nat) (input : Mem) (ip op len : Nat) (m : Mem) : Mem :=
  fun b =>
    if op ≤ b ∧ b < op + len then
      f (load_f32 input (ip + 4 * ((b - op) / 4))) / 2 ^ (8 * ((b - op) % 4)) % 256
    else m b

/-- Test data: the binary32 patterns nearest to `2 ^ (k / 8)`, `k = 0..7`. -/
def exp2_k_over_8_example : Nat → Nat
  | 0 => 0x3F800000
  | 1 => 0x3F8B95C2
  | 2 => 0x3F9837F0
  | 3 => 0x3FA5FED7
  | 4 => 0x3FB504F3
  | 5 => 0x3FC5672A
  | 6 => 0x3FD744FD
  | 7 => 0x3FEAC0C7
  | _ => 0

/-- Test data: a table built from them the way the source comment on
`xnn_table_exp2minus_k_over_8` describes, each value decremented, as an integer, by
`k << 20`. -/
def table_exp2minus_k_over_8_example (k : Nat) : Nat :=
  exp2_k_over_8_example k - k * 2 ^ 20

/-! ## Control flow of one row of the PReLU kernel -/

namespace prelu_wasmsimd_bitselect_1x16

end prelu_wasmsimd_bitselect_1x16

/-- Sample values of the arithmetic: `2 * 0.5 = 1`, `1 / 3 = 0x1.555556p-2`, `-0 + +0 = +0`,
`1 - 1 = +0`, the smallest subnormal halved rounds to even (`+0`), the largest finite number
doubled overflows to infinity, `fmaf(3, 1/3, -1)` is the rounding error `2 ^ (-25)` of `1/3`
tripled, and `inf - inf` is a NaN. -/
theorem f32_arith_examples :
    f32_mul 0x40000000 0x3F000000 = 0x3F800000 ∧
    f32_div 0x3F800000 0x40400000 = 0x3EAAAAAB ∧
    f32_add 0x80000000 0x00000000 = 0x00000000 ∧
    f32_sub 0x3F800000 0x3F800000 = 0x00000000 ∧
    f32_mul 0x00000001 0x3F000000 = 0x00000000 ∧
    f32_add 0x7F7FFFFF 0x7F7FFFFF = 0x7F800000 ∧
    fmaf 0x40400000 0x3EAAAAAB 0xBF800000 = 0x33000000 ∧
    f32_isNaN (f32_sub 0x7F800000 0x7F800000) = true := by
  decide!

/-- The saturation cutoff of the scalar and FMA variants is `0x1.205966p+3`, just below
9.010913, and the cutoff of the WASM SIMD variant is `-0x1.205968p+3`, just above in
magnitude. -/
theorem vsat_cutoff_values :
    f32_toRat tanh_scalar_expm1_rr2_p6_div.vsat_cutoff = 0x1205966 / 2 ^ 21 ∧
    f32_toRat tanh_fma_expm1_rr1_lut8_p4_div.vsat_cutoff = 0x1205966 / 2 ^ 21 ∧
    f32_toRat (tanh_wasmsimd_expm1_rr1_p6_div_nabs_pmax.vsat_cutoff 0) = -(0x1205968 / 2 ^ 21) ∧
    (0x1205966 / 2 ^ 21 : ℚ) < 9010913 / 1000000 ∧
    (9010913 / 1000000 : ℚ) < 0x1205968 / 2 ^ 21 := by
  have h1 : f32_val 0x41102CB3 = ((0x902CB3 * 2 ^ 129 : ℕ) : Int) := by decide
  have h2 : f32_val 0xC1102CB4 = -((0x902CB4 * 2 ^ 129 : ℕ) : Int) := by decide
  refine ⟨?_, ?_, ?_, by norm_num, by norm_num⟩
  · simp only [f32_toRat, tanh_scalar_expm1_rr2_p6_div.vsat_cutoff, h1]; norm_num
  · simp only [f32_toRat, tanh_fma_expm1_rr1_lut8_p4_div.vsat_cutoff, h1]; norm_num
  · simp only [f32_toRat, tanh_wasmsimd_expm1_rr1_p6_div_nabs_pmax.vsat_cutoff,
      wasm_f32x4_const_splat, h2]; norm_num

theorem f32_sign_fabsf (x : Nat) : f32_sign (fabsf x) = 0 := by
  unfold f32_sign fabsf; omega
theorem f32_exp_fabsf (x : Nat) : f32_exp (fabsf x) = f32_exp x := by
  unfold f32_exp fabsf; omega
theorem f32_frac_fabsf (x : Nat) : f32_frac (fabsf x) = f32_frac x := by
  unfold f32_frac fabsf; omega
theorem f32_isNaN_fabsf (x : Nat) : f32_isNaN (fabsf x) = f32_isNaN x := by
  unfold f32_isNaN; rw [f32_exp_fabsf, f32_frac_fabsf]
theorem f32_mag_fabsf (x : Nat) : f32_mag (fabsf x) = f32_mag x := by
  unfold f32_mag; rw [f32_exp_fabsf, f32_frac_fabsf]
theorem f32_val_fabsf (x : Nat) : f32_val (fabsf x) = (f32_mag x : Int) := by
  unfold f32_val; rw [f32_sign_fabsf, f32_mag_fabsf]; simp
theorem abs_f32_toRat (x : Nat) : |f32_toRat x| = (f32_mag x : ℚ) / 2 ^ 149 := by
  unfold f32_toRat f32_val
  split_ifs <;> simp [abs_div]
theorem f32_mag_of_isInf (x : Nat) (h : f32_isInf x = true) : f32_mag x = 2 ^ 23 * 2 ^ 254 := by
  unfold f32_isInf at h
  simp at h
  unfold f32_mag
  rw [h.1, h.2]
  simp

/-- A magnitude above 9.010913 is above `0x1.205966p+3`, in units of `2 ^ (-149)`. -/
theorem f32_mag_gt_of_abs_gt (x : Nat)
    (h : f32_isInf x = true ∨ (9010913 : ℚ) / 1000000 < |f32_toRat x|) :
    0x902CB3 * 2 ^ 129 < f32_mag x := by
  rcases h with h | h
  · rw [f32_mag_of_isInf x h]; norm_num
  · rw [abs_f32_toRat, div_lt_div_iff₀ (by norm_num) (by norm_num)] at h
    have h2 : (9010913 * 2 ^ 149 : ℕ) < f32_mag x * 1000000 := by exact_mod_cast h
    by_contra hc
    push_neg at hc
    have h3 : f32_mag x * 1000000 ≤ 0x902CB3 * 2 ^ 129 * 1000000 := Nat.mul_le_mul_right _ hc
    have h4 : (0x902CB3 * 2 ^ 129 * 1000000 : ℕ) < 9010913 * 2 ^ 149 := by norm_num
    omega

theorem f32_gt_cutoff (x : Nat) (hnan : f32_isNaN x = false)
    (h : f32_isInf x = true ∨ (9010913 : ℚ) / 1000000 < |f32_toRat x|) :
    f32_gt (fabsf x) 0x41102CB3 = true := by
  have hm := f32_mag_gt_of_abs_gt x h
  have hc : f32_val 0x41102CB3 = ((0x902CB3 * 2 ^ 129 : ℕ) : Int) := by decide
  unfold f32_gt f32_lt
  rw [f32_isNaN_fabsf, hnan, f32_val_fabsf, hc]
  have : f32_isNaN 0x41102CB3 = false := by decide
  rw [this]
  simp only [Bool.not_false, Bool.true_and, decide_eq_true_eq]
  exact_mod_cast hm

theorem copysignf_one (x : Nat) :
    copysignf 0x3F800000 x = if f32_sign x = 1 then 0xBF800000 else 0x3F800000 := by
  have := Nat.mod_lt (x / 2 ^ 31) (by norm_num : 0 < 2)
  unfold copysignf
  split_ifs with h
  · rw [h]; norm_num
  · have h0 : f32_sign x = 0 := by unfold f32_sign at *; omega
    rw [h0]; norm_num

/-- C2: for every non-NaN `x` (infinities included) with `|x| > 9.010913` the scalar variant and
the FMA table variant (for every table) return `1.0` with the sign bit of `x`. -/
theorem tanh_saturation (tbl : Nat → Nat) (x : Nat) (hnan : f32_isNaN x = false)
    (h : f32_isInf x = true ∨ (9010913 : ℚ) / 1000000 < |f32_toRat x|) :
    tanh_scalar_expm1_rr2_p6_div.vy x = (if f32_sign x = 1 then 0xBF800000 else 0x3F800000) ∧
    tanh_fma_expm1_rr1_lut8_p4_div.vy tbl x
      = (if f32_sign x = 1 then 0xBF800000 else 0x3F800000) := by
  have hg := f32_gt_cutoff x hnan h
  constructor
  · unfold tanh_scalar_expm1_rr2_p6_div.vy
    simp only [tanh_scalar_expm1_rr2_p6_div.vsat_cutoff, hg, if_true,
      tanh_scalar_expm1_rr2_p6_div.vone]
    exact copysignf_one x
  · unfold tanh_fma_expm1_rr1_lut8_p4_div.vy
    simp only [tanh_fma_expm1_rr1_lut8_p4_div.vsat_cutoff, hg, if_true,
      tanh_fma_expm1_rr1_lut8_p4_div.vone]
    exact copysignf_one x

/-- C2 at `x = 10.0`: both variants return `1.0`. -/
theorem tanh_saturation_witness :
    (f32_isNaN 0x41200000 = false ∧
      (f32_isInf 0x41200000 = true ∨ (9010913 : ℚ) / 1000000 < |f32_toRat 0x41200000|)) ∧
    tanh_scalar_expm1_rr2_p6_div.vy 0x41200000
      = (if f32_sign 0x41200000 = 1 then 0xBF800000 else 0x3F800000) ∧
    tanh_fma_expm1_rr1_lut8_p4_div.vy (fun _ => 0) 0x41200000
      = (if f32_sign 0x41200000 = 1 then 0xBF800000 else 0x3F800000) := by
  have hb : (f32_isInf 0x41200000 = true ∨
      (9010913 : ℚ) / 1000000 < |f32_toRat 0x41200000|) := by
    right
    rw [abs_f32_toRat]
    have : f32_mag 0x41200000 = 10 * 2 ^ 149 := by decide
    rw [this]
    norm_num
  exact ⟨⟨by decide, hb⟩, tanh_saturation (fun _ => 0) 0x41200000 (by decide) hb⟩

theorem xor_sign_of_lt (l : Nat) (h : l < 2 ^ 31) : l ^^^ 0x80000000 = l + 2 ^ 31 := by
  have e : (0x80000000 : Nat) = 2 ^ 31 := by norm_num
  rw [e]
  have h2 : l + 2 ^ 31 = 2 ^ 31 * 1 ||| l := by
    rw [← Nat.mul_add_lt_is_or h 1]; omega
  rw [h2]
  apply Nat.eq_of_testBit_eq
  intro i
  simp only [Nat.testBit_xor, Nat.testBit_or, Nat.mul_one, Nat.testBit_two_pow]
  by_cases hi : 31 = i
  · subst hi
    simp [Nat.testBit_lt_two_pow h]
  · simp [hi]

theorem or_sign_of_lt (l : Nat) (h : l < 2 ^ 31) : l ||| 0x80000000 = l + 2 ^ 31 := by
  have e : (0x80000000 : Nat) = 2 ^ 31 := by norm_num
  rw [e]
  have h2 : l + 2 ^ 31 = 2 ^ 31 * 1 ||| l := by
    rw [← Nat.mul_add_lt_is_or h 1]; omega
  rw [h2, Nat.mul_one, Nat.or_comm]

theorem or_sign (x : Nat) (hx : x < 2 ^ 32) : x ||| 0x80000000 = x % 2 ^ 31 + 2 ^ 31 := by
  by_cases h : x < 2 ^ 31
  · rw [or_sign_of_lt x h, Nat.mod_eq_of_lt h]
  · have h1 : x - 2 ^ 31 < 2 ^ 31 := by omega
    have h2 : x = (x - 2 ^ 31) ||| 0x80000000 := by rw [or_sign_of_lt _ h1]; omega
    have h3 : x % 2 ^ 31 + 2 ^ 31 = x := by omega
    rw [h3]
    conv_lhs => rw [h2]
    rw [Nat.or_assoc, Nat.or_self]
    exact h2.symm

theorem f32_neg_eq (x : Nat) (hx : x < 2 ^ 32) :
    f32_neg x = if x < 2 ^ 31 then x + 2 ^ 31 else x - 2 ^ 31 := by
  unfold f32_neg
  split_ifs with h
  · exact xor_sign_of_lt x h
  · have h1 : x - 2 ^ 31 < 2 ^ 31 := by omega
    have h2 : x = (x - 2 ^ 31) ^^^ 0x80000000 := by rw [xor_sign_of_lt _ h1]; omega
    conv_lhs => rw [h2]
    rw [Nat.xor_assoc, Nat.xor_self, Nat.xor_zero]

theorem xor_or_sign (x : Nat) (hx : x < 2 ^ 32) :
    x ^^^ (x ||| 0x80000000) = if x < 2 ^ 31 then 0x80000000 else 0 := by
  split_ifs with h
  · have e : x ||| 0x80000000 = x ^^^ 0x80000000 := by
      rw [or_sign_of_lt x h, xor_sign_of_lt x h]
    rw [e, ← Nat.xor_assoc, Nat.xor_self, Nat.zero_xor]
  · have h3 : x % 2 ^ 31 + 2 ^ 31 = x := by omega
    rw [or_sign x hx, h3, Nat.xor_self]

theorem f32_exp_of_lt (a : Nat) (h : a < 2 ^ 31) : f32_exp a = a / 2 ^ 23 := by
  unfold f32_exp; omega

/-- On sign-free patterns the magnitude is monotone in the bit pattern. -/
theorem f32_mag_mono (a b : Nat) (ha : a < 2 ^ 31) (hb : b < 2 ^ 31) (hab : a ≤ b) :
    f32_mag a ≤ f32_mag b := by
  unfold f32_mag
  rw [f32_exp_of_lt a ha, f32_exp_of_lt b hb]
  unfold f32_frac
  have hfa : a % 2 ^ 23 < 2 ^ 23 := Nat.mod_lt _ (by norm_num)
  have hfb : b % 2 ^ 23 < 2 ^ 23 := Nat.mod_lt _ (by norm_num)
  rcases Nat.lt_or_ge (a / 2 ^ 23) (b / 2 ^ 23) with hlt | hge
  · have hb0 : b / 2 ^ 23 ≠ 0 := by omega
    rw [if_neg hb0]
    have hpos : 0 < 2 ^ (b / 2 ^ 23 - 1) := Nat.two_pow_pos _
    by_cases ha0 : a / 2 ^ 23 = 0
    · rw [if_pos ha0, ha0]
      calc a % 2 ^ 23 * 2 ^ (0 - 1) = a % 2 ^ 23 := by simp
        _ ≤ (2 ^ 23 + b % 2 ^ 23) * 1 := by omega
        _ ≤ (2 ^ 23 + b % 2 ^ 23) * 2 ^ (b / 2 ^ 23 - 1) := Nat.mul_le_mul_left _ hpos
    · rw [if_neg ha0]
      have hle : a / 2 ^ 23 ≤ b / 2 ^ 23 - 1 := by omega
      calc (2 ^ 23 + a % 2 ^ 23) * 2 ^ (a / 2 ^ 23 - 1)
          ≤ (2 ^ 23 * 2) * 2 ^ (a / 2 ^ 23 - 1) := Nat.mul_le_mul_right _ (by omega)
        _ = 2 ^ 23 * 2 ^ (a / 2 ^ 23 - 1 + 1) := by rw [pow_succ]; ring
        _ = 2 ^ 23 * 2 ^ (a / 2 ^ 23) := by rw [Nat.sub_add_cancel (by omega)]
        _ ≤ 2 ^ 23 * 2 ^ (b / 2 ^ 23 - 1) :=
            Nat.mul_le_mul_left _ (Nat.pow_le_pow_right (by norm_num) hle)
        _ ≤ (2 ^ 23 + b % 2 ^ 23) * 2 ^ (b / 2 ^ 23 - 1) := Nat.mul_le_mul_right _ (by omega)
  · have he : a / 2 ^ 23 = b / 2 ^ 23 := by
      have hd : a / 2 ^ 23 ≤ b / 2 ^ 23 := Nat.div_le_div_right hab
      omega
    have hf : a % 2 ^ 23 ≤ b % 2 ^ 23 := by omega
    rw [he]
    apply Nat.mul_le_mul_right
    split_ifs <;> omega

theorem f32_exp_or_sign (x : Nat) : f32_exp (x % 2 ^ 31 + 2 ^ 31) = f32_exp x := by
  unfold f32_exp; omega
theorem f32_frac_or_sign (x : Nat) : f32_frac (x % 2 ^ 31 + 2 ^ 31) = f32_frac x := by
  unfold f32_frac; omega
theorem f32_sign_or_sign (x : Nat) : f32_sign (x % 2 ^ 31 + 2 ^ 31) = 1 := by
  unfold f32_sign; omega
theorem f32_isNaN_or_sign (x : Nat) : f32_isNaN (x % 2 ^ 31 + 2 ^ 31) = f32_isNaN x := by
  unfold f32_isNaN; rw [f32_exp_or_sign, f32_frac_or_sign]
theorem f32_val_or_sign (x : Nat) : f32_val (x % 2 ^ 31 + 2 ^ 31) = -(f32_mag x : Int) := by
  unfold f32_val f32_mag; rw [f32_sign_or_sign, f32_exp_or_sign, f32_frac_or_sign]; simp

/-- Beyond 9.010913 the clipped argument of the WASM SIMD kernel is the cutoff itself. -/
theorem f32_pmax_cutoff (x : Nat) (hx : x < 2 ^ 32) (hnan : f32_isNaN x = false)
    (h : f32_isInf x = true ∨ (9010913 : ℚ) / 1000000 < |f32_toRat x|) :
    f32_pmax (x ||| 0x80000000) 0xC1102CB4 = 0xC1102CB4 := by
  have hm := f32_mag_gt_of_abs_gt x h
  have ha : x % 2 ^ 31 < 2 ^ 31 := Nat.mod_lt _ (by norm_num)
  have hge : 0x41102CB4 ≤ x % 2 ^ 31 := by
    by_contra hc
    have h1 := f32_mag_mono (x % 2 ^ 31) 0x41102CB3 ha (by norm_num) (by omega)
    have h2 : f32_mag 0x41102CB3 = 0x902CB3 * 2 ^ 129 := by decide
    have h3 : f32_mag (x % 2 ^ 31) = f32_mag x := f32_mag_fabsf x
    omega
  rw [or_sign x hx]
  unfold f32_pmax
  split_ifs with hlt
  · rfl
  · by_contra hne
    apply hlt
    have h5 : 0x41102CB5 ≤ x % 2 ^ 31 := by omega
    have h1 := f32_mag_mono 0x41102CB5 (x % 2 ^ 31) (by norm_num) ha h5
    have h2 : f32_mag 0x41102CB5 = 0x902CB5 * 2 ^ 129 := by decide
    have h3 : f32_mag (x % 2 ^ 31) = f32_mag x := f32_mag_fabsf x
    have hc : f32_val 0xC1102CB4 = -((0x902CB4 * 2 ^ 129 : ℕ) : Int) := by decide
    have hn : f32_isNaN 0xC1102CB4 = false := by decide
    unfold f32_lt
    rw [f32_isNaN_or_sign, hnan, hn, f32_val_or_sign, hc]
    simp only [Bool.not_false, Bool.true_and, decide_eq_true_eq]
    have : (0x902CB4 * 2 ^ 129 : ℕ) < f32_mag x := by omega
    omega

theorem wasm_vabsy_lane (vz : V128) (i : Nat) :
    tanh_wasmsimd_expm1_rr1_p6_div_nabs_pmax.vabsy vz i
      = tanh_wasmsimd_expm1_rr1_p6_div_nabs_pmax.vabsy (fun _ => vz i) 0 := by
  simp only [tanh_wasmsimd_expm1_rr1_p6_div_nabs_pmax.vabsy,
    tanh_wasmsimd_expm1_rr1_p6_div_nabs_pmax.vem1, tanh_wasmsimd_expm1_rr1_p6_div_nabs_pmax.vp,
    tanh_wasmsimd_expm1_rr1_p6_div_nabs_pmax.vt, tanh_wasmsimd_expm1_rr1_p6_div_nabs_pmax.vn,
    tanh_wasmsimd_expm1_rr1_p6_div_nabs_pmax.vs,
    tanh_wasmsimd_expm1_rr1_p6_div_nabs_pmax.vn_biased,
    wasm_f32x4_add, wasm_f32x4_mul, wasm_f32x4_sub, wasm_f32x4_div, wasm_i32x4_shl,
    wasm_f32x4_const_splat, tanh_wasmsimd_expm1_rr1_p6_div_nabs_pmax.vmagic_bias,
    tanh_wasmsimd_expm1_rr1_p6_div_nabs_pmax.vlog2e,
    tanh_wasmsimd_expm1_rr1_p6_div_nabs_pmax.vminus_ln2,
    tanh_wasmsimd_expm1_rr1_p6_div_nabs_pmax.vc6, tanh_wasmsimd_expm1_rr1_p6_div_nabs_pmax.vc5,
    tanh_wasmsimd_expm1_rr1_p6_div_nabs_pmax.vc4, tanh_wasmsimd_expm1_rr1_p6_div_nabs_pmax.vc3,
    tanh_wasmsimd_expm1_rr1_p6_div_nabs_pmax.vc2, tanh_wasmsimd_expm1_rr1_p6_div_nabs_pmax.vtwo,
    tanh_wasmsimd_expm1_rr1_p6_div_nabs_pmax.vone]

theorem wasm_vabsy_at_cutoff :
    tanh_wasmsimd_expm1_rr1_p6_div_nabs_pmax.vabsy (fun _ => 0xC1102CB4) 0 = 0xBF800000 := by
  decide!

theorem f32_sign_eq_zero_iff (x : Nat) (hx : x < 2 ^ 32) : f32_sign x = 0 ↔ x < 2 ^ 31 := by
  unfold f32_sign; omega

/-- C3: for every non-NaN lane `x` (infinities included) with `|x| > 9.010913` the WASM SIMD
variant clips `z = -|x|` to `vsat_cutoff = -0x1.205968p+3`, computes exactly `-1.0f` there, and
returns `1.0` with the sign bit of `x`. -/
theorem tanh_wasm_saturation (vx : V128) (i : Nat) (hx : vx i < 2 ^ 32)
    (hnan : f32_isNaN (vx i) = false)
    (h : f32_isInf (vx i) = true ∨ (9010913 : ℚ) / 1000000 < |f32_toRat (vx i)|) :
    tanh_wasmsimd_expm1_rr1_p6_div_nabs_pmax.vz vx i = 0xC1102CB4 ∧
    tanh_wasmsimd_expm1_rr1_p6_div_nabs_pmax.vabsy
      (tanh_wasmsimd_expm1_rr1_p6_div_nabs_pmax.vz vx) i = 0xBF800000 ∧
    tanh_wasmsimd_expm1_rr1_p6_div_nabs_pmax.vy vx i
      = (if f32_sign (vx i) = 1 then 0xBF800000 else 0x3F800000) := by
  have hz : tanh_wasmsimd_expm1_rr1_p6_div_nabs_pmax.vz vx i = 0xC1102CB4 :=
    f32_pmax_cutoff (vx i) hx hnan h
  have hy : tanh_wasmsimd_expm1_rr1_p6_div_nabs_pmax.vabsy
      (tanh_wasmsimd_expm1_rr1_p6_div_nabs_pmax.vz vx) i = 0xBF800000 := by
    rw [wasm_vabsy_lane, hz]; exact wasm_vabsy_at_cutoff
  refine ⟨hz, hy, ?_⟩
  show tanh_wasmsimd_expm1_rr1_p6_div_nabs_pmax.vabsy
      (tanh_wasmsimd_expm1_rr1_p6_div_nabs_pmax.vz vx) i ^^^ (vx i ^^^ (vx i ||| 0x80000000)) = _
  rw [hy, xor_or_sign (vx i) hx]
  have hs := f32_sign_eq_zero_iff (vx i) hx
  have := Nat.mod_lt (vx i / 2 ^ 31) (by norm_num : 0 < 2)
  by_cases hlt : vx i < 2 ^ 31
  · have h0 : f32_sign (vx i) = 0 := hs.2 hlt
    rw [if_pos hlt, h0]; decide
  · have h1 : f32_sign (vx i) = 1 := by unfold f32_sign at *; omega
    rw [if_neg hlt, h1]; decide

/-- C3 at `x = 10.0` in every lane: the clipped argument is the cutoff, the quotient is `-1.0`
and lane 0 of the output is `1.0`. -/
theorem tanh_wasm_saturation_witness :
    ((10 * 2 ^ 149 : ℕ) = f32_mag 0x41200000 ∧ (0x41200000 : ℕ) < 2 ^ 32 ∧
      f32_isNaN 0x41200000 = false) ∧
    tanh_wasmsimd_expm1_rr1_p6_div_nabs_pmax.vz (fun _ => 0x41200000) 0 = 0xC1102CB4 ∧
    tanh_wasmsimd_expm1_rr1_p6_div_nabs_pmax.vabsy
      (tanh_wasmsimd_expm1_rr1_p6_div_nabs_pmax.vz (fun _ => 0x41200000)) 0 = 0xBF800000 ∧
    tanh_wasmsimd_expm1_rr1_p6_div_nabs_pmax.vy (fun _ => 0x41200000) 0
      = (if f32_sign 0x41200000 = 1 then 0xBF800000 else 0x3F800000) := by
  have hm : (10 * 2 ^ 149 : ℕ) = f32_mag 0x41200000 := by decide
  have hb : (f32_isInf 0x41200000 = true ∨
      (9010913 : ℚ) / 1000000 < |f32_toRat 0x41200000|) := by
    right
    rw [abs_f32_toRat, ← hm]
    norm_num
  exact ⟨⟨hm, by decide, by decide⟩,
    tanh_wasm_saturation (fun _ => 0x41200000) 0 (by decide) (by decide) hb⟩

theorem f32_sign_copysignf (a b : Nat) : f32_sign (copysignf a b) = f32_sign b := by
  unfold copysignf f32_sign
  omega

theorem f32_neg_lt (x : Nat) (hx : x < 2 ^ 32) : f32_neg x < 2 ^ 32 := by
  rw [f32_neg_eq x hx]; split_ifs <;> omega

theorem fabsf_neg (x : Nat) (hx : x < 2 ^ 32) : fabsf (f32_neg x) = fabsf x := by
  rw [f32_neg_eq x hx]; unfold fabsf; split_ifs <;> omega

theorem copysignf_lt (a x : Nat) : copysignf a x < 2 ^ 32 := by
  unfold copysignf f32_sign; omega

theorem copysignf_neg (a x : Nat) (hx : x < 2 ^ 32) :
    copysignf a (f32_neg x) = f32_neg (copysignf a x) := by
  rw [f32_neg_eq x hx, f32_neg_eq (copysignf a x) (copysignf_lt a x)]
  unfold copysignf f32_sign
  split_ifs <;> omega

theorem or_sign_neg (x : Nat) (hx : x < 2 ^ 32) :
    f32_neg x ||| 0x80000000 = x ||| 0x80000000 := by
  rw [or_sign x hx, or_sign (f32_neg x) (f32_neg_lt x hx), f32_neg_eq x hx]
  split_ifs <;> omega

/-- C4: for every finite `x` the output for `-x` is the output for `x` with the sign bit flipped,
in the scalar variant, in the FMA table variant (for every table) and in every lane of the WASM
SIMD variant.  The finiteness of `x` is assumed as in the claim; the proof does not need it. -/
theorem tanh_odd_symmetry (tbl : Nat → Nat) (x : Nat) (hx : x < 2 ^ 32)
    (_hfin : f32_exp x ≠ 255) :
    tanh_scalar_expm1_rr2_p6_div.vy (f32_neg x)
      = f32_neg (tanh_scalar_expm1_rr2_p6_div.vy x) ∧
    tanh_fma_expm1_rr1_lut8_p4_div.vy tbl (f32_neg x)
      = f32_neg (tanh_fma_expm1_rr1_lut8_p4_div.vy tbl x) ∧
    ∀ (vx : V128) (i : Nat), vx i = x →
      tanh_wasmsimd_expm1_rr1_p6_div_nabs_pmax.vy (fun j => f32_neg (vx j)) i
        = f32_neg (tanh_wasmsimd_expm1_rr1_p6_div_nabs_pmax.vy vx i) := by
  refine ⟨?_, ?_, ?_⟩
  · unfold tanh_scalar_expm1_rr2_p6_div.vy
    simp only [fabsf_neg x hx]
    exact copysignf_neg _ x hx
  · unfold tanh_fma_expm1_rr1_lut8_p4_div.vy
    simp only [fabsf_neg x hx]
    exact copysignf_neg _ x hx
  · intro vx i hi
    subst hi
    have hz : tanh_wasmsimd_expm1_rr1_p6_div_nabs_pmax.vz (fun j => f32_neg (vx j)) i
        = tanh_wasmsimd_expm1_rr1_p6_div_nabs_pmax.vz vx i := by
      show f32_pmax (f32_neg (vx i) ||| 0x80000000) 0xC1102CB4
        = f32_pmax (vx i ||| 0x80000000) 0xC1102CB4
      rw [or_sign_neg (vx i) hx]
    show tanh_wasmsimd_expm1_rr1_p6_div_nabs_pmax.vabsy
        (tanh_wasmsimd_expm1_rr1_p6_div_nabs_pmax.vz (fun j => f32_neg (vx j))) i
        ^^^ (f32_neg (vx i) ^^^ (f32_neg (vx i) ||| 0x80000000))
      = (tanh_wasmsimd_expm1_rr1_p6_div_nabs_pmax.vabsy
        (tanh_wasmsimd_expm1_rr1_p6_div_nabs_pmax.vz vx) i
        ^^^ (vx i ^^^ (vx i ||| 0x80000000))) ^^^ 0x80000000
    rw [wasm_vabsy_lane _ i, hz, ← wasm_vabsy_lane _ i, or_sign_neg (vx i) hx]
    unfold f32_neg
    rw [Nat.xor_assoc, Nat.xor_assoc, Nat.xor_assoc]
    congr 1
    rw [Nat.xor_comm (vx i ||| 0x80000000) 0x80000000]

/-- C4 at `x = 1.0`. -/
theorem tanh_odd_symmetry_witness :
    (0x3F800000 : Nat) < 2 ^ 32 ∧ f32_exp 0x3F800000 ≠ 255 ∧
    tanh_scalar_expm1_rr2_p6_div.vy (f32_neg 0x3F800000)
      = f32_neg (tanh_scalar_expm1_rr2_p6_div.vy 0x3F800000) :=
  ⟨by decide, by decide, (tanh_odd_symmetry (fun _ => 0) 0x3F800000 (by decide) (by decide)).1⟩

/-- C7: in the scalar and in the FMA table variant the sign bit of the output is the sign bit
of the input, for every input bit pattern (finite, zero, infinite or NaN). -/
theorem tanh_sign_copied (tbl : Nat → Nat) (x : Nat) :
    f32_sign (tanh_scalar_expm1_rr2_p6_div.vy x) = f32_sign x ∧
    f32_sign (tanh_fma_expm1_rr1_lut8_p4_div.vy tbl x) = f32_sign x :=
  ⟨f32_sign_copysignf _ x, f32_sign_copysignf _ x⟩

/-- C6: the scalar variant at `z = 0` computes `n = 0`, `s = 1.0`, `t = 0`, `expm1 = +0.0` and
the quotient `+0.0`; it returns `+0.0` for the input `+0.0` and `-0.0` for the input `-0.0`. -/
theorem tanh_scalar_zero :
    tanh_scalar_expm1_rr2_p6_div.vn 0 = 0 ∧
    tanh_scalar_expm1_rr2_p6_div.vs 0 = 0x3F800000 ∧
    tanh_scalar_expm1_rr2_p6_div.vt 0 = 0 ∧
    tanh_scalar_expm1_rr2_p6_div.vem1 0 = 0 ∧
    tanh_scalar_expm1_rr2_p6_div.vabsy 0 = 0 ∧
    tanh_scalar_expm1_rr2_p6_div.vy 0 = 0 ∧
    tanh_scalar_expm1_rr2_p6_div.vy 0x80000000 = 0x80000000 := by
  decide!

/-- C5 (the kernel at the failing inputs): for `z = -0.0` the WASM SIMD variant computes the
quotient `+0.0`, whose sign bit is clear; it returns `-0.0` for the input `+0.0` and `+0.0` for
the input `-0.0`, so the sign bit of a zero is flipped, not kept. -/
theorem tanh_wasm_zero_sign_flipped :
    tanh_wasmsimd_expm1_rr1_p6_div_nabs_pmax.vabsy
      (tanh_wasmsimd_expm1_rr1_p6_div_nabs_pmax.vz (fun _ => 0)) 0 = 0 ∧
    tanh_wasmsimd_expm1_rr1_p6_div_nabs_pmax.vy (fun _ => 0) 0 = 0x80000000 ∧
    tanh_wasmsimd_expm1_rr1_p6_div_nabs_pmax.vy (fun _ => 0x80000000) 0 = 0 := by
  decide!

/-! ## The PReLU kernel against its reference -/

theorem load_f32_lt (m : Mem) (a : Nat) : load_f32 m a < 2 ^ 32 := by
  unfold load_f32; omega

theorem f32_sign_lt_two (x : Nat) : f32_sign x < 2 := by
  unfold f32_sign; omega

theorem f32_round_lt (s M K : Nat) (hs : s < 2) : f32_round s M K < 2 ^ 32 := by
  unfold f32_round
  simp only
  split_ifs <;> omega

theorem f32_inf_lt (s : Nat) (hs : s < 2) : f32_inf s < 2 ^ 32 := by
  unfold f32_inf; omega

theorem f32_mul_lt (a b : Nat) : f32_mul a b < 2 ^ 32 := by
  have hs : (f32_sign a + f32_sign b) % 2 < 2 := Nat.mod_lt _ (by norm_num)
  unfold f32_mul
  simp only
  split_ifs
  · unfold f32_qnan; norm_num
  · unfold f32_qnan; norm_num
  · exact f32_inf_lt _ hs
  · unfold f32_qnan; norm_num
  · exact f32_inf_lt _ hs
  · exact f32_round_lt _ _ _ hs

theorem i32_shr_31 (x : Nat) (hx : x < 2 ^ 32) :
    i32_shr x 31 = if x < 2 ^ 31 then 0 else 0xFFFFFFFF := by
  unfold i32_shr
  rw [Nat.mod_eq_of_lt hx]
  split_ifs <;> omega

/-- One lane of the vector computation is the scalar reference. -/
theorem prelu_lane (vi vw : V128) (k : Nat) (hx : vi k < 2 ^ 32) :
    wasm_v128_bitselect (wasm_f32x4_mul vi vw) vi (wasm_i32x4_shr vi 31) k
      = prelu_ref (vi k) (vw k) := by
  unfold wasm_v128_bitselect wasm_f32x4_mul wasm_i32x4_shr prelu_ref
  rw [i32_shr_31 _ hx]
  have e : (0xFFFFFFFF : Nat) = 2 ^ 32 - 1 := by norm_num
  by_cases h : vi k < 2 ^ 31
  · have hs : f32_sign (vi k) = 0 := by unfold f32_sign; omega
    rw [if_pos h, if_pos hs, Nat.and_zero, Nat.zero_xor, Nat.zero_or, e,
      Nat.and_pow_two_sub_one_eq_mod, Nat.mod_eq_of_lt hx]
  · have hs : ¬ f32_sign (vi k) = 0 := by unfold f32_sign; omega
    rw [if_neg h, if_neg hs, Nat.xor_self, Nat.and_zero, Nat.or_zero, e,
      Nat.and_pow_two_sub_one_eq_mod, Nat.mod_eq_of_lt (f32_mul_lt _ _)]

theorem prelu_lane_load (input weights : Mem) (i0 w k : Nat) :
    wasm_v128_bitselect (wasm_f32x4_mul (wasm_v128_load input i0) (wasm_v128_load weights w))
      (wasm_v128_load input i0) (wasm_i32x4_shr (wasm_v128_load input i0) 31) k
      = prelu_ref (load_f32 input (i0 + 4 * k)) (load_f32 weights (w + 4 * k)) :=
  prelu_lane _ _ k (load_f32_lt _ _)

/-- A 16-byte store of the vector computation is four elements of the reference. -/
theorem store_vec_eq (input weights : Mem) (w i0 o0 : Nat) (m : Mem) :
    wasm_v128_store m o0
      (wasm_v128_bitselect (wasm_f32x4_mul (wasm_v128_load input i0) (wasm_v128_load weights w))
        (wasm_v128_load input i0) (wasm_i32x4_shr (wasm_v128_load input i0) 31))
      = prelu_ref_row input weights w i0 o0 16 m := by
  funext b
  unfold wasm_v128_store prelu_ref_row prelu_ref_byte
  simp only [prelu_lane_load]

/-- Writing `len2` bytes after `len1` bytes is writing `len1 + len2` bytes. -/
theorem prelu_ref_row_append (input weights : Mem) (w i0 o0 len1 len2 : Nat) (m : Mem)
    (h4 : len1 % 4 = 0) :
    prelu_ref_row input weights (w + len1) (i0 + len1) (o0 + len1) len2
        (prelu_ref_row input weights w i0 o0 len1 m)
      = prelu_ref_row input weights w i0 o0 (len1 + len2) m := by
  funext b
  unfold prelu_ref_row
  by_cases h1 : o0 + len1 ≤ b ∧ b < o0 + len1 + len2
  · have h2 : o0 ≤ b ∧ b < o0 + (len1 + len2) := by omega
    rw [if_pos h1, if_pos h2]
    unfold prelu_ref_byte
    have e1 : i0 + len1 + 4 * ((b - (o0 + len1)) / 4) = i0 + 4 * ((b - o0) / 4) := by omega
    have e2 : w + len1 + 4 * ((b - (o0 + len1)) / 4) = w + 4 * ((b - o0) / 4) := by omega
    have e3 : (b - (o0 + len1)) % 4 = (b - o0) % 4 := by omega
    rw [e1, e2, e3]
  · rw [if_neg h1]
    by_cases h2 : o0 ≤ b ∧ b < o0 + len1
    · have h3 : o0 ≤ b ∧ b < o0 + (len1 + len2) := by omega
      rw [if_pos h2, if_pos h3]
    · have h3 : ¬ (o0 ≤ b ∧ b < o0 + (len1 + len2)) := by omega
      rw [if_neg h2, if_neg h3]

theorem prelu_ref_row_zero (input weights : Mem) (w i0 o0 : Nat) (m : Mem) :
    prelu_ref_row input weights w i0 o0 0 m = m := by
  funext b
  unfold prelu_ref_row
  rw [if_neg (by omega)]

open prelu_wasmsimd_bitselect_1x16

theorem store16_eq (input weights : Mem) (w i0 o0 : Nat) (m : Mem) :
    wasm_v128_store
      (wasm_v128_store
        (wasm_v128_store
          (wasm_v128_store m o0
            (wasm_v128_bitselect
              (wasm_f32x4_mul (wasm_v128_load input i0) (wasm_v128_load weights w))
              (wasm_v128_load input i0) (wasm_i32x4_shr (wasm_v128_load input i0) 31)))
          (o0 + 16)
          (wasm_v128_bitselect
            (wasm_f32x4_mul (wasm_v128_load input (i0 + 16)) (wasm_v128_load weights (w + 16)))
            (wasm_v128_load input (i0 + 16)) (wasm_i32x4_shr (wasm_v128_load input (i0 + 16)) 31)))
        (o0 + 32)
        (wasm_v128_bitselect
          (wasm_f32x4_mul (wasm_v128_load input (i0 + 32)) (wasm_v128_load weights (w + 32)))
          (wasm_v128_load input (i0 + 32)) (wasm_i32x4_shr (wasm_v128_load input (i0 + 32)) 31)))
      (o0 + 48)
      (wasm_v128_bitselect
        (wasm_f32x4_mul (wasm_v128_load input (i0 + 48)) (wasm_v128_load weights (w + 48)))
        (wasm_v128_load input (i0 + 48)) (wasm_i32x4_shr (wasm_v128_load input (i0 + 48)) 31))
      = prelu_ref_row input weights w i0 o0 64 m := by
  rw [store_vec_eq, store_vec_eq, store_vec_eq, store_vec_eq,
    prelu_ref_row_append input weights w i0 o0 16 16 m (by norm_num),
    prelu_ref_row_append input weights w i0 o0 32 16 m (by norm_num),
    prelu_ref_row_append input weights w i0 o0 48 16 m (by norm_num)]

theorem loop16_spec (input weights : Mem) :
    ∀ (fuel c w : Nat) (s : PreluState), c ≤ fuel →
      (loop16 input weights fuel c w s).1 = c % 64 ∧
      (loop16 input weights fuel c w s).2.1 = w + c / 64 * 64 ∧
      (loop16 input weights fuel c w s).2.2.i0 = s.i0 + c / 64 * 64 ∧
      (loop16 input weights fuel c w s).2.2.o0 = s.o0 + c / 64 * 64 ∧
      (loop16 input weights fuel c w s).2.2.output
        = prelu_ref_row input weights w s.i0 s.o0 (c / 64 * 64) s.output := by
  intro fuel
  induction fuel with
  | zero =>
    intro c w s hc
    have h0 : c = 0 := by omega
    subst h0
    simp [loop16, prelu_ref_row_zero]
  | succ fuel ih =>
    intro c w s hc
    by_cases h : 16 * 4 ≤ c
    · rw [loop16, if_pos h]
      simp only [Nat.reduceMul]
      obtain ⟨h1, h2, h3, h4, h5⟩ := ih (c - 64) (w + 64)
        { i0 := s.i0 + 64, o0 := s.o0 + 64,
          output := prelu_ref_row input weights w s.i0 s.o0 64 s.output,
          loads_w := s.loads_w ++ [w, w + 16, w + 32, w + 48],
          loads_i := s.loads_i ++ [s.i0, s.i0 + 16, s.i0 + 32, s.i0 + 48] } (by omega)
      rw [store16_eq]
      refine ⟨?_, ?_, ?_, ?_, ?_⟩
      · rw [h1]; omega
      · rw [h2]; omega
      · rw [h3]; show s.i0 + 64 + _ = _; omega
      · rw [h4]; show s.o0 + 64 + _ = _; omega
      · rw [h5]
        show prelu_ref_row input weights (w + 64) (s.i0 + 64) (s.o0 + 64) _ 
          (prelu_ref_row input weights w s.i0 s.o0 64 s.output) = _
        rw [prelu_ref_row_append input weights w s.i0 s.o0 64 _ s.output (by norm_num)]
        have e : 64 + (c - 64) / 64 * 64 = c / 64 * 64 := by omega
        rw [e]
    · rw [loop16, if_neg h]
      have h1 : c / 64 = 0 := by omega
      have h2 : c % 64 = c := by omega
      simp [h1, h2, prelu_ref_row_zero]

theorem loop4_spec (input weights : Mem) :
    ∀ (fuel c w : Nat) (s : PreluState), c ≤ fuel →
      (loop4 input weights fuel c w s).1 = c % 16 ∧
      (loop4 input weights fuel c w s).2.1 = w + c / 16 * 16 ∧
      (loop4 input weights fuel c w s).2.2.i0 = s.i0 + c / 16 * 16 ∧
      (loop4 input weights fuel c w s).2.2.o0 = s.o0 + c / 16 * 16 ∧
      (loop4 input weights fuel c w s).2.2.output
        = prelu_ref_row input weights w s.i0 s.o0 (c / 16 * 16) s.output := by
  intro fuel
  induction fuel with
  | zero =>
    intro c w s hc
    have h0 : c = 0 := by omega
    subst h0
    simp [loop4, prelu_ref_row_zero]
  | succ fuel ih =>
    intro c w s hc
    by_cases h : 4 * 4 ≤ c
    · rw [loop4, if_pos h]
      simp only [Nat.reduceMul]
      obtain ⟨h1, h2, h3, h4, h5⟩ := ih (c - 16) (w + 16)
        { i0 := s.i0 + 16, o0 := s.o0 + 16,
          output := prelu_ref_row input weights w s.i0 s.o0 16 s.output,
          loads_w := s.loads_w ++ [w],
          loads_i := s.loads_i ++ [s.i0] } (by omega)
      rw [store_vec_eq]
      refine ⟨?_, ?_, ?_, ?_, ?_⟩
      · rw [h1]; omega
      · rw [h2]; omega
      · rw [h3]; show s.i0 + 16 + _ = _; omega
      · rw [h4]; show s.o0 + 16 + _ = _; omega
      · rw [h5]
        show prelu_ref_row input weights (w + 16) (s.i0 + 16) (s.o0 + 16) _ 
          (prelu_ref_row input weights w s.i0 s.o0 16 s.output) = _
        rw [prelu_ref_row_append input weights w s.i0 s.o0 16 _ s.output (by norm_num)]
        have e : 16 + (c - 16) / 16 * 16 = c / 16 * 16 := by omega
        rw [e]
    · rw [loop4, if_neg h]
      have h1 : c / 16 = 0 := by omega
      have h2 : c % 16 = c := by omega
      simp [h1, h2, prelu_ref_row_zero]

theorem prelu_ref_lt (x w : Nat) (hx : x < 2 ^ 32) : prelu_ref x w < 2 ^ 32 := by
  unfold prelu_ref
  split_ifs
  · exact hx
  · exact f32_mul_lt _ _

/-- A 4-byte store of one reference element. -/
theorem store_f32_eq (input weights : Mem) (w i0 o0 : Nat) (m : Mem) :
    store_f32 m o0 (prelu_ref (load_f32 input i0) (load_f32 weights w))
      = prelu_ref_row input weights w i0 o0 4 m := by
  funext b
  unfold store_f32 prelu_ref_row prelu_ref_byte
  by_cases h : o0 ≤ b ∧ b < o0 + 4
  · have e1 : (b - o0) / 4 = 0 := by omega
    have e2 : (b - o0) % 4 = b - o0 := by omega
    rw [if_pos h, if_pos h, e1, e2, Nat.mul_zero, Nat.add_zero, Nat.add_zero]
  · rw [if_neg h, if_neg h]

/-- An 8-byte store of a 64-bit lane is two 4-byte stores of its halves. -/
theorem store_f64_eq (m : Mem) (o0 x0 x1 : Nat) (h0 : x0 < 2 ^ 32) :
    store_f64 m o0 (x0 + 2 ^ 32 * x1) = store_f32 (store_f32 m o0 x0) (o0 + 4) x1 := by
  funext b
  unfold store_f64 store_f32
  by_cases h : o0 ≤ b ∧ b < o0 + 8
  · obtain ⟨j, rfl⟩ := Nat.exists_eq_add_of_le h.1
    have hj : j < 8 := by omega
    rw [if_pos h]
    interval_cases j
    all_goals first
      | (rw [if_neg (by omega), if_pos (by omega)]
         simp only [Nat.add_sub_cancel_left]
         norm_num
         omega)
      | (rw [if_pos (by omega)]
         first
           | (rw [show o0 + 4 - (o0 + 4) = 0 by omega, show o0 + 4 - o0 = 4 by omega]
              norm_num; omega)
           | (rw [show o0 + 5 - (o0 + 4) = 1 by omega, show o0 + 5 - o0 = 5 by omega]
              norm_num; omega)
           | (rw [show o0 + 6 - (o0 + 4) = 2 by omega, show o0 + 6 - o0 = 6 by omega]
              norm_num; omega)
           | (rw [show o0 + 7 - (o0 + 4) = 3 by omega, show o0 + 7 - o0 = 7 by omega]
              norm_num; omega))
  · rw [if_neg h, if_neg (by omega), if_neg (by omega)]

theorem remainder_spec (input weights : Mem) (c w : Nat) (s : PreluState) (hc : c < 16)
    (h4 : c % 4 = 0) :
    (remainder input weights c w s).i0 = s.i0 + c ∧
    (remainder input weights c w s).o0 = s.o0 + c ∧
    (remainder input weights c w s).output
      = prelu_ref_row input weights w s.i0 s.o0 c s.output := by
  have hcases : c = 0 ∨ c = 4 ∨ c = 8 ∨ c = 12 := by omega
  have hl0 := prelu_lane_load input weights s.i0 w 0
  have hl1 := prelu_lane_load input weights s.i0 w 1
  have hl2 := prelu_lane_load input weights s.i0 w 2
  simp only [Nat.mul_zero, Nat.add_zero, Nat.mul_one] at hl0 hl1 hl2
  rcases hcases with rfl | rfl | rfl | rfl
  · simp [remainder, prelu_ref_row_zero]
  · have a1 : (4 &&& (2 * 4) ≠ 0) = False := by decide
    have a2 : (4 &&& (1 * 4) ≠ 0) = True := by decide
    have a0 : ((4 : Nat) ≠ 0) = True := by decide
    simp only [remainder, a0, a1, a2, if_true, if_false, wasm_f32x4_extract_lane, hl0,
      store_f32_eq]
    exact ⟨trivial, trivial, trivial⟩
  · have a1 : (8 &&& (2 * 4) ≠ 0) = True := by decide
    have a2 : (8 &&& (1 * 4) ≠ 0) = False := by decide
    have a0 : ((8 : Nat) ≠ 0) = True := by decide
    simp only [remainder, a0, a1, a2, if_true, if_false, wasm_f64x2_extract_lane, hl0, hl1,
      Nat.mul_zero, Nat.zero_add]
    rw [store_f64_eq _ _ _ _ (prelu_ref_lt _ _ (load_f32_lt _ _)), store_f32_eq, store_f32_eq,
      prelu_ref_row_append input weights w s.i0 s.o0 4 4 s.output (by norm_num)]
    exact ⟨trivial, trivial, rfl⟩
  · have a1 : (12 &&& (2 * 4) ≠ 0) = True := by decide
    have a2 : (12 &&& (1 * 4) ≠ 0) = True := by decide
    have a0 : ((12 : Nat) ≠ 0) = True := by decide
    simp only [remainder, a0, a1, a2, if_true, if_false, wasm_f64x2_extract_lane,
      wasm_f32x4_extract_lane, wasm_v32x4_shuffle, hl0, hl1, hl2, Nat.mul_zero, Nat.zero_add,
      Nat.reduceMul, Nat.reduceLT, if_true]
    rw [store_f64_eq _ _ _ _ (prelu_ref_lt _ _ (load_f32_lt _ _)), store_f32_eq, store_f32_eq,
      store_f32_eq,
      prelu_ref_row_append input weights w s.i0 s.o0 4 4 s.output (by norm_num),
      prelu_ref_row_append input weights w s.i0 s.o0 8 4 s.output (by norm_num)]
    exact ⟨trivial, trivial, rfl⟩

theorem row_eq (ch : Nat) (input : Mem) (iinc : Nat) (weights : Mem) (wptr oinc : Nat)
    (s : PreluState) :
    row ch input iinc weights wptr oinc s =
      { i0 := (remainder input weights
            (loop4 input weights (loop16 input weights ch ch wptr s).1
              (loop16 input weights ch ch wptr s).1 (loop16 input weights ch ch wptr s).2.1
              (loop16 input weights ch ch wptr s).2.2).1
            (loop4 input weights (loop16 input weights ch ch wptr s).1
              (loop16 input weights ch ch wptr s).1 (loop16 input weights ch ch wptr s).2.1
              (loop16 input weights ch ch wptr s).2.2).2.1
            (loop4 input weights (loop16 input weights ch ch wptr s).1
              (loop16 input weights ch ch wptr s).1 (loop16 input weights ch ch wptr s).2.1
              (loop16 input weights ch ch wptr s).2.2).2.2).i0 + iinc
        o0 := (remainder input weights
            (loop4 input weights (loop16 input weights ch ch wptr s).1
              (loop16 input weights ch ch wptr s).1 (loop16 input weights ch ch wptr s).2.1
              (loop16 input weights ch ch wptr s).2.2).1
            (loop4 input weights (loop16 input weights ch ch wptr s).1
              (loop16 input weights ch ch wptr s).1 (loop16 input weights ch ch wptr s).2.1
              (loop16 input weights ch ch wptr s).2.2).2.1
            (loop4 input weights (loop16 input weights ch ch wptr s).1
              (loop16 input weights ch ch wptr s).1 (loop16 input weights ch ch wptr s).2.1
              (loop16 input weights ch ch wptr s).2.2).2.2).o0 + oinc
        output := (remainder input weights
            (loop4 input weights (loop16 input weights ch ch wptr s).1
              (loop16 input weights ch ch wptr s).1 (loop16 input weights ch ch wptr s).2.1
              (loop16 input weights ch ch wptr s).2.2).1
            (loop4 input weights (loop16 input weights ch ch wptr s).1
              (loop16 input weights ch ch wptr s).1 (loop16 input weights ch ch wptr s).2.1
              (loop16 input weights ch ch wptr s).2.2).2.1
            (loop4 input weights (loop16 input weights ch ch wptr s).1
              (loop16 input weights ch ch wptr s).1 (loop16 input weights ch ch wptr s).2.1
              (loop16 input weights ch ch wptr s).2.2).2.2).output
        loads_w := (row ch input iinc weights wptr oinc s).loads_w
        loads_i := (row ch input iinc weights wptr oinc s).loads_i } := rfl

theorem row_spec (C : Nat) (input : Mem) (iinc : Nat) (weights : Mem) (wptr oinc : Nat)
    (s : PreluState) :
    (row (4 * C) input iinc weights wptr oinc s).i0 = s.i0 + 4 * C + iinc ∧
    (row (4 * C) input iinc weights wptr oinc s).o0 = s.o0 + 4 * C + oinc ∧
    (row (4 * C) input iinc weights wptr oinc s).output
      = prelu_ref_row input weights wptr s.i0 s.o0 (4 * C) s.output := by
  rw [row_eq]
  simp only
  obtain ⟨a1, a2, a3, a4, a5⟩ := loop16_spec input weights (4 * C) (4 * C) wptr s le_rfl
  generalize loop16 input weights (4 * C) (4 * C) wptr s = r16 at a1 a2 a3 a4 a5 ⊢
  obtain ⟨b1, b2, b3, b4, b5⟩ := loop4_spec input weights r16.1 r16.1 r16.2.1 r16.2.2 le_rfl
  generalize loop4 input weights r16.1 r16.1 r16.2.1 r16.2.2 = r4 at b1 b2 b3 b4 b5 ⊢
  obtain ⟨d1, d2, d3⟩ := remainder_spec input weights r4.1 r4.2.1 r4.2.2 (by omega) (by omega)
  refine ⟨by omega, by omega, ?_⟩
  rw [d3, b5, a5, b2, b3, b4, a2, a3, a4]
  rw [prelu_ref_row_append input weights wptr s.i0 s.o0 _ _ s.output (by omega),
    Nat.add_assoc wptr, Nat.add_assoc s.i0, Nat.add_assoc s.o0,
    prelu_ref_row_append input weights wptr s.i0 s.o0 _ _ s.output (by omega)]
  have e : 4 * C / 64 * 64 + r16.1 / 16 * 16 + r4.1 = 4 * C := by omega
  rw [e]

theorem rows_loop_spec (C : Nat) (input : Mem) (iinc : Nat) (weights : Mem) (wptr oinc : Nat) :
    ∀ (fuel rows : Nat) (s : PreluState), 1 ≤ rows → rows ≤ fuel →
      (rows_loop (4 * C) input iinc weights wptr oinc fuel rows s).output
        = prelu_ref_rows input weights wptr (4 * C) (4 * C + iinc) (4 * C + oinc) rows
            s.i0 s.o0 s.output ∧
      (rows_loop (4 * C) input iinc weights wptr oinc fuel rows s).i0
        = s.i0 + rows * (4 * C + iinc) ∧
      (rows_loop (4 * C) input iinc weights wptr oinc fuel rows s).o0
        = s.o0 + rows * (4 * C + oinc) := by
  intro fuel
  induction fuel with
  | zero => intro rows s h1 h2; omega
  | succ fuel ih =>
    intro rows s h1 h2
    obtain ⟨r1, r2, r3⟩ := row_spec C input iinc weights wptr oinc s
    obtain ⟨k, rfl⟩ : ∃ k, rows = k + 1 := ⟨rows - 1, by omega⟩
    rw [rows_loop]
    have hd : doz (k + 1) 1 = k := by unfold doz; rw [if_pos (by omega)]; omega
    rw [hd]
    by_cases hk : k ≠ 0
    · rw [if_pos hk]
      obtain ⟨e1, e2, e3⟩ := ih k (row (4 * C) input iinc weights wptr oinc s)
        (by omega) (by omega)
      rw [e1, e2, e3, r1, r2, r3]
      refine ⟨by rw [prelu_ref_rows, Nat.add_assoc, Nat.add_assoc], ?_, ?_⟩
      · rw [Nat.succ_mul k]; omega
      · rw [Nat.succ_mul k]; omega
    · rw [if_neg hk]
      have hk0 : k = 0 := by omega
      subst hk0
      rw [r1, r2, r3]
      refine ⟨by rw [prelu_ref_rows, prelu_ref_rows], ?_, ?_⟩ <;> omega

theorem prelu_ref_rows_frame (input weights : Mem) (w len is os : Nat) :
    ∀ (n i0 o0 : Nat) (m : Mem) (b : Nat),
      (∀ r, r < n → ¬ (o0 + r * os ≤ b ∧ b < o0 + r * os + len)) →
      prelu_ref_rows input weights w len is os n i0 o0 m b = m b := by
  intro n
  induction n with
  | zero => intro i0 o0 m b _; rfl
  | succ n ih =>
    intro i0 o0 m b h
    rw [prelu_ref_rows, ih]
    · have h0 := h 0 (by omega)
      unfold prelu_ref_row
      rw [if_neg (by omega)]
    · intro r hr
      have h1 := h (r + 1) (by omega)
      rw [Nat.succ_mul r] at h1
      omega

theorem prelu_ref_rows_value (input weights : Mem) (w len is os : Nat) (hlen : len ≤ os) :
    ∀ (n i0 o0 : Nat) (m : Mem) (r b : Nat), r < n →
      o0 + r * os ≤ b → b < o0 + r * os + len →
      prelu_ref_rows input weights w len is os n i0 o0 m b
        = prelu_ref_byte input weights w (i0 + r * is) (o0 + r * os) b := by
  intro n
  induction n with
  | zero => intro i0 o0 m r b hr; omega
  | succ n ih =>
    intro i0 o0 m r b hr h1 h2
    rw [prelu_ref_rows]
    cases r with
    | zero =>
      rw [prelu_ref_rows_frame]
      · unfold prelu_ref_row
        rw [if_pos (by omega)]
        simp only [Nat.zero_mul, Nat.add_zero]
      · intro r' _
        have : 0 ≤ r' * os := Nat.zero_le _
        omega
    | succ r =>
      rw [ih (i0 + is) (o0 + os) _ r b (by omega) (by rw [Nat.succ_mul r] at h1; omega)
        (by rw [Nat.succ_mul r] at h2; omega)]
      have e1 : i0 + is + r * is = i0 + (r + 1) * is := by rw [Nat.succ_mul r]; omega
      have e2 : o0 + os + r * os = o0 + (r + 1) * os := by rw [Nat.succ_mul r]; omega
      rw [e1, e2]

/-- The kernel and the reference write the same output memory. -/
theorem prelu_kernel_eq_ref (rows C : Nat) (input : Mem) (iptr is : Nat) (weights : Mem)
    (wptr : Nat) (output : Mem) (optr os : Nat) (hr : 1 ≤ rows) (hi : 4 * C ≤ is)
    (ho : 4 * C ≤ os) :
    (xnn_f32_prelu_ukernel__wasmsimd_bitselect_1x16 rows (4 * C) input iptr is weights wptr
        output optr os).output
      = prelu_ref_rows input weights wptr (4 * C) is os rows iptr optr output ∧
    (xnn_f32_prelu_ukernel__wasmsimd_bitselect_1x16 rows (4 * C) input iptr is weights wptr
        output optr os).i0 = iptr + rows * is ∧
    (xnn_f32_prelu_ukernel__wasmsimd_bitselect_1x16 rows (4 * C) input iptr is weights wptr
        output optr os).o0 = optr + rows * os := by
  unfold xnn_f32_prelu_ukernel__wasmsimd_bitselect_1x16
  simp only
  obtain ⟨e1, e2, e3⟩ := rows_loop_spec C input (is * 1 - 4 * C) weights wptr (os * 1 - 4 * C)
    (rows + 1) rows
    { i0 := iptr, o0 := optr, output := output, loads_w := [], loads_i := [] } hr (by omega)
  have a1 : 4 * C + (is * 1 - 4 * C) = is := by omega
  have a2 : 4 * C + (os * 1 - 4 * C) = os := by omega
  rw [a1, a2] at e1
  rw [a1] at e2
  rw [a2] at e3
  exact ⟨e1, e2, e3⟩

theorem load_f32_of_bytes (m : Mem) (a v : Nat) (hv : v < 2 ^ 32)
    (h : ∀ j, j < 4 → m (a + j) = v / 2 ^ (8 * j) % 256) : load_f32 m a = v := by
  unfold load_f32
  have h0 := h 0 (by norm_num)
  have h1 := h 1 (by norm_num)
  have h2 := h 2 (by norm_num)
  have h3 := h 3 (by norm_num)
  simp only [Nat.add_zero, Nat.mul_zero, Nat.mul_one, Nat.reduceMul, Nat.reducePow] at h0 h1 h2 h3
  rw [h0, h1, h2, h3]
  omega

/-- Element `c` of row `r` of the kernel's output is the reference applied to element `c` of row
`r` of the input and to weight `c`. -/
theorem prelu_kernel_elem (rows C : Nat) (input : Mem) (iptr is : Nat) (weights : Mem)
    (wptr : Nat) (output : Mem) (optr os : Nat) (hr : 1 ≤ rows) (hi : 4 * C ≤ is)
    (ho : 4 * C ≤ os) (r c : Nat) (hrr : r < rows) (hc : c < C) :
    load_f32 (xnn_f32_prelu_ukernel__wasmsimd_bitselect_1x16 rows (4 * C) input iptr is weights
        wptr output optr os).output (optr + r * os + 4 * c)
      = prelu_ref (load_f32 input (iptr + r * is + 4 * c)) (load_f32 weights (wptr + 4 * c)) := by
  rw [(prelu_kernel_eq_ref rows C input iptr is weights wptr output optr os hr hi ho).1]
  apply load_f32_of_bytes _ _ _ (prelu_ref_lt _ _ (load_f32_lt _ _))
  intro j hj
  rw [prelu_ref_rows_value input weights wptr (4 * C) is os ho rows iptr optr output r _ hrr
    (by omega) (by omega)]
  unfold prelu_ref_byte
  have e1 : (optr + r * os + 4 * c + j - (optr + r * os)) / 4 = c := by omega
  have e2 : (optr + r * os + 4 * c + j - (optr + r * os)) % 4 = j := by omega
  rw [e1, e2]

/-- Outside the `4 * C` bytes of each of the `rows` rows the output memory is unchanged. -/
theorem prelu_kernel_frame (rows C : Nat) (input : Mem) (iptr is : Nat) (weights : Mem)
    (wptr : Nat) (output : Mem) (optr os : Nat) (hr : 1 ≤ rows) (hi : 4 * C ≤ is)
    (ho : 4 * C ≤ os) (b : Nat)
    (hb : ∀ r, r < rows → ¬ (optr + r * os ≤ b ∧ b < optr + r * os + 4 * C)) :
    (xnn_f32_prelu_ukernel__wasmsimd_bitselect_1x16 rows (4 * C) input iptr is weights
        wptr output optr os).output b = output b := by
  rw [(prelu_kernel_eq_ref rows C input iptr is weights wptr output optr os hr hi ho).1]
  exact prelu_ref_rows_frame input weights wptr (4 * C) is os rows iptr optr output b hb

theorem f32_round_zero (s K : Nat) : f32_round s 0 K = s * 2 ^ 31 := by
  unfold f32_round
  have hp : 0 < 2 ^ (max (f32_ilog2 0 0 - 23) (K - 149)) := Nat.two_pow_pos _
  have e : f32_ilog2 0 0 = 0 := rfl
  have e2 : max (0 - 23) (K - 149) - (K - 149) = 0 := by
    rw [Nat.zero_sub, Nat.max_eq_right (Nat.zero_le _), Nat.sub_self]
  simp only [Nat.zero_div, Nat.zero_mod, Nat.mul_zero, Nat.zero_mod]
  rw [e, e2]
  rw [e] at hp
  split_ifs <;> omega

/-- The product of `-0.0` and `w`: a NaN (the canonical one of this model) when `w` is an
infinity or a NaN, otherwise the zero whose sign is opposite to the sign of `w`. -/
theorem f32_mul_neg_zero (w : Nat) :
    f32_mul 0x80000000 w
      = if f32_exp w = 255 then 0x7FC00000 else if f32_sign w = 0 then 0x80000000 else 0 := by
  have h1 : f32_isNaN 0x80000000 = false := by decide
  have h2 : f32_isInf 0x80000000 = false := by decide
  have h3 : f32_mag 0x80000000 = 0 := by decide
  have h4 : f32_sign 0x80000000 = 1 := by decide
  have hs : f32_sign w < 2 := by unfold f32_sign; omega
  unfold f32_mul
  simp only [h1, h2, h3, h4, Bool.false_or, Nat.zero_mul, f32_round_zero, f32_qnan,
    Bool.false_eq_true, if_false, if_true]
  by_cases he : f32_exp w = 255
  · rw [if_pos he]
    by_cases hf : f32_frac w = 0
    · have a1 : f32_isNaN w = false := by simp [f32_isNaN, he, hf]
      have a2 : f32_isInf w = true := by simp [f32_isInf, he, hf]
      simp [a1, a2]
    · have a1 : f32_isNaN w = true := by simp [f32_isNaN, he, hf]
      simp [a1]
  · rw [if_neg he]
    have a1 : f32_isNaN w = false := by simp [f32_isNaN, he]
    have a2 : f32_isInf w = false := by simp [f32_isInf, he]
    simp only [a1, a2, Bool.false_eq_true, if_false]
    by_cases h0 : f32_sign w = 0
    · rw [if_pos h0, h0]; norm_num
    · have h1' : f32_sign w = 1 := by omega
      rw [if_neg h0, h1']; norm_num

/-- C1: for `rows ≥ 1`, `C` channels (any `C`, multiple of 4 or 16 or not) and strides of at
least `4 * C` bytes, the output element `c < C` of row `r < rows` is the input element itself
when its sign bit is clear and the rounded product with `weights[c]` otherwise, exactly as the
one-element-at-a-time reference `prelu_ref` computes it, with the same weights for every row. -/
theorem prelu_elementwise (rows C : Nat) (input : Mem) (input_ptr input_stride : Nat)
    (weights : Mem) (weights_ptr : Nat) (output : Mem) (output_ptr output_stride : Nat)
    (hrows : 1 ≤ rows) (hi : 4 * C ≤ input_stride) (ho : 4 * C ≤ output_stride)
    (r c : Nat) (hr : r < rows) (hc : c < C) :
    load_f32 (xnn_f32_prelu_ukernel__wasmsimd_bitselect_1x16 rows (4 * C) input input_ptr
        input_stride weights weights_ptr output output_ptr output_stride).output
        (output_ptr + r * output_stride + 4 * c)
      = prelu_ref (load_f32 input (input_ptr + r * input_stride + 4 * c))
          (load_f32 weights (weights_ptr + 4 * c)) :=
  prelu_kernel_elem rows C input input_ptr input_stride weights weights_ptr output output_ptr
    output_stride hrows hi ho r c hr hc

/-- C1 on the example: weights `[2, 0.5, 1, 3]` and rows `[-1, 2, -3, 4]` give `[-2, 2, -3, 4]`
in each of the 3 rows; and on one row of 17 channels with weights `2.0` the last element of the
16-element chunk (`1.0`) is kept and the one-element remainder (`-1.0`) becomes `-2.0`. -/
theorem prelu_elementwise_witness :
    (1 ≤ 3 ∧ 4 * 4 ≤ 16 ∧ 2 < 3 ∧ 0 < 4 ∧ 1 ≤ 1 ∧ 4 * 17 ≤ 68 ∧ 16 < 17) ∧
    load_f32 prelu_example17.output (0 + 0 * 68 + 4 * 15) = 0x3F800000 ∧
    load_f32 prelu_example17.output (0 + 0 * 68 + 4 * 16) = 0xC0000000 ∧
    load_f32 prelu_example.output (0 + 0 * 16 + 4 * 0) = 0xC0000000 ∧
    load_f32 prelu_example.output (0 + 0 * 16 + 4 * 1) = 0x40000000 ∧
    load_f32 prelu_example.output (0 + 0 * 16 + 4 * 2) = 0xC0400000 ∧
    load_f32 prelu_example.output (0 + 0 * 16 + 4 * 3) = 0x40800000 ∧
    load_f32 prelu_example.output (0 + 1 * 16 + 4 * 0) = 0xC0000000 ∧
    load_f32 prelu_example.output (0 + 1 * 16 + 4 * 1) = 0x40000000 ∧
    load_f32 prelu_example.output (0 + 1 * 16 + 4 * 2) = 0xC0400000 ∧
    load_f32 prelu_example.output (0 + 1 * 16 + 4 * 3) = 0x40800000 ∧
    load_f32 prelu_example.output (0 + 2 * 16 + 4 * 0) = 0xC0000000 ∧
    load_f32 prelu_example.output (0 + 2 * 16 + 4 * 1) = 0x40000000 ∧
    load_f32 prelu_example.output (0 + 2 * 16 + 4 * 2) = 0xC0400000 ∧
    load_f32 prelu_example.output (0 + 2 * 16 + 4 * 3) = 0x40800000 := by
  have h := fun r c hr hc => prelu_elementwise 3 4 prelu_example_input 0 16
    prelu_example_weights 0 (fun _ => 0) 0 16 (by decide) (by decide) (by decide) r c hr hc
  have h17 := fun c hc => prelu_elementwise 1 17 prelu_example_input17 0 68
    prelu_example_weights17 0 (fun _ => 0) 0 68 (by decide) (by decide) (by decide) 0 c
    (by decide) hc
  refine ⟨by decide, ?_, ?_, ?_, ?_, ?_, ?_, ?_, ?_, ?_, ?_, ?_, ?_, ?_, ?_⟩
  · exact (h17 15 (by decide)).trans (by decide!)
  · exact (h17 16 (by decide)).trans (by decide!)
  · exact (h 0 0 (by decide) (by decide)).trans (by decide!)
  · exact (h 0 1 (by decide) (by decide)).trans (by decide!)
  · exact (h 0 2 (by decide) (by decide)).trans (by decide!)
  · exact (h 0 3 (by decide) (by decide)).trans (by decide!)
  · exact (h 1 0 (by decide) (by decide)).trans (by decide!)
  · exact (h 1 1 (by decide) (by decide)).trans (by decide!)
  · exact (h 1 2 (by decide) (by decide)).trans (by decide!)
  · exact (h 1 3 (by decide) (by decide)).trans (by decide!)
  · exact (h 2 0 (by decide) (by decide)).trans (by decide!)
  · exact (h 2 1 (by decide) (by decide)).trans (by decide!)
  · exact (h 2 2 (by decide) (by decide)).trans (by decide!)
  · exact (h 2 3 (by decide) (by decide)).trans (by decide!)

/-- C10: for `rows ≥ 1`, `C ≥ 1` and strides of at least `4 * C` bytes, every output byte outside
the `4 * C` bytes that start at `output_ptr + r * output_stride`, `r < rows`, keeps its value
(so a remainder of 1, 2 or 3 elements is stored as exactly that many elements and the padding
between rows is untouched), and the write pointer ends `rows * output_stride` bytes after its
start: each row starts `output_stride` bytes after the previous one. -/
theorem prelu_frame (rows C : Nat) (input : Mem) (input_ptr input_stride : Nat)
    (weights : Mem) (weights_ptr : Nat) (output : Mem) (output_ptr output_stride : Nat)
    (hrows : 1 ≤ rows) (_hC : 1 ≤ C) (hi : 4 * C ≤ input_stride) (ho : 4 * C ≤ output_stride) :
    (∀ b, (∀ r, r < rows →
          ¬ (output_ptr + r * output_stride ≤ b ∧ b < output_ptr + r * output_stride + 4 * C)) →
        (xnn_f32_prelu_ukernel__wasmsimd_bitselect_1x16 rows (4 * C) input input_ptr
          input_stride weights weights_ptr output output_ptr output_stride).output b
          = output b) ∧
    (xnn_f32_prelu_ukernel__wasmsimd_bitselect_1x16 rows (4 * C) input input_ptr
        input_stride weights weights_ptr output output_ptr output_stride).o0
      = output_ptr + rows * output_stride := by
  exact ⟨fun b hb => prelu_kernel_frame rows C input input_ptr input_stride weights weights_ptr
      output output_ptr output_stride hrows hi ho b hb,
    (prelu_kernel_eq_ref rows C input input_ptr input_stride weights weights_ptr output
      output_ptr output_stride hrows hi ho).2.2⟩

/-- C10 on two rows of three channels with a stride of four elements: the padding bytes 12, 15
and 28 and the byte 32 after the last row keep the value `0xAA`, and the write pointer ends
at 32. -/
theorem prelu_frame_witness :
    (1 ≤ 2 ∧ 1 ≤ 3 ∧ 4 * 3 ≤ 16) ∧
    (prelu_example_padded.output 12 = 0xAA ∧ prelu_example_padded.output 15 = 0xAA ∧
      prelu_example_padded.output 28 = 0xAA ∧ prelu_example_padded.output 32 = 0xAA) ∧
    prelu_example_padded.o0 = 0 + 2 * 16 := by
  have h := prelu_frame 2 3
    (mem_of_words [0xBF800000, 0x40000000, 0xC0400000, 0x7FC00000,
      0xBF800000, 0x40000000, 0xC0400000, 0x7FC00000]) 0 16
    prelu_example_weights 0 (fun _ => 0xAA) 0 16 (by decide) (by decide) (by decide) (by decide)
  refine ⟨by decide, ⟨?_, ?_, ?_, ?_⟩, h.2⟩
  · exact h.1 12 (by intro r hr; interval_cases r <;> decide)
  · exact h.1 15 (by intro r hr; interval_cases r <;> decide)
  · exact h.1 28 (by intro r hr; interval_cases r <;> decide)
  · exact h.1 32 (by intro r hr; interval_cases r <;> decide)

/-- C8 fails: with the input element `-0.0` and the weight `-1.0` the output element is `+0.0`,
the product, not the input `-0.0`. -/
theorem prelu_negative_zero_counterexample :
    load_f32 prelu_example_negative_zero.output 0 = 0 ∧
    load_f32 prelu_example_negative_zero.output 0 ≠ 0x80000000 := by
  decide!

/-- C8 as amended: an input element `-0.0` has its sign bit set, so the output element is the
product `-0.0 * w`: a NaN when `w` is an infinity or a NaN, `-0.0` when `w` is finite with its
sign bit clear, and `+0.0` when `w` is finite with its sign bit set. -/
theorem prelu_negative_zero (rows C : Nat) (input : Mem) (input_ptr input_stride : Nat)
    (weights : Mem) (weights_ptr : Nat) (output : Mem) (output_ptr output_stride : Nat)
    (hrows : 1 ≤ rows) (hi : 4 * C ≤ input_stride) (ho : 4 * C ≤ output_stride)
    (r c : Nat) (hr : r < rows) (hc : c < C)
    (hx : load_f32 input (input_ptr + r * input_stride + 4 * c) = 0x80000000) :
    load_f32 (xnn_f32_prelu_ukernel__wasmsimd_bitselect_1x16 rows (4 * C) input input_ptr
        input_stride weights weights_ptr output output_ptr output_stride).output
        (output_ptr + r * output_stride + 4 * c)
      = f32_mul 0x80000000 (load_f32 weights (weights_ptr + 4 * c)) ∧
    (f32_exp (load_f32 weights (weights_ptr + 4 * c)) = 255 →
      f32_isNaN (f32_mul 0x80000000 (load_f32 weights (weights_ptr + 4 * c))) = true) ∧
    (f32_exp (load_f32 weights (weights_ptr + 4 * c)) ≠ 255 →
      f32_mul 0x80000000 (load_f32 weights (weights_ptr + 4 * c))
        = (if f32_sign (load_f32 weights (weights_ptr + 4 * c)) = 0 then 0x80000000 else 0)) := by
  refine ⟨?_, ?_, ?_⟩
  · rw [prelu_kernel_elem rows C input input_ptr input_stride weights weights_ptr output
      output_ptr output_stride hrows hi ho r c hr hc, hx]
    have hs : ¬ f32_sign 0x80000000 = 0 := by decide
    unfold prelu_ref
    rw [if_neg hs]
  · intro he
    rw [f32_mul_neg_zero, if_pos he]
    decide
  · intro he
    rw [f32_mul_neg_zero, if_neg he]

/-- C8 as amended, on one row with the element `-0.0` and the weight `-1.0`. -/
theorem prelu_negative_zero_witness :
    (1 ≤ 1 ∧ 4 * 1 ≤ 4 ∧ 0 < 1 ∧
      load_f32 (mem_of_words [0x80000000]) (0 + 0 * 4 + 4 * 0) = 0x80000000) ∧
    load_f32 prelu_example_negative_zero.output (0 + 0 * 4 + 4 * 0)
      = f32_mul 0x80000000 (load_f32 (mem_of_words [0xBF800000]) (0 + 4 * 0)) :=
  ⟨by decide, (prelu_negative_zero 1 1 (mem_of_words [0x80000000]) 0 4
    (mem_of_words [0xBF800000]) 0 (fun _ => 0) 0 4 (by decide) (by decide) (by decide) 0 0
    (by decide) (by decide) (by decide)).1⟩

/-- C9 fails: called with `rows == 0` (assertions disabled) on the input `-1.0` and the weight
`2.0`, the kernel writes the output (byte 3 becomes `0xC0`) and loads from both buffers. -/
theorem prelu_zero_rows_counterexample :
    ¬ ((∀ b, prelu_example_zero_rows.output b = (fun _ => 0) b) ∧
      prelu_example_zero_rows.loads_i = [] ∧ prelu_example_zero_rows.loads_w = []) := by
  intro h
  have h3 := h.1 3
  revert h3
  decide!

/-- C9 as amended: `rows == 0` violates `assert(rows != 0)`, so the kernel with assertions
aborts; with assertions disabled the post-test loop runs its body once and the kernel does
exactly what it does for `rows == 1`. -/
theorem prelu_zero_rows (channels : Nat) (input : Mem) (input_ptr input_stride : Nat)
    (weights : Mem) (weights_ptr : Nat) (output : Mem) (output_ptr output_stride : Nat) :
    xnn_f32_prelu_ukernel__wasmsimd_bitselect_1x16_checked 0 channels input input_ptr
        input_stride weights weights_ptr output output_ptr output_stride = none ∧
    xnn_f32_prelu_ukernel__wasmsimd_bitselect_1x16 0 channels input input_ptr
        input_stride weights weights_ptr output output_ptr output_stride
      = xnn_f32_prelu_ukernel__wasmsimd_bitselect_1x16 1 channels input input_ptr
        input_stride weights weights_ptr output output_ptr output_stride := by
  constructor
  · unfold xnn_f32_prelu_ukernel__wasmsimd_bitselect_1x16_checked
    simp
  · unfold xnn_f32_prelu_ukernel__wasmsimd_bitselect_1x16
    have d0 : doz 0 1 = 0 := by decide
    have d1 : doz 1 1 = 0 := by decide
    simp only [rows_loop, d0, d1, ne_eq, not_true_eq_false, if_false]

/-! ## Load addresses of the PReLU kernel -/

theorem tanh_ref_mem_zero (f : Nat → Nat) (input : Mem) (ip op : Nat) (m : Mem) :
    tanh_ref_mem f input ip op 0 m = m := by
  funext b
  unfold tanh_ref_mem
  rw [if_neg (by omega)]

theorem tanh_ref_mem_append (f : Nat → Nat) (input : Mem) (ip op len1 len2 : Nat) (m : Mem)
    (h4 : len1 % 4 = 0) :
    tanh_ref_mem f input (ip + len1) (op + len1) len2 (tanh_ref_mem f input ip op len1 m)
      = tanh_ref_mem f input ip op (len1 + len2) m := by
  funext b
  unfold tanh_ref_mem
  by_cases h1 : op + len1 ≤ b ∧ b < op + len1 + len2
  · have h2 : op ≤ b ∧ b < op + (len1 + len2) := by omega
    rw [if_pos h1, if_pos h2]
    have e1 : ip + len1 + 4 * ((b - (op + len1)) / 4) = ip + 4 * ((b - op) / 4) := by omega
    have e3 : (b - (op + len1)) % 4 = (b - op) % 4 := by omega
    rw [e1, e3]
  · rw [if_neg h1]
    by_cases h2 : op ≤ b ∧ b < op + len1
    · have h3 : op ≤ b ∧ b < op + (len1 + len2) := by omega
      rw [if_pos h2, if_pos h3]
    · have h3 : ¬ (op ≤ b ∧ b < op + (len1 + len2)) := by omega
      rw [if_neg h2, if_neg h3]

theorem tanh_store_f32_eq (f : Nat → Nat) (input : Mem) (ip op : Nat) (m : Mem) :
    store_f32 m op (f (load_f32 input ip)) = tanh_ref_mem f input ip op 4 m := by
  funext b
  unfold store_f32 tanh_ref_mem
  by_cases h : op ≤ b ∧ b < op + 4
  · have e1 : (b - op) / 4 = 0 := by omega
    have e2 : (b - op) % 4 = b - op := by omega
    rw [if_pos h, if_pos h, e1, e2, Nat.mul_zero, Nat.add_zero]
  · rw [if_neg h, if_neg h]

theorem size_sub_eq (bits n k : Nat) (hn : n < 2 ^ bits) (hk : k ≤ n) :
    size_sub bits n k = n - k := by
  unfold size_sub
  have hk2 : k % 2 ^ bits = k := Nat.mod_eq_of_lt (by omega)
  rw [hk2]
  have e : n + 2 ^ bits - k = (n - k) + 2 ^ bits := by omega
  rw [e, Nat.add_mod_right, Nat.mod_eq_of_lt (by omega)]

theorem tanh_scalar_loop (bits : Nat) (input : Mem) :
    ∀ (fuel m ip : Nat) (output : Mem) (op : Nat), 4 * m < 2 ^ bits → m < fuel →
      xnn_math_f32_tanh__scalar_expm1_rr2_p6_div bits fuel (4 * m) input ip output op
        = some (tanh_ref_mem tanh_scalar_expm1_rr2_p6_div.vy input ip op (4 * m) output) := by
  intro fuel
  induction fuel with
  | zero => intro m ip output op _ h; omega
  | succ fuel ih =>
    intro m ip output op hb hf
    rw [xnn_math_f32_tanh__scalar_expm1_rr2_p6_div]
    cases m with
    | zero => simp [tanh_ref_mem_zero]
    | succ m =>
      rw [if_neg (by omega), size_sub_eq bits _ 4 hb (by omega)]
      have e : 4 * (m + 1) - 4 = 4 * m := by omega
      simp only [e]
      rw [ih m (ip + 4) _ (op + 4) (by omega) (by omega), tanh_store_f32_eq,
        tanh_ref_mem_append _ _ _ _ 4 _ _ (by norm_num)]
      have e2 : 4 + 4 * m = 4 * (m + 1) := by omega
      rw [e2]

theorem tanh_fma_loop (tbl : Nat → Nat) (bits : Nat) (input : Mem) :
    ∀ (fuel m ip : Nat) (output : Mem) (op : Nat), 4 * m < 2 ^ bits → m < fuel →
      xnn_math_f32_tanh__fma_expm1_rr1_lut8_p4_div tbl bits fuel (4 * m) input ip output op
        = some (tanh_ref_mem (tanh_fma_expm1_rr1_lut8_p4_div.vy tbl) input ip op (4 * m)
            output) := by
  intro fuel
  induction fuel with
  | zero => intro m ip output op _ h; omega
  | succ fuel ih =>
    intro m ip output op hb hf
    rw [xnn_math_f32_tanh__fma_expm1_rr1_lut8_p4_div]
    cases m with
    | zero => simp [tanh_ref_mem_zero]
    | succ m =>
      rw [if_neg (by omega), size_sub_eq bits _ 4 hb (by omega)]
      have e : 4 * (m + 1) - 4 = 4 * m := by omega
      simp only [e]
      rw [ih m (ip + 4) _ (op + 4) (by omega) (by omega), tanh_store_f32_eq,
        tanh_ref_mem_append _ _ _ _ 4 _ _ (by norm_num)]
      have e2 : 4 + 4 * m = 4 * (m + 1) := by omega
      rw [e2]

theorem wasm_vy_lane (vx : V128) (i : Nat) :
    tanh_wasmsimd_expm1_rr1_p6_div_nabs_pmax.vy vx i = tanh_wasmsimd_lane (vx i) := by
  simp only [tanh_wasmsimd_lane, tanh_wasmsimd_expm1_rr1_p6_div_nabs_pmax.vy,
    tanh_wasmsimd_expm1_rr1_p6_div_nabs_pmax.vz,
    tanh_wasmsimd_expm1_rr1_p6_div_nabs_pmax.vinvsignx,
    tanh_wasmsimd_expm1_rr1_p6_div_nabs_pmax.vabsy,
    tanh_wasmsimd_expm1_rr1_p6_div_nabs_pmax.vem1, tanh_wasmsimd_expm1_rr1_p6_div_nabs_pmax.vp,
    tanh_wasmsimd_expm1_rr1_p6_div_nabs_pmax.vt, tanh_wasmsimd_expm1_rr1_p6_div_nabs_pmax.vn,
    tanh_wasmsimd_expm1_rr1_p6_div_nabs_pmax.vs,
    tanh_wasmsimd_expm1_rr1_p6_div_nabs_pmax.vn_biased,
    wasm_f32x4_add, wasm_f32x4_mul, wasm_f32x4_sub, wasm_f32x4_div, wasm_i32x4_shl,
    wasm_f32x4_pmax, wasm_v128_or, wasm_v128_xor,
    wasm_f32x4_const_splat, tanh_wasmsimd_expm1_rr1_p6_div_nabs_pmax.vmagic_bias,
    tanh_wasmsimd_expm1_rr1_p6_div_nabs_pmax.vlog2e,
    tanh_wasmsimd_expm1_rr1_p6_div_nabs_pmax.vminus_ln2,
    tanh_wasmsimd_expm1_rr1_p6_div_nabs_pmax.vsign_mask,
    tanh_wasmsimd_expm1_rr1_p6_div_nabs_pmax.vsat_cutoff,
    tanh_wasmsimd_expm1_rr1_p6_div_nabs_pmax.vc6, tanh_wasmsimd_expm1_rr1_p6_div_nabs_pmax.vc5,
    tanh_wasmsimd_expm1_rr1_p6_div_nabs_pmax.vc4, tanh_wasmsimd_expm1_rr1_p6_div_nabs_pmax.vc3,
    tanh_wasmsimd_expm1_rr1_p6_div_nabs_pmax.vc2, tanh_wasmsimd_expm1_rr1_p6_div_nabs_pmax.vtwo,
    tanh_wasmsimd_expm1_rr1_p6_div_nabs_pmax.vone]

theorem tanh_store_v128_eq (input : Mem) (ip op : Nat) (m : Mem) :
    wasm_v128_store m op
        (tanh_wasmsimd_expm1_rr1_p6_div_nabs_pmax.vy (wasm_v128_load input ip))
      = tanh_ref_mem tanh_wasmsimd_lane input ip op 16 m := by
  funext b
  unfold wasm_v128_store tanh_ref_mem
  simp only [wasm_vy_lane, wasm_v128_load]

theorem tanh_wasm_loop (bits : Nat) (input : Mem) :
    ∀ (fuel k ip : Nat) (output : Mem) (op : Nat), 16 * k < 2 ^ bits → k < fuel →
      xnn_math_f32_tanh__wasmsimd_expm1_rr1_p6_div_nabs_pmax bits fuel (16 * k) input ip
          output op
        = some (tanh_ref_mem tanh_wasmsimd_lane input ip op (16 * k) output) := by
  intro fuel
  induction fuel with
  | zero => intro k ip output op _ h; omega
  | succ fuel ih =>
    intro k ip output op hb hf
    rw [xnn_math_f32_tanh__wasmsimd_expm1_rr1_p6_div_nabs_pmax]
    cases k with
    | zero => simp [tanh_ref_mem_zero]
    | succ k =>
      rw [if_neg (by omega), size_sub_eq bits _ 16 hb (by omega)]
      have e : 16 * (k + 1) - 16 = 16 * k := by omega
      simp only [e]
      rw [ih k (ip + 16) _ (op + 16) (by omega) (by omega), tanh_store_v128_eq,
        tanh_ref_mem_append _ _ _ _ 16 _ _ (by norm_num)]
      have e2 : 16 + 16 * k = 16 * (k + 1) := by omega
      rw [e2]

theorem size_sub_mod_16 (bits n : Nat) (hbits : 4 ≤ bits) :
    size_sub bits n 16 % 16 = n % 16 := by
  unfold size_sub
  obtain ⟨t, ht⟩ : ∃ t, 2 ^ bits = 16 * t := by
    refine ⟨2 ^ (bits - 4), ?_⟩
    have : bits = 4 + (bits - 4) := by omega
    conv_lhs => rw [this, pow_add]
    norm_num
  have hd : 16 ∣ 2 ^ bits := ⟨t, ht⟩
  rw [Nat.mod_mod_of_dvd _ hd]
  have ht0 : 0 < t := by
    have := Nat.two_pow_pos bits
    omega
  by_cases h1 : t = 1
  · have e : 2 ^ bits = 16 := by omega
    rw [e]; omega
  · have e : 16 % 2 ^ bits = 16 := Nat.mod_eq_of_lt (by omega)
    rw [e]; omega

/-- With a byte count that is not a multiple of 16 the loop counter of the WASM SIMD kernel
never reaches zero. -/
theorem tanh_wasm_loop_diverges (bits : Nat) (hbits : 4 ≤ bits) (input : Mem) :
    ∀ (fuel n ip : Nat) (output : Mem) (op : Nat), n % 16 ≠ 0 →
      xnn_math_f32_tanh__wasmsimd_expm1_rr1_p6_div_nabs_pmax bits fuel n input ip output op
        = none := by
  intro fuel
  induction fuel with
  | zero => intro n ip output op _; rfl
  | succ fuel ih =>
    intro n ip output op hn
    rw [xnn_math_f32_tanh__wasmsimd_expm1_rr1_p6_div_nabs_pmax, if_neg (by omega)]
    exact ih _ _ _ _ (by rw [size_sub_mod_16 bits n hbits]; exact hn)

theorem f32_div_lt (a b : Nat) : f32_div a b < 2 ^ 32 := by
  have hs : (f32_sign a + f32_sign b) % 2 < 2 := Nat.mod_lt _ (by norm_num)
  have hq : f32_qnan < 2 ^ 32 := by decide
  unfold f32_div
  simp only []
  split_ifs
  · exact hq
  · exact hq
  · exact f32_inf_lt _ hs
  · omega
  · exact hq
  · exact f32_inf_lt _ hs
  · exact f32_round_lt _ _ _ hs
  · exact f32_round_lt _ _ _ hs

theorem tanh_wasmsimd_lane_lt (x : Nat) (hx : x < 2 ^ 32) : tanh_wasmsimd_lane x < 2 ^ 32 := by
  have h1 : tanh_wasmsimd_expm1_rr1_p6_div_nabs_pmax.vabsy
      (tanh_wasmsimd_expm1_rr1_p6_div_nabs_pmax.vz (fun _ => x)) 0 < 2 ^ 32 := f32_div_lt _ _
  have h3 : x ||| 0x80000000 < 2 ^ 32 := by rw [or_sign x hx]; omega
  have h2 : x ^^^ (x ||| 0x80000000) < 2 ^ 32 := Nat.xor_lt_two_pow hx h3
  exact Nat.xor_lt_two_pow h1 h2

/-- Element `i` of the written range is `f` of element `i` of the input. -/
theorem tanh_ref_mem_load (f : Nat → Nat) (hf : ∀ x, x < 2 ^ 32 → f x < 2 ^ 32) (input : Mem)
    (ip op len : Nat) (m : Mem) (i : Nat) (hi : 4 * i + 4 ≤ len) :
    load_f32 (tanh_ref_mem f input ip op len m) (op + 4 * i)
      = f (load_f32 input (ip + 4 * i)) := by
  apply load_f32_of_bytes _ _ _ (hf _ (load_f32_lt _ _))
  intro j hj
  unfold tanh_ref_mem
  have e1 : (op + 4 * i + j - op) / 4 = i := by omega
  have e2 : (op + 4 * i + j - op) % 4 = j := by omega
  rw [if_pos (by omega), e1, e2]

/-- Bytes outside the written range are unchanged. -/
theorem tanh_ref_mem_frame (f : Nat → Nat) (input : Mem) (ip op len : Nat) (m : Mem) (b : Nat)
    (hb : b < op ∨ op + len ≤ b) : tanh_ref_mem f input ip op len m b = m b := by
  unfold tanh_ref_mem
  rw [if_neg (by omega)]

/-- C12 fails for the WASM SIMD variant at `n = 4` bytes (`m = 1`, 32-bit `size_t`): the counter
is decremented by 16 modulo `2 ^ 32` and never becomes zero, so no number of iterations makes the
loop return (the source excludes the case by `assert(n % sizeof(v128_t) == 0)`). -/
theorem tanh_termination_counterexample :
    4 % 4 = 0 ∧
    ∀ fuel, xnn_math_f32_tanh__wasmsimd_expm1_rr1_p6_div_nabs_pmax 32 fuel 4
      (mem_of_words [0x3F800000]) 0 (fun _ => 0) 0 = none :=
  ⟨rfl, fun fuel => tanh_wasm_loop_diverges 32 (by norm_num) _ fuel 4 0 _ 0 (by norm_num)⟩

/-- C12 as amended: for `n = 4 * m` bytes (below `2 ^ bits`, `size_t` of at least 4 bits) the
scalar and the FMA variant return after `m` iterations, element `i < m` of the output being the
loop body applied to element `i` of the input and every byte outside `output[0..m)` unchanged;
the WASM SIMD variant does the same in `m / 4` iterations when `m` is a multiple of 4, and
otherwise never returns. -/
theorem tanh_termination (tbl : Nat → Nat) (bits : Nat) (hbits : 4 ≤ bits) (input : Mem)
    (ip : Nat) (output : Mem) (op m : Nat) (hm : 4 * m < 2 ^ bits) :
    (∃ out, xnn_math_f32_tanh__scalar_expm1_rr2_p6_div bits (m + 1) (4 * m) input ip output op
        = some out ∧
      (∀ i, i < m → load_f32 out (op + 4 * i)
        = tanh_scalar_expm1_rr2_p6_div.vy (load_f32 input (ip + 4 * i))) ∧
      (∀ b, b < op ∨ op + 4 * m ≤ b → out b = output b)) ∧
    (∃ out, xnn_math_f32_tanh__fma_expm1_rr1_lut8_p4_div tbl bits (m + 1) (4 * m) input ip
          output op = some out ∧
      (∀ i, i < m → load_f32 out (op + 4 * i)
        = tanh_fma_expm1_rr1_lut8_p4_div.vy tbl (load_f32 input (ip + 4 * i))) ∧
      (∀ b, b < op ∨ op + 4 * m ≤ b → out b = output b)) ∧
    (m % 4 = 0 →
      ∃ out, xnn_math_f32_tanh__wasmsimd_expm1_rr1_p6_div_nabs_pmax bits (m / 4 + 1) (4 * m)
          input ip output op = some out ∧
        (∀ i, i < m → load_f32 out (op + 4 * i)
          = tanh_wasmsimd_lane (load_f32 input (ip + 4 * i))) ∧
        (∀ b, b < op ∨ op + 4 * m ≤ b → out b = output b)) ∧
    (m % 4 ≠ 0 →
      ∀ fuel, xnn_math_f32_tanh__wasmsimd_expm1_rr1_p6_div_nabs_pmax bits fuel (4 * m)
        input ip output op = none) := by
  refine ⟨⟨_, tanh_scalar_loop bits input (m + 1) m ip output op hm (by omega), ?_, ?_⟩,
    ⟨_, tanh_fma_loop tbl bits input (m + 1) m ip output op hm (by omega), ?_, ?_⟩, ?_, ?_⟩
  · intro i hi
    exact tanh_ref_mem_load _ (fun x _ => copysignf_lt _ x) _ _ _ _ _ i (by omega)
  · intro b hb
    exact tanh_ref_mem_frame _ _ _ _ _ _ b hb
  · intro i hi
    exact tanh_ref_mem_load _ (fun x _ => copysignf_lt _ x) _ _ _ _ _ i (by omega)
  · intro b hb
    exact tanh_ref_mem_frame _ _ _ _ _ _ b hb
  · intro h4
    have e : 4 * m = 16 * (m / 4) := by omega
    refine ⟨tanh_ref_mem tanh_wasmsimd_lane input ip op (4 * m) output, ?_, ?_, ?_⟩
    · have := tanh_wasm_loop bits input (m / 4 + 1) (m / 4) ip output op (by omega) (by omega)
      rw [← e] at this
      exact this
    · intro i hi
      exact tanh_ref_mem_load _ tanh_wasmsimd_lane_lt _ _ _ _ _ i (by omega)
    · intro b hb
      exact tanh_ref_mem_frame _ _ _ _ _ _ b hb
  · intro h4 fuel
    exact tanh_wasm_loop_diverges bits hbits input fuel (4 * m) ip output op (by omega)

/-- C12 as amended, at `m = 1` on the input `1.0` with a 32-bit `size_t`. -/
theorem tanh_termination_witness :
    (∃ out, xnn_math_f32_tanh__scalar_expm1_rr2_p6_div 32 (1 + 1) (4 * 1)
        (mem_of_words [0x3F800000]) 0 (fun _ => 0) 0 = some out ∧
      (∀ i, i < 1 → load_f32 out (0 + 4 * i)
        = tanh_scalar_expm1_rr2_p6_div.vy (load_f32 (mem_of_words [0x3F800000]) (0 + 4 * i))) ∧
      (∀ b, b < 0 ∨ 0 + 4 * 1 ≤ b → out b = (fun _ => 0) b)) ∧
    (∃ out, xnn_math_f32_tanh__fma_expm1_rr1_lut8_p4_div (fun _ => 0) 32 (1 + 1) (4 * 1)
        (mem_of_words [0x3F800000]) 0 (fun _ => 0) 0 = some out ∧
      (∀ i, i < 1 → load_f32 out (0 + 4 * i)
        = tanh_fma_expm1_rr1_lut8_p4_div.vy (fun _ => 0)
            (load_f32 (mem_of_words [0x3F800000]) (0 + 4 * i))) ∧
      (∀ b, b < 0 ∨ 0 + 4 * 1 ≤ b → out b = (fun _ => 0) b)) ∧
    (1 % 4 = 0 →
      ∃ out, xnn_math_f32_tanh__wasmsimd_expm1_rr1_p6_div_nabs_pmax 32 (1 / 4 + 1) (4 * 1)
          (mem_of_words [0x3F800000]) 0 (fun _ => 0) 0 = some out ∧
        (∀ i, i < 1 → load_f32 out (0 + 4 * i)
          = tanh_wasmsimd_lane (load_f32 (mem_of_words [0x3F800000]) (0 + 4 * i))) ∧
        (∀ b, b < 0 ∨ 0 + 4 * 1 ≤ b → out b = (fun _ => 0) b)) ∧
    (1 % 4 ≠ 0 →
      ∀ fuel, xnn_math_f32_tanh__wasmsimd_expm1_rr1_p6_div_nabs_pmax 32 fuel (4 * 1)
        (mem_of_words [0x3F800000]) 0 (fun _ => 0) 0 = none) :=
  tanh_termination (fun _ => 0) 32 (by norm_num) (mem_of_words [0x3F800000]) 0 (fun _ => 0) 0 1
    (by norm_num)

/-! ## NaN propagation -/

theorem f32_isNaN_qnan : f32_isNaN f32_qnan = true := by decide

theorem f32_mul_nan_left (a b : Nat) (h : f32_isNaN a = true) : f32_mul a b = f32_qnan := by
  unfold f32_mul; simp [h]
theorem f32_mul_nan_right (a b : Nat) (h : f32_isNaN b = true) : f32_mul a b = f32_qnan := by
  unfold f32_mul; simp [h]
theorem f32_add_nan_left (a b : Nat) (h : f32_isNaN a = true) : f32_add a b = f32_qnan := by
  unfold f32_add; simp [h]
theorem f32_add_nan_right (a b : Nat) (h : f32_isNaN b = true) : f32_add a b = f32_qnan := by
  unfold f32_add; simp [h]
theorem f32_sub_nan_left (a b : Nat) (h : f32_isNaN a = true) : f32_sub a b = f32_qnan :=
  f32_add_nan_left _ _ h
theorem f32_div_nan_left (a b : Nat) (h : f32_isNaN a = true) : f32_div a b = f32_qnan := by
  unfold f32_div; simp [h]
theorem fmaf_nan_left (a b c : Nat) (h : f32_isNaN a = true) : fmaf a b c = f32_qnan := by
  unfold fmaf; simp [h]
theorem fmaf_nan_mid (a b c : Nat) (h : f32_isNaN b = true) : fmaf a b c = f32_qnan := by
  unfold fmaf; simp [h]

theorem f32_isNaN_copysignf (a x : Nat) : f32_isNaN (copysignf a x) = f32_isNaN a := by
  have hs : f32_sign x < 2 := by unfold f32_sign; omega
  have e1 : f32_exp (copysignf a x) = f32_exp a := by unfold f32_exp copysignf; omega
  have e2 : f32_frac (copysignf a x) = f32_frac a := by unfold f32_frac copysignf; omega
  unfold f32_isNaN; rw [e1, e2]

theorem f32_lt_nan_left (a b : Nat) (h : f32_isNaN a = true) : f32_lt a b = false := by
  unfold f32_lt; simp [h]
theorem f32_lt_nan_right (a b : Nat) (h : f32_isNaN b = true) : f32_lt a b = false := by
  unfold f32_lt; simp [h]

theorem scalar_vabsy_nan (vz : Nat) (h : f32_isNaN vz = true) :
    tanh_scalar_expm1_rr2_p6_div.vabsy vz = f32_qnan := by
  have q := f32_isNaN_qnan
  have hnb : tanh_scalar_expm1_rr2_p6_div.vn_biased vz = f32_qnan :=
    f32_add_nan_left _ _ (by rw [f32_mul_nan_left _ _ h]; exact q)
  have hn : tanh_scalar_expm1_rr2_p6_div.vn vz = f32_qnan := by
    unfold tanh_scalar_expm1_rr2_p6_div.vn; rw [hnb]; exact f32_sub_nan_left _ _ q
  have ht : tanh_scalar_expm1_rr2_p6_div.vt vz = f32_qnan := by
    unfold tanh_scalar_expm1_rr2_p6_div.vt; rw [hn]
    exact f32_add_nan_left _ _ (by rw [f32_mul_nan_left _ _ q]; exact q)
  have hp : tanh_scalar_expm1_rr2_p6_div.vp vz = f32_qnan := by
    unfold tanh_scalar_expm1_rr2_p6_div.vp; rw [ht]
    exact f32_add_nan_left _ _ (by rw [f32_mul_nan_right _ _ q]; exact q)
  have he : tanh_scalar_expm1_rr2_p6_div.vem1 vz = f32_qnan := by
    unfold tanh_scalar_expm1_rr2_p6_div.vem1; rw [hp]
    exact f32_add_nan_left _ _ (by rw [f32_mul_nan_left _ _ q]; exact q)
  unfold tanh_scalar_expm1_rr2_p6_div.vabsy
  rw [he]
  exact f32_div_nan_left _ _ q

theorem fma_vabsy_nan (tbl : Nat → Nat) (vz : Nat) (h : f32_isNaN vz = true) :
    tanh_fma_expm1_rr1_lut8_p4_div.vabsy tbl vz = f32_qnan := by
  have q := f32_isNaN_qnan
  have hnb : tanh_fma_expm1_rr1_lut8_p4_div.vn_biased vz = f32_qnan := fmaf_nan_left _ _ _ h
  have hn : tanh_fma_expm1_rr1_lut8_p4_div.vn vz = f32_qnan := by
    unfold tanh_fma_expm1_rr1_lut8_p4_div.vn; rw [hnb]; exact f32_sub_nan_left _ _ q
  have ht : tanh_fma_expm1_rr1_lut8_p4_div.vt vz = f32_qnan := by
    unfold tanh_fma_expm1_rr1_lut8_p4_div.vt; rw [hn]; exact fmaf_nan_left _ _ _ q
  have hp : tanh_fma_expm1_rr1_lut8_p4_div.vp vz = f32_qnan := by
    unfold tanh_fma_expm1_rr1_lut8_p4_div.vp; rw [ht]
    exact fmaf_nan_mid _ _ _ q
  have he : tanh_fma_expm1_rr1_lut8_p4_div.vem1 tbl vz = f32_qnan := by
    unfold tanh_fma_expm1_rr1_lut8_p4_div.vem1; rw [hp]
    exact fmaf_nan_left _ _ _ q
  unfold tanh_fma_expm1_rr1_lut8_p4_div.vabsy
  rw [he]
  exact f32_div_nan_left _ _ q

theorem f32_mul_qnan_left (b : Nat) : f32_mul f32_qnan b = f32_qnan :=
  f32_mul_nan_left _ _ f32_isNaN_qnan
theorem f32_mul_qnan_right (a : Nat) : f32_mul a f32_qnan = f32_qnan :=
  f32_mul_nan_right _ _ f32_isNaN_qnan
theorem f32_add_qnan_left (b : Nat) : f32_add f32_qnan b = f32_qnan :=
  f32_add_nan_left _ _ f32_isNaN_qnan
theorem f32_sub_qnan_left (b : Nat) : f32_sub f32_qnan b = f32_qnan :=
  f32_sub_nan_left _ _ f32_isNaN_qnan
theorem f32_div_qnan_left (b : Nat) : f32_div f32_qnan b = f32_qnan :=
  f32_div_nan_left _ _ f32_isNaN_qnan

theorem wasm_vabsy_nan (c : Nat) (h : f32_isNaN c = true) :
    tanh_wasmsimd_expm1_rr1_p6_div_nabs_pmax.vabsy (fun _ => c) 0 = f32_qnan := by
  simp only [tanh_wasmsimd_expm1_rr1_p6_div_nabs_pmax.vabsy,
    tanh_wasmsimd_expm1_rr1_p6_div_nabs_pmax.vem1, tanh_wasmsimd_expm1_rr1_p6_div_nabs_pmax.vp,
    tanh_wasmsimd_expm1_rr1_p6_div_nabs_pmax.vt, tanh_wasmsimd_expm1_rr1_p6_div_nabs_pmax.vn,
    tanh_wasmsimd_expm1_rr1_p6_div_nabs_pmax.vs,
    tanh_wasmsimd_expm1_rr1_p6_div_nabs_pmax.vn_biased,
    wasm_f32x4_add, wasm_f32x4_mul, wasm_f32x4_sub, wasm_f32x4_div, wasm_i32x4_shl,
    f32_mul_nan_left _ _ h, f32_mul_qnan_left, f32_mul_qnan_right, f32_add_qnan_left,
    f32_sub_qnan_left, f32_div_qnan_left]

theorem wasm_vz_nan (x : Nat) (hx : x < 2 ^ 32) (h : f32_isNaN x = true) :
    f32_pmax (x ||| 0x80000000) 0xC1102CB4 = x ||| 0x80000000 := by
  unfold f32_pmax
  rw [f32_lt_nan_left _ _ (by rw [or_sign x hx, f32_isNaN_or_sign]; exact h)]
  simp

/-- C14: for every NaN input `x` the test `vz > vsat_cutoff` of the scalar and of the FMA variant
(for every table) is false and their output is a NaN; in the WASM SIMD variant
`pmax(vz, vsat_cutoff)` returns the NaN `vz = x | sign_mask` unchanged and the output lane is a
NaN. -/
theorem tanh_nan_propagates (tbl : Nat → Nat) (x : Nat) (hx : x < 2 ^ 32)
    (hnan : f32_isNaN x = true) :
    (f32_gt (fabsf x) tanh_scalar_expm1_rr2_p6_div.vsat_cutoff = false ∧
      f32_isNaN (tanh_scalar_expm1_rr2_p6_div.vy x) = true) ∧
    (f32_gt (fabsf x) tanh_fma_expm1_rr1_lut8_p4_div.vsat_cutoff = false ∧
      f32_isNaN (tanh_fma_expm1_rr1_lut8_p4_div.vy tbl x) = true) ∧
    ∀ (vx : V128) (i : Nat), vx i = x →
      tanh_wasmsimd_expm1_rr1_p6_div_nabs_pmax.vz vx i = x ||| 0x80000000 ∧
      f32_isNaN (tanh_wasmsimd_expm1_rr1_p6_div_nabs_pmax.vz vx i) = true ∧
      f32_isNaN (tanh_wasmsimd_expm1_rr1_p6_div_nabs_pmax.vy vx i) = true := by
  have ha : f32_isNaN (fabsf x) = true := by rw [f32_isNaN_fabsf]; exact hnan
  refine ⟨⟨f32_lt_nan_right _ _ ha, ?_⟩, ⟨f32_lt_nan_right _ _ ha, ?_⟩, ?_⟩
  · unfold tanh_scalar_expm1_rr2_p6_div.vy
    have hg : f32_gt (fabsf x) tanh_scalar_expm1_rr2_p6_div.vsat_cutoff = false :=
      f32_lt_nan_right _ _ ha
    simp only [hg, Bool.false_eq_true, if_false]
    rw [f32_isNaN_copysignf, scalar_vabsy_nan _ ha]
    exact f32_isNaN_qnan
  · unfold tanh_fma_expm1_rr1_lut8_p4_div.vy
    have hg : f32_gt (fabsf x) tanh_fma_expm1_rr1_lut8_p4_div.vsat_cutoff = false :=
      f32_lt_nan_right _ _ ha
    simp only [hg, Bool.false_eq_true, if_false]
    rw [f32_isNaN_copysignf, fma_vabsy_nan _ _ ha]
    exact f32_isNaN_qnan
  · intro vx i hi
    subst hi
    have hz : tanh_wasmsimd_expm1_rr1_p6_div_nabs_pmax.vz vx i = vx i ||| 0x80000000 :=
      wasm_vz_nan (vx i) hx hnan
    have hzn : f32_isNaN (vx i ||| 0x80000000) = true := by
      rw [or_sign (vx i) hx, f32_isNaN_or_sign]; exact hnan
    refine ⟨hz, by rw [hz]; exact hzn, ?_⟩
    show f32_isNaN (tanh_wasmsimd_expm1_rr1_p6_div_nabs_pmax.vabsy
        (tanh_wasmsimd_expm1_rr1_p6_div_nabs_pmax.vz vx) i
        ^^^ (vx i ^^^ (vx i ||| 0x80000000))) = true
    rw [wasm_vabsy_lane, hz, wasm_vabsy_nan _ hzn, xor_or_sign (vx i) hx]
    split_ifs <;> decide

/-- C14 at the quiet NaN `0x7FC00000`. -/
theorem tanh_nan_propagates_witness :
    ((0x7FC00000 : ℕ) < 2 ^ 32 ∧ f32_isNaN 0x7FC00000 = true) ∧
    f32_isNaN (tanh_scalar_expm1_rr2_p6_div.vy 0x7FC00000) = true ∧
    f32_isNaN (tanh_fma_expm1_rr1_lut8_p4_div.vy (fun _ => 0) 0x7FC00000) = true ∧
    f32_isNaN (tanh_wasmsimd_expm1_rr1_p6_div_nabs_pmax.vy (fun _ => 0x7FC00000) 0) = true := by
  have h := tanh_nan_propagates (fun _ => 0) 0x7FC00000 (by decide) (by decide)
  exact ⟨⟨by decide, by decide⟩, h.1.2, h.2.1.2, (h.2.2 (fun _ => 0x7FC00000) 0 rfl).2.2⟩

/-- C13: for `rows ≥ 1`, a channel count of `C` floats and strides of at least a row, the kernel
with its assertions returns for every content of the input and of the weights, and a NaN input
element gives a NaN output element: the input bits unchanged when its sign bit is clear, the
product `x * w` when it is set. -/
theorem prelu_nan_propagates (rows C : Nat) (input : Mem) (input_ptr input_stride : Nat)
    (weights : Mem) (weights_ptr : Nat) (output : Mem) (output_ptr output_stride : Nat)
    (hrows : 1 ≤ rows) (hi : 4 * C ≤ input_stride) (ho : 4 * C ≤ output_stride)
    (r c : Nat) (hr : r < rows) (hc : c < C)
    (hnan : f32_isNaN (load_f32 input (input_ptr + r * input_stride + 4 * c)) = true) :
    xnn_f32_prelu_ukernel__wasmsimd_bitselect_1x16_checked rows (4 * C) input input_ptr
        input_stride weights weights_ptr output output_ptr output_stride
      = some (xnn_f32_prelu_ukernel__wasmsimd_bitselect_1x16 rows (4 * C) input input_ptr
        input_stride weights weights_ptr output output_ptr output_stride) ∧
    f32_isNaN (load_f32 (xnn_f32_prelu_ukernel__wasmsimd_bitselect_1x16 rows (4 * C) input
        input_ptr input_stride weights weights_ptr output output_ptr output_stride).output
        (output_ptr + r * output_stride + 4 * c)) = true ∧
    (f32_sign (load_f32 input (input_ptr + r * input_stride + 4 * c)) = 0 →
      load_f32 (xnn_f32_prelu_ukernel__wasmsimd_bitselect_1x16 rows (4 * C) input
        input_ptr input_stride weights weights_ptr output output_ptr output_stride).output
        (output_ptr + r * output_stride + 4 * c)
        = load_f32 input (input_ptr + r * input_stride + 4 * c)) ∧
    (f32_sign (load_f32 input (input_ptr + r * input_stride + 4 * c)) = 1 →
      load_f32 (xnn_f32_prelu_ukernel__wasmsimd_bitselect_1x16 rows (4 * C) input
        input_ptr input_stride weights weights_ptr output output_ptr output_stride).output
        (output_ptr + r * output_stride + 4 * c)
        = f32_mul (load_f32 input (input_ptr + r * input_stride + 4 * c))
            (load_f32 weights (weights_ptr + 4 * c))) := by
  have he := prelu_kernel_elem rows C input input_ptr input_stride weights weights_ptr output
    output_ptr output_stride hrows hi ho r c hr hc
  rw [he]
  refine ⟨?_, ?_, ?_, ?_⟩
  · unfold xnn_f32_prelu_ukernel__wasmsimd_bitselect_1x16_checked
    rw [if_pos ⟨by omega, by omega, by omega⟩]
  · unfold prelu_ref
    split_ifs
    · exact hnan
    · rw [f32_mul_nan_left _ _ hnan]; exact f32_isNaN_qnan
  · intro h0; unfold prelu_ref; rw [if_pos h0]
  · intro h1; unfold prelu_ref; rw [if_neg (by omega)]

/-- C13 on one row `[NaN, -NaN]` with the weights `[2, 2]`, at the element with the sign bit
set. -/
theorem prelu_nan_propagates_witness :
    f32_isNaN (load_f32 (mem_of_words [0x7FC00001, 0xFFC00001]) (0 + 0 * 8 + 4 * 1)) = true ∧
    xnn_f32_prelu_ukernel__wasmsimd_bitselect_1x16_checked 1 (4 * 2)
        (mem_of_words [0x7FC00001, 0xFFC00001]) 0 8 (mem_of_words [0x40000000, 0x40000000]) 0
        (fun _ => 0) 0 8
      = some (xnn_f32_prelu_ukernel__wasmsimd_bitselect_1x16 1 (4 * 2)
        (mem_of_words [0x7FC00001, 0xFFC00001]) 0 8 (mem_of_words [0x40000000, 0x40000000]) 0
        (fun _ => 0) 0 8) ∧
    f32_isNaN (load_f32 (xnn_f32_prelu_ukernel__wasmsimd_bitselect_1x16 1 (4 * 2)
        (mem_of_words [0x7FC00001, 0xFFC00001]) 0 8 (mem_of_words [0x40000000, 0x40000000]) 0
        (fun _ => 0) 0 8).output (0 + 0 * 8 + 4 * 1)) = true ∧
    (f32_sign (load_f32 (mem_of_words [0x7FC00001, 0xFFC00001]) (0 + 0 * 8 + 4 * 1)) = 0 →
      load_f32 (xnn_f32_prelu_ukernel__wasmsimd_bitselect_1x16 1 (4 * 2)
        (mem_of_words [0x7FC00001, 0xFFC00001]) 0 8 (mem_of_words [0x40000000, 0x40000000]) 0
        (fun _ => 0) 0 8).output (0 + 0 * 8 + 4 * 1)
        = load_f32 (mem_of_words [0x7FC00001, 0xFFC00001]) (0 + 0 * 8 + 4 * 1)) ∧
    (f32_sign (load_f32 (mem_of_words [0x7FC00001, 0xFFC00001]) (0 + 0 * 8 + 4 * 1)) = 1 →
      load_f32 (xnn_f32_prelu_ukernel__wasmsimd_bitselect_1x16 1 (4 * 2)
        (mem_of_words [0x7FC00001, 0xFFC00001]) 0 8 (mem_of_words [0x40000000, 0x40000000]) 0
        (fun _ => 0) 0 8).output (0 + 0 * 8 + 4 * 1)
        = f32_mul (load_f32 (mem_of_words [0x7FC00001, 0xFFC00001]) (0 + 0 * 8 + 4 * 1))
            (load_f32 (mem_of_words [0x40000000, 0x40000000]) (0 + 4 * 1))) :=
  ⟨by decide!,
    prelu_nan_propagates 1 2 (mem_of_words [0x7FC00001, 0xFFC00001]) 0 8
      (mem_of_words [0x40000000, 0x40000000]) 0 (fun _ => 0) 0 8 (by norm_num) (by norm_num)
      (by norm_num) 0 1 (by norm_num) (by norm_num) (by decide!)⟩

/-! ## Monotonicity of the tanh kernels -/

/-- Value of a pattern with the sign bit clear. -/
theorem f32_toRat_of_pos (x : Nat) (h : f32_sign x = 0) :
    f32_toRat x = (f32_mag x : ℚ) / 2 ^ 149 := by
  unfold f32_toRat f32_val; rw [h]; simp

/-- Value of a pattern with the sign bit set. -/
theorem f32_toRat_of_neg (x : Nat) (h : f32_sign x = 1) :
    f32_toRat x = -((f32_mag x : ℚ) / 2 ^ 149) := by
  unfold f32_toRat f32_val; rw [h]; simp [neg_div]

theorem f32_toRat_nonneg (x : Nat) (h : f32_sign x = 0) : 0 ≤ f32_toRat x := by
  rw [f32_toRat_of_pos x h]; positivity

theorem f32_toRat_nonpos (x : Nat) (h : f32_sign x = 1) : f32_toRat x ≤ 0 := by
  rw [f32_toRat_of_neg x h]
  have : (0 : ℚ) ≤ (f32_mag x : ℚ) / 2 ^ 149 := by positivity
  linarith

theorem f32_sign_cases (x : Nat) : f32_sign x = 0 ∨ f32_sign x = 1 := by
  have := Nat.mod_lt (x / 2 ^ 31) (by norm_num : 0 < 2)
  unfold f32_sign; omega

theorem f32_toRat_one : f32_toRat 0x3F800000 = 1 ∧ f32_toRat 0xBF800000 = -1 := by
  have a : f32_mag 0x3F800000 = 2 ^ 149 := by decide
  have b : f32_mag 0xBF800000 = 2 ^ 149 := by decide
  rw [f32_toRat_of_pos _ (by decide), f32_toRat_of_neg _ (by decide), a, b]
  norm_num

/-- Beyond the cutoff the scalar variant returns `±1.0`. -/
theorem scalar_vy_saturated (x : Nat) (hnan : f32_isNaN x = false)
    (h : f32_isInf x = true ∨ (9010913 : ℚ) / 1000000 < |f32_toRat x|) :
    tanh_scalar_expm1_rr2_p6_div.vy x = (if f32_sign x = 1 then 0xBF800000 else 0x3F800000) := by
  have hg := f32_gt_cutoff x hnan h
  unfold tanh_scalar_expm1_rr2_p6_div.vy
  simp only [tanh_scalar_expm1_rr2_p6_div.vsat_cutoff, hg, if_true,
    tanh_scalar_expm1_rr2_p6_div.vone]
  exact copysignf_one x

/-- Beyond the cutoff the FMA variant returns `±1.0`, for every table. -/
theorem fma_vy_saturated (tbl : Nat → Nat) (x : Nat) (hnan : f32_isNaN x = false)
    (h : f32_isInf x = true ∨ (9010913 : ℚ) / 1000000 < |f32_toRat x|) :
    tanh_fma_expm1_rr1_lut8_p4_div.vy tbl x
      = (if f32_sign x = 1 then 0xBF800000 else 0x3F800000) := by
  have hg := f32_gt_cutoff x hnan h
  unfold tanh_fma_expm1_rr1_lut8_p4_div.vy
  simp only [tanh_fma_expm1_rr1_lut8_p4_div.vsat_cutoff, hg, if_true,
    tanh_fma_expm1_rr1_lut8_p4_div.vone]
  exact copysignf_one x

/-- Beyond the cutoff a lane of the WASM SIMD variant is `±1.0`. -/
theorem wasm_vy_saturated (x : Nat) (hx : x < 2 ^ 32) (hnan : f32_isNaN x = false)
    (h : f32_isInf x = true ∨ (9010913 : ℚ) / 1000000 < |f32_toRat x|) :
    tanh_wasmsimd_lane x = (if f32_sign x = 1 then 0xBF800000 else 0x3F800000) := by
  have hz : tanh_wasmsimd_expm1_rr1_p6_div_nabs_pmax.vz (fun _ => x) 0 = 0xC1102CB4 :=
    f32_pmax_cutoff x hx hnan h
  have hy : tanh_wasmsimd_expm1_rr1_p6_div_nabs_pmax.vabsy
      (tanh_wasmsimd_expm1_rr1_p6_div_nabs_pmax.vz (fun _ => x)) 0 = 0xBF800000 := by
    rw [wasm_vabsy_lane, hz]; exact wasm_vabsy_at_cutoff
  show tanh_wasmsimd_expm1_rr1_p6_div_nabs_pmax.vabsy
      (tanh_wasmsimd_expm1_rr1_p6_div_nabs_pmax.vz (fun _ => x)) 0
        ^^^ (x ^^^ (x ||| 0x80000000)) = _
  rw [hy, xor_or_sign x hx]
  have hs := f32_sign_eq_zero_iff x hx
  have := Nat.mod_lt (x / 2 ^ 31) (by norm_num : 0 < 2)
  by_cases hlt : x < 2 ^ 31
  · have h0 : f32_sign x = 0 := hs.2 hlt
    rw [if_pos hlt, h0]; decide
  · have h1 : f32_sign x = 1 := by unfold f32_sign at *; omega
    rw [if_neg hlt, h1]; decide

/-- The values `±1.0` selected by the signs of two ordered inputs are ordered. -/
theorem sat_values_mono (x1 x2 : Nat) (hlt : f32_toRat x1 < f32_toRat x2) :
    f32_toRat (if f32_sign x1 = 1 then 0xBF800000 else 0x3F800000)
      ≤ f32_toRat (if f32_sign x2 = 1 then 0xBF800000 else 0x3F800000) := by
  obtain ⟨e1, e2⟩ := f32_toRat_one
  rcases f32_sign_cases x1 with a | a <;> rcases f32_sign_cases x2 with b | b
  · rw [a, b]
  · have := f32_toRat_nonneg x1 a
    have := f32_toRat_nonpos x2 b
    linarith
  · rw [a, b]; simp only [if_true, Nat.zero_ne_one, if_false]; rw [e1, e2]; norm_num
  · rw [a, b]

/-- C15 fails inside the non-saturated domain: `x1 = 0x3D75C3FF` and the next binary32 number
`x2 = 0x3D75C400` (about 0.06) are ordered `x1 < x2`, but the scalar variant and the WASM SIMD
variant both return `0x3D75789C` for `x1` and the smaller `0x3D757899` for `x2`. -/
theorem tanh_monotone_counterexample :
    f32_isNaN 0x3D75C3FF = false ∧ f32_isNaN 0x3D75C400 = false ∧
    f32_toRat 0x3D75C3FF < f32_toRat 0x3D75C400 ∧
    tanh_scalar_expm1_rr2_p6_div.vy 0x3D75C3FF = 0x3D75789C ∧
    tanh_scalar_expm1_rr2_p6_div.vy 0x3D75C400 = 0x3D757899 ∧
    tanh_wasmsimd_lane 0x3D75C3FF = 0x3D75789C ∧
    tanh_wasmsimd_lane 0x3D75C400 = 0x3D757899 ∧
    ¬ (f32_toRat (tanh_scalar_expm1_rr2_p6_div.vy 0x3D75C3FF)
        ≤ f32_toRat (tanh_scalar_expm1_rr2_p6_div.vy 0x3D75C400)) ∧
    ¬ (f32_toRat (tanh_wasmsimd_lane 0x3D75C3FF) ≤ f32_toRat (tanh_wasmsimd_lane 0x3D75C400)) := by
  have s1 : tanh_scalar_expm1_rr2_p6_div.vy 0x3D75C3FF = 0x3D75789C := by decide!
  have s2 : tanh_scalar_expm1_rr2_p6_div.vy 0x3D75C400 = 0x3D757899 := by decide!
  have w1 : tanh_wasmsimd_lane 0x3D75C3FF = 0x3D75789C := by decide!
  have w2 : tanh_wasmsimd_lane 0x3D75C400 = 0x3D757899 := by decide!
  have m1 : f32_mag 0x3D75C3FF = 0xF5C3FF * 2 ^ 121 := by decide
  have m2 : f32_mag 0x3D75C400 = 0xF5C400 * 2 ^ 121 := by decide
  have m3 : f32_mag 0x3D75789C = 0xF5789C * 2 ^ 121 := by decide
  have m4 : f32_mag 0x3D757899 = 0xF57899 * 2 ^ 121 := by decide
  have hy : ¬ (f32_toRat 0x3D75789C ≤ f32_toRat 0x3D757899) := by
    rw [f32_toRat_of_pos _ (by decide), f32_toRat_of_pos _ (by decide), m3, m4,
      div_le_div_iff_of_pos_right (by positivity)]
    norm_num
  refine ⟨by decide, by decide, ?_, s1, s2, w1, w2, ?_, ?_⟩
  · rw [f32_toRat_of_pos _ (by decide), f32_toRat_of_pos _ (by decide), m1, m2,
      div_lt_div_iff_of_pos_right (by positivity)]
    norm_num
  · rw [s1, s2]; exact hy
  · rw [w1, w2]; exact hy

/-- With the example table the FMA variant behaves alike: the neighbouring inputs `0x3BFEB0D0`
and `0x3BFEB0D1` give `0x3BFEAF81` and the smaller `0x3BFEAF80`. -/
theorem tanh_fma_example_not_monotone :
    tanh_fma_expm1_rr1_lut8_p4_div.vy table_exp2minus_k_over_8_example 0x3BFEB0D0 = 0x3BFEAF81 ∧
    tanh_fma_expm1_rr1_lut8_p4_div.vy table_exp2minus_k_over_8_example 0x3BFEB0D1
      = 0x3BFEAF80 := by
  decide!

/-! ## Exponent reconstruction -/

/-- Fields of the 27 patterns `0x4AC0007F - k` and of their images under the shift by 23. -/
theorem magic_bias_patterns :
    ∀ k, k ≤ 26 →
      f32_sign (0x4AC0007F - k) = 0 ∧
      f32_mag (0x4AC0007F - k) = (0xC0007F - k) * 2 ^ 148 ∧
      u32_shl (0x4AC0007F - k) 23 = (127 - k) * 2 ^ 23 ∧
      f32_sign ((127 - k) * 2 ^ 23) = 0 ∧
      f32_exp ((127 - k) * 2 ^ 23) = 127 - k ∧
      f32_frac ((127 - k) * 2 ^ 23) = 0 ∧
      f32_mag ((127 - k) * 2 ^ 23) * 2 ^ k = 2 ^ 149 := by
  decide!

/-- C17: for `0 ≤ k ≤ 26` the pattern `0x4AC0007F - k` is the binary32 number
`0x1.8000FEp+22 - k / 2`, and shifted left by 23 modulo `2 ^ 32` it is `(127 - k) << 23`, the
binary32 number `2 ^ (-k)` with a normal exponent field and a zero fraction; this is the scale
`vs` of the scalar and of the WASM SIMD variant whenever the biased `vn` has that pattern. -/
theorem exponent_reconstruction (k : Nat) (hk : k ≤ 26) :
    f32_toRat 0x4AC0007F = 0x18000FE / 2 ^ 2 ∧
    f32_toRat (0x4AC0007F - k) = 0x18000FE / 2 ^ 2 - (k : ℚ) / 2 ∧
    u32_shl (0x4AC0007F - k) 23 = (127 - k) * 2 ^ 23 ∧
    f32_toRat ((127 - k) * 2 ^ 23) = 1 / 2 ^ k ∧
    (1 ≤ f32_exp ((127 - k) * 2 ^ 23) ∧ f32_exp ((127 - k) * 2 ^ 23) < 255 ∧
      f32_frac ((127 - k) * 2 ^ 23) = 0) ∧
    (∀ vz, tanh_scalar_expm1_rr2_p6_div.vn_biased vz = 0x4AC0007F - k →
      tanh_scalar_expm1_rr2_p6_div.vs vz = (127 - k) * 2 ^ 23) ∧
    (∀ (vz : V128) (i : Nat),
      tanh_wasmsimd_expm1_rr1_p6_div_nabs_pmax.vn_biased vz i = 0x4AC0007F - k →
      tanh_wasmsimd_expm1_rr1_p6_div_nabs_pmax.vs vz i = (127 - k) * 2 ^ 23) := by
  obtain ⟨h1, h2, h3, h4, h5, h6, h7⟩ := magic_bias_patterns k hk
  have g1 : f32_sign 0x4AC0007F = 0 := by decide
  have g2 : f32_mag 0x4AC0007F = 0xC0007F * 2 ^ 148 := by decide
  refine ⟨?_, ?_, h3, ?_, ⟨by omega, by omega, h6⟩, ?_, ?_⟩
  · rw [f32_toRat_of_pos _ g1, g2]; norm_num
  · rw [f32_toRat_of_pos _ h1, h2]
    have hk2 : k ≤ 0xC0007F := by omega
    push_cast [Nat.cast_sub hk2]
    have e : (2 : ℚ) ^ 149 = 2 ^ 148 * 2 := by norm_num
    rw [e]
    field_simp
    ring
  · rw [f32_toRat_of_pos _ h4]
    rw [div_eq_div_iff (by positivity) (by positivity), one_mul]
    exact_mod_cast h7
  · intro vz hvz
    unfold tanh_scalar_expm1_rr2_p6_div.vs uint32_as_float float_as_uint32
    rw [hvz, h3]
  · intro vz i hvz
    show u32_shl (tanh_wasmsimd_expm1_rr1_p6_div_nabs_pmax.vn_biased vz i) 23 = _
    rw [hvz, h3]

/-- C17 at `k = 26`, the smallest scale `2 ^ (-26)`. -/
theorem exponent_reconstruction_witness :
    (26 ≤ 26) ∧ u32_shl (0x4AC0007F - 26) 23 = (127 - 26) * 2 ^ 23 ∧
    f32_toRat ((127 - 26) * 2 ^ 23) = 1 / 2 ^ 26 :=
  ⟨le_refl _, (exponent_reconstruction 26 (le_refl _)).2.2.1,
    (exponent_reconstruction 26 (le_refl _)).2.2.2.1⟩

/-- Each entry of the example is the binary32 number nearest to `2 ^ (k / 8)`: with the 24-bit
significand `m`, `(m - 1/2) ^ 8 < 2 ^ k * (2 ^ 23) ^ 8 < (m + 1/2) ^ 8`. -/
theorem exp2_k_over_8_example_nearest :
    ∀ k, k < 8 →
      0x3F800000 ≤ exp2_k_over_8_example k ∧ exp2_k_over_8_example k < 0x40000000 ∧
      (2 * (exp2_k_over_8_example k - 0x3F800000 + 2 ^ 23) - 1) ^ 8 ≤ 2 ^ k * (2 ^ 24) ^ 8 ∧
      2 ^ k * (2 ^ 24) ^ 8 ≤ (2 * (exp2_k_over_8_example k - 0x3F800000 + 2 ^ 23) + 1) ^ 8 := by
  decide

/-- The entries of the example table. -/
theorem table_example_values :
    (List.range 8).map table_exp2minus_k_over_8_example
      = [0x3F800000, 0x3F7B95C2, 0x3F7837F0, 0x3F75FED7, 0x3F7504F3, 0x3F75672A, 0x3F7744FD,
          0x3F7AC0C7] := by
  decide

/-- Fields of a positive normal pattern. -/
theorem f32_mag_of_normal (x : Nat) (h1 : 2 ^ 23 ≤ x) (h2 : x < 2 ^ 31) :
    f32_mag x = (2 ^ 23 + x % 2 ^ 23) * 2 ^ (x / 2 ^ 23 - 1) := by
  unfold f32_mag f32_frac
  rw [f32_exp_of_lt x h2]
  have : x / 2 ^ 23 ≠ 0 := by
    omega
  rw [if_neg this]

/-- Lowering the exponent field of a pattern in `[1, 2)` by `q ≤ 126` divides the value by
`2 ^ q`. -/
theorem f32_toRat_sub_exp (e q : Nat) (h1 : 0x3F800000 ≤ e) (h2 : e < 0x40000000)
    (hq : q ≤ 126) :
    f32_toRat (e - q * 2 ^ 23) = f32_toRat e / 2 ^ q ∧
    f32_exp (e - q * 2 ^ 23) = 127 - q ∧ f32_frac (e - q * 2 ^ 23) = f32_frac e ∧
    f32_sign (e - q * 2 ^ 23) = 0 := by
  have hs1 : f32_sign (e - q * 2 ^ 23) = 0 := by unfold f32_sign; omega
  have hs2 : f32_sign e = 0 := by unfold f32_sign; omega
  have hd1 : e / 2 ^ 23 = 127 := by omega
  have hd2 : (e - q * 2 ^ 23) / 2 ^ 23 = 127 - q := by omega
  have hf : (e - q * 2 ^ 23) % 2 ^ 23 = e % 2 ^ 23 := by omega
  refine ⟨?_, ?_, ?_, hs1⟩
  · have hm : f32_mag e = f32_mag (e - q * 2 ^ 23) * 2 ^ q := by
      rw [f32_mag_of_normal e (by omega) (by omega),
        f32_mag_of_normal (e - q * 2 ^ 23) (by omega) (by omega), hd1, hd2, hf, mul_assoc,
        ← pow_add]
      congr 2
      omega
    rw [f32_toRat_of_pos _ hs1, f32_toRat_of_pos _ hs2, hm]
    push_cast
    field_simp
    ring
  · rw [f32_exp_of_lt _ (by omega), hd2]
  · unfold f32_frac; exact hf

/-- Bit-level content of the table lookup plus exponent add. -/
theorem table_lookup_bits (tbl E : Nat → Nat)
    (hE : ∀ k, k < 8 → 0x3F800000 ≤ E k ∧ E k < 0x40000000)
    (htbl : ∀ k, k < 8 → tbl k = E k - k * 2 ^ 20)
    (j : Nat) (hj : j ≤ 208) :
    (0x49400000 - j) &&& 7 = (8 - j % 8) % 8 ∧
    u32_add (tbl ((0x49400000 - j) &&& 7)) (u32_shl (0x49400000 - j) 20)
      = E ((8 - j % 8) % 8) - (j + 7) / 8 * 2 ^ 23 := by
  have hand : (0x49400000 - j) &&& 7 = (8 - j % 8) % 8 := by
    have := Nat.and_pow_two_sub_one_eq_mod (0x49400000 - j) 3
    norm_num at this
    rw [this]
    omega
  refine ⟨hand, ?_⟩
  rw [hand]
  have hk : (8 - j % 8) % 8 < 8 := Nat.mod_lt _ (by norm_num)
  obtain ⟨e1, e2⟩ := hE _ hk
  rw [htbl _ hk]
  generalize E ((8 - j % 8) % 8) = e at *
  unfold u32_add u32_shl
  omega

/-- C18: if `table[k] = E k - (k << 20)` for `k = 0..7`, where the patterns `E k` lie in
`[1.0, 2.0)` (the binary32 values of `exp2(k / 8)`), then for `0 ≤ j ≤ 208` and `b = 0x49400000 - j`
the index `b & 7` is `k = (-j) mod 8` and `table[b & 7] + (b << 20)` modulo `2 ^ 32` is
`E k - (q << 23)` with `q = ⌈j / 8⌉`: the value of `E k` times `2 ^ (-q)`, where
`k / 8 - q = -j / 8 = 2n`, with the normal exponent field `127 - q`; this is the scale `vs` of
the FMA variant whenever the biased `vn` has the pattern `b`. -/
theorem table_exponent_reconstruction (tbl E : Nat → Nat)
    (hE : ∀ k, k < 8 → 0x3F800000 ≤ E k ∧ E k < 0x40000000)
    (htbl : ∀ k, k < 8 → tbl k = E k - k * 2 ^ 20)
    (j : Nat) (hj : j ≤ 208) :
    (0x49400000 - j) &&& 7 = (8 - j % 8) % 8 ∧
    u32_add (tbl ((0x49400000 - j) &&& 7)) (u32_shl (0x49400000 - j) 20)
      = E ((8 - j % 8) % 8) - (j + 7) / 8 * 2 ^ 23 ∧
    f32_toRat (E ((8 - j % 8) % 8) - (j + 7) / 8 * 2 ^ 23)
      = f32_toRat (E ((8 - j % 8) % 8)) / 2 ^ ((j + 7) / 8) ∧
    ((((8 - j % 8) % 8 : ℕ) : ℚ) / 8 - (((j + 7) / 8 : ℕ) : ℚ) = -((j : ℚ) / 8)) ∧
    f32_exp (E ((8 - j % 8) % 8) - (j + 7) / 8 * 2 ^ 23) = 127 - (j + 7) / 8 ∧
    1 ≤ f32_exp (E ((8 - j % 8) % 8) - (j + 7) / 8 * 2 ^ 23) ∧
    (∀ vz, tanh_fma_expm1_rr1_lut8_p4_div.vn_biased vz = 0x49400000 - j →
      tanh_fma_expm1_rr1_lut8_p4_div.vs tbl vz
        = E ((8 - j % 8) % 8) - (j + 7) / 8 * 2 ^ 23) := by
  obtain ⟨b1, b2⟩ := table_lookup_bits tbl E hE htbl j hj
  have hk : (8 - j % 8) % 8 < 8 := Nat.mod_lt _ (by norm_num)
  obtain ⟨e1, e2⟩ := hE _ hk
  obtain ⟨r1, r2, -, -⟩ := f32_toRat_sub_exp (E ((8 - j % 8) % 8)) ((j + 7) / 8) e1 e2 (by omega)
  refine ⟨b1, b2, r1, ?_, r2, by rw [r2]; omega, ?_⟩
  · have h8 : (8 - j % 8) % 8 + j = 8 * ((j + 7) / 8) := by omega
    have h8q : ((((8 - j % 8) % 8 : ℕ) : ℚ)) + (j : ℚ) = 8 * (((j + 7) / 8 : ℕ) : ℚ) := by
      exact_mod_cast h8
    linarith
  · intro vz hvz
    unfold tanh_fma_expm1_rr1_lut8_p4_div.vs tanh_fma_expm1_rr1_lut8_p4_div.vidx
      tanh_fma_expm1_rr1_lut8_p4_div.ven uint32_as_float float_as_uint32
      tanh_fma_expm1_rr1_lut8_p4_div.vindex_mask
    rw [hvz]
    exact b2

/-- C18 at `j = 11` with the example table: `k = 5`, `q = 2`. -/
theorem table_exponent_reconstruction_witness :
    (8 - 11 % 8) % 8 = 5 ∧ (11 + 7) / 8 = 2 ∧
    (0x49400000 - 11) &&& 7 = (8 - 11 % 8) % 8 ∧
    u32_add (table_exp2minus_k_over_8_example ((0x49400000 - 11) &&& 7))
        (u32_shl (0x49400000 - 11) 20)
      = exp2_k_over_8_example ((8 - 11 % 8) % 8) - (11 + 7) / 8 * 2 ^ 23 ∧
    f32_toRat (exp2_k_over_8_example ((8 - 11 % 8) % 8) - (11 + 7) / 8 * 2 ^ 23)
      = f32_toRat (exp2_k_over_8_example ((8 - 11 % 8) % 8)) / 2 ^ ((11 + 7) / 8) ∧
    ((((8 - 11 % 8) % 8 : ℕ) : ℚ) / 8 - (((11 + 7) / 8 : ℕ) : ℚ) = -(((11 : ℕ) : ℚ) / 8)) ∧
    f32_exp (exp2_k_over_8_example ((8 - 11 % 8) % 8) - (11 + 7) / 8 * 2 ^ 23)
      = 127 - (11 + 7) / 8 ∧
    1 ≤ f32_exp (exp2_k_over_8_example ((8 - 11 % 8) % 8) - (11 + 7) / 8 * 2 ^ 23) ∧
    (∀ vz, tanh_fma_expm1_rr1_lut8_p4_div.vn_biased vz = 0x49400000 - 11 →
      tanh_fma_expm1_rr1_lut8_p4_div.vs table_exp2minus_k_over_8_example vz
        = exp2_k_over_8_example ((8 - 11 % 8) % 8) - (11 + 7) / 8 * 2 ^ 23) :=
  ⟨by decide, by decide,
    table_exponent_reconstruction table_exp2minus_k_over_8_example exp2_k_over_8_example
      (fun k hk => ⟨(exp2_k_over_8_example_nearest k hk).1,
        (exp2_k_over_8_example_nearest k hk).2.1⟩)
      (fun _ _ => rfl) 11 (by norm_num)⟩

/-! ## Range reduction of the tanh kernels -/

set_option exponentiation.threshold 1000

theorem f32_ilog2_spec : ∀ (fuel n : Nat), n ≤ fuel → 1 ≤ n →
    2 ^ f32_ilog2 fuel n ≤ n ∧ n < 2 ^ (f32_ilog2 fuel n + 1) := by
  intro fuel
  induction fuel with
  | zero => intro n h1 h2; omega
  | succ fuel ih =>
    intro n h1 h2
    rw [f32_ilog2]
    by_cases h : n < 2
    · rw [if_pos h]
      have : n = 1 := by omega
      subst this
      norm_num
    · rw [if_neg h]
      obtain ⟨a, b⟩ := ih (n / 2) (by omega) (by omega)
      constructor
      · rw [Nat.add_comm, pow_succ]
        omega
      · rw [Nat.add_comm 1, pow_succ]
        omega

/-- The binary logarithm is determined by the binade. -/
theorem f32_ilog2_eq (n e : Nat) (h1 : 2 ^ e ≤ n) (h2 : n < 2 ^ (e + 1)) :
    f32_ilog2 n n = e := by
  have hn : 1 ≤ n := le_trans (Nat.one_le_two_pow) h1
  obtain ⟨a, b⟩ := f32_ilog2_spec n n le_rfl hn
  have c1 : f32_ilog2 n n < e + 1 :=
    (Nat.pow_lt_pow_iff_right (by norm_num : 1 < 2)).1 (lt_of_le_of_lt a h2)
  have c2 : e < f32_ilog2 n n + 1 :=
    (Nat.pow_lt_pow_iff_right (by norm_num : 1 < 2)).1 (lt_of_le_of_lt h1 b)
  omega

theorem f32_ilog2_lt (n : Nat) : n < 2 ^ (f32_ilog2 n n + 1) := by
  by_cases h : 1 ≤ n
  · exact (f32_ilog2_spec n n le_rfl h).2
  · have : n = 0 := by omega
    subst this
    exact Nat.two_pow_pos _

theorem f32_ilog2_le (n e : Nat) (h2 : n < 2 ^ (e + 1)) : f32_ilog2 n n ≤ e := by
  by_cases h : 1 ≤ n
  · obtain ⟨a, -⟩ := f32_ilog2_spec n n le_rfl h
    have c1 : f32_ilog2 n n < e + 1 :=
      (Nat.pow_lt_pow_iff_right (by norm_num : 1 < 2)).1 (lt_of_le_of_lt a h2)
    omega
  · have : n = 0 := by omega
    subst this
    have : f32_ilog2 0 0 = 0 := rfl
    omega

/-- Rounding `786432 - p / 2 ^ 298` (the magic bias of the FMA variant minus a product of at
most 13.03) gives a pattern `0x49400000 - j` with `j ≤ 208`. -/
theorem f32_round_fma_bias (p : Nat) (hp : 2 * p < 417 * 2 ^ 294) :
    ∃ j, j ≤ 208 ∧ f32_round 0 (0xC00000 * 2 ^ 294 - p) 298 = 0x49400000 - j := by
  have hlog : f32_ilog2 (0xC00000 * 2 ^ 294 - p) (0xC00000 * 2 ^ 294 - p) = 317 :=
    f32_ilog2_eq _ 317 (by omega) (by omega)
  have hq : max (317 - 23) (298 - 149) = 294 := by decide
  have hX : 0x49400000 - 208 ≤ f32_round 0 (0xC00000 * 2 ^ 294 - p) 298 ∧
      f32_round 0 (0xC00000 * 2 ^ 294 - p) 298 ≤ 0x49400000 := by
    unfold f32_round
    simp only [hlog, hq]
    split_ifs <;> omega
  exact ⟨0x49400000 - f32_round 0 (0xC00000 * 2 ^ 294 - p) 298, by omega, by omega⟩

theorem f32_sign_of_lt (z : Nat) (hz : z < 2 ^ 31) : f32_sign z = 0 := by
  unfold f32_sign; omega

theorem f32_isInf_false_of_mag_lt (z : Nat) (h : f32_mag z < 2 ^ 23 * 2 ^ 254) :
    f32_isInf z = false := by
  by_contra hc
  have hc' : f32_isInf z = true := by simpa using hc
  rw [f32_mag_of_isInf z hc'] at h
  omega

/-- Range reduction of the FMA variant: for `0 ≤ z ≤ 9.010913` the biased `vn` is one of the
209 patterns `0x49400000 - j`, `j ≤ 208`. -/
theorem fma_vn_biased_range (z : Nat) (hz : z < 2 ^ 31) (hnan : f32_isNaN z = false)
    (hle : f32_mag z * 1000000 ≤ 9010913 * 2 ^ 149) :
    ∃ j, j ≤ 208 ∧ tanh_fma_expm1_rr1_lut8_p4_div.vn_biased z = 0x49400000 - j := by
  have hs : f32_sign z = 0 := f32_sign_of_lt z hz
  have hinf : f32_isInf z = false := f32_isInf_false_of_mag_lt z (by omega)
  have c1 : f32_sign 0xBFB8AA3B = 1 := by decide
  have c2 : f32_isNaN 0xBFB8AA3B = false := by decide
  have c3 : f32_isInf 0xBFB8AA3B = false := by decide
  have c4 : f32_mag 0xBFB8AA3B = 0xB8AA3B * 2 ^ 126 := by decide
  have b1 : f32_sign 0x49400000 = 0 := by decide
  have b2 : f32_isNaN 0x49400000 = false := by decide
  have b3 : f32_isInf 0x49400000 = false := by decide
  have b4 : f32_mag 0x49400000 = 0xC00000 * 2 ^ 145 := by decide
  have hp : 2 * (f32_mag z * (0xB8AA3B * 2 ^ 126)) < 417 * 2 ^ 294 := by
    have h1 : f32_mag z ≤ 9010913 * 2 ^ 149 / 1000000 := by omega
    have h2 : f32_mag z * (0xB8AA3B * 2 ^ 126)
        ≤ 9010913 * 2 ^ 149 / 1000000 * (0xB8AA3B * 2 ^ 126) := Nat.mul_le_mul_right _ h1
    have h3 : 2 * (9010913 * 2 ^ 149 / 1000000 * (0xB8AA3B * 2 ^ 126)) < 417 * 2 ^ 294 := by
      norm_num
    omega
  obtain ⟨j, hj, hr⟩ := f32_round_fma_bias _ hp
  refine ⟨j, hj, ?_⟩
  unfold tanh_fma_expm1_rr1_lut8_p4_div.vn_biased
    tanh_fma_expm1_rr1_lut8_p4_div.vminus_log2e tanh_fma_expm1_rr1_lut8_p4_div.vmagic_bias fmaf
  simp only [hs, hnan, hinf, c1, c2, c3, c4, b1, b2, b3, b4, Bool.or_self, Bool.false_eq_true,
    if_false]
  have e : 0xC00000 * 2 ^ 145 * 2 ^ 149 = 0xC00000 * 2 ^ 294 := by norm_num
  rw [e, if_neg (by decide), if_neg (by omega), if_pos (by omega)]
  exact hr

/-- Rounding a product of magnitude below 13 gives a pattern of magnitude at most 13. -/
theorem f32_round_lt_13 (P : Nat) (hP : P < 13 * 2 ^ 298) :
    ∃ b, b ≤ 0x41500000 ∧ f32_round 1 P 298 = 2 ^ 31 + b := by
  have hL : f32_ilog2 P P ≤ 301 := f32_ilog2_le P 301 (by omega)
  have hlt := f32_ilog2_lt P
  have hX : 2 ^ 31 ≤ f32_round 1 P 298 ∧ f32_round 1 P 298 ≤ 2 ^ 31 + 0x41500000 := by
    unfold f32_round
    simp only
    by_cases h301 : f32_ilog2 P P = 301
    · simp only [h301]
      have hq : max (301 - 23) (298 - 149) = 278 := by decide
      simp only [hq]
      split_ifs <;> omega
    · have hq : max (f32_ilog2 P P - 23) (298 - 149) ≤ 277 := by omega
      have hq2 : f32_ilog2 P P + 1 ≤ max (f32_ilog2 P P - 23) (298 - 149) + 24 := by omega
      have hm : P / 2 ^ max (f32_ilog2 P P - 23) (298 - 149) < 2 ^ 24 := by
        apply Nat.div_lt_of_lt_mul
        calc P < 2 ^ (f32_ilog2 P P + 1) := hlt
          _ ≤ 2 ^ (max (f32_ilog2 P P - 23) (298 - 149) + 24) :=
              Nat.pow_le_pow_right (by norm_num) hq2
          _ = 2 ^ max (f32_ilog2 P P - 23) (298 - 149) * 2 ^ 24 := by rw [pow_add]
      generalize max (f32_ilog2 P P - 23) (298 - 149) = q at hq hm ⊢
      have hq149 : q - (298 - 149) ≤ 128 := by omega
      have hmul : (q - (298 - 149)) * 2 ^ 23 ≤ 128 * 2 ^ 23 := Nat.mul_le_mul_right _ hq149
      generalize P / 2 ^ q = mant at hm ⊢
      generalize (q - (298 - 149)) * 2 ^ 23 = eo at hmul ⊢
      split_ifs <;> omega
  exact ⟨f32_round 1 P 298 - 2 ^ 31, by omega, by omega⟩

/-- Rounding `6291519.5 - u / 2 ^ 149` with `u / 2 ^ 149 ≤ 13` gives a pattern
`0x4AC0007F - k` with `k ≤ 26`. -/
theorem f32_round_scalar_bias (u : Nat) (hu : u ≤ 26 * 2 ^ 148) :
    ∃ k, k ≤ 26 ∧ f32_round 0 (0xC0007F * 2 ^ 148 - u) 149 = 0x4AC0007F - k := by
  have hlog : f32_ilog2 (0xC0007F * 2 ^ 148 - u) (0xC0007F * 2 ^ 148 - u) = 171 :=
    f32_ilog2_eq _ 171 (by omega) (by omega)
  have hq : max (171 - 23) (149 - 149) = 148 := by decide
  have hX : 0x4AC0007F - 26 ≤ f32_round 0 (0xC0007F * 2 ^ 148 - u) 149 ∧
      f32_round 0 (0xC0007F * 2 ^ 148 - u) 149 ≤ 0x4AC0007F := by
    unfold f32_round
    simp only [hlog, hq]
    split_ifs <;> omega
  exact ⟨0x4AC0007F - f32_round 0 (0xC0007F * 2 ^ 148 - u) 149, by omega, by omega⟩

theorem f32_fields_neg (b : Nat) (hb : b < 2 ^ 31) :
    f32_sign (2 ^ 31 + b) = 1 ∧ f32_exp (2 ^ 31 + b) = f32_exp b ∧
    f32_frac (2 ^ 31 + b) = f32_frac b ∧ f32_mag (2 ^ 31 + b) = f32_mag b := by
  have e1 : f32_exp (2 ^ 31 + b) = f32_exp b := by unfold f32_exp; omega
  have e2 : f32_frac (2 ^ 31 + b) = f32_frac b := by unfold f32_frac; omega
  refine ⟨by unfold f32_sign; omega, e1, e2, ?_⟩
  unfold f32_mag; rw [e1, e2]

/-- Range reduction of the scalar variant: for `0 ≤ z ≤ 9.010913` the biased `vn` is one of
the 27 patterns `0x4AC0007F - k`, `k ≤ 26`. -/
theorem scalar_vn_biased_range (z : Nat) (hz : z < 2 ^ 31) (hnan : f32_isNaN z = false)
    (hle : f32_mag z * 1000000 ≤ 9010913 * 2 ^ 149) :
    ∃ k, k ≤ 26 ∧ tanh_scalar_expm1_rr2_p6_div.vn_biased z = 0x4AC0007F - k := by
  have hs : f32_sign z = 0 := f32_sign_of_lt z hz
  have hinf : f32_isInf z = false := f32_isInf_false_of_mag_lt z (by omega)
  have c1 : f32_sign 0xBFB8AA3B = 1 := by decide
  have c2 : f32_isNaN 0xBFB8AA3B = false := by decide
  have c3 : f32_isInf 0xBFB8AA3B = false := by decide
  have c4 : f32_mag 0xBFB8AA3B = 0xB8AA3B * 2 ^ 126 := by decide
  have b1 : f32_sign 0x4AC0007F = 0 := by decide
  have b2 : f32_isNaN 0x4AC0007F = false := by decide
  have b3 : f32_isInf 0x4AC0007F = false := by decide
  have b4 : f32_mag 0x4AC0007F = 0xC0007F * 2 ^ 148 := by decide
  have hp : f32_mag z * (0xB8AA3B * 2 ^ 126) < 13 * 2 ^ 298 := by
    have h1 : f32_mag z ≤ 9010913 * 2 ^ 149 / 1000000 := by omega
    have h2 : f32_mag z * (0xB8AA3B * 2 ^ 126)
        ≤ 9010913 * 2 ^ 149 / 1000000 * (0xB8AA3B * 2 ^ 126) := Nat.mul_le_mul_right _ h1
    have h3 : 9010913 * 2 ^ 149 / 1000000 * (0xB8AA3B * 2 ^ 126) < 13 * 2 ^ 298 := by
      norm_num
    omega
  obtain ⟨b, hb, hr⟩ := f32_round_lt_13 _ hp
  have hmul : f32_mul z 0xBFB8AA3B = 2 ^ 31 + b := by
    unfold f32_mul
    simp only [hs, hnan, hinf, c1, c2, c3, c4, Bool.or_self, Bool.false_eq_true, if_false]
    exact hr
  obtain ⟨f1, f2, f3, f4⟩ := f32_fields_neg b (by omega)
  have hexp : f32_exp b ≤ 130 := by
    unfold f32_exp; omega
  have r2 : f32_isNaN (2 ^ 31 + b) = false := by
    unfold f32_isNaN; rw [f2]
    have : ¬ f32_exp b = 255 := by omega
    simp [this]
  have r3 : f32_isInf (2 ^ 31 + b) = false := by
    unfold f32_isInf; rw [f2]
    have : ¬ f32_exp b = 255 := by omega
    simp [this]
  have hmag : f32_mag b ≤ 26 * 2 ^ 148 := by
    have h1 := f32_mag_mono b 0x41500000 (by omega) (by norm_num) hb
    have h2 : f32_mag 0x41500000 = 26 * 2 ^ 148 := by decide
    omega
  obtain ⟨k, hk, hr2⟩ := f32_round_scalar_bias _ hmag
  refine ⟨k, hk, ?_⟩
  unfold tanh_scalar_expm1_rr2_p6_div.vn_biased tanh_scalar_expm1_rr2_p6_div.vminus_log2e
    tanh_scalar_expm1_rr2_p6_div.vmagic_bias
  rw [hmul]
  unfold f32_add
  simp only [r2, r3, b1, b2, b3, b4, f1, f4, Bool.or_self, Bool.false_eq_true, if_false]
  rw [if_neg (by decide), if_neg (by omega), if_pos (by omega)]
  exact hr2

theorem scalar_vn_patterns :
    ∀ k, k ≤ 26 →
      f32_mag (f32_sub (0x4AC0007F - k) 0x4AC0007F) = k * 2 ^ 148 ∧
      f32_sign (f32_sub (0x4AC0007F - k) 0x4AC0007F) = (if k = 0 then 0 else 1) := by
  decide!

theorem fma_vn_patterns :
    ∀ j, j ≤ 208 →
      f32_mag (f32_sub (0x49400000 - j) 0x49400000) = j * 2 ^ 145 ∧
      f32_sign (f32_sub (0x49400000 - j) 0x49400000) = (if j = 0 then 0 else 1) := by
  decide!

theorem f32_toRat_of_fields (x m e s : Nat) (hm : f32_mag x = m * 2 ^ e)
    (hs : f32_sign x = (if m = 0 then 0 else s)) (hs1 : s = 1) (he : e ≤ 149) :
    f32_toRat x = -((m : ℚ) / 2 ^ (149 - e)) := by
  unfold f32_toRat f32_val
  rw [hm, hs]
  have hpow : (2 : ℚ) ^ 149 = 2 ^ e * 2 ^ (149 - e) := by
    rw [← pow_add]; congr 1; omega
  by_cases h0 : m = 0
  · subst h0; simp
  · rw [if_neg h0, hs1, if_pos rfl, hpow]
    push_cast
    field_simp
    ring

theorem f32_mag_le_of_toRat_le (z c : Nat) (hz : f32_sign z = 0) (hc : f32_sign c = 0)
    (h : f32_toRat z ≤ f32_toRat c) : f32_mag z ≤ f32_mag c := by
  unfold f32_toRat f32_val at h
  rw [hz, hc] at h
  simp only [Nat.zero_ne_one, if_false] at h
  rw [div_le_div_iff_of_pos_right (by positivity)] at h
  exact_mod_cast h

/-- C19: in the scalar variant, for every non-NaN `z` with the sign bit clear and
`z ≤ vsat_cutoff = 0x1.205966p+3`, the biased `vn = z * vminus_log2e + vmagic_bias` is one of the
patterns `0x4AC0007F - k` with `0 ≤ k ≤ 26`, so that `n = vn - vmagic_bias = -k / 2` is a multiple
of `1 / 2` in `[-13, 0]`, and the scale `vs` is the pattern `(127 - k) << 23` of `2 ^ (-k)`, whose
exponent field is at least 1: a normalized number. -/
theorem scalar_range_reduction (z : Nat) (hz : z < 2 ^ 31) (hnan : f32_isNaN z = false)
    (hle : f32_toRat z ≤ f32_toRat tanh_scalar_expm1_rr2_p6_div.vsat_cutoff) :
    ∃ k : ℕ, k ≤ 26 ∧
      tanh_scalar_expm1_rr2_p6_div.vn_biased z = 0x4AC0007F - k ∧
      f32_toRat (tanh_scalar_expm1_rr2_p6_div.vn z) = -((k : ℚ) / 2) ∧
      tanh_scalar_expm1_rr2_p6_div.vs z = (127 - k) * 2 ^ 23 ∧
      f32_toRat (tanh_scalar_expm1_rr2_p6_div.vs z) = 1 / 2 ^ k ∧
      1 ≤ f32_exp (tanh_scalar_expm1_rr2_p6_div.vs z) := by
  have hs : f32_sign z = 0 := f32_sign_of_lt z hz
  have hm := f32_mag_le_of_toRat_le z tanh_scalar_expm1_rr2_p6_div.vsat_cutoff hs
    (by decide) hle
  have hc : f32_mag tanh_scalar_expm1_rr2_p6_div.vsat_cutoff = 0x902CB3 * 2 ^ 129 := by decide
  obtain ⟨k, hk, hv⟩ := scalar_vn_biased_range z hz hnan (by rw [hc] at hm; omega)
  obtain ⟨p1, p2⟩ := scalar_vn_patterns k hk
  obtain ⟨-, -, h3, h4, h5, h6, h7⟩ := magic_bias_patterns k hk
  have hvs : tanh_scalar_expm1_rr2_p6_div.vs z = (127 - k) * 2 ^ 23 := by
    unfold tanh_scalar_expm1_rr2_p6_div.vs uint32_as_float float_as_uint32
    rw [hv, h3]
  refine ⟨k, hk, hv, ?_, hvs, ?_, ?_⟩
  · unfold tanh_scalar_expm1_rr2_p6_div.vn tanh_scalar_expm1_rr2_p6_div.vmagic_bias
    rw [hv, f32_toRat_of_fields _ k 148 1 p1 p2 rfl (by norm_num)]
    norm_num
  · rw [hvs, f32_toRat_of_pos _ h4, div_eq_div_iff (by positivity) (by positivity), one_mul]
    exact_mod_cast h7
  · rw [hvs, h5]; omega

/-- C20 fails at the in-range `z = 0x3D315B57` (about 0.0433): the FMA variant computes
`n = 0xBD800000 = -1 / 16`, which is not a multiple of `2 ^ (-3)`. -/
theorem fma_range_reduction_counterexample :
    0x3D315B57 < 2 ^ 31 ∧ f32_isNaN 0x3D315B57 = false ∧
    f32_toRat 0x3D315B57 ≤ f32_toRat tanh_fma_expm1_rr1_lut8_p4_div.vsat_cutoff ∧
    tanh_fma_expm1_rr1_lut8_p4_div.vn 0x3D315B57 = 0xBD800000 ∧
    f32_toRat (tanh_fma_expm1_rr1_lut8_p4_div.vn 0x3D315B57) = -(1 / 16) ∧
    ¬ ∃ i : ℤ, f32_toRat (tanh_fma_expm1_rr1_lut8_p4_div.vn 0x3D315B57) = (i : ℚ) / 2 ^ 3 := by
  have hv : tanh_fma_expm1_rr1_lut8_p4_div.vn 0x3D315B57 = 0xBD800000 := by decide!
  have hr : f32_toRat 0xBD800000 = -(1 / 16) := by
    rw [f32_toRat_of_fields 0xBD800000 1 145 1 (by decide) (by decide) rfl (by norm_num)]
    norm_num
  refine ⟨by norm_num, by decide, ?_, hv, by rw [hv, hr], ?_⟩
  · have h1 : f32_toRat 0x3D315B57 = (0xB15B57 * 2 ^ 121 : ℕ) / 2 ^ 149 := by
      rw [f32_toRat_of_pos _ (by decide)]
      have : f32_mag 0x3D315B57 = 0xB15B57 * 2 ^ 121 := by decide
      rw [this]
    have h2 : f32_toRat tanh_fma_expm1_rr1_lut8_p4_div.vsat_cutoff
        = (0x902CB3 * 2 ^ 129 : ℕ) / 2 ^ 149 := by
      rw [f32_toRat_of_pos _ (by decide)]
      have : f32_mag tanh_fma_expm1_rr1_lut8_p4_div.vsat_cutoff = 0x902CB3 * 2 ^ 129 := by
        decide
      rw [this]
    rw [h1, h2, div_le_div_iff_of_pos_right (by positivity)]
    norm_num
  · rintro ⟨i, hi⟩
    rw [hv, hr] at hi
    have h16 : (-1 : ℚ) = 2 * (i : ℚ) := by
      field_simp at hi
      linarith
    have hz : (-1 : ℤ) = 2 * i := by exact_mod_cast h16
    omega

/-- C20 as amended: in the FMA variant, for every non-NaN `z` with the sign bit clear and
`z ≤ 0x1.205966p+3`, the biased `vn` is one of the patterns `0x49400000 - j` with `0 ≤ j ≤ 208`
and `n = -j / 16` is a multiple of `2 ^ (-4)` (the source: "n has 4 fractional bits"); it is
`2n = -j / 8` that is a multiple of `2 ^ (-3)`. -/
theorem fma_range_reduction (z : Nat) (hz : z < 2 ^ 31) (hnan : f32_isNaN z = false)
    (hle : f32_toRat z ≤ f32_toRat tanh_fma_expm1_rr1_lut8_p4_div.vsat_cutoff) :
    ∃ j : ℕ, j ≤ 208 ∧
      tanh_fma_expm1_rr1_lut8_p4_div.vn_biased z = 0x49400000 - j ∧
      f32_toRat (tanh_fma_expm1_rr1_lut8_p4_div.vn z) = -((j : ℚ) / 2 ^ 4) ∧
      2 * f32_toRat (tanh_fma_expm1_rr1_lut8_p4_div.vn z) = -((j : ℚ) / 2 ^ 3) := by
  have hs : f32_sign z = 0 := f32_sign_of_lt z hz
  have hm := f32_mag_le_of_toRat_le z tanh_fma_expm1_rr1_lut8_p4_div.vsat_cutoff hs
    (by decide) hle
  have hc : f32_mag tanh_fma_expm1_rr1_lut8_p4_div.vsat_cutoff = 0x902CB3 * 2 ^ 129 := by
    decide
  obtain ⟨j, hj, hv⟩ := fma_vn_biased_range z hz hnan (by rw [hc] at hm; omega)
  obtain ⟨p1, p2⟩ := fma_vn_patterns j hj
  have hn : f32_toRat (tanh_fma_expm1_rr1_lut8_p4_div.vn z) = -((j : ℚ) / 2 ^ 4) := by
    unfold tanh_fma_expm1_rr1_lut8_p4_div.vn tanh_fma_expm1_rr1_lut8_p4_div.vmagic_bias
    rw [hv, f32_toRat_of_fields _ j 145 1 p1 p2 rfl (by norm_num)]
  refine ⟨j, hj, hv, hn, ?_⟩
  rw [hn]; ring

/-- C20 as amended, at `z = 1.0`. -/
theorem fma_range_reduction_witness :
    ∃ j : ℕ, j ≤ 208 ∧
      tanh_fma_expm1_rr1_lut8_p4_div.vn_biased 0x3F800000 = 0x49400000 - j ∧
      f32_toRat (tanh_fma_expm1_rr1_lut8_p4_div.vn 0x3F800000) = -((j : ℚ) / 2 ^ 4) ∧
      2 * f32_toRat (tanh_fma_expm1_rr1_lut8_p4_div.vn 0x3F800000) = -((j : ℚ) / 2 ^ 3) :=
  fma_range_reduction 0x3F800000 (by norm_num) (by decide)
    (le_of_lt (by
      rw [f32_toRat_of_pos _ (by decide), f32_toRat_of_pos _ (by decide)]
      have a : f32_mag 0x3F800000 = 2 ^ 149 := by decide
      have b : f32_mag tanh_fma_expm1_rr1_lut8_p4_div.vsat_cutoff = 0x902CB3 * 2 ^ 129 := by
        decide
      rw [a, b, div_lt_div_iff_of_pos_right (by positivity)]
      norm_num))

/-- C19 at `z = 1.0`. -/
theorem scalar_range_reduction_witness :
    ∃ k : ℕ, k ≤ 26 ∧
      tanh_scalar_expm1_rr2_p6_div.vn_biased 0x3F800000 = 0x4AC0007F - k ∧
      f32_toRat (tanh_scalar_expm1_rr2_p6_div.vn 0x3F800000) = -((k : ℚ) / 2) ∧
      tanh_scalar_expm1_rr2_p6_div.vs 0x3F800000 = (127 - k) * 2 ^ 23 ∧
      f32_toRat (tanh_scalar_expm1_rr2_p6_div.vs 0x3F800000) = 1 / 2 ^ k ∧
      1 ≤ f32_exp (tanh_scalar_expm1_rr2_p6_div.vs 0x3F800000) :=
  scalar_range_reduction 0x3F800000 (by norm_num) (by decide)
    (le_of_lt (by
      rw [f32_toRat_of_pos _ (by decide), f32_toRat_of_pos _ (by decide)]
      have a : f32_mag 0x3F800000 = 2 ^ 149 := by decide
      have b : f32_mag tanh_scalar_expm1_rr2_p6_div.vsat_cutoff = 0x902CB3 * 2 ^ 129 := by
        decide
      rw [a, b, div_lt_div_iff_of_pos_right (by positivity)]
      norm_num))

/-! ## Steps of one row of the PReLU kernel -/

/-- Magnitude of the pattern `e * 2 ^ 23 + m` assembled by `f32_round`. -/
theorem f32_mag_bits (e m : Nat) (hm : m ≤ 2 ^ 24) (he : 1 ≤ e → 2 ^ 23 ≤ m)
    (hb : e * 2 ^ 23 + m < 0x7F800000) : f32_mag (e * 2 ^ 23 + m) = m * 2 ^ e := by
  unfold f32_mag f32_exp f32_frac
  by_cases h1 : m < 2 ^ 23
  · have e0 : e = 0 := by
      by_contra hne
      have := he (by omega)
      omega
    subst e0
    have a1 : (0 * 2 ^ 23 + m) / 2 ^ 23 % 256 = 0 := by omega
    have a2 : (0 * 2 ^ 23 + m) % 2 ^ 23 = m := by omega
    rw [a1, a2]
    simp
  · by_cases h2 : m < 2 ^ 24
    · have a1 : (e * 2 ^ 23 + m) / 2 ^ 23 % 256 = e + 1 := by omega
      have a2 : (e * 2 ^ 23 + m) % 2 ^ 23 = m - 2 ^ 23 := by omega
      rw [a1, a2, if_neg (by omega)]
      have a3 : 2 ^ 23 + (m - 2 ^ 23) = m := by omega
      rw [a3]
      rfl
    · have hm2 : m = 2 ^ 24 := by omega
      subst hm2
      have a1 : (e * 2 ^ 23 + 2 ^ 24) / 2 ^ 23 % 256 = e + 2 := by omega
      have a2 : (e * 2 ^ 23 + 2 ^ 24) % 2 ^ 23 = 0 := by omega
      rw [a1, a2, if_neg (by omega)]
      have a3 : e + 2 - 1 = e + 1 := by omega
      rw [a3, pow_succ]
      ring

/-- Sign and magnitude of a pattern with the sign bit `s` attached. -/
theorem f32_fields_sign_add (s b : Nat) (hs : s < 2) (hb : b < 2 ^ 31) :
    f32_sign (s * 2 ^ 31 + b) = s ∧ f32_mag (s * 2 ^ 31 + b) = f32_mag b := by
  have e1 : f32_exp (s * 2 ^ 31 + b) = f32_exp b := by unfold f32_exp; omega
  have e2 : f32_frac (s * 2 ^ 31 + b) = f32_frac b := by unfold f32_frac; omega
  refine ⟨by unfold f32_sign; omega, ?_⟩
  unfold f32_mag; rw [e1, e2]

/-- Structure of a rounding: with `q` the weight of the last kept bit and `m` the rounded
significand, `m * 2 ^ q` is a multiple of `2 ^ q` nearest to `M`, and it is the magnitude of the
result unless that overflows to infinity. -/
theorem f32_round_spec (s M K : Nat) (hs : s < 2) (_hK : 149 ≤ K) :
    ∃ q m : Nat, K - 149 ≤ q ∧ M < 2 ^ (q + 24) ∧ (K - 149 < q → 2 ^ (q + 23) ≤ M) ∧
      2 * (m * 2 ^ q) ≤ 2 * M + 2 ^ q ∧ 2 * M ≤ 2 * (m * 2 ^ q) + 2 ^ q ∧
      (M % 2 ^ q = 0 → m * 2 ^ q = M) ∧
      f32_sign (f32_round s M K) = s ∧
      (m * 2 ^ q < 2 ^ 277 * 2 ^ (K - 149) →
        f32_mag (f32_round s M K) * 2 ^ (K - 149) = m * 2 ^ q) ∧
      (2 ^ 277 * 2 ^ (K - 149) ≤ m * 2 ^ q → f32_mag (f32_round s M K) = 2 ^ 277) := by
  have hlt := f32_ilog2_lt M
  have hq1 : K - 149 ≤ max (f32_ilog2 M M - 23) (K - 149) := le_max_right _ _
  have hq2 : f32_ilog2 M M + 1 ≤ max (f32_ilog2 M M - 23) (K - 149) + 24 := by omega
  have hM : M < 2 ^ (max (f32_ilog2 M M - 23) (K - 149) + 24) :=
    lt_of_lt_of_le hlt (Nat.pow_le_pow_right (by norm_num) hq2)
  have hlow : K - 149 < max (f32_ilog2 M M - 23) (K - 149) →
      2 ^ (max (f32_ilog2 M M - 23) (K - 149) + 23) ≤ M := by
    intro h
    have hL : max (f32_ilog2 M M - 23) (K - 149) + 23 = f32_ilog2 M M := by omega
    have hM1 : 1 ≤ M := by
      by_contra h0
      have : M = 0 := by omega
      subst this
      have : f32_ilog2 0 0 = 0 := rfl
      omega
    rw [hL]
    exact (f32_ilog2_spec M M le_rfl hM1).1
  unfold f32_round
  simp only
  generalize max (f32_ilog2 M M - 23) (K - 149) = q at hq1 hM hlow ⊢
  have hP : 0 < 2 ^ q := Nat.two_pow_pos q
  have hdm := Nat.div_add_mod M (2 ^ q)
  have hrem : M % 2 ^ q < 2 ^ q := Nat.mod_lt _ hP
  have hmant : M / 2 ^ q < 2 ^ 24 := by
    apply Nat.div_lt_of_lt_mul
    rw [← pow_add]; exact hM
  have hmant2 : K - 149 < q → 2 ^ 23 ≤ M / 2 ^ q := by
    intro h
    have := hlow h
    rw [Nat.le_div_iff_mul_le hP, ← pow_add, Nat.add_comm]
    exact this
  refine ⟨q, (if 2 ^ q < 2 * (M % 2 ^ q) ∨ (2 * (M % 2 ^ q) = 2 ^ q ∧ M / 2 ^ q % 2 = 1)
      then M / 2 ^ q + 1 else M / 2 ^ q), hq1, hM, hlow, ?_, ?_, ?_, ?_, ?_, ?_⟩
  · split_ifs with hc
    · rw [Nat.add_mul, one_mul, Nat.mul_comm (M / 2 ^ q)]
      rcases hc with hc | hc <;> omega
    · rw [Nat.mul_comm (M / 2 ^ q)]; omega
  · split_ifs with hc
    · rw [Nat.add_mul, one_mul, Nat.mul_comm (M / 2 ^ q)]
      omega
    · rw [Nat.mul_comm (M / 2 ^ q)]
      push_neg at hc
      omega
  · intro h0
    rw [h0] at hdm
    rw [h0]
    simp only [Nat.mul_zero, Nat.add_zero] at hdm ⊢
    have : ¬ (2 ^ q < 0 ∨ (0 = 2 ^ q ∧ M / 2 ^ q % 2 = 1)) := by omega
    rw [if_neg this, Nat.mul_comm]
    exact hdm
  all_goals
    have hm1 : (if 2 ^ q < 2 * (M % 2 ^ q) ∨ (2 * (M % 2 ^ q) = 2 ^ q ∧ M / 2 ^ q % 2 = 1)
        then M / 2 ^ q + 1 else M / 2 ^ q) ≤ 2 ^ 24 := by split_ifs <;> omega
    have hm2 : 1 ≤ q - (K - 149) → 2 ^ 23 ≤ (if 2 ^ q < 2 * (M % 2 ^ q) ∨
        (2 * (M % 2 ^ q) = 2 ^ q ∧ M / 2 ^ q % 2 = 1) then M / 2 ^ q + 1 else M / 2 ^ q) := by
      intro h
      have := hmant2 (by omega)
      split_ifs <;> omega
    generalize (if 2 ^ q < 2 * (M % 2 ^ q) ∨ (2 * (M % 2 ^ q) = 2 ^ q ∧ M / 2 ^ q % 2 = 1)
        then M / 2 ^ q + 1 else M / 2 ^ q) = m1 at hm1 hm2 ⊢
    have hqe : q = (q - (K - 149)) + (K - 149) := by omega
    generalize q - (K - 149) = e at hm2 hqe ⊢
    have hbits : (if 0x7F800000 ≤ e * 2 ^ 23 + m1 then 0x7F800000 else e * 2 ^ 23 + m1)
        < 2 ^ 31 := by split_ifs <;> omega
    obtain ⟨g1, g2⟩ := f32_fields_sign_add s _ hs hbits
    have hpow : m1 * 2 ^ q = m1 * 2 ^ e * 2 ^ (K - 149) := by
      rw [hqe, pow_add, Nat.mul_assoc]
  · exact g1
  · intro hlt
    rw [g2, hpow]
    congr 1
    have hlt2 : m1 * 2 ^ e < 2 ^ 277 := by
      rw [hpow] at hlt
      exact Nat.lt_of_mul_lt_mul_right hlt
    have hb : e * 2 ^ 23 + m1 < 0x7F800000 := by
      by_contra hc
      have he1 : 1 ≤ e := by omega
      have hm23 := hm2 he1
      by_cases h24 : m1 < 2 ^ 24
      · have he254 : 254 ≤ e := by omega
        have : 2 ^ 23 * 2 ^ 254 ≤ m1 * 2 ^ e :=
          Nat.mul_le_mul hm23 (Nat.pow_le_pow_right (by norm_num) he254)
        have e277 : (2 : ℕ) ^ 23 * 2 ^ 254 = 2 ^ 277 := by norm_num
        omega
      · have he253 : 253 ≤ e := by omega
        have : 2 ^ 24 * 2 ^ 253 ≤ m1 * 2 ^ e :=
          Nat.mul_le_mul (by omega) (Nat.pow_le_pow_right (by norm_num) he253)
        have e277 : (2 : ℕ) ^ 24 * 2 ^ 253 = 2 ^ 277 := by norm_num
        omega
    rw [if_neg (by omega)]
    exact f32_mag_bits e m1 hm1 hm2 hb
  · intro hge
    rw [g2]
    have hge2 : 2 ^ 277 ≤ m1 * 2 ^ e := by
      rw [hpow] at hge
      exact Nat.le_of_mul_le_mul_right hge (Nat.two_pow_pos _)
    have hb : 0x7F800000 ≤ e * 2 ^ 23 + m1 := by
      by_contra hc
      by_cases he0 : e = 0
      · subst he0
        have : m1 * 2 ^ 0 ≤ 2 ^ 24 := by simpa using hm1
        have : (2 : ℕ) ^ 24 < 2 ^ 277 := by norm_num
        omega
      · by_cases h24 : m1 < 2 ^ 24
        · have he253 : e ≤ 253 := by
            have := hm2 (by omega)
            omega
          have h1 : m1 * 2 ^ e < 2 ^ 24 * 2 ^ e :=
            Nat.mul_lt_mul_of_pos_right h24 (Nat.two_pow_pos _)
          have h2 : 2 ^ 24 * 2 ^ e ≤ 2 ^ 24 * 2 ^ 253 :=
            Nat.mul_le_mul_left _ (Nat.pow_le_pow_right (by norm_num) he253)
          have e277 : (2 : ℕ) ^ 24 * 2 ^ 253 = 2 ^ 277 := by norm_num
          omega
        · have hm24 : m1 = 2 ^ 24 := by omega
          have he252 : e ≤ 252 := by omega
          have h2 : m1 * 2 ^ e ≤ 2 ^ 24 * 2 ^ 252 := by
            rw [hm24]
            exact Nat.mul_le_mul_left _ (Nat.pow_le_pow_right (by norm_num) he252)
          have e277 : (2 : ℕ) ^ 24 * 2 ^ 252 < 2 ^ 277 := by norm_num
          omega
    rw [if_pos hb]
    decide

/-- Splitting a power of two. -/
theorem pow_split (c j k q : Nat) (h : q ≤ j + k) :
    c * 2 ^ j * 2 ^ k = c * 2 ^ (j + k - q) * 2 ^ q := by
  have e : j + k = (j + k - q) + q := by omega
  calc c * 2 ^ j * 2 ^ k = c * 2 ^ (j + k) := by rw [Nat.mul_assoc, ← pow_add]
    _ = c * 2 ^ ((j + k - q) + q) := by rw [← e]
    _ = c * 2 ^ (j + k - q) * 2 ^ q := by rw [pow_add, Nat.mul_assoc]

/-- Rounding does not cross a representable number from below: an exact magnitude of at most
`c * 2 ^ j` (in units of `2 ^ (-149)`, with `c ≤ 2 ^ 24` and below infinity) rounds to a
magnitude of at most `c * 2 ^ j`. -/
theorem f32_round_upper (s M K c j : Nat) (hs : s < 2) (hK : 149 ≤ K) (hc : c ≤ 2 ^ 24)
    (hfin : c * 2 ^ j < 2 ^ 277) (h : M ≤ c * 2 ^ j * 2 ^ (K - 149)) :
    f32_mag (f32_round s M K) ≤ c * 2 ^ j := by
  obtain ⟨q, m, hq, hM, hlow, hup, -, hex, -, hmag, -⟩ := f32_round_spec s M K hs hK
  have hP : 0 < 2 ^ q := Nat.two_pow_pos q
  have hK0 : 0 < 2 ^ (K - 149) := Nat.two_pow_pos _
  have hkey : m * 2 ^ q ≤ c * 2 ^ j * 2 ^ (K - 149) := by
    by_cases hqj : q ≤ j + (K - 149)
    · have hB : c * 2 ^ j * 2 ^ (K - 149) = c * 2 ^ (j + (K - 149) - q) * 2 ^ q :=
        pow_split c j (K - 149) q hqj
      rw [hB] at h ⊢
      apply Nat.mul_le_mul_right
      by_contra hcon
      have h1 : (c * 2 ^ (j + (K - 149) - q) + 1) * 2 ^ q ≤ m * 2 ^ q :=
        Nat.mul_le_mul_right _ (by omega)
      rw [Nat.add_mul, one_mul] at h1
      omega
    · have h1 := hlow (by omega)
      have h2 : c * 2 ^ j * 2 ^ (K - 149) ≤ 2 ^ (q + 23) := by
        calc c * 2 ^ j * 2 ^ (K - 149) ≤ 2 ^ 24 * 2 ^ j * 2 ^ (K - 149) :=
              Nat.mul_le_mul_right _ (Nat.mul_le_mul_right _ hc)
          _ = 2 ^ (24 + j + (K - 149)) := by rw [← pow_add, ← pow_add]
          _ ≤ 2 ^ (q + 23) := Nat.pow_le_pow_right (by norm_num) (by omega)
      have h3 : M = 2 ^ (q + 23) := by omega
      have h4 : M % 2 ^ q = 0 := by
        rw [h3, pow_add]
        exact Nat.mul_mod_right _ _
      rw [hex h4]
      exact h
  have hlt : m * 2 ^ q < 2 ^ 277 * 2 ^ (K - 149) :=
    lt_of_le_of_lt hkey (Nat.mul_lt_mul_of_pos_right hfin hK0)
  have := hmag hlt
  rw [← this] at hkey
  exact Nat.le_of_mul_le_mul_right hkey hK0

/-- Rounding does not cross a representable number from above. -/
theorem f32_round_lower (s M K c j : Nat) (hs : s < 2) (hK : 149 ≤ K) (hc : c ≤ 2 ^ 24)
    (hfin : c * 2 ^ j < 2 ^ 277) (h : c * 2 ^ j * 2 ^ (K - 149) ≤ M) :
    c * 2 ^ j ≤ f32_mag (f32_round s M K) := by
  obtain ⟨q, m, hq, hM, hlow, -, hdn, -, -, hmag, hinf⟩ := f32_round_spec s M K hs hK
  have hP : 0 < 2 ^ q := Nat.two_pow_pos q
  have hK0 : 0 < 2 ^ (K - 149) := Nat.two_pow_pos _
  by_cases hov : 2 ^ 277 * 2 ^ (K - 149) ≤ m * 2 ^ q
  · rw [hinf hov]; omega
  · have hm := hmag (by omega)
    have hkey : c * 2 ^ j * 2 ^ (K - 149) ≤ m * 2 ^ q := by
      by_cases hqj : q ≤ j + (K - 149)
      · have hB : c * 2 ^ j * 2 ^ (K - 149) = c * 2 ^ (j + (K - 149) - q) * 2 ^ q :=
          pow_split c j (K - 149) q hqj
        rw [hB] at h ⊢
        apply Nat.mul_le_mul_right
        by_contra hcon
        have h1 : (m + 1) * 2 ^ q ≤ c * 2 ^ (j + (K - 149) - q) * 2 ^ q :=
          Nat.mul_le_mul_right _ (by omega)
        rw [Nat.add_mul, one_mul] at h1
        omega
      · have h1 := hlow (by omega)
        have h2 : c * 2 ^ j * 2 ^ (K - 149) ≤ 2 ^ 23 * 2 ^ q := by
          calc c * 2 ^ j * 2 ^ (K - 149) ≤ 2 ^ 24 * 2 ^ j * 2 ^ (K - 149) :=
                Nat.mul_le_mul_right _ (Nat.mul_le_mul_right _ hc)
            _ = 2 ^ (24 + j + (K - 149)) := by rw [← pow_add, ← pow_add]
            _ ≤ 2 ^ (23 + q) := Nat.pow_le_pow_right (by norm_num) (by omega)
            _ = 2 ^ 23 * 2 ^ q := by rw [pow_add]
        have h3 : 2 ^ 23 ≤ m := by
          by_contra hcon
          have h4 : (m + 1) * 2 ^ q ≤ 2 ^ 23 * 2 ^ q := Nat.mul_le_mul_right _ (by omega)
          rw [Nat.add_mul, one_mul] at h4
          rw [pow_add, Nat.mul_comm (2 ^ q)] at h1
          omega
        exact le_trans h2 (Nat.mul_le_mul_right _ h3)
    rw [← hm] at hkey
    exact Nat.le_of_mul_le_mul_right hkey hK0

/-- Comparison of an exact magnitude at scale `2 ^ K` with a bound in units of `2 ^ (-149)`. -/
theorem rat_le_iff_scaled (M N K : Nat) (hK : 149 ≤ K) :
    ((M : ℚ) / 2 ^ K ≤ (N : ℚ) / 2 ^ 149 ↔ M ≤ N * 2 ^ (K - 149)) ∧
    ((N : ℚ) / 2 ^ 149 ≤ (M : ℚ) / 2 ^ K ↔ N * 2 ^ (K - 149) ≤ M) := by
  have hK2 : K = 149 + (K - 149) := by omega
  have e : (2 : ℚ) ^ K = 2 ^ 149 * 2 ^ (K - 149) := by
    conv_lhs => rw [hK2]
    rw [pow_add]
  have hp : (0 : ℚ) < 2 ^ 149 := by positivity
  have hp2 : (0 : ℚ) < 2 ^ 149 * 2 ^ (K - 149) := by positivity
  have hc : ((N * 2 ^ (K - 149) : ℕ) : ℚ) = (N : ℚ) * 2 ^ (K - 149) := by push_cast; ring
  constructor
  · rw [e, div_le_div_iff₀ hp2 hp]
    constructor
    · intro h
      have h2 : (M : ℚ) * 2 ^ 149 ≤ (N : ℚ) * 2 ^ (K - 149) * 2 ^ 149 := by linarith
      have h3 : (M : ℚ) ≤ ((N * 2 ^ (K - 149) : ℕ) : ℚ) := by
        rw [hc]; exact le_of_mul_le_mul_right h2 hp
      exact_mod_cast h3
    · intro h
      have h3 : (M : ℚ) ≤ ((N * 2 ^ (K - 149) : ℕ) : ℚ) := by exact_mod_cast h
      rw [hc] at h3
      have := mul_le_mul_of_nonneg_right h3 (le_of_lt hp)
      linarith
  · rw [e, div_le_div_iff₀ hp hp2]
    constructor
    · intro h
      have h2 : (N : ℚ) * 2 ^ (K - 149) * 2 ^ 149 ≤ (M : ℚ) * 2 ^ 149 := by linarith
      have h3 : ((N * 2 ^ (K - 149) : ℕ) : ℚ) ≤ (M : ℚ) := by
        rw [hc]; exact le_of_mul_le_mul_right h2 hp
      exact_mod_cast h3
    · intro h
      have h3 : ((N * 2 ^ (K - 149) : ℕ) : ℚ) ≤ (M : ℚ) := by exact_mod_cast h
      rw [hc] at h3
      have := mul_le_mul_of_nonneg_right h3 (le_of_lt hp)
      linarith

/-- The value of a pattern as signed magnitude. -/
theorem f32_toRat_signed (x : Nat) :
    f32_toRat x = (if f32_sign x = 1 then -1 else 1) * ((f32_mag x : ℚ) / 2 ^ 149) := by
  unfold f32_toRat f32_val
  split_ifs <;> push_cast <;> ring

/-- A rounding stays below every representable number above the exact value. -/
theorem f32_round_le (s M K c j : Nat) (B : ℚ) (hs : s < 2) (hK : 149 ≤ K) (hc : c ≤ 2 ^ 24)
    (hfin : c * 2 ^ j < 2 ^ 277) (hB : |B| = ((c * 2 ^ j : ℕ) : ℚ) / 2 ^ 149)
    (h : (if s = 1 then -1 else 1) * ((M : ℚ) / 2 ^ K) ≤ B) :
    f32_toRat (f32_round s M K) ≤ B := by
  obtain ⟨_, _, -, -, -, -, -, -, hsign, -, -⟩ := f32_round_spec s M K hs hK
  obtain ⟨r1, r2⟩ := rat_le_iff_scaled M (c * 2 ^ j) K hK
  rw [f32_toRat_signed, hsign]
  have hm0 : (0 : ℚ) ≤ (f32_mag (f32_round s M K) : ℚ) / 2 ^ 149 := by positivity
  have hM0 : (0 : ℚ) ≤ (M : ℚ) / 2 ^ K := by positivity
  by_cases h1 : s = 1
  · rw [if_pos h1] at h ⊢
    by_cases hB0 : 0 ≤ B
    · linarith
    · rw [abs_of_neg (by linarith)] at hB
      have h3 : ((c * 2 ^ j : ℕ) : ℚ) / 2 ^ 149 ≤ (M : ℚ) / 2 ^ K := by linarith
      have h4 := f32_round_lower s M K c j hs hK hc hfin (r2.1 h3)
      have h5 : ((c * 2 ^ j : ℕ) : ℚ) / 2 ^ 149
          ≤ (f32_mag (f32_round s M K) : ℚ) / 2 ^ 149 :=
        div_le_div_of_nonneg_right (by exact_mod_cast h4) (by positivity)
      linarith
  · rw [if_neg h1] at h ⊢
    have hB0 : 0 ≤ B := by linarith
    rw [abs_of_nonneg hB0] at hB
    have h3 : (M : ℚ) / 2 ^ K ≤ ((c * 2 ^ j : ℕ) : ℚ) / 2 ^ 149 := by linarith
    have h4 := f32_round_upper s M K c j hs hK hc hfin (r1.1 h3)
    have h5 : (f32_mag (f32_round s M K) : ℚ) / 2 ^ 149
        ≤ ((c * 2 ^ j : ℕ) : ℚ) / 2 ^ 149 :=
      div_le_div_of_nonneg_right (by exact_mod_cast h4) (by positivity)
    linarith

/-- A rounding stays above every representable number below the exact value. -/
theorem f32_round_ge (s M K c j : Nat) (B : ℚ) (hs : s < 2) (hK : 149 ≤ K) (hc : c ≤ 2 ^ 24)
    (hfin : c * 2 ^ j < 2 ^ 277) (hB : |B| = ((c * 2 ^ j : ℕ) : ℚ) / 2 ^ 149)
    (h : B ≤ (if s = 1 then -1 else 1) * ((M : ℚ) / 2 ^ K)) :
    B ≤ f32_toRat (f32_round s M K) := by
  obtain ⟨_, _, -, -, -, -, -, -, hsign, -, -⟩ := f32_round_spec s M K hs hK
  obtain ⟨r1, r2⟩ := rat_le_iff_scaled M (c * 2 ^ j) K hK
  rw [f32_toRat_signed, hsign]
  have hm0 : (0 : ℚ) ≤ (f32_mag (f32_round s M K) : ℚ) / 2 ^ 149 := by positivity
  have hM0 : (0 : ℚ) ≤ (M : ℚ) / 2 ^ K := by positivity
  by_cases h1 : s = 1
  · rw [if_pos h1] at h ⊢
    have hB0 : B ≤ 0 := by linarith
    rw [abs_of_nonpos hB0] at hB
    have h3 : (M : ℚ) / 2 ^ K ≤ ((c * 2 ^ j : ℕ) : ℚ) / 2 ^ 149 := by linarith
    have h4 := f32_round_upper s M K c j hs hK hc hfin (r1.1 h3)
    have h5 : (f32_mag (f32_round s M K) : ℚ) / 2 ^ 149
        ≤ ((c * 2 ^ j : ℕ) : ℚ) / 2 ^ 149 :=
      div_le_div_of_nonneg_right (by exact_mod_cast h4) (by positivity)
    linarith
  · rw [if_neg h1] at h ⊢
    by_cases hB0 : B ≤ 0
    · linarith
    · rw [abs_of_pos (by linarith)] at hB
      have h3 : ((c * 2 ^ j : ℕ) : ℚ) / 2 ^ 149 ≤ (M : ℚ) / 2 ^ K := by linarith
      have h4 := f32_round_lower s M K c j hs hK hc hfin (r2.1 h3)
      have h5 : ((c * 2 ^ j : ℕ) : ℚ) / 2 ^ 149
          ≤ (f32_mag (f32_round s M K) : ℚ) / 2 ^ 149 :=
        div_le_div_of_nonneg_right (by exact_mod_cast h4) (by positivity)
      linarith

/-- A magnitude below that of infinity belongs to a finite number. -/
theorem f32_finite_of_mag (a : Nat) (h : f32_mag a < 2 ^ 277) :
    f32_isNaN a = false ∧ f32_isInf a = false := by
  have hexp : f32_exp a ≠ 255 := by
    intro he
    unfold f32_mag at h
    rw [he] at h
    simp only [show (255 : ℕ) ≠ 0 by norm_num, if_false] at h
    have h1 : 2 ^ 23 * 2 ^ (255 - 1) ≤ (2 ^ 23 + f32_frac a) * 2 ^ (255 - 1) :=
      Nat.mul_le_mul_right _ (by omega)
    have h2 : (2 : ℕ) ^ 23 * 2 ^ (255 - 1) = 2 ^ 277 := by norm_num
    omega
  unfold f32_isNaN f32_isInf
  simp [hexp]

/-- A value strictly between the two infinities belongs to a finite number. -/
theorem f32_mag_lt_of_bounds (a : Nat) (lo hi : ℚ) (h1 : lo ≤ f32_toRat a)
    (h2 : f32_toRat a ≤ hi) (hlo : -(2 ^ 128) < lo) (hhi : hi < 2 ^ 128) :
    f32_mag a < 2 ^ 277 := by
  have habs : |f32_toRat a| < 2 ^ 128 := abs_lt.2 ⟨by linarith, by linarith⟩
  rw [abs_f32_toRat, div_lt_iff₀ (by positivity)] at habs
  have e : (2 : ℚ) ^ 128 * 2 ^ 149 = ((2 ^ 277 : ℕ) : ℚ) := by norm_num
  rw [e] at habs
  exact_mod_cast habs

/-- The exact product of two values as a signed magnitude at scale `2 ^ 298`. -/
theorem f32_mul_exact (a b : Nat) :
    (if (f32_sign a + f32_sign b) % 2 = 1 then -1 else 1)
        * (((f32_mag a * f32_mag b : ℕ) : ℚ) / 2 ^ 298)
      = f32_toRat a * f32_toRat b := by
  have e : (2 : ℚ) ^ 298 = 2 ^ 149 * 2 ^ 149 := by rw [← pow_add]
  have hP : (2 : ℚ) ^ 149 ≠ 0 := by positivity
  rw [f32_toRat_signed a, f32_toRat_signed b, e, Nat.cast_mul]
  generalize (2 : ℚ) ^ 149 = P at hP ⊢
  generalize (f32_mag a : ℚ) = x
  generalize (f32_mag b : ℚ) = y
  rcases f32_sign_cases a with ha | ha <;> rcases f32_sign_cases b with hb | hb <;>
    rw [ha, hb] <;> simp <;> field_simp

theorem f32_mul_le (a b c j : Nat) (B : ℚ) (fa : f32_mag a < 2 ^ 277)
    (fb : f32_mag b < 2 ^ 277) (hc : c ≤ 2 ^ 24) (hfin : c * 2 ^ j < 2 ^ 277)
    (hB : |B| = ((c * 2 ^ j : ℕ) : ℚ) / 2 ^ 149) (h : f32_toRat a * f32_toRat b ≤ B) :
    f32_toRat (f32_mul a b) ≤ B := by
  obtain ⟨a1, a2⟩ := f32_finite_of_mag a fa
  obtain ⟨b1, b2⟩ := f32_finite_of_mag b fb
  unfold f32_mul
  simp only [a1, a2, b1, b2, Bool.or_self, Bool.false_eq_true, if_false]
  apply f32_round_le _ _ _ c j B (Nat.mod_lt _ (by norm_num)) (by norm_num) hc hfin hB
  rw [f32_mul_exact]
  exact h

theorem f32_mul_ge (a b c j : Nat) (B : ℚ) (fa : f32_mag a < 2 ^ 277)
    (fb : f32_mag b < 2 ^ 277) (hc : c ≤ 2 ^ 24) (hfin : c * 2 ^ j < 2 ^ 277)
    (hB : |B| = ((c * 2 ^ j : ℕ) : ℚ) / 2 ^ 149) (h : B ≤ f32_toRat a * f32_toRat b) :
    B ≤ f32_toRat (f32_mul a b) := by
  obtain ⟨a1, a2⟩ := f32_finite_of_mag a fa
  obtain ⟨b1, b2⟩ := f32_finite_of_mag b fb
  unfold f32_mul
  simp only [a1, a2, b1, b2, Bool.or_self, Bool.false_eq_true, if_false]
  apply f32_round_ge _ _ _ c j B (Nat.mod_lt _ (by norm_num)) (by norm_num) hc hfin hB
  rw [f32_mul_exact]
  exact h

/-- The exact sum of two values, by cases on the signs, as the signed magnitudes that `f32_add`
rounds. -/
theorem f32_add_exact (a b : Nat) :
    (f32_sign a = f32_sign b →
      (if f32_sign a = 1 then -1 else 1) * (((f32_mag a + f32_mag b : ℕ) : ℚ) / 2 ^ 149)
        = f32_toRat a + f32_toRat b) ∧
    (f32_sign a ≠ f32_sign b → f32_mag b ≤ f32_mag a →
      (if f32_sign a = 1 then -1 else 1) * (((f32_mag a - f32_mag b : ℕ) : ℚ) / 2 ^ 149)
        = f32_toRat a + f32_toRat b) ∧
    (f32_sign a ≠ f32_sign b → f32_mag a ≤ f32_mag b →
      (if f32_sign b = 1 then -1 else 1) * (((f32_mag b - f32_mag a : ℕ) : ℚ) / 2 ^ 149)
        = f32_toRat a + f32_toRat b) := by
  rw [f32_toRat_signed a, f32_toRat_signed b]
  refine ⟨?_, ?_, ?_⟩
  · intro h
    rw [h, Nat.cast_add]
    ring
  · intro h hle
    rw [Nat.cast_sub hle]
    rcases f32_sign_cases a with ha | ha <;> rcases f32_sign_cases b with hb | hb <;>
      rw [ha, hb] at h ⊢ <;> simp at h ⊢ <;> ring
  · intro h hle
    rw [Nat.cast_sub hle]
    rcases f32_sign_cases a with ha | ha <;> rcases f32_sign_cases b with hb | hb <;>
      rw [ha, hb] at h ⊢ <;> simp at h ⊢ <;> ring

theorem f32_add_le (a b c j : Nat) (B : ℚ) (fa : f32_mag a < 2 ^ 277)
    (fb : f32_mag b < 2 ^ 277) (hc : c ≤ 2 ^ 24) (hfin : c * 2 ^ j < 2 ^ 277)
    (hB : |B| = ((c * 2 ^ j : ℕ) : ℚ) / 2 ^ 149) (h : f32_toRat a + f32_toRat b ≤ B) :
    f32_toRat (f32_add a b) ≤ B := by
  obtain ⟨a1, a2⟩ := f32_finite_of_mag a fa
  obtain ⟨b1, b2⟩ := f32_finite_of_mag b fb
  obtain ⟨e1, e2, e3⟩ := f32_add_exact a b
  unfold f32_add
  simp only [a1, a2, b1, b2, Bool.or_self, Bool.false_eq_true, if_false]
  split_ifs with h1 h2 h3
  · apply f32_round_le _ _ _ c j B (f32_sign_lt_two a) (by norm_num) hc hfin hB
    rw [e1 h1]; exact h
  · apply f32_round_le _ _ _ c j B (f32_sign_lt_two a) (by norm_num) hc hfin hB
    rw [e2 h1 (by omega)]; exact h
  · apply f32_round_le _ _ _ c j B (f32_sign_lt_two b) (by norm_num) hc hfin hB
    rw [e3 h1 (by omega)]; exact h
  · have h0 := e2 h1 (by omega)
    have hz : f32_mag a - f32_mag b = 0 := by omega
    rw [hz] at h0
    have hv : f32_toRat 0 = 0 := by
      rw [f32_toRat_signed]
      have : f32_mag 0 = 0 := by decide
      rw [this]; simp
    rw [hv]
    simp at h0
    linarith

theorem f32_add_ge (a b c j : Nat) (B : ℚ) (fa : f32_mag a < 2 ^ 277)
    (fb : f32_mag b < 2 ^ 277) (hc : c ≤ 2 ^ 24) (hfin : c * 2 ^ j < 2 ^ 277)
    (hB : |B| = ((c * 2 ^ j : ℕ) : ℚ) / 2 ^ 149) (h : B ≤ f32_toRat a + f32_toRat b) :
    B ≤ f32_toRat (f32_add a b) := by
  obtain ⟨a1, a2⟩ := f32_finite_of_mag a fa
  obtain ⟨b1, b2⟩ := f32_finite_of_mag b fb
  obtain ⟨e1, e2, e3⟩ := f32_add_exact a b
  unfold f32_add
  simp only [a1, a2, b1, b2, Bool.or_self, Bool.false_eq_true, if_false]
  split_ifs with h1 h2 h3
  · apply f32_round_ge _ _ _ c j B (f32_sign_lt_two a) (by norm_num) hc hfin hB
    rw [e1 h1]; exact h
  · apply f32_round_ge _ _ _ c j B (f32_sign_lt_two a) (by norm_num) hc hfin hB
    rw [e2 h1 (by omega)]; exact h
  · apply f32_round_ge _ _ _ c j B (f32_sign_lt_two b) (by norm_num) hc hfin hB
    rw [e3 h1 (by omega)]; exact h
  · have h0 := e2 h1 (by omega)
    have hz : f32_mag a - f32_mag b = 0 := by omega
    rw [hz] at h0
    have hv : f32_toRat 0 = 0 := by
      rw [f32_toRat_signed]
      have : f32_mag 0 = 0 := by decide
      rw [this]; simp
    rw [hv]
    simp at h0
    linarith

/-- A representable bound is below `2 ^ 128`. -/
theorem repr_bound_lt (c j : Nat) (B : ℚ) (hfin : c * 2 ^ j < 2 ^ 277)
    (hB : B = ((c * 2 ^ j : ℕ) : ℚ) / 2 ^ 149) : 0 ≤ B ∧ B < 2 ^ 128 := by
  constructor
  · rw [hB]; positivity
  · rw [hB, div_lt_iff₀ (by positivity)]
    have e : (2 : ℚ) ^ 128 * 2 ^ 149 = ((2 ^ 277 : ℕ) : ℚ) := by norm_num
    rw [e]
    exact_mod_cast hfin

/-- Interval form of the bound for a product. -/
theorem f32_mul_abs (a b c j : Nat) (B : ℚ) (fa : f32_mag a < 2 ^ 277)
    (fb : f32_mag b < 2 ^ 277) (hc : c ≤ 2 ^ 24) (hfin : c * 2 ^ j < 2 ^ 277)
    (hB : B = ((c * 2 ^ j : ℕ) : ℚ) / 2 ^ 149) (h : |f32_toRat a| * |f32_toRat b| ≤ B) :
    |f32_toRat (f32_mul a b)| ≤ B ∧ f32_mag (f32_mul a b) < 2 ^ 277 := by
  obtain ⟨hB0, hB1⟩ := repr_bound_lt c j B hfin hB
  rw [← abs_mul] at h
  obtain ⟨h1, h2⟩ := abs_le.1 h
  have g1 := f32_mul_le a b c j B fa fb hc hfin (by rw [abs_of_nonneg hB0]; exact hB) h2
  have g2 := f32_mul_ge a b c j (-B) fa fb hc hfin
    (by rw [abs_neg, abs_of_nonneg hB0]; exact hB) h1
  exact ⟨abs_le.2 ⟨g2, g1⟩, f32_mag_lt_of_bounds _ (-B) B g2 g1 (by linarith) hB1⟩

/-- Interval form of the bound for a sum. -/
theorem f32_add_abs (a b c j : Nat) (B : ℚ) (fa : f32_mag a < 2 ^ 277)
    (fb : f32_mag b < 2 ^ 277) (hc : c ≤ 2 ^ 24) (hfin : c * 2 ^ j < 2 ^ 277)
    (hB : B = ((c * 2 ^ j : ℕ) : ℚ) / 2 ^ 149) (h : |f32_toRat a| + |f32_toRat b| ≤ B) :
    |f32_toRat (f32_add a b)| ≤ B ∧ f32_mag (f32_add a b) < 2 ^ 277 := by
  obtain ⟨hB0, hB1⟩ := repr_bound_lt c j B hfin hB
  have h3 : |f32_toRat a + f32_toRat b| ≤ B := le_trans (abs_add _ _) h
  obtain ⟨h1, h2⟩ := abs_le.1 h3
  have g1 := f32_add_le a b c j B fa fb hc hfin (by rw [abs_of_nonneg hB0]; exact hB) h2
  have g2 := f32_add_ge a b c j (-B) fa fb hc hfin
    (by rw [abs_neg, abs_of_nonneg hB0]; exact hB) h1
  exact ⟨abs_le.2 ⟨g2, g1⟩, f32_mag_lt_of_bounds _ (-B) B g2 g1 (by linarith) hB1⟩

/-- A rounding is within half a unit of the last kept bit: if `M < 2 ^ (Q + 24)` the result is
within `2 ^ Q / 2` of `M`. -/
theorem f32_round_near (s M K Q : Nat) (hs : s < 2) (hK : 149 ≤ K) (hQ : K - 149 ≤ Q)
    (hM : M < 2 ^ (Q + 24)) (hov : M + 2 ^ Q ≤ 2 ^ 277 * 2 ^ (K - 149)) :
    2 * (f32_mag (f32_round s M K) * 2 ^ (K - 149)) ≤ 2 * M + 2 ^ Q ∧
    2 * M ≤ 2 * (f32_mag (f32_round s M K) * 2 ^ (K - 149)) + 2 ^ Q := by
  obtain ⟨q, m, hq, -, hlow, hup, hdn, -, -, hmag, -⟩ := f32_round_spec s M K hs hK
  have hqQ : q ≤ Q := by
    by_contra hcon
    have h1 := hlow (by omega)
    have h2 : 2 ^ (Q + 24) ≤ 2 ^ (q + 23) := Nat.pow_le_pow_right (by norm_num) (by omega)
    omega
  have hpow : 2 ^ q ≤ 2 ^ Q := Nat.pow_le_pow_right (by norm_num) hqQ
  have hP : 0 < 2 ^ q := Nat.two_pow_pos q
  rw [hmag (by omega)]
  constructor <;> omega

/-- A bound `c / 2 ^ i` in units of `2 ^ (-149)`. -/
theorem repr_eq (c i : Nat) (hi : i ≤ 149) :
    ((c * 2 ^ (149 - i) : ℕ) : ℚ) / 2 ^ 149 = (c : ℚ) / 2 ^ i := by
  have e : (2 : ℚ) ^ (149 - i) * 2 ^ i = 2 ^ 149 := by
    rw [← pow_add, Nat.sub_add_cancel hi]
  have h1 : (2 : ℚ) ^ i ≠ 0 := by positivity
  have h2 : (2 : ℚ) ^ (149 - i) ≠ 0 := by positivity
  rw [← e, Nat.cast_mul, Nat.cast_pow, Nat.cast_ofNat]
  field_simp
  ring

theorem repr_fin (c i : Nat) (hc : c ≤ 2 ^ 24) : c * 2 ^ (149 - i) < 2 ^ 277 := by
  have h1 : c * 2 ^ (149 - i) ≤ 2 ^ 24 * 2 ^ 149 :=
    Nat.mul_le_mul hc (Nat.pow_le_pow_right (by norm_num) (by omega))
  have h2 : (2 : ℕ) ^ 24 * 2 ^ 149 < 2 ^ 277 := by norm_num
  omega

/-- A value of magnitude at most `2 ^ 24` belongs to a finite number. -/
theorem f32_mag_lt_of_abs (a : Nat) (B : ℚ) (h : |f32_toRat a| ≤ B) (hB : B ≤ 2 ^ 24) :
    f32_mag a < 2 ^ 277 := by
  obtain ⟨h1, h2⟩ := abs_le.1 h
  have e : (2 : ℚ) ^ 24 < 2 ^ 128 := by norm_num
  exact f32_mag_lt_of_bounds a (-B) B h1 h2 (by linarith) (by linarith)

theorem f32_add_ub (a b c i : Nat) (B : ℚ) (fa : f32_mag a < 2 ^ 277)
    (fb : f32_mag b < 2 ^ 277) (hc : c ≤ 2 ^ 24) (hi : i ≤ 149) (hB : |B| = (c : ℚ) / 2 ^ i)
    (h : f32_toRat a + f32_toRat b ≤ B) : f32_toRat (f32_add a b) ≤ B :=
  f32_add_le a b c (149 - i) B fa fb hc (repr_fin c i hc) (by rw [repr_eq c i hi]; exact hB) h

theorem f32_add_lb (a b c i : Nat) (B : ℚ) (fa : f32_mag a < 2 ^ 277)
    (fb : f32_mag b < 2 ^ 277) (hc : c ≤ 2 ^ 24) (hi : i ≤ 149) (hB : |B| = (c : ℚ) / 2 ^ i)
    (h : B ≤ f32_toRat a + f32_toRat b) : B ≤ f32_toRat (f32_add a b) :=
  f32_add_ge a b c (149 - i) B fa fb hc (repr_fin c i hc) (by rw [repr_eq c i hi]; exact hB) h

theorem f32_mul_ub (a b c i : Nat) (B : ℚ) (fa : f32_mag a < 2 ^ 277)
    (fb : f32_mag b < 2 ^ 277) (hc : c ≤ 2 ^ 24) (hi : i ≤ 149) (hB : |B| = (c : ℚ) / 2 ^ i)
    (h : f32_toRat a * f32_toRat b ≤ B) : f32_toRat (f32_mul a b) ≤ B :=
  f32_mul_le a b c (149 - i) B fa fb hc (repr_fin c i hc) (by rw [repr_eq c i hi]; exact hB) h

theorem f32_mul_lb (a b c i : Nat) (B : ℚ) (fa : f32_mag a < 2 ^ 277)
    (fb : f32_mag b < 2 ^ 277) (hc : c ≤ 2 ^ 24) (hi : i ≤ 149) (hB : |B| = (c : ℚ) / 2 ^ i)
    (h : B ≤ f32_toRat a * f32_toRat b) : B ≤ f32_toRat (f32_mul a b) :=
  f32_mul_ge a b c (149 - i) B fa fb hc (repr_fin c i hc) (by rw [repr_eq c i hi]; exact hB) h

/-- Interval form for a product: `|a * b| ≤ c / 2 ^ i` survives the rounding. -/
theorem f32_mul_bound (a b c i : Nat) (A B : ℚ) (fa : f32_mag a < 2 ^ 277)
    (fb : f32_mag b < 2 ^ 277) (hc : c ≤ 2 ^ 24) (hi : i ≤ 149)
    (ha : |f32_toRat a| ≤ A) (hb : |f32_toRat b| ≤ B) (hAB : A * B ≤ (c : ℚ) / 2 ^ i) :
    |f32_toRat (f32_mul a b)| ≤ (c : ℚ) / 2 ^ i ∧ f32_mag (f32_mul a b) < 2 ^ 277 := by
  have hA0 : 0 ≤ A := le_trans (abs_nonneg _) ha
  have h : |f32_toRat a| * |f32_toRat b| ≤ (c : ℚ) / 2 ^ i :=
    le_trans (mul_le_mul ha hb (abs_nonneg _) hA0) hAB
  exact f32_mul_abs a b c (149 - i) _ fa fb hc (repr_fin c i hc) (repr_eq c i hi).symm h

/-- Interval form for a sum: `|a| + |b| ≤ c / 2 ^ i` survives the rounding. -/
theorem f32_add_bound (a b c i : Nat) (A B : ℚ) (fa : f32_mag a < 2 ^ 277)
    (fb : f32_mag b < 2 ^ 277) (hc : c ≤ 2 ^ 24) (hi : i ≤ 149)
    (ha : |f32_toRat a| ≤ A) (hb : |f32_toRat b| ≤ B) (hAB : A + B ≤ (c : ℚ) / 2 ^ i) :
    |f32_toRat (f32_add a b)| ≤ (c : ℚ) / 2 ^ i ∧ f32_mag (f32_add a b) < 2 ^ 277 := by
  have h : |f32_toRat a| + |f32_toRat b| ≤ (c : ℚ) / 2 ^ i := by linarith
  exact f32_add_abs a b c (149 - i) _ fa fb hc (repr_fin c i hc) (repr_eq c i hi).symm h

/-! ## The reduced argument of the scalar tanh kernel -/

/-- The rounding of `f32_round_scalar_bias`, with the distance of the result from the exact
value: `k / 2` is within `1 / 4` of `u / 2 ^ 149`. -/
theorem f32_round_scalar_bias_near (u : Nat) (hu : u ≤ 26 * 2 ^ 148) :
    ∃ k, k ≤ 26 ∧ f32_round 0 (0xC0007F * 2 ^ 148 - u) 149 = 0x4AC0007F - k ∧
      u ≤ k * 2 ^ 148 + 2 ^ 147 ∧ k * 2 ^ 148 ≤ u + 2 ^ 147 := by
  obtain ⟨k, hk, hr⟩ := f32_round_scalar_bias u hu
  obtain ⟨-, hm, -⟩ := magic_bias_patterns k hk
  obtain ⟨n1, n2⟩ := f32_round_near 0 (0xC0007F * 2 ^ 148 - u) 149 148 (by norm_num)
    (by norm_num) (by norm_num) (by omega) (by omega)
  rw [hr, hm] at n1 n2
  refine ⟨k, hk, hr, ?_, ?_⟩ <;> omega

/-- Range reduction of the scalar variant with the distance of `k / 2` from `z * log2(e)`: at
most `1 / 4 + 2 ^ (-21)`. -/
theorem scalar_vn_biased_near (z : Nat) (hz : z < 2 ^ 31) (hnan : f32_isNaN z = false)
    (hle : f32_mag z * 1000000 ≤ 9010913 * 2 ^ 149) :
    ∃ k, k ≤ 26 ∧ tanh_scalar_expm1_rr2_p6_div.vn_biased z = 0x4AC0007F - k ∧
      f32_mag z * (0xB8AA3B * 2 ^ 126) ≤ k * 2 ^ 297 + 2 ^ 296 + 2 ^ 277 ∧
      k * 2 ^ 297 ≤ f32_mag z * (0xB8AA3B * 2 ^ 126) + 2 ^ 296 + 2 ^ 277 := by
  have hs : f32_sign z = 0 := f32_sign_of_lt z hz
  have hinf : f32_isInf z = false := f32_isInf_false_of_mag_lt z (by omega)
  have c1 : f32_sign 0xBFB8AA3B = 1 := by decide
  have c2 : f32_isNaN 0xBFB8AA3B = false := by decide
  have c3 : f32_isInf 0xBFB8AA3B = false := by decide
  have c4 : f32_mag 0xBFB8AA3B = 0xB8AA3B * 2 ^ 126 := by decide
  have b1 : f32_sign 0x4AC0007F = 0 := by decide
  have b2 : f32_isNaN 0x4AC0007F = false := by decide
  have b3 : f32_isInf 0x4AC0007F = false := by decide
  have b4 : f32_mag 0x4AC0007F = 0xC0007F * 2 ^ 148 := by decide
  have hp : f32_mag z * (0xB8AA3B * 2 ^ 126) < 13 * 2 ^ 298 := by
    have h1 : f32_mag z ≤ 9010913 * 2 ^ 149 / 1000000 := by omega
    have h2 : f32_mag z * (0xB8AA3B * 2 ^ 126)
        ≤ 9010913 * 2 ^ 149 / 1000000 * (0xB8AA3B * 2 ^ 126) := Nat.mul_le_mul_right _ h1
    have h3 : 9010913 * 2 ^ 149 / 1000000 * (0xB8AA3B * 2 ^ 126) < 13 * 2 ^ 298 := by
      norm_num
    omega
  obtain ⟨b, hb, hr⟩ := f32_round_lt_13 _ hp
  obtain ⟨n1, n2⟩ := f32_round_near 1 (f32_mag z * (0xB8AA3B * 2 ^ 126)) 298 278
    (by norm_num) (by norm_num) (by norm_num) (by omega) (by omega)
  have hmul : f32_mul z 0xBFB8AA3B = 2 ^ 31 + b := by
    unfold f32_mul
    simp only [hs, hnan, hinf, c1, c2, c3, c4, Bool.or_self, Bool.false_eq_true, if_false]
    exact hr
  obtain ⟨f1, f2, f3, f4⟩ := f32_fields_neg b (by omega)
  rw [hr, f4] at n1 n2
  have hexp : f32_exp b ≤ 130 := by
    unfold f32_exp; omega
  have r2 : f32_isNaN (2 ^ 31 + b) = false := by
    unfold f32_isNaN; rw [f2]
    have : ¬ f32_exp b = 255 := by omega
    simp [this]
  have r3 : f32_isInf (2 ^ 31 + b) = false := by
    unfold f32_isInf; rw [f2]
    have : ¬ f32_exp b = 255 := by omega
    simp [this]
  have hmag : f32_mag b ≤ 26 * 2 ^ 148 := by
    have h1 := f32_mag_mono b 0x41500000 (by omega) (by norm_num) hb
    have h2 : f32_mag 0x41500000 = 26 * 2 ^ 148 := by decide
    omega
  obtain ⟨k, hk, hr2, m1, m2⟩ := f32_round_scalar_bias_near _ hmag
  refine ⟨k, hk, ?_, by omega, by omega⟩
  unfold tanh_scalar_expm1_rr2_p6_div.vn_biased tanh_scalar_expm1_rr2_p6_div.vminus_log2e
    tanh_scalar_expm1_rr2_p6_div.vmagic_bias
  rw [hmul]
  unfold f32_add
  simp only [r2, r3, b1, b2, b3, b4, f1, f4, Bool.or_self, Bool.false_eq_true, if_false]
  rw [if_neg (by decide), if_neg (by omega), if_pos (by omega)]
  exact hr2

/-- The products `vn * vln2_hi` and `vn * vln2_lo` for the 27 values `vn = -k / 2` of the range
reduction. -/
theorem scalar_vt_patterns :
    ∀ k, k ≤ 26 →
      f32_mag (f32_mul (f32_sub (0x4AC0007F - k) 0x4AC0007F) 0x3F317210) < 2 ^ 277 ∧
      f32_sign (f32_mul (f32_sub (0x4AC0007F - k) 0x4AC0007F) 0x3F317210)
        = (if k = 0 then 0 else 1) ∧
      k * (0xB17210 * 2 ^ 124)
        ≤ f32_mag (f32_mul (f32_sub (0x4AC0007F - k) 0x4AC0007F) 0x3F317210) + 2 ^ 128 ∧
      f32_mag (f32_mul (f32_sub (0x4AC0007F - k) 0x4AC0007F) 0x3F317210)
        ≤ k * (0xB17210 * 2 ^ 124) + 2 ^ 128 := by
  decide!

theorem scalar_vt_lo_patterns :
    ∀ k, k ≤ 26 →
      f32_mag (f32_mul (f32_sub (0x4AC0007F - k) 0x4AC0007F) 0x34FEFA3A) ≤ 2 ^ 132 ∧
      f32_sign (f32_mul (f32_sub (0x4AC0007F - k) 0x4AC0007F) 0x34FEFA3A)
        = (if k = 0 then 0 else 1) := by
  decide!

/-- The difference `vs - vone` for the 27 scales `vs = 2 ^ (-k)`: it is `2 ^ (-k) - 1`, rounded
to `-1` for `k = 25` and `k = 26`. -/
theorem scalar_vsm1_patterns :
    ∀ k, k ≤ 26 →
      f32_mag (f32_sub ((127 - k) * 2 ^ 23) 0x3F800000) + 2 ^ (149 - k) ≤ 2 ^ 149 + 2 ^ 124 ∧
      f32_mag (f32_sub ((127 - k) * 2 ^ 23) 0x3F800000) ≤ 2 ^ 149 ∧
      (if k = 0 then f32_mag (f32_sub ((127 - k) * 2 ^ 23) 0x3F800000) = 0
        else 2 ^ 148 ≤ f32_mag (f32_sub ((127 - k) * 2 ^ 23) 0x3F800000)) ∧
      f32_sign (f32_sub ((127 - k) * 2 ^ 23) 0x3F800000) = (if k = 0 then 0 else 1) := by
  decide!

/-- Value of a pattern whose sign bit is set exactly when `k ≠ 0`. -/
theorem f32_toRat_of_sign_ite (x k : Nat) (hs : f32_sign x = (if k = 0 then 0 else 1)) :
    (k = 0 → f32_toRat x = (f32_mag x : ℚ) / 2 ^ 149) ∧
    (k ≠ 0 → f32_toRat x = -((f32_mag x : ℚ) / 2 ^ 149)) := by
  constructor
  · intro h0
    rw [if_pos h0] at hs
    exact f32_toRat_of_pos x hs
  · intro h0
    rw [if_neg h0] at hs
    exact f32_toRat_of_neg x hs

/-- The reduced argument of the scalar variant: for `0 ≤ z ≤ 9.010913`, `|vt| ≤ 1 / 4`, and
`vt ≥ 0` when `n = 0`. -/
theorem scalar_vt_bound (z : Nat) (hz : z < 2 ^ 31) (hnan : f32_isNaN z = false)
    (hle : f32_mag z * 1000000 ≤ 9010913 * 2 ^ 149) :
    ∃ k, k ≤ 26 ∧ tanh_scalar_expm1_rr2_p6_div.vn_biased z = 0x4AC0007F - k ∧
      |f32_toRat (tanh_scalar_expm1_rr2_p6_div.vt z)| ≤ 1 / 4 ∧
      f32_mag (tanh_scalar_expm1_rr2_p6_div.vt z) < 2 ^ 277 ∧
      (k = 0 → 0 ≤ f32_toRat (tanh_scalar_expm1_rr2_p6_div.vt z)) := by
  obtain ⟨k, hk, hv, n1, n2⟩ := scalar_vn_biased_near z hz hnan hle
  obtain ⟨p1, p2, p3, p4⟩ := scalar_vt_patterns k hk
  obtain ⟨l1, l2⟩ := scalar_vt_lo_patterns k hk
  refine ⟨k, hk, hv, ?_⟩
  have hvn : tanh_scalar_expm1_rr2_p6_div.vn z = f32_sub (0x4AC0007F - k) 0x4AC0007F := by
    unfold tanh_scalar_expm1_rr2_p6_div.vn tanh_scalar_expm1_rr2_p6_div.vmagic_bias
    rw [hv]
  have hvt : tanh_scalar_expm1_rr2_p6_div.vt z
      = f32_add (f32_mul (f32_sub (0x4AC0007F - k) 0x4AC0007F) 0x34FEFA3A)
          (f32_add (f32_mul (f32_sub (0x4AC0007F - k) 0x4AC0007F) 0x3F317210) z) := by
    rw [← hvn]; rfl
  rw [hvt]
  have hzs : f32_sign z = 0 := f32_sign_of_lt z hz
  have hzv : f32_toRat z = (f32_mag z : ℚ) / 2 ^ 149 := f32_toRat_of_pos z hzs
  have hzfin : f32_mag z < 2 ^ 277 := by omega
  have hkq : (k : ℚ) ≤ 26 := by exact_mod_cast hk
  have hk0 : (0 : ℚ) ≤ (k : ℚ) := Nat.cast_nonneg _
  have hZ0 : (0 : ℚ) ≤ (f32_mag z : ℚ) := Nat.cast_nonneg _
  have n1q : (f32_mag z : ℚ) * (0xB8AA3B * 2 ^ 126) ≤ (k : ℚ) * 2 ^ 297 + 2 ^ 296 + 2 ^ 277 := by
    exact_mod_cast n1
  have n2q : (k : ℚ) * 2 ^ 297 ≤ (f32_mag z : ℚ) * (0xB8AA3B * 2 ^ 126) + 2 ^ 296 + 2 ^ 277 := by
    exact_mod_cast n2
  have p3q : (k : ℚ) * (0xB17210 * 2 ^ 124)
      ≤ (f32_mag (f32_mul (f32_sub (0x4AC0007F - k) 0x4AC0007F) 0x3F317210) : ℚ) + 2 ^ 128 := by
    exact_mod_cast p3
  have p4q : (f32_mag (f32_mul (f32_sub (0x4AC0007F - k) 0x4AC0007F) 0x3F317210) : ℚ)
      ≤ (k : ℚ) * (0xB17210 * 2 ^ 124) + 2 ^ 128 := by
    exact_mod_cast p4
  have l1q : (f32_mag (f32_mul (f32_sub (0x4AC0007F - k) 0x4AC0007F) 0x34FEFA3A) : ℚ)
      ≤ 2 ^ 132 := by
    exact_mod_cast l1
  obtain ⟨s1, s2⟩ := f32_toRat_of_sign_ite _ k p2
  obtain ⟨t1, t2⟩ := f32_toRat_of_sign_ite _ k l2
  generalize f32_mul (f32_sub (0x4AC0007F - k) 0x4AC0007F) 0x3F317210 = a1 at *
  generalize f32_mul (f32_sub (0x4AC0007F - k) 0x4AC0007F) 0x34FEFA3A = a2 at *
  have ha1 : (0 : ℚ) ≤ (f32_mag a1 : ℚ) := Nat.cast_nonneg _
  have ha2 : (0 : ℚ) ≤ (f32_mag a2 : ℚ) := Nat.cast_nonneg _
  have ha2fin : f32_mag a2 < 2 ^ 277 := by omega
  have e1hi : f32_toRat a1 + f32_toRat z ≤ 3 / 16 := by
    rw [hzv]
    by_cases h0 : k = 0
    · rw [s1 h0, div_add_div_same, div_le_iff₀ (by positivity)]
      subst h0
      simp only [Nat.cast_zero, zero_mul, zero_add] at n1q p4q
      linarith
    · rw [s2 h0, ← sub_eq_neg_add, div_sub_div_same, div_le_iff₀ (by positivity)]
      linarith
  have e1lo : -(3 / 16) ≤ f32_toRat a1 + f32_toRat z := by
    rw [hzv]
    by_cases h0 : k = 0
    · rw [s1 h0, div_add_div_same, le_div_iff₀ (by positivity)]
      linarith
    · rw [s2 h0, ← sub_eq_neg_add, div_sub_div_same, le_div_iff₀ (by positivity)]
      linarith
  have e1z : k = 0 → 0 ≤ f32_toRat a1 + f32_toRat z := by
    intro h0
    rw [hzv, s1 h0]
    exact add_nonneg (div_nonneg ha1 (by positivity)) (div_nonneg hZ0 (by positivity))
  have g1hi := f32_add_ub a1 z 3 4 (3 / 16) p1 hzfin (by norm_num) (by norm_num)
    (by norm_num) e1hi
  have g1lo := f32_add_lb a1 z 3 4 (-(3 / 16)) p1 hzfin (by norm_num) (by norm_num)
    (by norm_num) e1lo
  have g1z : k = 0 → 0 ≤ f32_toRat (f32_add a1 z) := fun h0 =>
    f32_add_lb a1 z 0 0 0 p1 hzfin (by norm_num) (by norm_num) (by norm_num) (e1z h0)
  have g1fin := f32_mag_lt_of_abs _ (3 / 16) (abs_le.2 ⟨g1lo, g1hi⟩) (by norm_num)
  have a2abs : |f32_toRat a2| ≤ 1 / 2 ^ 17 := by
    rw [abs_f32_toRat, div_le_div_iff₀ (by positivity) (by positivity)]
    linarith
  obtain ⟨a2lo, a2hi⟩ := abs_le.1 a2abs
  have e17 : (1 : ℚ) / 2 ^ 17 ≤ 1 / 16 := by norm_num
  have g2hi := f32_add_ub a2 (f32_add a1 z) 1 2 (1 / 4) ha2fin g1fin (by norm_num)
    (by norm_num) (by norm_num) (by linarith)
  have g2lo := f32_add_lb a2 (f32_add a1 z) 1 2 (-(1 / 4)) ha2fin g1fin (by norm_num)
    (by norm_num) (by norm_num) (by linarith)
  refine ⟨abs_le.2 ⟨g2lo, g2hi⟩,
    f32_mag_lt_of_abs _ (1 / 4) (abs_le.2 ⟨g2lo, g2hi⟩) (by norm_num), ?_⟩
  intro h0
  apply f32_add_lb a2 (f32_add a1 z) 0 0 0 ha2fin g1fin (by norm_num) (by norm_num)
    (by norm_num)
  have := g1z h0
  have : 0 ≤ f32_toRat a2 := by rw [t1 h0]; exact div_nonneg ha2 (by positivity)
  linarith

/-! ## The output of the scalar tanh kernel is at most 1 in magnitude -/

/-- Magnitudes of the constants of the scalar variant. -/
theorem scalar_constants :
    (f32_mag 0x3DB5B99C = 0xB5B99C * 2 ^ 122 ∧ f32_mag 0xBE8913C7 = 0x8913C7 * 2 ^ 124 ∧
      f32_mag 0x3F2AAB8B = 0xAAAB8B * 2 ^ 125 ∧ f32_mag 0xBFAAAA58 = 0xAAAA58 * 2 ^ 126 ∧
      f32_mag 0x3FFFFFFF = 0xFFFFFF * 2 ^ 126) ∧
    (f32_mag 0xC0000000 = 2 ^ 150 ∧ f32_sign 0xC0000000 = 1 ∧
      f32_mag 0x40000000 = 2 ^ 150 ∧ f32_sign 0x40000000 = 0 ∧
      f32_neg 0xC0000000 = 0x40000000) := by
  decide

/-- Bounds on the values of the constants. -/
theorem scalar_constant_bounds :
    |f32_toRat 0x3DB5B99C| ≤ 1 / 8 ∧ |f32_toRat 0xBE8913C7| ≤ 1 / 2 ∧
    |f32_toRat 0x3F2AAB8B| ≤ 3 / 4 ∧ |f32_toRat 0xBFAAAA58| ≤ 3 / 2 ∧
    |f32_toRat 0x3FFFFFFF| ≤ 2 ∧ f32_toRat 0xC0000000 = -2 ∧ f32_toRat 0x40000000 = 2 := by
  obtain ⟨⟨c6, c5, c4, c3, c2⟩, m2, s2, p2, t2, -⟩ := scalar_constants
  refine ⟨?_, ?_, ?_, ?_, ?_, ?_, ?_⟩
  · rw [abs_f32_toRat, c6, div_le_div_iff₀ (by positivity) (by positivity)]; norm_num
  · rw [abs_f32_toRat, c5, div_le_div_iff₀ (by positivity) (by positivity)]; norm_num
  · rw [abs_f32_toRat, c4, div_le_div_iff₀ (by positivity) (by positivity)]; norm_num
  · rw [abs_f32_toRat, c3, div_le_div_iff₀ (by positivity) (by positivity)]; norm_num
  · rw [abs_f32_toRat, c2, div_le_iff₀ (by positivity)]; norm_num
  · rw [f32_toRat_of_neg _ s2, m2]; norm_num
  · rw [f32_toRat_of_pos _ t2, p2]; norm_num

/-- The polynomial of the scalar variant: for `|vt| ≤ 1 / 4` the computed `vp` lies in
`[-3, -1]`. -/
theorem scalar_vp_bound (z : Nat) (ft : f32_mag (tanh_scalar_expm1_rr2_p6_div.vt z) < 2 ^ 277)
    (ht : |f32_toRat (tanh_scalar_expm1_rr2_p6_div.vt z)| ≤ 1 / 4) :
    -3 ≤ f32_toRat (tanh_scalar_expm1_rr2_p6_div.vp z) ∧
    f32_toRat (tanh_scalar_expm1_rr2_p6_div.vp z) ≤ -1 ∧
    f32_mag (tanh_scalar_expm1_rr2_p6_div.vp z) < 2 ^ 277 := by
  have hvp : tanh_scalar_expm1_rr2_p6_div.vp z
      = f32_add (f32_mul (f32_add (f32_mul (f32_add (f32_mul (f32_add (f32_mul (f32_add
          (f32_mul 0x3DB5B99C (tanh_scalar_expm1_rr2_p6_div.vt z)) 0xBE8913C7)
          (tanh_scalar_expm1_rr2_p6_div.vt z)) 0x3F2AAB8B)
          (tanh_scalar_expm1_rr2_p6_div.vt z)) 0xBFAAAA58)
          (tanh_scalar_expm1_rr2_p6_div.vt z)) 0x3FFFFFFF)
          (tanh_scalar_expm1_rr2_p6_div.vt z)) 0xC0000000 := rfl
  rw [hvp]
  generalize tanh_scalar_expm1_rr2_p6_div.vt z = t at ft ht ⊢
  obtain ⟨b6, b5, b4, b3, b2, vm2, -⟩ := scalar_constant_bounds
  have f6 := f32_mag_lt_of_abs _ _ b6 (by norm_num)
  have f5 := f32_mag_lt_of_abs _ _ b5 (by norm_num)
  have f4 := f32_mag_lt_of_abs _ _ b4 (by norm_num)
  have f3 := f32_mag_lt_of_abs _ _ b3 (by norm_num)
  have f2 := f32_mag_lt_of_abs _ _ b2 (by norm_num)
  have fm2 : f32_mag 0xC0000000 < 2 ^ 277 := by
    rw [scalar_constants.2.1]; norm_num
  obtain ⟨h1, g1⟩ := f32_mul_bound 0x3DB5B99C t 1 5 _ _ f6 ft (by norm_num) (by norm_num) b6 ht
    (by norm_num)
  obtain ⟨h2, g2⟩ := f32_add_bound _ 0xBE8913C7 17 5 _ _ g1 f5 (by norm_num) (by norm_num) h1 b5
    (by norm_num)
  obtain ⟨h3, g3⟩ := f32_mul_bound _ t 17 7 _ _ g2 ft (by norm_num) (by norm_num) h2 ht
    (by norm_num)
  obtain ⟨h4, g4⟩ := f32_add_bound _ 0x3F2AAB8B 113 7 _ _ g3 f4 (by norm_num) (by norm_num) h3 b4
    (by norm_num)
  obtain ⟨h5, g5⟩ := f32_mul_bound _ t 113 9 _ _ g4 ft (by norm_num) (by norm_num) h4 ht
    (by norm_num)
  obtain ⟨h6, g6⟩ := f32_add_bound _ 0xBFAAAA58 881 9 _ _ g5 f3 (by norm_num) (by norm_num) h5 b3
    (by norm_num)
  obtain ⟨h7, g7⟩ := f32_mul_bound _ t 881 11 _ _ g6 ft (by norm_num) (by norm_num) h6 ht
    (by norm_num)
  obtain ⟨h8, g8⟩ := f32_add_bound _ 0x3FFFFFFF 4977 11 _ _ g7 f2 (by norm_num) (by norm_num) h7
    b2 (by norm_num)
  obtain ⟨h9, g9⟩ := f32_mul_bound _ t 4977 13 _ _ g8 ft (by norm_num) (by norm_num) h8 ht
    (by norm_num)
  obtain ⟨l9, u9⟩ := abs_le.1 h9
  have e9 : ((4977 : ℕ) : ℚ) / 2 ^ 13 ≤ 1 := by norm_num
  have hlo := f32_add_lb _ 0xC0000000 3 0 (-3) g9 fm2 (by norm_num) (by norm_num) (by norm_num)
    (by rw [vm2]; linarith)
  have hhi := f32_add_ub _ 0xC0000000 1 0 (-1) g9 fm2 (by norm_num) (by norm_num) (by norm_num)
    (by rw [vm2]; linarith)
  exact ⟨hlo, hhi, f32_mag_lt_of_abs _ 3 (abs_le.2 ⟨hlo, by linarith⟩) (by norm_num)⟩

/-- An exact magnitude less than half a unit in the last place above `1.0` rounds to at most
`1.0`. -/
theorem f32_round_near_one (s M : Nat) (hs : s < 2) (hM : M < 2 ^ 149 + 2 ^ 125) :
    f32_mag (f32_round s M 149) ≤ 2 ^ 149 := by
  by_cases h1 : M ≤ 2 ^ 149
  · have := f32_round_upper s M 149 1 149 hs (by norm_num) (by norm_num) (by norm_num)
      (by omega)
    omega
  · obtain ⟨q, m, -, hlt, hlow, hup, -, -, -, hmag, -⟩ := f32_round_spec s M 149 hs (by norm_num)
    have hq1 : 126 ≤ q := by
      by_contra hcon
      have h2 : 2 ^ (q + 24) ≤ 2 ^ 149 := Nat.pow_le_pow_right (by norm_num) (by omega)
      omega
    have hq2 : q ≤ 126 := by
      by_contra hcon
      have h2 := hlow (by omega)
      have h3 : 2 ^ 150 ≤ 2 ^ (q + 23) := Nat.pow_le_pow_right (by norm_num) (by omega)
      omega
    have hq : q = 126 := by omega
    subst hq
    have hm := hmag (by omega)
    omega

/-- Every sum is a rounding of its exact value. -/
theorem f32_add_round (a b : Nat) (fa : f32_mag a < 2 ^ 277) (fb : f32_mag b < 2 ^ 277) :
    ∃ s M, s < 2 ∧ f32_add a b = f32_round s M 149 ∧
      (if s = 1 then -1 else 1) * ((M : ℚ) / 2 ^ 149) = f32_toRat a + f32_toRat b := by
  obtain ⟨a1, a2⟩ := f32_finite_of_mag a fa
  obtain ⟨b1, b2⟩ := f32_finite_of_mag b fb
  obtain ⟨e1, e2, e3⟩ := f32_add_exact a b
  unfold f32_add
  simp only [a1, a2, b1, b2, Bool.or_self, Bool.false_eq_true, if_false]
  split_ifs with h1 h2 h3
  · exact ⟨_, _, f32_sign_lt_two a, rfl, e1 h1⟩
  · exact ⟨_, _, f32_sign_lt_two a, rfl, e2 h1 (by omega)⟩
  · exact ⟨_, _, f32_sign_lt_two b, rfl, e3 h1 (by omega)⟩
  · refine ⟨0, 0, by norm_num, (f32_round_zero 0 149).symm, ?_⟩
    have h0 := e2 h1 (by omega)
    have hz : f32_mag a - f32_mag b = 0 := by omega
    rw [hz] at h0
    rw [← h0]
    simp

/-- A sum whose exact value is above `-1 - 2 ^ (-25)` is at least `-1`. -/
theorem f32_add_ge_neg_one (a b : Nat) (fa : f32_mag a < 2 ^ 277) (fb : f32_mag b < 2 ^ 277)
    (h : -1 - 1 / 2 ^ 25 ≤ f32_toRat a + f32_toRat b) : -1 ≤ f32_toRat (f32_add a b) := by
  obtain ⟨s, M, hs, hr, hx⟩ := f32_add_round a b fa fb
  rw [hr]
  have habs : |f32_toRat (f32_round s M 149)| ≤ 1 → -1 ≤ f32_toRat (f32_round s M 149) :=
    fun h1 => (abs_le.1 h1).1
  by_cases h1 : s = 1
  · rw [if_pos h1] at hx
    apply habs
    rw [abs_f32_toRat, div_le_one (by positivity)]
    have hM : (M : ℚ) / 2 ^ 149 ≤ 1 + 1 / 2 ^ 25 := by linarith
    rw [div_le_iff₀ (by positivity)] at hM
    have hM2 : (M : ℚ) ≤ ((2 ^ 149 + 2 ^ 124 : ℕ) : ℚ) := by
      push_cast
      linarith
    have hM3 : M ≤ 2 ^ 149 + 2 ^ 124 := by exact_mod_cast hM2
    have := f32_round_near_one s M hs (by omega)
    exact_mod_cast this
  · have h0 : s = 0 := by omega
    subst h0
    have := f32_round_ge 0 M 149 0 0 0 (by norm_num) (by norm_num) (by norm_num) (by norm_num)
      (by norm_num) (by simp; positivity)
    linarith

/-- A quotient of a smaller by a larger finite magnitude is at most `1.0` in magnitude. -/
theorem f32_div_le_one (a b : Nat) (fa : f32_mag a < 2 ^ 277) (fb : f32_mag b < 2 ^ 277)
    (hab : f32_mag a ≤ f32_mag b) (hb : 0 < f32_mag b) : f32_mag (f32_div a b) ≤ 2 ^ 149 := by
  obtain ⟨a1, a2⟩ := f32_finite_of_mag a fa
  obtain ⟨b1, b2⟩ := f32_finite_of_mag b fb
  unfold f32_div
  simp only [a1, a2, b1, b2, Bool.or_self, Bool.false_eq_true, if_false]
  rw [if_neg (by omega)]
  have hs : (f32_sign a + f32_sign b) % 2 < 2 := Nat.mod_lt _ (by norm_num)
  have hle : f32_mag a * 2 ^ 200 / f32_mag b ≤ 2 ^ 200 := by
    apply Nat.div_le_of_le_mul
    exact Nat.mul_le_mul_right _ hab
  have hM : 2 * (f32_mag a * 2 ^ 200 / f32_mag b)
      + (if f32_mag a * 2 ^ 200 % f32_mag b = 0 then 0 else 1) ≤ 1 * 2 ^ 149 * 2 ^ (201 - 149) := by
    have e : 1 * 2 ^ 149 * 2 ^ (201 - 149) = 2 ^ 201 := by norm_num
    rw [e]
    by_cases heq : f32_mag a * 2 ^ 200 / f32_mag b = 2 ^ 200
    · have h1 : f32_mag b * 2 ^ 200 ≤ f32_mag a * 2 ^ 200 := by
        have := Nat.div_mul_le_self (f32_mag a * 2 ^ 200) (f32_mag b)
        rw [heq, Nat.mul_comm] at this
        exact this
      have h2 : f32_mag b ≤ f32_mag a := Nat.le_of_mul_le_mul_right h1 (Nat.two_pow_pos _)
      have h3 : f32_mag a = f32_mag b := by omega
      have h4 : f32_mag a * 2 ^ 200 % f32_mag b = 0 := by
        rw [h3]; exact Nat.mul_mod_right _ _
      rw [if_pos h4, heq]
      norm_num
    · split_ifs <;> omega
  exact f32_round_upper _ _ 201 1 149 hs (by norm_num) (by norm_num) (by norm_num) hM

/-- The reconstructed `expm1(-2z)` of the scalar variant lies in `[-1, 0]` for
`0 ≤ z ≤ 9.010913`. -/
theorem scalar_vem1_bound (z : Nat) (hz : z < 2 ^ 31) (hnan : f32_isNaN z = false)
    (hle : f32_mag z * 1000000 ≤ 9010913 * 2 ^ 149) :
    -1 ≤ f32_toRat (tanh_scalar_expm1_rr2_p6_div.vem1 z) ∧
    f32_toRat (tanh_scalar_expm1_rr2_p6_div.vem1 z) ≤ 0 ∧
    f32_mag (tanh_scalar_expm1_rr2_p6_div.vem1 z) < 2 ^ 277 := by
  obtain ⟨k, hk, hv, ht, ft, ht0⟩ := scalar_vt_bound z hz hnan hle
  obtain ⟨vplo, vphi, fp⟩ := scalar_vp_bound z ft ht
  obtain ⟨-, -, h3, h4, -, -, h7⟩ := magic_bias_patterns k hk
  obtain ⟨q1, q2, q3, q4⟩ := scalar_vsm1_patterns k hk
  have hvs : tanh_scalar_expm1_rr2_p6_div.vs z = (127 - k) * 2 ^ 23 := by
    unfold tanh_scalar_expm1_rr2_p6_div.vs uint32_as_float float_as_uint32
    rw [hv, h3]
  have hem : tanh_scalar_expm1_rr2_p6_div.vem1 z
      = f32_add (f32_mul (tanh_scalar_expm1_rr2_p6_div.vp z)
          (f32_mul (tanh_scalar_expm1_rr2_p6_div.vt z) ((127 - k) * 2 ^ 23)))
          (f32_sub ((127 - k) * 2 ^ 23) 0x3F800000) := by
    rw [← hvs]; rfl
  rw [hem]
  generalize tanh_scalar_expm1_rr2_p6_div.vp z = p at vplo vphi fp ⊢
  generalize tanh_scalar_expm1_rr2_p6_div.vt z = t at ht ft ht0 ⊢
  have hS0 : (0 : ℚ) < 1 / 2 ^ k := by positivity
  have hS1 : (1 : ℚ) / 2 ^ k ≤ 1 := by
    rw [div_le_one (by positivity)]
    exact one_le_pow₀ (by norm_num)
  have hS2 : k ≠ 0 → (1 : ℚ) / 2 ^ k ≤ 1 / 2 := by
    intro h0
    obtain ⟨j, rfl⟩ : ∃ j, k = j + 1 := ⟨k - 1, by omega⟩
    rw [pow_succ, div_le_div_iff₀ (by positivity) (by norm_num)]
    have : (1 : ℚ) ≤ 2 ^ j := one_le_pow₀ (by norm_num)
    linarith
  have hS4 : ((1 : ℕ) : ℚ) / 2 ^ (k + 2) = 1 / 2 ^ k / 4 := by
    rw [pow_add]; field_simp; norm_num
  have hS34 : ((3 : ℕ) : ℚ) / 2 ^ (k + 2) = 3 * (1 / 2 ^ k / 4) := by
    rw [pow_add]; field_simp; norm_num
  have hsv : f32_toRat ((127 - k) * 2 ^ 23) = 1 / 2 ^ k := by
    rw [f32_toRat_of_pos _ h4, div_eq_div_iff (by positivity) (by positivity), one_mul]
    exact_mod_cast h7
  have hsabs : |f32_toRat ((127 - k) * 2 ^ 23)| ≤ 1 / 2 ^ k := by
    rw [hsv, abs_of_pos hS0]
  have fs : f32_mag ((127 - k) * 2 ^ 23) < 2 ^ 277 :=
    f32_mag_lt_of_abs _ _ hsabs (by linarith)
  generalize (127 - k) * 2 ^ 23 = vs at *
  obtain ⟨hts, fts⟩ := f32_mul_bound t vs 1 (k + 2) _ _ ft fs (by norm_num) (by omega) ht hsabs
    (by rw [hS4]; linarith)
  have hts0 : k = 0 → 0 ≤ f32_toRat (f32_mul t vs) := fun h0 =>
    f32_mul_lb t vs 0 0 0 ft fs (by norm_num) (by norm_num) (by norm_num)
      (mul_nonneg (ht0 h0) (by rw [hsv]; exact le_of_lt hS0))
  have hpabs : |f32_toRat p| ≤ 3 := abs_le.2 ⟨vplo, by linarith⟩
  obtain ⟨hpr, fpr⟩ := f32_mul_bound p (f32_mul t vs) 3 (k + 2) _ _ fp fts (by norm_num)
    (by omega) hpabs hts (by rw [hS4, hS34])
  have hpr0 : k = 0 → f32_toRat (f32_mul p (f32_mul t vs)) ≤ 0 := fun h0 =>
    f32_mul_ub p (f32_mul t vs) 0 0 0 fp fts (by norm_num) (by norm_num) (by norm_num)
      (mul_nonpos_iff.2 (Or.inr ⟨by linarith, hts0 h0⟩))
  rw [hS34] at hpr
  obtain ⟨prlo, prhi⟩ := abs_le.1 hpr
  generalize f32_mul p (f32_mul t vs) = pr at *
  obtain ⟨w1, w2⟩ := f32_toRat_of_sign_ite _ k q4
  have fw : f32_mag (f32_sub vs 0x3F800000) < 2 ^ 277 := by omega
  have hpk : (2 : ℚ) ^ (149 - k) * 2 ^ k = 2 ^ 149 := by
    rw [← pow_add, Nat.sub_add_cancel (by omega)]
  have q1q : (f32_mag (f32_sub vs 0x3F800000) : ℚ) + 2 ^ (149 - k) ≤ 2 ^ 149 + 2 ^ 124 := by
    exact_mod_cast q1
  have q2q : (f32_mag (f32_sub vs 0x3F800000) : ℚ) ≤ 2 ^ 149 := by exact_mod_cast q2
  have hW1 : (f32_mag (f32_sub vs 0x3F800000) : ℚ) / 2 ^ 149 + 1 / 2 ^ k ≤ 1 + 1 / 2 ^ 25 := by
    have e1 : (1 : ℚ) / 2 ^ k = 2 ^ (149 - k) / 2 ^ 149 := by
      rw [← hpk]; field_simp
    rw [e1, div_add_div_same, div_le_iff₀ (by positivity)]
    linarith
  generalize f32_sub vs 0x3F800000 = w at *
  have hW0 : (0 : ℚ) ≤ (f32_mag w : ℚ) / 2 ^ 149 := div_nonneg (Nat.cast_nonneg _) (by positivity)
  by_cases h0 : k = 0
  · rw [if_pos h0] at q3
    have hw : f32_toRat w = 0 := by rw [w1 h0, q3]; simp
    refine ⟨?_, ?_, ?_⟩
    · exact f32_add_ge_neg_one pr w fpr fw (by rw [hw]; linarith)
    · exact f32_add_ub pr w 0 0 0 fpr fw (by norm_num) (by norm_num) (by norm_num)
        (by rw [hw]; have := hpr0 h0; linarith)
    · have g1 := f32_add_ge_neg_one pr w fpr fw (by rw [hw]; linarith)
      have g2 := f32_add_ub pr w 0 0 0 fpr fw (by norm_num) (by norm_num) (by norm_num)
        (by rw [hw]; have := hpr0 h0; linarith)
      exact f32_mag_lt_of_abs _ 1 (abs_le.2 ⟨g1, by linarith⟩) (by norm_num)
  · rw [if_neg h0] at q3
    have q3q : (2 : ℚ) ^ 148 ≤ (f32_mag w : ℚ) := by exact_mod_cast q3
    have hWhalf : (1 : ℚ) / 2 ≤ (f32_mag w : ℚ) / 2 ^ 149 := by
      rw [div_le_div_iff₀ (by norm_num) (by positivity)]
      linarith
    have hw := w2 h0
    have hhalf := hS2 h0
    have g1 := f32_add_ge_neg_one pr w fpr fw (by rw [hw]; linarith)
    have g2 := f32_add_ub pr w 0 0 0 fpr fw (by norm_num) (by norm_num) (by norm_num)
      (by rw [hw]; linarith)
    exact ⟨g1, g2, f32_mag_lt_of_abs _ 1 (abs_le.2 ⟨g1, by linarith⟩) (by norm_num)⟩

theorem f32_mag_copysignf (a x : Nat) : f32_mag (copysignf a x) = f32_mag a := by
  have hs : f32_sign x < 2 := f32_sign_lt_two x
  have e1 : f32_exp (copysignf a x) = f32_exp a := by unfold f32_exp copysignf; omega
  have e2 : f32_frac (copysignf a x) = f32_frac a := by unfold f32_frac copysignf; omega
  unfold f32_mag; rw [e1, e2]

/-- Magnitude bound from a bound on the value. -/
theorem f32_mag_le_of_abs_le_one (a : Nat) (h : |f32_toRat a| ≤ 1) : f32_mag a ≤ 2 ^ 149 := by
  rw [abs_f32_toRat, div_le_one (by positivity)] at h
  exact_mod_cast h

/-- The quotient of the scalar variant is at most `1.0` in magnitude for `0 ≤ z ≤ 9.010913`. -/
theorem scalar_vabsy_bound (z : Nat) (hz : z < 2 ^ 31) (hnan : f32_isNaN z = false)
    (hle : f32_mag z * 1000000 ≤ 9010913 * 2 ^ 149) :
    f32_mag (tanh_scalar_expm1_rr2_p6_div.vabsy z) ≤ 2 ^ 149 := by
  obtain ⟨elo, ehi, fe⟩ := scalar_vem1_bound z hz hnan hle
  obtain ⟨-, -, -, m2, s2, hneg⟩ := scalar_constants
  obtain ⟨-, -, -, -, -, -, v2⟩ := scalar_constant_bounds
  have hab : tanh_scalar_expm1_rr2_p6_div.vabsy z
      = f32_div (tanh_scalar_expm1_rr2_p6_div.vem1 z)
          (f32_add (tanh_scalar_expm1_rr2_p6_div.vem1 z) 0x40000000) := by
    rw [← hneg]; rfl
  rw [hab]
  generalize tanh_scalar_expm1_rr2_p6_div.vem1 z = e at elo ehi fe ⊢
  have f2 : f32_mag 0x40000000 < 2 ^ 277 := by rw [m2]; norm_num
  have g1 := f32_add_lb e 0x40000000 1 0 1 fe f2 (by norm_num) (by norm_num) (by norm_num)
    (by rw [v2]; linarith)
  have g2 := f32_add_ub e 0x40000000 2 0 2 fe f2 (by norm_num) (by norm_num) (by norm_num)
    (by rw [v2]; linarith)
  have fep := f32_mag_lt_of_abs _ 2 (abs_le.2 ⟨by linarith, g2⟩) (by norm_num)
  have hme : f32_mag e ≤ 2 ^ 149 := f32_mag_le_of_abs_le_one e (abs_le.2 ⟨elo, by linarith⟩)
  have hmp : 2 ^ 149 ≤ f32_mag (f32_add e 0x40000000) := by
    have h1 : 1 ≤ |f32_toRat (f32_add e 0x40000000)| := le_trans g1 (le_abs_self _)
    rw [abs_f32_toRat, one_le_div (by positivity)] at h1
    exact_mod_cast h1
  exact f32_div_le_one e _ fe fep (by omega) (by omega)

/-- C22: for every non-NaN input `x` the output `y` of the scalar variant is not a NaN and
`|y| ≤ 1`.  On the non-saturated path (`vz > vsat_cutoff` false) the computed `expm1` value
`vem1` lies in `[-1, 0]` and the quotient `vem1 / (vem1 + 2)` is at most 1 in magnitude; on the
saturated path `|y| = 1` exactly. -/
theorem tanh_scalar_bounded (x : Nat) (hnan : f32_isNaN x = false) :
    f32_isNaN (tanh_scalar_expm1_rr2_p6_div.vy x) = false ∧
    |f32_toRat (tanh_scalar_expm1_rr2_p6_div.vy x)| ≤ 1 ∧
    (f32_gt (fabsf x) tanh_scalar_expm1_rr2_p6_div.vsat_cutoff = false →
      -1 ≤ f32_toRat (tanh_scalar_expm1_rr2_p6_div.vem1 (fabsf x)) ∧
      f32_toRat (tanh_scalar_expm1_rr2_p6_div.vem1 (fabsf x)) ≤ 0 ∧
      |f32_toRat (tanh_scalar_expm1_rr2_p6_div.vabsy (fabsf x))| ≤ 1) ∧
    (f32_gt (fabsf x) tanh_scalar_expm1_rr2_p6_div.vsat_cutoff = true →
      |f32_toRat (tanh_scalar_expm1_rr2_p6_div.vy x)| = 1) := by
  have hzlt : fabsf x < 2 ^ 31 := Nat.mod_lt _ (by norm_num)
  have hzn : f32_isNaN (fabsf x) = false := by rw [f32_isNaN_fabsf]; exact hnan
  have hone : f32_mag 0x3F800000 = 2 ^ 149 := by decide
  have hcut : f32_val 0x41102CB3 = ((0x902CB3 * 2 ^ 129 : ℕ) : Int) := by decide
  have hcn : f32_isNaN 0x41102CB3 = false := by decide
  have hmagle : ∀ a : Nat, f32_mag a ≤ 2 ^ 149 → |f32_toRat a| ≤ 1 := by
    intro a ha
    rw [abs_f32_toRat, div_le_one (by positivity)]
    exact_mod_cast ha
  have hns : f32_gt (fabsf x) tanh_scalar_expm1_rr2_p6_div.vsat_cutoff = false →
      fabsf x < 2 ^ 31 ∧ f32_mag (fabsf x) * 1000000 ≤ 9010913 * 2 ^ 149 := by
    intro hg
    unfold f32_gt f32_lt tanh_scalar_expm1_rr2_p6_div.vsat_cutoff at hg
    rw [hcn, hzn, hcut, f32_val_fabsf] at hg
    simp only [Bool.not_false, Bool.true_and, decide_eq_false_iff_not, not_lt] at hg
    have h1 : f32_mag x ≤ 0x902CB3 * 2 ^ 129 := by exact_mod_cast hg
    rw [f32_mag_fabsf]
    exact ⟨hzlt, by omega⟩
  have hvy : f32_mag (tanh_scalar_expm1_rr2_p6_div.vy x) ≤ 2 ^ 149 ∧
      (f32_gt (fabsf x) tanh_scalar_expm1_rr2_p6_div.vsat_cutoff = true →
        f32_mag (tanh_scalar_expm1_rr2_p6_div.vy x) = 2 ^ 149) := by
    unfold tanh_scalar_expm1_rr2_p6_div.vy
    simp only []
    by_cases hg : f32_gt (fabsf x) tanh_scalar_expm1_rr2_p6_div.vsat_cutoff = true
    · rw [if_pos hg, f32_mag_copysignf]
      unfold tanh_scalar_expm1_rr2_p6_div.vone
      rw [hone]
      exact ⟨le_rfl, fun _ => rfl⟩
    · rw [if_neg hg, f32_mag_copysignf]
      have hg2 : f32_gt (fabsf x) tanh_scalar_expm1_rr2_p6_div.vsat_cutoff = false := by
        simpa using hg
      obtain ⟨a1, a2⟩ := hns hg2
      exact ⟨scalar_vabsy_bound (fabsf x) a1 hzn a2, fun h => absurd h hg⟩
  refine ⟨(f32_finite_of_mag _ (by omega)).1, hmagle _ hvy.1, ?_, ?_⟩
  · intro hg
    obtain ⟨a1, a2⟩ := hns hg
    obtain ⟨elo, ehi, -⟩ := scalar_vem1_bound (fabsf x) a1 hzn a2
    exact ⟨elo, ehi, hmagle _ (scalar_vabsy_bound (fabsf x) a1 hzn a2)⟩
  · intro hg
    rw [abs_f32_toRat, hvy.2 hg]
    norm_num

/-- C22 at `x = 1.0`, on the non-saturated path. -/
theorem tanh_scalar_bounded_witness :
    f32_isNaN 0x3F800000 = false ∧
    f32_gt (fabsf 0x3F800000) tanh_scalar_expm1_rr2_p6_div.vsat_cutoff = false ∧
    f32_isNaN (tanh_scalar_expm1_rr2_p6_div.vy 0x3F800000) = false ∧
    |f32_toRat (tanh_scalar_expm1_rr2_p6_div.vy 0x3F800000)| ≤ 1 :=
  ⟨by decide, by decide, (tanh_scalar_bounded 0x3F800000 (by decide)).1,
    (tanh_scalar_bounded 0x3F800000 (by decide)).2.1⟩

/-! ## Fused multiply-add and representable bounds -/

/-- Every fused multiply-add of finite operands is a rounding of its exact value. -/
theorem fmaf_round (a b c : Nat) (fa : f32_mag a < 2 ^ 277) (fb : f32_mag b < 2 ^ 277)
    (fc : f32_mag c < 2 ^ 277) :
    ∃ s M, s < 2 ∧ fmaf a b c = f32_round s M 298 ∧
      (if s = 1 then -1 else 1) * ((M : ℚ) / 2 ^ 298)
        = f32_toRat a * f32_toRat b + f32_toRat c := by
  obtain ⟨a1, a2⟩ := f32_finite_of_mag a fa
  obtain ⟨b1, b2⟩ := f32_finite_of_mag b fb
  obtain ⟨c1, c2⟩ := f32_finite_of_mag c fc
  have hp := f32_mul_exact a b
  have hc := f32_toRat_signed c
  have hs : (f32_sign a + f32_sign b) % 2 < 2 := Nat.mod_lt _ (by norm_num)
  have hm : ((f32_mag c * 2 ^ 149 : ℕ) : ℚ) / 2 ^ 298 = (f32_mag c : ℚ) / 2 ^ 149 := by
    have e : (2 : ℚ) ^ 298 = 2 ^ 149 * 2 ^ 149 := by rw [← pow_add]
    rw [e, Nat.cast_mul, Nat.cast_pow, Nat.cast_ofNat]
    field_simp
    ring
  have s1 : (if (1 : ℕ) = 1 then (-1 : ℚ) else 1) = -1 := if_pos rfl
  have s0 : (if (0 : ℕ) = 1 then (-1 : ℚ) else 1) = 1 := if_neg (by norm_num)
  rw [← hp, hc, ← hm]
  unfold fmaf
  simp only [a1, a2, b1, b2, c1, c2, Bool.or_self, Bool.false_eq_true, if_false]
  generalize (f32_sign a + f32_sign b) % 2 = sp at hs ⊢
  generalize f32_mag a * f32_mag b = P
  generalize f32_mag c * 2 ^ 149 = m
  have hsc := f32_sign_lt_two c
  generalize f32_sign c = sc at hsc ⊢
  generalize (2 : ℚ) ^ 298 = D
  by_cases h1 : sp = sc
  · rw [if_pos h1]
    refine ⟨sp, P + m, hs, rfl, ?_⟩
    rw [← h1, Nat.cast_add]
    ring
  · rw [if_neg h1]
    have h4 : (sp = 1 ∧ sc = 0) ∨ (sp = 0 ∧ sc = 1) := by omega
    by_cases h2 : m < P
    · rw [if_pos h2]
      refine ⟨sp, P - m, hs, rfl, ?_⟩
      rw [Nat.cast_sub (le_of_lt h2)]
      rcases h4 with ⟨x, y⟩ | ⟨x, y⟩ <;> subst x <;> subst y <;> simp only [s0, if_true] <;> ring
    · rw [if_neg h2]
      by_cases h3 : P < m
      · rw [if_pos h3]
        refine ⟨sc, m - P, hsc, rfl, ?_⟩
        rw [Nat.cast_sub (le_of_lt h3)]
        rcases h4 with ⟨x, y⟩ | ⟨x, y⟩ <;> subst x <;> subst y <;> simp only [s0, if_true] <;> ring
      · rw [if_neg h3]
        refine ⟨0, 0, by norm_num, (f32_round_zero 0 298).symm, ?_⟩
        have h5 : P = m := by omega
        subst h5
        rcases h4 with ⟨x, y⟩ | ⟨x, y⟩ <;> subst x <;> subst y <;> simp only [s0, if_true] <;>
          simp

/-- A fused multiply-add stays below every representable number above the exact value. -/
theorem fmaf_ub (a b c n i : Nat) (B : ℚ) (fa : f32_mag a < 2 ^ 277) (fb : f32_mag b < 2 ^ 277)
    (fc : f32_mag c < 2 ^ 277) (hn : n ≤ 2 ^ 24) (hi : i ≤ 149) (hB : |B| = (n : ℚ) / 2 ^ i)
    (h : f32_toRat a * f32_toRat b + f32_toRat c ≤ B) : f32_toRat (fmaf a b c) ≤ B := by
  obtain ⟨s, M, hs, hr, hx⟩ := fmaf_round a b c fa fb fc
  rw [hr]
  exact f32_round_le s M 298 n (149 - i) B hs (by norm_num) hn (repr_fin n i hn)
    (by rw [repr_eq n i hi]; exact hB) (by rw [hx]; exact h)

/-- A fused multiply-add stays above every representable number below the exact value. -/
theorem fmaf_lb (a b c n i : Nat) (B : ℚ) (fa : f32_mag a < 2 ^ 277) (fb : f32_mag b < 2 ^ 277)
    (fc : f32_mag c < 2 ^ 277) (hn : n ≤ 2 ^ 24) (hi : i ≤ 149) (hB : |B| = (n : ℚ) / 2 ^ i)
    (h : B ≤ f32_toRat a * f32_toRat b + f32_toRat c) : B ≤ f32_toRat (fmaf a b c) := by
  obtain ⟨s, M, hs, hr, hx⟩ := fmaf_round a b c fa fb fc
  rw [hr]
  exact f32_round_ge s M 298 n (149 - i) B hs (by norm_num) hn (repr_fin n i hn)
    (by rw [repr_eq n i hi]; exact hB) (by rw [hx]; exact h)

/-- Interval form for a fused multiply-add: `|a * b| + |c| ≤ n / 2 ^ i` survives the rounding. -/
theorem fmaf_bound (a b c n i : Nat) (A B C : ℚ) (fa : f32_mag a < 2 ^ 277)
    (fb : f32_mag b < 2 ^ 277) (fc : f32_mag c < 2 ^ 277) (hn : n ≤ 2 ^ 24) (hi : i ≤ 149)
    (ha : |f32_toRat a| ≤ A) (hb : |f32_toRat b| ≤ B) (hc : |f32_toRat c| ≤ C)
    (hABC : A * B + C ≤ (n : ℚ) / 2 ^ i) :
    |f32_toRat (fmaf a b c)| ≤ (n : ℚ) / 2 ^ i ∧ f32_mag (fmaf a b c) < 2 ^ 277 := by
  have hA0 : 0 ≤ A := le_trans (abs_nonneg _) ha
  have hN0 : (0 : ℚ) ≤ (n : ℚ) / 2 ^ i := div_nonneg (Nat.cast_nonneg _) (by positivity)
  have h1 : |f32_toRat a * f32_toRat b| ≤ A * B := by
    rw [abs_mul]
    exact mul_le_mul ha hb (abs_nonneg _) hA0
  obtain ⟨p1, p2⟩ := abs_le.1 h1
  obtain ⟨q1, q2⟩ := abs_le.1 hc
  have g1 := fmaf_ub a b c n i ((n : ℚ) / 2 ^ i) fa fb fc hn hi (abs_of_nonneg hN0)
    (by linarith)
  have g2 := fmaf_lb a b c n i (-((n : ℚ) / 2 ^ i)) fa fb fc hn hi
    (by rw [abs_neg, abs_of_nonneg hN0]) (by linarith)
  have hlt : (n : ℚ) / 2 ^ i ≤ 2 ^ 24 := by
    rw [div_le_iff₀ (by positivity)]
    have h2 : (n : ℚ) ≤ 2 ^ 24 := by exact_mod_cast hn
    have h3 : (1 : ℚ) ≤ 2 ^ i := one_le_pow₀ (by norm_num)
    rw [mul_comm]
    calc (n : ℚ) = 1 * (n : ℚ) := (one_mul _).symm
      _ ≤ 2 ^ i * (n : ℚ) := mul_le_mul_of_nonneg_right h3 (Nat.cast_nonneg _)
      _ ≤ 2 ^ i * 2 ^ 24 := mul_le_mul_of_nonneg_left h2 (by positivity)
  exact ⟨abs_le.2 ⟨g2, g1⟩, f32_mag_lt_of_abs _ _ (abs_le.2 ⟨g2, g1⟩) hlt⟩

/-- An exact magnitude at scale `2 ^ 298` less than half a unit in the last place above `1.0`
rounds to at most `1.0`. -/
theorem f32_round_near_one_fma (s M : Nat) (hs : s < 2)
    (hM : M < (2 ^ 149 + 2 ^ 125) * 2 ^ 149) : f32_mag (f32_round s M 298) ≤ 2 ^ 149 := by
  by_cases h1 : M ≤ 2 ^ 149 * 2 ^ 149
  · have := f32_round_upper s M 298 1 149 hs (by norm_num) (by norm_num) (by norm_num)
      (by omega)
    omega
  · obtain ⟨q, m, -, hlt, hlow, hup, -, -, -, hmag, -⟩ := f32_round_spec s M 298 hs (by norm_num)
    have hq1 : 275 ≤ q := by
      by_contra hcon
      have h2 : 2 ^ (q + 24) ≤ 2 ^ 298 := Nat.pow_le_pow_right (by norm_num) (by omega)
      omega
    have hq2 : q ≤ 275 := by
      by_contra hcon
      have h2 := hlow (by omega)
      have h3 : 2 ^ 299 ≤ 2 ^ (q + 23) := Nat.pow_le_pow_right (by norm_num) (by omega)
      omega
    have hq : q = 275 := by omega
    subst hq
    have hm := hmag (by omega)
    omega

/-- A fused multiply-add whose exact value is above `-1 - 2 ^ (-25)` is at least `-1`. -/
theorem fmaf_ge_neg_one (a b c : Nat) (fa : f32_mag a < 2 ^ 277) (fb : f32_mag b < 2 ^ 277)
    (fc : f32_mag c < 2 ^ 277)
    (h : -1 - 1 / 2 ^ 25 ≤ f32_toRat a * f32_toRat b + f32_toRat c) :
    -1 ≤ f32_toRat (fmaf a b c) := by
  obtain ⟨s, M, hs, hr, hx⟩ := fmaf_round a b c fa fb fc
  rw [hr]
  have habs : |f32_toRat (f32_round s M 298)| ≤ 1 → -1 ≤ f32_toRat (f32_round s M 298) :=
    fun h1 => (abs_le.1 h1).1
  by_cases h1 : s = 1
  · rw [if_pos h1] at hx
    apply habs
    rw [abs_f32_toRat, div_le_one (by positivity)]
    have hM : (M : ℚ) / 2 ^ 298 ≤ 1 + 1 / 2 ^ 25 := by linarith
    rw [div_le_iff₀ (by positivity)] at hM
    have hM2 : (M : ℚ) ≤ (((2 ^ 149 + 2 ^ 124) * 2 ^ 149 : ℕ) : ℚ) := by
      push_cast
      linarith
    have hM3 : M ≤ (2 ^ 149 + 2 ^ 124) * 2 ^ 149 := by exact_mod_cast hM2
    have := f32_round_near_one_fma s M hs (by omega)
    exact_mod_cast this
  · have h0 : s = 0 := by omega
    subst h0
    have := f32_round_ge 0 M 298 0 0 0 (by norm_num) (by norm_num) (by norm_num) (by norm_num)
      (by norm_num) (by simp; positivity)
    linarith

/-- A sum of magnitude below `1` is within `2 ^ (-25)` of its exact value, from below. -/
theorem f32_add_near_lb (a b : Nat) (fa : f32_mag a < 2 ^ 277) (fb : f32_mag b < 2 ^ 277)
    (h : |f32_toRat a + f32_toRat b| < 1) :
    f32_toRat a + f32_toRat b - 1 / 2 ^ 25 ≤ f32_toRat (f32_add a b) := by
  obtain ⟨s, M, hs, hr, hx⟩ := f32_add_round a b fa fb
  obtain ⟨_, _, -, -, -, -, -, -, hsign, -, -⟩ := f32_round_spec s M 149 hs (by norm_num)
  have hM : M < 2 ^ 149 := by
    rw [← hx, abs_mul] at h
    have e : |(if s = 1 then (-1 : ℚ) else 1)| = 1 := by split_ifs <;> simp
    rw [e, one_mul, abs_of_nonneg (by positivity), div_lt_one (by positivity)] at h
    exact_mod_cast h
  obtain ⟨n1, n2⟩ := f32_round_near s M 149 125 hs (by norm_num) (by norm_num) (by omega)
    (by omega)
  rw [hr, ← hx, f32_toRat_signed, hsign]
  have n1q : 2 * ((f32_mag (f32_round s M 149) : ℚ) * 2 ^ (149 - 149)) ≤ 2 * (M : ℚ) + 2 ^ 125 := by
    exact_mod_cast n1
  have n2q : 2 * (M : ℚ) ≤ 2 * ((f32_mag (f32_round s M 149) : ℚ) * 2 ^ (149 - 149)) + 2 ^ 125 := by
    exact_mod_cast n2
  simp only [Nat.sub_self, pow_zero, mul_one] at n1q n2q
  generalize (f32_mag (f32_round s M 149) : ℚ) = r at n1q n2q ⊢
  have e0 : (1 : ℚ) / 2 ^ 25 = 2 ^ 124 / 2 ^ 149 := by norm_num
  have e1 : (M : ℚ) / 2 ^ 149 - 1 / 2 ^ 25 ≤ r / 2 ^ 149 := by
    rw [e0, div_sub_div_same, div_le_div_iff_of_pos_right (by positivity)]
    linarith
  have e2 : r / 2 ^ 149 - 1 / 2 ^ 25 ≤ (M : ℚ) / 2 ^ 149 := by
    rw [e0, div_sub_div_same, div_le_div_iff_of_pos_right (by positivity)]
    linarith
  split_ifs <;> linarith

/-- The quotient `e / (e + 2)` for `-1 ≤ e ≤ 2` is at most `1.0` in magnitude, and it is not
positive when `e ≤ 0`. -/
theorem f32_div_add_two (e : Nat) (fe : f32_mag e < 2 ^ 277) (elo : -1 ≤ f32_toRat e)
    (ehi : f32_toRat e ≤ 2) :
    f32_mag (f32_div e (f32_add e 0x40000000)) ≤ 2 ^ 149 ∧
    (f32_toRat e ≤ 0 → f32_toRat (f32_div e (f32_add e 0x40000000)) ≤ 0) := by
  obtain ⟨-, -, -, m2, s2, -⟩ := scalar_constants
  obtain ⟨-, -, -, -, -, -, v2⟩ := scalar_constant_bounds
  have f2 : f32_mag 0x40000000 < 2 ^ 277 := by rw [m2]; norm_num
  have g1 := f32_add_lb e 0x40000000 1 0 1 fe f2 (by norm_num) (by norm_num) (by norm_num)
    (by rw [v2]; linarith)
  have g2 := f32_add_ub e 0x40000000 4 0 4 fe f2 (by norm_num) (by norm_num) (by norm_num)
    (by rw [v2]; linarith)
  have fep := f32_mag_lt_of_abs _ 4 (abs_le.2 ⟨by linarith, g2⟩) (by norm_num)
  have hmp : 2 ^ 149 ≤ f32_mag (f32_add e 0x40000000) := by
    have h1 : 1 ≤ |f32_toRat (f32_add e 0x40000000)| := le_trans g1 (le_abs_self _)
    rw [abs_f32_toRat, one_le_div (by positivity)] at h1
    exact_mod_cast h1
  have hsp : f32_sign (f32_add e 0x40000000) = 0 := by
    rcases f32_sign_cases (f32_add e 0x40000000) with h | h
    · exact h
    · have := f32_toRat_nonpos _ h
      linarith
  have hle : f32_mag e ≤ f32_mag (f32_add e 0x40000000) := by
    by_cases h0 : f32_toRat e ≤ 0
    · have := f32_mag_le_of_abs_le_one e (abs_le.2 ⟨elo, by linarith⟩)
      omega
    · have g3 := f32_add_lb e 0x40000000 2 0 2 fe f2 (by norm_num) (by norm_num) (by norm_num)
        (by rw [v2]; linarith)
      have h1 : |f32_toRat e| ≤ |f32_toRat (f32_add e 0x40000000)| := by
        rw [abs_of_nonneg (by linarith), abs_of_nonneg (by linarith)]
        linarith
      rw [abs_f32_toRat, abs_f32_toRat, div_le_div_iff_of_pos_right (by positivity)] at h1
      exact_mod_cast h1
  refine ⟨f32_div_le_one e _ fe fep hle (by omega), ?_⟩
  intro h0
  obtain ⟨a1, a2⟩ := f32_finite_of_mag e fe
  obtain ⟨b1, b2⟩ := f32_finite_of_mag _ fep
  unfold f32_div
  simp only [a1, a2, b1, b2, Bool.or_self, Bool.false_eq_true, if_false]
  rw [if_neg (by omega), hsp]
  rcases f32_sign_cases e with h | h
  · have h3 := f32_toRat_nonneg e h
    have h4 : f32_toRat e = 0 := le_antisymm h0 h3
    rw [f32_toRat_of_pos e h, div_eq_zero_iff] at h4
    have h5 : f32_mag e = 0 := by
      rcases h4 with h4 | h4
      · exact_mod_cast h4
      · exact absurd h4 (by positivity)
    rw [h5, h]
    simp only [Nat.zero_mul, Nat.zero_div, Nat.zero_mod, if_true, Nat.mul_zero, Nat.add_zero]
    rw [f32_round_zero]
    have : f32_toRat ((0 + 0) % 2 * 2 ^ 31) = 0 := by
      rw [f32_toRat_signed]
      have hz : f32_mag ((0 + 0) % 2 * 2 ^ 31) = 0 := by decide
      rw [hz]; simp
    rw [this]
  · rw [h]
    apply f32_toRat_nonpos
    obtain ⟨_, _, -, -, -, -, -, -, hsign, -, -⟩ :=
      f32_round_spec ((1 + 0) % 2) (2 * (f32_mag e * 2 ^ 200 / f32_mag (f32_add e 0x40000000))
        + (if f32_mag e * 2 ^ 200 % f32_mag (f32_add e 0x40000000) = 0 then 0 else 1)) 201
        (by norm_num) (by norm_num)
    rw [hsign]

/-! ## The output of the WASM SIMD tanh kernel has the sign of the input and is at most 1 -/

/-- Value of a pattern with the sign bit flipped. -/
theorem f32_toRat_neg (v : Nat) (hv : v < 2 ^ 32) : f32_toRat (f32_neg v) = -f32_toRat v := by
  rw [f32_neg_eq v hv]
  by_cases h : v < 2 ^ 31
  · rw [if_pos h]
    obtain ⟨f1, -, -, f4⟩ := f32_fields_neg v h
    have e : v + 2 ^ 31 = 2 ^ 31 + v := by omega
    rw [e, f32_toRat_of_neg _ f1, f4, f32_toRat_of_pos _ (f32_sign_of_lt v h)]
  · rw [if_neg h]
    obtain ⟨f1, -, -, f4⟩ := f32_fields_neg (v - 2 ^ 31) (by omega)
    have e : 2 ^ 31 + (v - 2 ^ 31) = v := by omega
    rw [e] at f1 f4
    rw [f32_toRat_of_neg v f1, f4, f32_toRat_of_pos _ (f32_sign_of_lt _ (by omega))]
    ring

/-- On `z = -a` the WASM SIMD variant computes the biased `vn` that the scalar variant
computes on `a`. -/
theorem wasm_vn_biased_eq (a : Nat) (ha : a < 2 ^ 31) (hnan : f32_isNaN a = false)
    (hinf : f32_isInf a = false) :
    tanh_wasmsimd_expm1_rr1_p6_div_nabs_pmax.vn_biased (fun _ => 2 ^ 31 + a) 0
      = tanh_scalar_expm1_rr2_p6_div.vn_biased a := by
  obtain ⟨f1, f2, f3, f4⟩ := f32_fields_neg a ha
  have hs : f32_sign a = 0 := f32_sign_of_lt a ha
  have n2 : f32_isNaN (2 ^ 31 + a) = false := by
    unfold f32_isNaN at hnan ⊢; rw [f2, f3]; exact hnan
  have i2 : f32_isInf (2 ^ 31 + a) = false := by
    unfold f32_isInf at hinf ⊢; rw [f2, f3]; exact hinf
  have c1 : f32_sign 0xBFB8AA3B = 1 := by decide
  have c2 : f32_isNaN 0xBFB8AA3B = false := by decide
  have c3 : f32_isInf 0xBFB8AA3B = false := by decide
  have c4 : f32_mag 0xBFB8AA3B = 0xB8AA3B * 2 ^ 126 := by decide
  have d1 : f32_sign 0x3FB8AA3B = 0 := by decide
  have d2 : f32_isNaN 0x3FB8AA3B = false := by decide
  have d3 : f32_isInf 0x3FB8AA3B = false := by decide
  have d4 : f32_mag 0x3FB8AA3B = 0xB8AA3B * 2 ^ 126 := by decide
  have hmul : f32_mul (2 ^ 31 + a) 0x3FB8AA3B = f32_mul a 0xBFB8AA3B := by
    unfold f32_mul
    simp only [hs, hnan, hinf, n2, i2, f1, f4, c1, c2, c3, c4, d1, d2, d3, d4, Bool.or_self,
      Bool.false_eq_true, if_false]
  show f32_add (f32_mul (2 ^ 31 + a) 0x3FB8AA3B) 0x4AC0007F
    = f32_add (f32_mul a 0xBFB8AA3B) 0x4AC0007F
  rw [hmul]

/-- The product `vn * vminus_ln2` for the 27 values `vn = -k / 2` of the range reduction. -/
theorem wasm_vt_patterns :
    ∀ k, k ≤ 26 →
      f32_mag (f32_mul (f32_sub (0x4AC0007F - k) 0x4AC0007F) 0xBF317218) < 2 ^ 277 ∧
      f32_sign (f32_mul (f32_sub (0x4AC0007F - k) 0x4AC0007F) 0xBF317218)
        = (if k = 0 then 1 else 0) ∧
      k * (0xB17218 * 2 ^ 124)
        ≤ f32_mag (f32_mul (f32_sub (0x4AC0007F - k) 0x4AC0007F) 0xBF317218) + 2 ^ 128 ∧
      f32_mag (f32_mul (f32_sub (0x4AC0007F - k) 0x4AC0007F) 0xBF317218)
        ≤ k * (0xB17218 * 2 ^ 124) + 2 ^ 128 := by
  decide!

/-- The reduced argument of the WASM SIMD variant: for `z = -a` with `0 ≤ a ≤ 9.010913`,
`|vt| ≤ 1 / 4`, and `vt ≤ 0` when `n = 0`. -/
theorem wasm_vt_bound (a : Nat) (ha : a < 2 ^ 31) (hnan : f32_isNaN a = false)
    (hle : f32_mag a * 1000000 ≤ 9010913 * 2 ^ 149) :
    ∃ k, k ≤ 26 ∧
      tanh_wasmsimd_expm1_rr1_p6_div_nabs_pmax.vn_biased (fun _ => 2 ^ 31 + a) 0
        = 0x4AC0007F - k ∧
      |f32_toRat (tanh_wasmsimd_expm1_rr1_p6_div_nabs_pmax.vt (fun _ => 2 ^ 31 + a) 0)| ≤ 1 / 4 ∧
      f32_mag (tanh_wasmsimd_expm1_rr1_p6_div_nabs_pmax.vt (fun _ => 2 ^ 31 + a) 0) < 2 ^ 277 ∧
      (k = 0 → f32_toRat (tanh_wasmsimd_expm1_rr1_p6_div_nabs_pmax.vt (fun _ => 2 ^ 31 + a) 0)
        ≤ 0) := by
  have hinf : f32_isInf a = false := f32_isInf_false_of_mag_lt a (by omega)
  obtain ⟨k, hk, hv0, n1, n2⟩ := scalar_vn_biased_near a ha hnan hle
  have hv : tanh_wasmsimd_expm1_rr1_p6_div_nabs_pmax.vn_biased (fun _ => 2 ^ 31 + a) 0
      = 0x4AC0007F - k := by
    rw [wasm_vn_biased_eq a ha hnan hinf, hv0]
  obtain ⟨p1, p2, p3, p4⟩ := wasm_vt_patterns k hk
  refine ⟨k, hk, hv, ?_⟩
  have hvt : tanh_wasmsimd_expm1_rr1_p6_div_nabs_pmax.vt (fun _ => 2 ^ 31 + a) 0
      = f32_add (f32_mul (f32_sub (0x4AC0007F - k) 0x4AC0007F) 0xBF317218) (2 ^ 31 + a) := by
    rw [← hv]; rfl
  rw [hvt]
  obtain ⟨f1, -, -, f4⟩ := f32_fields_neg a ha
  have hzv : f32_toRat (2 ^ 31 + a) = -((f32_mag a : ℚ) / 2 ^ 149) := by
    rw [f32_toRat_of_neg _ f1, f4]
  have hzfin : f32_mag (2 ^ 31 + a) < 2 ^ 277 := by rw [f4]; omega
  have hkq : (k : ℚ) ≤ 26 := by exact_mod_cast hk
  have hk0 : (0 : ℚ) ≤ (k : ℚ) := Nat.cast_nonneg _
  have hZ0 : (0 : ℚ) ≤ (f32_mag a : ℚ) := Nat.cast_nonneg _
  have n1q : (f32_mag a : ℚ) * (0xB8AA3B * 2 ^ 126) ≤ (k : ℚ) * 2 ^ 297 + 2 ^ 296 + 2 ^ 277 := by
    exact_mod_cast n1
  have n2q : (k : ℚ) * 2 ^ 297 ≤ (f32_mag a : ℚ) * (0xB8AA3B * 2 ^ 126) + 2 ^ 296 + 2 ^ 277 := by
    exact_mod_cast n2
  have p3q : (k : ℚ) * (0xB17218 * 2 ^ 124)
      ≤ (f32_mag (f32_mul (f32_sub (0x4AC0007F - k) 0x4AC0007F) 0xBF317218) : ℚ) + 2 ^ 128 := by
    exact_mod_cast p3
  have p4q : (f32_mag (f32_mul (f32_sub (0x4AC0007F - k) 0x4AC0007F) 0xBF317218) : ℚ)
      ≤ (k : ℚ) * (0xB17218 * 2 ^ 124) + 2 ^ 128 := by
    exact_mod_cast p4
  have s1 : k = 0 → f32_toRat (f32_mul (f32_sub (0x4AC0007F - k) 0x4AC0007F) 0xBF317218)
      = -((f32_mag (f32_mul (f32_sub (0x4AC0007F - k) 0x4AC0007F) 0xBF317218) : ℚ) / 2 ^ 149) :=
    fun h0 => f32_toRat_of_neg _ (by rw [p2, if_pos h0])
  have s2 : k ≠ 0 → f32_toRat (f32_mul (f32_sub (0x4AC0007F - k) 0x4AC0007F) 0xBF317218)
      = (f32_mag (f32_mul (f32_sub (0x4AC0007F - k) 0x4AC0007F) 0xBF317218) : ℚ) / 2 ^ 149 :=
    fun h0 => f32_toRat_of_pos _ (by rw [p2, if_neg h0])
  generalize f32_mul (f32_sub (0x4AC0007F - k) 0x4AC0007F) 0xBF317218 = a1 at *
  generalize 2 ^ 31 + a = z at *
  have ha1 : (0 : ℚ) ≤ (f32_mag a1 : ℚ) := Nat.cast_nonneg _
  have e1z : k = 0 → f32_toRat a1 + f32_toRat z ≤ 0 := by
    intro h0
    rw [hzv, s1 h0, ← neg_add, ← add_div]
    have : (0 : ℚ) ≤ ((f32_mag a1 : ℚ) + (f32_mag a : ℚ)) / 2 ^ 149 :=
      div_nonneg (by linarith) (by positivity)
    linarith
  have e1hi : f32_toRat a1 + f32_toRat z ≤ 3 / 16 := by
    by_cases h0 : k = 0
    · have := e1z h0
      linarith
    · rw [hzv, s2 h0, ← sub_eq_add_neg, div_sub_div_same, div_le_iff₀ (by positivity)]
      linarith
  have e1lo : -(3 / 16) ≤ f32_toRat a1 + f32_toRat z := by
    rw [hzv]
    by_cases h0 : k = 0
    · rw [s1 h0, ← neg_add, ← add_div, neg_le_neg_iff, div_le_iff₀ (by positivity)]
      subst h0
      simp only [Nat.cast_zero, zero_mul, zero_add] at p4q n1q
      linarith
    · rw [s2 h0, ← sub_eq_add_neg, div_sub_div_same, le_div_iff₀ (by positivity)]
      linarith
  have g1hi := f32_add_ub a1 z 1 2 (1 / 4) p1 hzfin (by norm_num) (by norm_num)
    (by norm_num) (by linarith)
  have g1lo := f32_add_lb a1 z 1 2 (-(1 / 4)) p1 hzfin (by norm_num) (by norm_num)
    (by norm_num) (by linarith)
  refine ⟨abs_le.2 ⟨g1lo, g1hi⟩,
    f32_mag_lt_of_abs _ (1 / 4) (abs_le.2 ⟨g1lo, g1hi⟩) (by norm_num), ?_⟩
  intro h0
  exact f32_add_ub a1 z 0 0 0 p1 hzfin (by norm_num) (by norm_num) (by norm_num) (e1z h0)

/-- The Horner scheme of degree 6 with one multiply and one add per step: for `|t| ≤ 1 / 4` and
coefficients of magnitude at most `1 / 8`, `1 / 2`, `3 / 4`, `3 / 2` and `2`, the computed
`t * (c2 + t * (c3 + t * (c4 + t * (c5 + t * c6))))` is at most `1` in magnitude. -/
theorem f32_horner6_bound (c6 c5 c4 c3 c2 t : Nat) (ft : f32_mag t < 2 ^ 277)
    (ht : |f32_toRat t| ≤ 1 / 4) (b6 : |f32_toRat c6| ≤ 1 / 8) (b5 : |f32_toRat c5| ≤ 1 / 2)
    (b4 : |f32_toRat c4| ≤ 3 / 4) (b3 : |f32_toRat c3| ≤ 3 / 2) (b2 : |f32_toRat c2| ≤ 2) :
    |f32_toRat (f32_mul (f32_add (f32_mul (f32_add (f32_mul (f32_add (f32_mul (f32_add
        (f32_mul c6 t) c5) t) c4) t) c3) t) c2) t)| ≤ 1 ∧
    f32_mag (f32_mul (f32_add (f32_mul (f32_add (f32_mul (f32_add (f32_mul (f32_add
        (f32_mul c6 t) c5) t) c4) t) c3) t) c2) t) < 2 ^ 277 := by
  have f6 := f32_mag_lt_of_abs _ _ b6 (by norm_num)
  have f5 := f32_mag_lt_of_abs _ _ b5 (by norm_num)
  have f4 := f32_mag_lt_of_abs _ _ b4 (by norm_num)
  have f3 := f32_mag_lt_of_abs _ _ b3 (by norm_num)
  have f2 := f32_mag_lt_of_abs _ _ b2 (by norm_num)
  obtain ⟨h1, g1⟩ := f32_mul_bound c6 t 1 5 _ _ f6 ft (by norm_num) (by norm_num) b6 ht
    (by norm_num)
  obtain ⟨h2, g2⟩ := f32_add_bound _ c5 17 5 _ _ g1 f5 (by norm_num) (by norm_num) h1 b5
    (by norm_num)
  obtain ⟨h3, g3⟩ := f32_mul_bound _ t 17 7 _ _ g2 ft (by norm_num) (by norm_num) h2 ht
    (by norm_num)
  obtain ⟨h4, g4⟩ := f32_add_bound _ c4 113 7 _ _ g3 f4 (by norm_num) (by norm_num) h3 b4
    (by norm_num)
  obtain ⟨h5, g5⟩ := f32_mul_bound _ t 113 9 _ _ g4 ft (by norm_num) (by norm_num) h4 ht
    (by norm_num)
  obtain ⟨h6, g6⟩ := f32_add_bound _ c3 881 9 _ _ g5 f3 (by norm_num) (by norm_num) h5 b3
    (by norm_num)
  obtain ⟨h7, g7⟩ := f32_mul_bound _ t 881 11 _ _ g6 ft (by norm_num) (by norm_num) h6 ht
    (by norm_num)
  obtain ⟨h8, g8⟩ := f32_add_bound _ c2 4977 11 _ _ g7 f2 (by norm_num) (by norm_num) h7
    b2 (by norm_num)
  obtain ⟨h9, g9⟩ := f32_mul_bound _ t 4977 13 _ _ g8 ft (by norm_num) (by norm_num) h8 ht
    (by norm_num)
  have e9 : ((4977 : ℕ) : ℚ) / 2 ^ 13 ≤ 1 := by norm_num
  exact ⟨le_trans h9 e9, g9⟩

/-- Bounds on the values of the constants of the WASM SIMD variant. -/
theorem wasm_constant_bounds :
    |f32_toRat 0x3E8913C7| ≤ 1 / 2 ∧ |f32_toRat 0x3FAAAA58| ≤ 3 / 2 := by
  have c5 : f32_mag 0x3E8913C7 = 0x8913C7 * 2 ^ 124 := by decide
  have c3 : f32_mag 0x3FAAAA58 = 0xAAAA58 * 2 ^ 126 := by decide
  refine ⟨?_, ?_⟩
  · rw [abs_f32_toRat, c5, div_le_div_iff₀ (by positivity) (by positivity)]; norm_num
  · rw [abs_f32_toRat, c3, div_le_div_iff₀ (by positivity) (by positivity)]; norm_num

/-- The polynomial of the WASM SIMD variant: for `|vt| ≤ 1 / 4` the computed `vp` lies in
`[1, 3]`. -/
theorem wasm_vp_bound (vz : V128)
    (ft : f32_mag (tanh_wasmsimd_expm1_rr1_p6_div_nabs_pmax.vt vz 0) < 2 ^ 277)
    (ht : |f32_toRat (tanh_wasmsimd_expm1_rr1_p6_div_nabs_pmax.vt vz 0)| ≤ 1 / 4) :
    1 ≤ f32_toRat (tanh_wasmsimd_expm1_rr1_p6_div_nabs_pmax.vp vz 0) ∧
    f32_toRat (tanh_wasmsimd_expm1_rr1_p6_div_nabs_pmax.vp vz 0) ≤ 3 ∧
    f32_mag (tanh_wasmsimd_expm1_rr1_p6_div_nabs_pmax.vp vz 0) < 2 ^ 277 := by
  have hvp : tanh_wasmsimd_expm1_rr1_p6_div_nabs_pmax.vp vz 0
      = f32_add (f32_mul (f32_add (f32_mul (f32_add (f32_mul (f32_add (f32_mul (f32_add
          (f32_mul 0x3DB5B99C (tanh_wasmsimd_expm1_rr1_p6_div_nabs_pmax.vt vz 0)) 0x3E8913C7)
          (tanh_wasmsimd_expm1_rr1_p6_div_nabs_pmax.vt vz 0)) 0x3F2AAB8B)
          (tanh_wasmsimd_expm1_rr1_p6_div_nabs_pmax.vt vz 0)) 0x3FAAAA58)
          (tanh_wasmsimd_expm1_rr1_p6_div_nabs_pmax.vt vz 0)) 0x3FFFFFFF)
          (tanh_wasmsimd_expm1_rr1_p6_div_nabs_pmax.vt vz 0)) 0x40000000 := rfl
  rw [hvp]
  generalize tanh_wasmsimd_expm1_rr1_p6_div_nabs_pmax.vt vz 0 = t at ft ht ⊢
  obtain ⟨b6, -, b4, -, b2, -, v2⟩ := scalar_constant_bounds
  obtain ⟨b5, b3⟩ := wasm_constant_bounds
  have f2 : f32_mag 0x40000000 < 2 ^ 277 := by
    rw [scalar_constants.2.2.2.1]; norm_num
  obtain ⟨h9, g9⟩ := f32_horner6_bound 0x3DB5B99C 0x3E8913C7 0x3F2AAB8B 0x3FAAAA58 0x3FFFFFFF t
    ft ht b6 b5 b4 b3 b2
  obtain ⟨l9, u9⟩ := abs_le.1 h9
  have hlo := f32_add_lb _ 0x40000000 1 0 1 g9 f2 (by norm_num) (by norm_num) (by norm_num)
    (by rw [v2]; linarith)
  have hhi := f32_add_ub _ 0x40000000 3 0 3 g9 f2 (by norm_num) (by norm_num) (by norm_num)
    (by rw [v2]; linarith)
  exact ⟨hlo, hhi, f32_mag_lt_of_abs _ 3 (abs_le.2 ⟨by linarith, hhi⟩) (by norm_num)⟩

/-- The reconstruction `p * (t * s) + (s - 1)` with the scale `s = 2 ^ (-k)`, one rounding per
operation: for `|t| ≤ 1 / 4`, `|p| ≤ 3` and, when `k = 0`, `p` and `t` of opposite signs, the
result lies in `[-1, 0]`. -/
theorem f32_expm1_reconstruction (k t p : Nat) (hk : k ≤ 26) (ft : f32_mag t < 2 ^ 277)
    (ht : |f32_toRat t| ≤ 1 / 4) (fp : f32_mag p < 2 ^ 277) (hp : |f32_toRat p| ≤ 3)
    (h0 : k = 0 → (0 ≤ f32_toRat t ∧ f32_toRat p ≤ 0) ∨ (f32_toRat t ≤ 0 ∧ 0 ≤ f32_toRat p)) :
    -1 ≤ f32_toRat (f32_add (f32_mul p (f32_mul t ((127 - k) * 2 ^ 23)))
      (f32_sub ((127 - k) * 2 ^ 23) 0x3F800000)) ∧
    f32_toRat (f32_add (f32_mul p (f32_mul t ((127 - k) * 2 ^ 23)))
      (f32_sub ((127 - k) * 2 ^ 23) 0x3F800000)) ≤ 0 ∧
    f32_mag (f32_add (f32_mul p (f32_mul t ((127 - k) * 2 ^ 23)))
      (f32_sub ((127 - k) * 2 ^ 23) 0x3F800000)) < 2 ^ 277 := by
  obtain ⟨-, -, h3, h4, -, -, h7⟩ := magic_bias_patterns k hk
  obtain ⟨q1, q2, q3, q4⟩ := scalar_vsm1_patterns k hk
  have hS0 : (0 : ℚ) < 1 / 2 ^ k := by positivity
  have hS1 : (1 : ℚ) / 2 ^ k ≤ 1 := by
    rw [div_le_one (by positivity)]
    exact one_le_pow₀ (by norm_num)
  have hS2 : k ≠ 0 → (1 : ℚ) / 2 ^ k ≤ 1 / 2 := by
    intro h0
    obtain ⟨j, rfl⟩ : ∃ j, k = j + 1 := ⟨k - 1, by omega⟩
    rw [pow_succ, div_le_div_iff₀ (by positivity) (by norm_num)]
    have : (1 : ℚ) ≤ 2 ^ j := one_le_pow₀ (by norm_num)
    linarith
  have hS4 : ((1 : ℕ) : ℚ) / 2 ^ (k + 2) = 1 / 2 ^ k / 4 := by
    rw [pow_add]; field_simp; norm_num
  have hS34 : ((3 : ℕ) : ℚ) / 2 ^ (k + 2) = 3 * (1 / 2 ^ k / 4) := by
    rw [pow_add]; field_simp; norm_num
  have hsv : f32_toRat ((127 - k) * 2 ^ 23) = 1 / 2 ^ k := by
    rw [f32_toRat_of_pos _ h4, div_eq_div_iff (by positivity) (by positivity), one_mul]
    exact_mod_cast h7
  have hsabs : |f32_toRat ((127 - k) * 2 ^ 23)| ≤ 1 / 2 ^ k := by
    rw [hsv, abs_of_pos hS0]
  have fs : f32_mag ((127 - k) * 2 ^ 23) < 2 ^ 277 :=
    f32_mag_lt_of_abs _ _ hsabs (by linarith)
  generalize (127 - k) * 2 ^ 23 = vs at *
  obtain ⟨hts, fts⟩ := f32_mul_bound t vs 1 (k + 2) _ _ ft fs (by norm_num) (by omega) ht hsabs
    (by rw [hS4]; linarith)
  obtain ⟨hpr, fpr⟩ := f32_mul_bound p (f32_mul t vs) 3 (k + 2) _ _ fp fts (by norm_num)
    (by omega) hp hts (by rw [hS4, hS34])
  have hpr0 : k = 0 → f32_toRat (f32_mul p (f32_mul t vs)) ≤ 0 := by
    intro hk0
    have hs1 : (0 : ℚ) ≤ f32_toRat vs := by rw [hsv]; exact le_of_lt hS0
    rcases h0 hk0 with ⟨t0, p0⟩ | ⟨t0, p0⟩
    · have hts0 : 0 ≤ f32_toRat (f32_mul t vs) :=
        f32_mul_lb t vs 0 0 0 ft fs (by norm_num) (by norm_num) (by norm_num)
          (mul_nonneg t0 hs1)
      exact f32_mul_ub p (f32_mul t vs) 0 0 0 fp fts (by norm_num) (by norm_num) (by norm_num)
        (mul_nonpos_iff.2 (Or.inr ⟨p0, hts0⟩))
    · have hts0 : f32_toRat (f32_mul t vs) ≤ 0 :=
        f32_mul_ub t vs 0 0 0 ft fs (by norm_num) (by norm_num) (by norm_num)
          (mul_nonpos_iff.2 (Or.inr ⟨t0, hs1⟩))
      exact f32_mul_ub p (f32_mul t vs) 0 0 0 fp fts (by norm_num) (by norm_num) (by norm_num)
        (mul_nonpos_iff.2 (Or.inl ⟨p0, hts0⟩))
  rw [hS34] at hpr
  obtain ⟨prlo, prhi⟩ := abs_le.1 hpr
  generalize f32_mul p (f32_mul t vs) = pr at *
  obtain ⟨w1, w2⟩ := f32_toRat_of_sign_ite _ k q4
  have fw : f32_mag (f32_sub vs 0x3F800000) < 2 ^ 277 := by omega
  have hpk : (2 : ℚ) ^ (149 - k) * 2 ^ k = 2 ^ 149 := by
    rw [← pow_add, Nat.sub_add_cancel (by omega)]
  have q1q : (f32_mag (f32_sub vs 0x3F800000) : ℚ) + 2 ^ (149 - k) ≤ 2 ^ 149 + 2 ^ 124 := by
    exact_mod_cast q1
  have q2q : (f32_mag (f32_sub vs 0x3F800000) : ℚ) ≤ 2 ^ 149 := by exact_mod_cast q2
  have hW1 : (f32_mag (f32_sub vs 0x3F800000) : ℚ) / 2 ^ 149 + 1 / 2 ^ k ≤ 1 + 1 / 2 ^ 25 := by
    have e1 : (1 : ℚ) / 2 ^ k = 2 ^ (149 - k) / 2 ^ 149 := by
      rw [← hpk]; field_simp
    rw [e1, div_add_div_same, div_le_iff₀ (by positivity)]
    linarith
  generalize f32_sub vs 0x3F800000 = w at *
  have hW0 : (0 : ℚ) ≤ (f32_mag w : ℚ) / 2 ^ 149 := div_nonneg (Nat.cast_nonneg _) (by positivity)
  by_cases hk0 : k = 0
  · rw [if_pos hk0] at q3
    have hw : f32_toRat w = 0 := by rw [w1 hk0, q3]; simp
    have g1 := f32_add_ge_neg_one pr w fpr fw (by rw [hw]; linarith)
    have g2 := f32_add_ub pr w 0 0 0 fpr fw (by norm_num) (by norm_num) (by norm_num)
      (by rw [hw]; have := hpr0 hk0; linarith)
    exact ⟨g1, g2, f32_mag_lt_of_abs _ 1 (abs_le.2 ⟨g1, by linarith⟩) (by norm_num)⟩
  · rw [if_neg hk0] at q3
    have q3q : (2 : ℚ) ^ 148 ≤ (f32_mag w : ℚ) := by exact_mod_cast q3
    have hWhalf : (1 : ℚ) / 2 ≤ (f32_mag w : ℚ) / 2 ^ 149 := by
      rw [div_le_div_iff₀ (by norm_num) (by positivity)]
      linarith
    have hw := w2 hk0
    have hhalf := hS2 hk0
    have g1 := f32_add_ge_neg_one pr w fpr fw (by rw [hw]; linarith)
    have g2 := f32_add_ub pr w 0 0 0 fpr fw (by norm_num) (by norm_num) (by norm_num)
      (by rw [hw]; linarith)
    exact ⟨g1, g2, f32_mag_lt_of_abs _ 1 (abs_le.2 ⟨g1, by linarith⟩) (by norm_num)⟩

/-- The quotient of the WASM SIMD variant for `z = -a` with `0 ≤ a ≤ 9.010913`: at most `1.0` in
magnitude and not positive. -/
theorem wasm_vabsy_bound (a : Nat) (ha : a < 2 ^ 31) (hnan : f32_isNaN a = false)
    (hle : f32_mag a * 1000000 ≤ 9010913 * 2 ^ 149) :
    f32_mag (tanh_wasmsimd_expm1_rr1_p6_div_nabs_pmax.vabsy (fun _ => 2 ^ 31 + a) 0) ≤ 2 ^ 149 ∧
    f32_toRat (tanh_wasmsimd_expm1_rr1_p6_div_nabs_pmax.vabsy (fun _ => 2 ^ 31 + a) 0) ≤ 0 := by
  obtain ⟨k, hk, hv, ht, ft, ht0⟩ := wasm_vt_bound a ha hnan hle
  obtain ⟨vplo, vphi, fp⟩ := wasm_vp_bound (fun _ => 2 ^ 31 + a) ft ht
  obtain ⟨-, -, h3, -⟩ := magic_bias_patterns k hk
  have hvs : tanh_wasmsimd_expm1_rr1_p6_div_nabs_pmax.vs (fun _ => 2 ^ 31 + a) 0
      = (127 - k) * 2 ^ 23 := by
    show u32_shl (tanh_wasmsimd_expm1_rr1_p6_div_nabs_pmax.vn_biased (fun _ => 2 ^ 31 + a) 0) 23
      = _
    rw [hv, h3]
  have hem : tanh_wasmsimd_expm1_rr1_p6_div_nabs_pmax.vem1 (fun _ => 2 ^ 31 + a) 0
      = f32_add (f32_mul (tanh_wasmsimd_expm1_rr1_p6_div_nabs_pmax.vp (fun _ => 2 ^ 31 + a) 0)
          (f32_mul (tanh_wasmsimd_expm1_rr1_p6_div_nabs_pmax.vt (fun _ => 2 ^ 31 + a) 0)
            ((127 - k) * 2 ^ 23)))
          (f32_sub ((127 - k) * 2 ^ 23) 0x3F800000) := by
    rw [← hvs]; rfl
  have hab : tanh_wasmsimd_expm1_rr1_p6_div_nabs_pmax.vabsy (fun _ => 2 ^ 31 + a) 0
      = f32_div (tanh_wasmsimd_expm1_rr1_p6_div_nabs_pmax.vem1 (fun _ => 2 ^ 31 + a) 0)
          (f32_add (tanh_wasmsimd_expm1_rr1_p6_div_nabs_pmax.vem1 (fun _ => 2 ^ 31 + a) 0)
            0x40000000) := rfl
  obtain ⟨elo, ehi, fe⟩ := f32_expm1_reconstruction k _ _ hk ft ht fp
    (abs_le.2 ⟨by linarith, vphi⟩) (fun h0 => Or.inr ⟨ht0 h0, by linarith⟩)
  rw [← hem] at elo ehi fe
  rw [hab]
  obtain ⟨d1, d2⟩ := f32_div_add_two _ fe elo (by linarith)
  exact ⟨d1, d2 ehi⟩

/-- The clipped argument of the WASM SIMD variant for a lane that is not beyond the cutoff. -/
theorem wasm_vz_not_saturated (x : Nat) (hx : x < 2 ^ 32) (hnan : f32_isNaN x = false)
    (hle : f32_mag x * 1000000 ≤ 9010913 * 2 ^ 149) :
    tanh_wasmsimd_expm1_rr1_p6_div_nabs_pmax.vz (fun _ => x) 0 = 2 ^ 31 + x % 2 ^ 31 := by
  show f32_pmax (x ||| 0x80000000) 0xC1102CB4 = _
  rw [or_sign x hx]
  have hc : f32_val 0xC1102CB4 = -((0x902CB4 * 2 ^ 129 : ℕ) : Int) := by decide
  have hn : f32_isNaN 0xC1102CB4 = false := by decide
  unfold f32_pmax f32_lt
  rw [f32_isNaN_or_sign, hnan, hn, f32_val_or_sign, hc]
  simp only [Bool.not_false, Bool.true_and, decide_eq_true_eq]
  rw [if_neg (by omega)]
  omega

/-- Every lane of the WASM SIMD variant that is not beyond the cutoff is at most `1.0` in
magnitude, not negative for an input with the sign bit clear and not positive for an input
with the sign bit set. -/
theorem wasm_lane_bound (x : Nat) (hx : x < 2 ^ 32) (hnan : f32_isNaN x = false)
    (hle : f32_mag x * 1000000 ≤ 9010913 * 2 ^ 149) :
    |f32_toRat (tanh_wasmsimd_lane x)| ≤ 1 ∧
    (f32_sign x = 0 → 0 ≤ f32_toRat (tanh_wasmsimd_lane x)) ∧
    (f32_sign x = 1 → f32_toRat (tanh_wasmsimd_lane x) ≤ 0) := by
  have ha : x % 2 ^ 31 < 2 ^ 31 := Nat.mod_lt _ (by norm_num)
  have hna : f32_isNaN (x % 2 ^ 31) = false := by
    have := f32_isNaN_fabsf x
    unfold fabsf at this
    rw [this]; exact hnan
  have hma : f32_mag (x % 2 ^ 31) = f32_mag x := f32_mag_fabsf x
  obtain ⟨b1, b2⟩ := wasm_vabsy_bound (x % 2 ^ 31) ha hna (by rw [hma]; exact hle)
  have hz := wasm_vz_not_saturated x hx hnan hle
  have hy : tanh_wasmsimd_lane x
      = tanh_wasmsimd_expm1_rr1_p6_div_nabs_pmax.vabsy (fun _ => 2 ^ 31 + x % 2 ^ 31) 0
        ^^^ (x ^^^ (x ||| 0x80000000)) := by
    show tanh_wasmsimd_expm1_rr1_p6_div_nabs_pmax.vabsy
        (tanh_wasmsimd_expm1_rr1_p6_div_nabs_pmax.vz (fun _ => x)) 0
        ^^^ (x ^^^ (x ||| 0x80000000)) = _
    rw [wasm_vabsy_lane, hz]
  have hlt : tanh_wasmsimd_expm1_rr1_p6_div_nabs_pmax.vabsy (fun _ => 2 ^ 31 + x % 2 ^ 31) 0
      < 2 ^ 32 := f32_div_lt _ _
  rw [hy, xor_or_sign x hx]
  generalize tanh_wasmsimd_expm1_rr1_p6_div_nabs_pmax.vabsy (fun _ => 2 ^ 31 + x % 2 ^ 31) 0 = v
    at b1 b2 hlt ⊢
  have hv1 : |f32_toRat v| ≤ 1 := by
    rw [abs_f32_toRat, div_le_one (by positivity)]
    exact_mod_cast b1
  have hs := f32_sign_eq_zero_iff x hx
  by_cases hlt31 : x < 2 ^ 31
  · rw [if_pos hlt31]
    have e : v ^^^ 0x80000000 = f32_neg v := rfl
    rw [e, f32_toRat_neg v hlt]
    have h0 : f32_sign x = 0 := hs.2 hlt31
    refine ⟨by rw [abs_neg]; exact hv1, fun _ => by linarith, fun h1 => ?_⟩
    rw [h0] at h1
    exact absurd h1 (by norm_num)
  · rw [if_neg hlt31, Nat.xor_zero]
    refine ⟨hv1, fun h0 => absurd (hs.1 h0) hlt31, fun _ => b2⟩

/-! ## The output of the FMA tanh kernel is at most 1 in magnitude -/

/-- Range reduction of the FMA variant with the distance of `j / 16` from `z * log2(e)`: at
most `1 / 32`, the single rounding of the fused multiply-add. -/
theorem fma_vn_biased_near (z : Nat) (hz : z < 2 ^ 31) (hnan : f32_isNaN z = false)
    (hle : f32_mag z * 1000000 ≤ 9010913 * 2 ^ 149) :
    ∃ j, j ≤ 208 ∧ tanh_fma_expm1_rr1_lut8_p4_div.vn_biased z = 0x49400000 - j ∧
      f32_mag z * (0xB8AA3B * 2 ^ 126) ≤ j * 2 ^ 294 + 2 ^ 293 ∧
      j * 2 ^ 294 ≤ f32_mag z * (0xB8AA3B * 2 ^ 126) + 2 ^ 293 := by
  have hs : f32_sign z = 0 := f32_sign_of_lt z hz
  have hinf : f32_isInf z = false := f32_isInf_false_of_mag_lt z (by omega)
  have c1 : f32_sign 0xBFB8AA3B = 1 := by decide
  have c2 : f32_isNaN 0xBFB8AA3B = false := by decide
  have c3 : f32_isInf 0xBFB8AA3B = false := by decide
  have c4 : f32_mag 0xBFB8AA3B = 0xB8AA3B * 2 ^ 126 := by decide
  have b1 : f32_sign 0x49400000 = 0 := by decide
  have b2 : f32_isNaN 0x49400000 = false := by decide
  have b3 : f32_isInf 0x49400000 = false := by decide
  have b4 : f32_mag 0x49400000 = 0xC00000 * 2 ^ 145 := by decide
  have hp : 2 * (f32_mag z * (0xB8AA3B * 2 ^ 126)) < 417 * 2 ^ 294 := by
    have h1 : f32_mag z ≤ 9010913 * 2 ^ 149 / 1000000 := by omega
    have h2 : f32_mag z * (0xB8AA3B * 2 ^ 126)
        ≤ 9010913 * 2 ^ 149 / 1000000 * (0xB8AA3B * 2 ^ 126) := Nat.mul_le_mul_right _ h1
    have h3 : 2 * (9010913 * 2 ^ 149 / 1000000 * (0xB8AA3B * 2 ^ 126)) < 417 * 2 ^ 294 := by
      norm_num
    omega
  obtain ⟨j, hj, hr⟩ := f32_round_fma_bias _ hp
  obtain ⟨n1, n2⟩ := f32_round_near 0 (0xC00000 * 2 ^ 294 - f32_mag z * (0xB8AA3B * 2 ^ 126))
    298 294 (by norm_num) (by norm_num) (by norm_num) (by omega) (by omega)
  have hm : f32_mag (0x49400000 - j) = (0xC00000 - j) * 2 ^ 145 := by
    have e : 0x49400000 - j = 145 * 2 ^ 23 + (0xC00000 - j) := by omega
    rw [e]
    exact f32_mag_bits 145 (0xC00000 - j) (by omega) (fun _ => by omega) (by omega)
  rw [hr, hm] at n1 n2
  refine ⟨j, hj, ?_, by omega, by omega⟩
  unfold tanh_fma_expm1_rr1_lut8_p4_div.vn_biased
    tanh_fma_expm1_rr1_lut8_p4_div.vminus_log2e tanh_fma_expm1_rr1_lut8_p4_div.vmagic_bias fmaf
  simp only [hs, hnan, hinf, c1, c2, c3, c4, b1, b2, b3, b4, Bool.or_self, Bool.false_eq_true,
    if_false]
  have e : 0xC00000 * 2 ^ 145 * 2 ^ 149 = 0xC00000 * 2 ^ 294 := by norm_num
  rw [e, if_neg (by decide), if_neg (by omega), if_pos (by omega)]
  exact hr

/-- The reduced argument of the FMA variant: for `0 ≤ z ≤ 9.010913`, `|vt| ≤ 1 / 32`, and
`vt ≥ 0` when `n = 0`. -/
theorem fma_vt_bound (z : Nat) (hz : z < 2 ^ 31) (hnan : f32_isNaN z = false)
    (hle : f32_mag z * 1000000 ≤ 9010913 * 2 ^ 149) :
    ∃ j, j ≤ 208 ∧ tanh_fma_expm1_rr1_lut8_p4_div.vn_biased z = 0x49400000 - j ∧
      |f32_toRat (tanh_fma_expm1_rr1_lut8_p4_div.vt z)| ≤ 1 / 32 ∧
      f32_mag (tanh_fma_expm1_rr1_lut8_p4_div.vt z) < 2 ^ 277 ∧
      (j = 0 → 0 ≤ f32_toRat (tanh_fma_expm1_rr1_lut8_p4_div.vt z)) := by
  obtain ⟨j, hj, hv, n1, n2⟩ := fma_vn_biased_near z hz hnan hle
  obtain ⟨p1, p2⟩ := fma_vn_patterns j hj
  refine ⟨j, hj, hv, ?_⟩
  have hvt : tanh_fma_expm1_rr1_lut8_p4_div.vt z
      = fmaf (f32_sub (0x49400000 - j) 0x49400000) 0x3F317218 z := by
    unfold tanh_fma_expm1_rr1_lut8_p4_div.vt tanh_fma_expm1_rr1_lut8_p4_div.vn
      tanh_fma_expm1_rr1_lut8_p4_div.vmagic_bias tanh_fma_expm1_rr1_lut8_p4_div.vln2
    rw [hv]
  rw [hvt]
  have hn : f32_toRat (f32_sub (0x49400000 - j) 0x49400000) = -((j : ℚ) / 2 ^ 4) := by
    rw [f32_toRat_of_fields _ j 145 1 p1 p2 rfl (by norm_num)]
  have fn : f32_mag (f32_sub (0x49400000 - j) 0x49400000) < 2 ^ 277 := by
    rw [p1]; omega
  have l1 : f32_mag 0x3F317218 = 0xB17218 * 2 ^ 125 := by decide
  have hl : f32_toRat 0x3F317218 = 0xB17218 / 2 ^ 24 := by
    rw [f32_toRat_of_pos _ (by decide), l1]
    norm_num
  have fl : f32_mag 0x3F317218 < 2 ^ 277 := by rw [l1]; norm_num
  have hzs : f32_sign z = 0 := f32_sign_of_lt z hz
  have hzv : f32_toRat z = (f32_mag z : ℚ) / 2 ^ 149 := f32_toRat_of_pos z hzs
  have hzfin : f32_mag z < 2 ^ 277 := by omega
  have hjq : (j : ℚ) ≤ 208 := by exact_mod_cast hj
  have hj0 : (0 : ℚ) ≤ (j : ℚ) := Nat.cast_nonneg _
  have hZ0 : (0 : ℚ) ≤ (f32_mag z : ℚ) := Nat.cast_nonneg _
  have n1q : (f32_mag z : ℚ) * (0xB8AA3B * 2 ^ 126) ≤ (j : ℚ) * 2 ^ 294 + 2 ^ 293 := by
    exact_mod_cast n1
  have n2q : (j : ℚ) * 2 ^ 294 ≤ (f32_mag z : ℚ) * (0xB8AA3B * 2 ^ 126) + 2 ^ 293 := by
    exact_mod_cast n2
  generalize f32_sub (0x49400000 - j) 0x49400000 = vn at *
  have hx : -((j : ℚ) / 2 ^ 4) * (0xB17218 / 2 ^ 24) + (f32_mag z : ℚ) / 2 ^ 149
      = ((f32_mag z : ℚ) - (j : ℚ) * (0xB17218 * 2 ^ 121)) / 2 ^ 149 := by
    have e : (2 : ℚ) ^ 149 = 2 ^ 4 * 2 ^ 24 * 2 ^ 121 := by norm_num
    rw [e]
    field_simp
    ring
  have ehi : f32_toRat vn * f32_toRat 0x3F317218 + f32_toRat z ≤ 1 / 32 := by
    rw [hn, hl, hzv, hx, div_le_iff₀ (by positivity)]
    linarith
  have elo : -(1 / 32) ≤ f32_toRat vn * f32_toRat 0x3F317218 + f32_toRat z := by
    rw [hn, hl, hzv, hx, le_div_iff₀ (by positivity)]
    linarith
  have g1 := fmaf_ub vn 0x3F317218 z 1 5 (1 / 32) fn fl hzfin (by norm_num) (by norm_num)
    (by norm_num) ehi
  have g2 := fmaf_lb vn 0x3F317218 z 1 5 (-(1 / 32)) fn fl hzfin (by norm_num) (by norm_num)
    (by norm_num) elo
  refine ⟨abs_le.2 ⟨g2, g1⟩, f32_mag_lt_of_abs _ _ (abs_le.2 ⟨g2, g1⟩) (by norm_num), ?_⟩
  intro h0
  apply fmaf_lb vn 0x3F317218 z 0 0 0 fn fl hzfin (by norm_num) (by norm_num) (by norm_num)
  rw [hn, hzv, h0]
  have : (0 : ℚ) ≤ (f32_mag z : ℚ) / 2 ^ 149 := div_nonneg hZ0 (by positivity)
  simp only [Nat.cast_zero, zero_div, neg_zero, zero_mul, zero_add]
  exact this

/-- Bounds on the values of the constants of the FMA variant. -/
theorem fma_constant_bounds :
    |f32_toRat 0x3F2AAC76| ≤ 3 / 4 ∧ |f32_toRat 0xBFAAAE10| ≤ 3 / 2 ∧
    |f32_toRat 0x40000000| ≤ 2 ∧ f32_toRat 0xC0000000 = -2 ∧
    f32_neg 0x3F800000 = 0xBF800000 ∧ f32_toRat 0xBF800000 = -1 ∧
    f32_mag 0xBF800000 < 2 ^ 277 ∧ f32_mag 0xC0000000 < 2 ^ 277 := by
  have c4 : f32_mag 0x3F2AAC76 = 0xAAAC76 * 2 ^ 125 := by decide
  have c3 : f32_mag 0xBFAAAE10 = 0xAAAE10 * 2 ^ 126 := by decide
  have c1 : f32_mag 0xBF800000 = 2 ^ 149 := by decide
  obtain ⟨-, m2, -⟩ := scalar_constants
  obtain ⟨-, -, -, -, -, vm2, v2⟩ := scalar_constant_bounds
  refine ⟨?_, ?_, ?_, vm2, by decide, f32_toRat_one.2, ?_, ?_⟩
  · rw [abs_f32_toRat, c4, div_le_div_iff₀ (by positivity) (by positivity)]; norm_num
  · rw [abs_f32_toRat, c3, div_le_div_iff₀ (by positivity) (by positivity)]; norm_num
  · rw [v2]; norm_num
  · rw [c1]; norm_num
  · rw [m2]; norm_num

/-- The polynomial of the FMA variant: for `|vt| ≤ 1 / 32` the computed `vp` lies in
`[-3, -1]`. -/
theorem fma_vp_bound (z : Nat) (ft : f32_mag (tanh_fma_expm1_rr1_lut8_p4_div.vt z) < 2 ^ 277)
    (ht : |f32_toRat (tanh_fma_expm1_rr1_lut8_p4_div.vt z)| ≤ 1 / 32) :
    |f32_toRat (tanh_fma_expm1_rr1_lut8_p4_div.vp z)| ≤ 3 ∧
    f32_toRat (tanh_fma_expm1_rr1_lut8_p4_div.vp z) ≤ -1 ∧
    f32_mag (tanh_fma_expm1_rr1_lut8_p4_div.vp z) < 2 ^ 277 := by
  have hvp : tanh_fma_expm1_rr1_lut8_p4_div.vp z
      = fmaf (fmaf (fmaf 0x3F2AAC76 (tanh_fma_expm1_rr1_lut8_p4_div.vt z) 0xBFAAAE10)
          (tanh_fma_expm1_rr1_lut8_p4_div.vt z) 0x40000000)
          (tanh_fma_expm1_rr1_lut8_p4_div.vt z) 0xC0000000 := rfl
  rw [hvp]
  generalize tanh_fma_expm1_rr1_lut8_p4_div.vt z = t at ft ht ⊢
  obtain ⟨b4, b3, b2, vm2, -, -, -, fm2⟩ := fma_constant_bounds
  have f4 := f32_mag_lt_of_abs _ _ b4 (by norm_num)
  have f3 := f32_mag_lt_of_abs _ _ b3 (by norm_num)
  have f2 := f32_mag_lt_of_abs _ _ b2 (by norm_num)
  obtain ⟨h1, g1⟩ := fmaf_bound 0x3F2AAC76 t 0xBFAAAE10 2 0 _ _ _ f4 ft f3 (by norm_num)
    (by norm_num) b4 ht b3 (by norm_num)
  obtain ⟨h2, g2⟩ := fmaf_bound _ t 0x40000000 3 0 _ _ _ g1 ft f2 (by norm_num)
    (by norm_num) h1 ht b2 (by norm_num)
  have h3 : |f32_toRat (fmaf (fmaf 0x3F2AAC76 t 0xBFAAAE10) t 0x40000000) * f32_toRat t|
      ≤ 3 / 32 := by
    rw [abs_mul]
    calc |f32_toRat (fmaf (fmaf 0x3F2AAC76 t 0xBFAAAE10) t 0x40000000)| * |f32_toRat t|
        ≤ ((3 : ℕ) : ℚ) / 2 ^ 0 * (1 / 32) :=
          mul_le_mul h2 ht (abs_nonneg _) (by norm_num)
      _ = 3 / 32 := by norm_num
  obtain ⟨l3, u3⟩ := abs_le.1 h3
  have hlo := fmaf_lb _ t 0xC0000000 3 0 (-3) g2 ft fm2 (by norm_num) (by norm_num)
    (by norm_num) (by rw [vm2]; linarith)
  have hhi := fmaf_ub _ t 0xC0000000 1 0 (-1) g2 ft fm2 (by norm_num) (by norm_num)
    (by norm_num) (by rw [vm2]; linarith)
  exact ⟨abs_le.2 ⟨hlo, by linarith⟩, hhi,
    f32_mag_lt_of_abs _ 3 (abs_le.2 ⟨hlo, by linarith⟩) (by norm_num)⟩

/-- Value of a pattern in `[1.0, 2.0)`. -/
theorem f32_toRat_one_two (e : Nat) (h1 : 0x3F800000 ≤ e) (h2 : e < 0x40000000) :
    1 ≤ f32_toRat e ∧ f32_toRat e < 2 := by
  have hs : f32_sign e = 0 := f32_sign_of_lt e (by omega)
  have hd : e / 2 ^ 23 = 127 := by omega
  have hf : e % 2 ^ 23 < 2 ^ 23 := Nat.mod_lt _ (by norm_num)
  have hm : f32_mag e = (2 ^ 23 + e % 2 ^ 23) * 2 ^ 126 := by
    rw [f32_mag_of_normal e (by omega) (by omega), hd]
  have m1 : 2 ^ 149 ≤ f32_mag e := by rw [hm]; omega
  have m2 : f32_mag e < 2 ^ 150 := by rw [hm]; omega
  rw [f32_toRat_of_pos e hs]
  constructor
  · rw [one_le_div (by positivity)]
    exact_mod_cast m1
  · rw [div_lt_iff₀ (by positivity)]
    have e2 : (2 : ℚ) * 2 ^ 149 = ((2 ^ 150 : ℕ) : ℚ) := by norm_num
    rw [e2]
    exact_mod_cast m2

/-- The reconstruction `fmaf(p, t * s, s - 1)` with a scale `2 ^ (-q) ≤ s < 2 ^ (1 - q)`: for
`|t| ≤ 1 / 32` and `|p| ≤ 3` the result lies in `[-1, 2]`. -/
theorem fma_expm1_reconstruction (q t p vs : Nat) (hq : q ≤ 26) (ft : f32_mag t < 2 ^ 277)
    (ht : |f32_toRat t| ≤ 1 / 32) (fp : f32_mag p < 2 ^ 277) (hp : |f32_toRat p| ≤ 3)
    (hs1 : 1 / 2 ^ q ≤ f32_toRat vs) (hs2 : f32_toRat vs < 2 / 2 ^ q) :
    -1 ≤ f32_toRat (fmaf p (f32_mul t vs) (f32_sub vs 0x3F800000)) ∧
    f32_toRat (fmaf p (f32_mul t vs) (f32_sub vs 0x3F800000)) ≤ 2 ∧
    f32_mag (fmaf p (f32_mul t vs) (f32_sub vs 0x3F800000)) < 2 ^ 277 := by
  obtain ⟨-, -, -, -, hneg, vone, fone, -⟩ := fma_constant_bounds
  have hS0 : (0 : ℚ) < 1 / 2 ^ q := by positivity
  have hS1 : (1 : ℚ) / 2 ^ q ≤ 1 := by
    rw [div_le_one (by positivity)]
    exact one_le_pow₀ (by norm_num)
  have hS2 : (2 : ℚ) / 2 ^ q = 2 * (1 / 2 ^ q) := by ring
  have hS4 : ((1 : ℕ) : ℚ) / 2 ^ (q + 4) = 1 / 2 ^ q / 16 := by
    rw [pow_add]; field_simp; norm_num
  rw [hS2] at hs2
  have hsabs : |f32_toRat vs| ≤ 2 * (1 / 2 ^ q) := by
    rw [abs_of_nonneg (by linarith)]; linarith
  have fs : f32_mag vs < 2 ^ 277 := f32_mag_lt_of_abs _ _ hsabs (by linarith)
  obtain ⟨hts, fts⟩ := f32_mul_bound t vs 1 (q + 4) _ _ ft fs (by norm_num) (by omega) ht hsabs
    (by rw [hS4]; linarith)
  rw [hS4] at hts
  have hw : f32_sub vs 0x3F800000 = f32_add vs 0xBF800000 := by
    unfold f32_sub; rw [hneg]
  rw [hw]
  have hex : |f32_toRat vs + f32_toRat 0xBF800000| < 1 := by
    rw [vone, abs_lt]
    constructor <;> linarith
  have w1 := f32_add_near_lb vs 0xBF800000 fs fone hex
  have w2 := f32_add_ub vs 0xBF800000 1 0 1 fs fone (by norm_num) (by norm_num) (by norm_num)
    (by rw [vone]; linarith)
  have w3 := f32_add_lb vs 0xBF800000 1 0 (-1) fs fone (by norm_num) (by norm_num)
    (by norm_num) (by rw [vone]; linarith)
  rw [vone] at w1
  have fw := f32_mag_lt_of_abs _ 1 (abs_le.2 ⟨w3, w2⟩) (by norm_num)
  generalize f32_add vs 0xBF800000 = w at w1 w2 w3 fw ⊢
  have hpr : |f32_toRat p * f32_toRat (f32_mul t vs)| ≤ 3 * (1 / 2 ^ q / 16) := by
    rw [abs_mul]
    exact mul_le_mul hp hts (abs_nonneg _) (by norm_num)
  obtain ⟨prlo, prhi⟩ := abs_le.1 hpr
  generalize f32_mul t vs = ts at fts prlo prhi ⊢
  have g1 := fmaf_ge_neg_one p ts w fp fts fw (by linarith)
  have g2 := fmaf_ub p ts w 2 0 2 fp fts fw (by norm_num) (by norm_num) (by norm_num)
    (by linarith)
  exact ⟨g1, g2, f32_mag_lt_of_abs _ 2 (abs_le.2 ⟨by linarith, g2⟩) (by norm_num)⟩

/-- The quotient of the FMA variant is at most `1.0` in magnitude for `0 ≤ z ≤ 9.010913`, for
every table built from patterns `E k` in `[1.0, 2.0)`. -/
theorem fma_vabsy_bound (tbl E : Nat → Nat)
    (hE : ∀ k, k < 8 → 0x3F800000 ≤ E k ∧ E k < 0x40000000)
    (htbl : ∀ k, k < 8 → tbl k = E k - k * 2 ^ 20)
    (z : Nat) (hz : z < 2 ^ 31) (hnan : f32_isNaN z = false)
    (hle : f32_mag z * 1000000 ≤ 9010913 * 2 ^ 149) :
    f32_mag (tanh_fma_expm1_rr1_lut8_p4_div.vabsy tbl z) ≤ 2 ^ 149 := by
  obtain ⟨j, hj, hv, ht, ft, -⟩ := fma_vt_bound z hz hnan hle
  obtain ⟨hp, -, fp⟩ := fma_vp_bound z ft ht
  obtain ⟨-, b2⟩ := table_lookup_bits tbl E hE htbl j hj
  have hk : (8 - j % 8) % 8 < 8 := Nat.mod_lt _ (by norm_num)
  obtain ⟨e1, e2⟩ := hE _ hk
  obtain ⟨r1, -, -, -⟩ := f32_toRat_sub_exp (E ((8 - j % 8) % 8)) ((j + 7) / 8) e1 e2 (by omega)
  obtain ⟨v1, v2⟩ := f32_toRat_one_two _ e1 e2
  have hvs : tanh_fma_expm1_rr1_lut8_p4_div.vs tbl z
      = E ((8 - j % 8) % 8) - (j + 7) / 8 * 2 ^ 23 := by
    unfold tanh_fma_expm1_rr1_lut8_p4_div.vs tanh_fma_expm1_rr1_lut8_p4_div.vidx
      tanh_fma_expm1_rr1_lut8_p4_div.ven uint32_as_float float_as_uint32
      tanh_fma_expm1_rr1_lut8_p4_div.vindex_mask
    rw [hv]
    exact b2
  have hs1 : 1 / 2 ^ ((j + 7) / 8) ≤ f32_toRat (tanh_fma_expm1_rr1_lut8_p4_div.vs tbl z) := by
    rw [hvs, r1]
    exact div_le_div_of_nonneg_right v1 (by positivity)
  have hs2 : f32_toRat (tanh_fma_expm1_rr1_lut8_p4_div.vs tbl z) < 2 / 2 ^ ((j + 7) / 8) := by
    rw [hvs, r1]
    exact div_lt_div_of_pos_right v2 (by positivity)
  obtain ⟨elo, ehi, fe⟩ := fma_expm1_reconstruction ((j + 7) / 8) _ _ _ (by omega) ft ht fp hp
    hs1 hs2
  obtain ⟨-, -, -, -, -, hneg⟩ := scalar_constants
  have hab : tanh_fma_expm1_rr1_lut8_p4_div.vabsy tbl z
      = f32_div (tanh_fma_expm1_rr1_lut8_p4_div.vem1 tbl z)
          (f32_add (tanh_fma_expm1_rr1_lut8_p4_div.vem1 tbl z) 0x40000000) := by
    rw [← hneg]; rfl
  have hem : tanh_fma_expm1_rr1_lut8_p4_div.vem1 tbl z
      = fmaf (tanh_fma_expm1_rr1_lut8_p4_div.vp z)
          (f32_mul (tanh_fma_expm1_rr1_lut8_p4_div.vt z)
            (tanh_fma_expm1_rr1_lut8_p4_div.vs tbl z))
          (f32_sub (tanh_fma_expm1_rr1_lut8_p4_div.vs tbl z) 0x3F800000) := rfl
  rw [← hem] at elo ehi fe
  rw [hab]
  exact (f32_div_add_two _ fe elo ehi).1

/-! ## Monotonicity of the tanh kernels across the cutoff and across zero -/

/-- A saturated input, an infinity included, is beyond 9.010913 in magnitude. -/
theorem abs_gt_of_saturated (x : Nat)
    (h : f32_isInf x = true ∨ (9010913 : ℚ) / 1000000 < |f32_toRat x|) :
    (9010913 : ℚ) / 1000000 < |f32_toRat x| := by
  rcases h with h | h
  · rw [abs_f32_toRat, f32_mag_of_isInf x h, lt_div_iff₀ (by positivity)]
    push_cast
    norm_num
  · exact h

/-- Value of the result selected on the saturated path. -/
theorem f32_toRat_sat_value (x : Nat) :
    f32_toRat (if f32_sign x = 1 then 0xBF800000 else 0x3F800000)
      = if f32_sign x = 1 then -1 else 1 := by
  obtain ⟨e1, e2⟩ := f32_toRat_one
  by_cases h : f32_sign x = 1
  · rw [if_pos h, if_pos h, e2]
  · rw [if_neg h, if_neg h, e1]

/-- A pattern of magnitude zero is `+0` or `-0`. -/
theorem f32_zero_of_mag (x : Nat) (hx : x < 2 ^ 32) (h : f32_mag x = 0) :
    x = f32_sign x * 2 ^ 31 := by
  unfold f32_mag at h
  have hp : 0 < 2 ^ (f32_exp x - 1) := Nat.pow_pos (by norm_num)
  have h0 : (if f32_exp x = 0 then f32_frac x else 2 ^ 23 + f32_frac x) = 0 := by
    rcases Nat.mul_eq_zero.1 h with h1 | h1
    · exact h1
    · omega
  have he : f32_exp x = 0 := by
    by_contra hc
    rw [if_neg hc] at h0
    omega
  rw [if_pos he] at h0
  unfold f32_exp at he
  unfold f32_frac at h0
  unfold f32_sign
  omega

/-- A pattern of value zero has magnitude zero. -/
theorem f32_mag_of_toRat_zero (x : Nat) (h : f32_toRat x = 0) : f32_mag x = 0 := by
  have h1 := abs_f32_toRat x
  rw [h, abs_zero] at h1
  have h2 : (f32_mag x : ℚ) = 0 := by
    have h3 := h1.symm
    rw [div_eq_zero_iff] at h3
    rcases h3 with h3 | h3
    · exact h3
    · exact absurd h3 (by positivity)
  exact_mod_cast h2

/-- An input not above the cutoff `0x1.205966p+3f` is at most 9.010913 in magnitude. -/
theorem f32_not_gt_cutoff (x : Nat) (hnan : f32_isNaN x = false)
    (hg : f32_gt (fabsf x) 0x41102CB3 = false) :
    fabsf x < 2 ^ 31 ∧ f32_isNaN (fabsf x) = false ∧
    f32_mag (fabsf x) * 1000000 ≤ 9010913 * 2 ^ 149 := by
  have hzlt : fabsf x < 2 ^ 31 := Nat.mod_lt _ (by norm_num)
  have hzn : f32_isNaN (fabsf x) = false := by rw [f32_isNaN_fabsf]; exact hnan
  have hcut : f32_val 0x41102CB3 = ((0x902CB3 * 2 ^ 129 : ℕ) : Int) := by decide
  have hcn : f32_isNaN 0x41102CB3 = false := by decide
  unfold f32_gt f32_lt at hg
  rw [hcn, hzn, hcut, f32_val_fabsf] at hg
  simp only [Bool.not_false, Bool.true_and, decide_eq_false_iff_not, not_lt] at hg
  have h1 : f32_mag x ≤ 0x902CB3 * 2 ^ 129 := by exact_mod_cast hg
  rw [f32_mag_fabsf]
  exact ⟨hzlt, hzn, by omega⟩

/-- A magnitude of at most `1.0` under the sign of `x`: at most 1 in absolute value, not
negative when the sign bit of `x` is clear and not positive when it is set. -/
theorem copysignf_sign_and_bound (a x : Nat) (h : f32_mag a ≤ 2 ^ 149) :
    |f32_toRat (copysignf a x)| ≤ 1 ∧
    (f32_sign x = 0 → 0 ≤ f32_toRat (copysignf a x)) ∧
    (f32_sign x = 1 → f32_toRat (copysignf a x) ≤ 0) := by
  refine ⟨?_, fun h0 => ?_, fun h1 => ?_⟩
  · rw [abs_f32_toRat, f32_mag_copysignf, div_le_one (by positivity)]
    exact_mod_cast h
  · exact f32_toRat_nonneg _ (by rw [f32_sign_copysignf]; exact h0)
  · exact f32_toRat_nonpos _ (by rw [f32_sign_copysignf]; exact h1)

/-- The output of the scalar variant is at most 1 in magnitude and has the sign of the input. -/
theorem scalar_vy_sign_and_bound (x : Nat) (hnan : f32_isNaN x = false) :
    |f32_toRat (tanh_scalar_expm1_rr2_p6_div.vy x)| ≤ 1 ∧
    (f32_sign x = 0 → 0 ≤ f32_toRat (tanh_scalar_expm1_rr2_p6_div.vy x)) ∧
    (f32_sign x = 1 → f32_toRat (tanh_scalar_expm1_rr2_p6_div.vy x) ≤ 0) := by
  have hone : f32_mag 0x3F800000 = 2 ^ 149 := by decide
  unfold tanh_scalar_expm1_rr2_p6_div.vy
  simp only []
  apply copysignf_sign_and_bound
  by_cases hg : f32_gt (fabsf x) tanh_scalar_expm1_rr2_p6_div.vsat_cutoff = true
  · rw [if_pos hg]
    unfold tanh_scalar_expm1_rr2_p6_div.vone
    rw [hone]
  · rw [if_neg hg]
    have hg2 : f32_gt (fabsf x) 0x41102CB3 = false := by simpa using hg
    obtain ⟨a1, a2, a3⟩ := f32_not_gt_cutoff x hnan hg2
    exact scalar_vabsy_bound (fabsf x) a1 a2 a3

/-- The output of the FMA variant is at most 1 in magnitude and has the sign of the input, for
every table built from patterns `E k` in `[1.0, 2.0)`. -/
theorem fma_vy_sign_and_bound (tbl E : Nat → Nat)
    (hE : ∀ k, k < 8 → 0x3F800000 ≤ E k ∧ E k < 0x40000000)
    (htbl : ∀ k, k < 8 → tbl k = E k - k * 2 ^ 20)
    (x : Nat) (hnan : f32_isNaN x = false) :
    |f32_toRat (tanh_fma_expm1_rr1_lut8_p4_div.vy tbl x)| ≤ 1 ∧
    (f32_sign x = 0 → 0 ≤ f32_toRat (tanh_fma_expm1_rr1_lut8_p4_div.vy tbl x)) ∧
    (f32_sign x = 1 → f32_toRat (tanh_fma_expm1_rr1_lut8_p4_div.vy tbl x) ≤ 0) := by
  have hone : f32_mag 0x3F800000 = 2 ^ 149 := by decide
  unfold tanh_fma_expm1_rr1_lut8_p4_div.vy
  simp only []
  apply copysignf_sign_and_bound
  by_cases hg : f32_gt (fabsf x) tanh_fma_expm1_rr1_lut8_p4_div.vsat_cutoff = true
  · rw [if_pos hg]
    unfold tanh_fma_expm1_rr1_lut8_p4_div.vone
    rw [hone]
  · rw [if_neg hg]
    have hg2 : f32_gt (fabsf x) 0x41102CB3 = false := by simpa using hg
    obtain ⟨a1, a2, a3⟩ := f32_not_gt_cutoff x hnan hg2
    exact fma_vabsy_bound tbl E hE htbl (fabsf x) a1 a2 a3

/-- Every lane of the WASM SIMD variant is at most 1 in magnitude and has the sign of the
input. -/
theorem wasm_lane_sign_and_bound (x : Nat) (hx : x < 2 ^ 32) (hnan : f32_isNaN x = false) :
    |f32_toRat (tanh_wasmsimd_lane x)| ≤ 1 ∧
    (f32_sign x = 0 → 0 ≤ f32_toRat (tanh_wasmsimd_lane x)) ∧
    (f32_sign x = 1 → f32_toRat (tanh_wasmsimd_lane x) ≤ 0) := by
  by_cases hle : f32_mag x * 1000000 ≤ 9010913 * 2 ^ 149
  · exact wasm_lane_bound x hx hnan hle
  · have hs : f32_isInf x = true ∨ (9010913 : ℚ) / 1000000 < |f32_toRat x| := by
      right
      rw [abs_f32_toRat, div_lt_div_iff₀ (by norm_num) (by positivity)]
      have h1 : 9010913 * 2 ^ 149 < f32_mag x * 1000000 := by omega
      exact_mod_cast h1
    rw [wasm_vy_saturated x hx hnan hs, f32_toRat_sat_value]
    rcases f32_sign_cases x with s | s
    · rw [s]
      refine ⟨by norm_num, fun _ => by norm_num, fun h1 => absurd h1 (by norm_num)⟩
    · rw [s]
      refine ⟨by norm_num, fun h0 => absurd h0 (by norm_num), fun _ => by norm_num⟩

/-- Outputs that are bounded by 1, carry the sign of the input and are `±1` for a saturated
input are ordered whenever at least one of two ordered inputs is saturated or the first has the
sign bit set and the second has it clear. -/
theorem tanh_mono_of_sign_and_bound (x1 x2 : Nat) (y1 y2 : ℚ)
    (hlt : f32_toRat x1 < f32_toRat x2) (b1 : |y1| ≤ 1) (b2 : |y2| ≤ 1)
    (n1 : f32_sign x1 = 1 → y1 ≤ 0) (p2 : f32_sign x2 = 0 → 0 ≤ y2)
    (t1 : (f32_isInf x1 = true ∨ (9010913 : ℚ) / 1000000 < |f32_toRat x1|) →
      y1 = if f32_sign x1 = 1 then -1 else 1)
    (t2 : (f32_isInf x2 = true ∨ (9010913 : ℚ) / 1000000 < |f32_toRat x2|) →
      y2 = if f32_sign x2 = 1 then -1 else 1)
    (h : (f32_isInf x1 = true ∨ (9010913 : ℚ) / 1000000 < |f32_toRat x1|) ∨
      (f32_isInf x2 = true ∨ (9010913 : ℚ) / 1000000 < |f32_toRat x2|) ∨
      (f32_sign x1 = 1 ∧ f32_sign x2 = 0)) : y1 ≤ y2 := by
  obtain ⟨l1, u1⟩ := abs_le.1 b1
  obtain ⟨l2, u2⟩ := abs_le.1 b2
  rcases h with h | h | ⟨a, b⟩
  · have a1 := abs_gt_of_saturated x1 h
    rcases f32_sign_cases x1 with s | s
    · have v1 := f32_toRat_nonneg x1 s
      rw [abs_of_nonneg v1] at a1
      have s2 : f32_sign x2 = 0 := by
        rcases f32_sign_cases x2 with c | c
        · exact c
        · have := f32_toRat_nonpos x2 c
          linarith
      have v2 := f32_toRat_nonneg x2 s2
      have h2 : f32_isInf x2 = true ∨ (9010913 : ℚ) / 1000000 < |f32_toRat x2| := by
        right
        rw [abs_of_nonneg v2]
        linarith
      rw [t1 h, t2 h2, s, s2]
    · rw [t1 h, s, if_pos rfl]
      exact l2
  · have a2 := abs_gt_of_saturated x2 h
    rcases f32_sign_cases x2 with s | s
    · rw [t2 h, s, if_neg (by norm_num)]
      exact u1
    · have v2 := f32_toRat_nonpos x2 s
      rw [abs_of_nonpos v2] at a2
      have s1 : f32_sign x1 = 1 := by
        rcases f32_sign_cases x1 with c | c
        · have := f32_toRat_nonneg x1 c
          linarith
        · exact c
      have v1 := f32_toRat_nonpos x1 s1
      have h1 : f32_isInf x1 = true ∨ (9010913 : ℚ) / 1000000 < |f32_toRat x1| := by
        right
        rw [abs_of_nonpos v1]
        linarith
      rw [t1 h1, t2 h, s, s1]
  · have := n1 a
    have := p2 b
    linarith

/-- The same with the third case in terms of the values, `x1 ≤ 0 ≤ x2`, for outputs that are
zero at `+0` and at `-0`. -/
theorem tanh_mono_of_sign_bound_zero (x1 x2 : Nat) (y1 y2 : ℚ)
    (hx1 : x1 < 2 ^ 32) (hx2 : x2 < 2 ^ 32)
    (hlt : f32_toRat x1 < f32_toRat x2) (b1 : |y1| ≤ 1) (b2 : |y2| ≤ 1)
    (n1 : f32_sign x1 = 1 → y1 ≤ 0) (p2 : f32_sign x2 = 0 → 0 ≤ y2)
    (t1 : (f32_isInf x1 = true ∨ (9010913 : ℚ) / 1000000 < |f32_toRat x1|) →
      y1 = if f32_sign x1 = 1 then -1 else 1)
    (t2 : (f32_isInf x2 = true ∨ (9010913 : ℚ) / 1000000 < |f32_toRat x2|) →
      y2 = if f32_sign x2 = 1 then -1 else 1)
    (z1 : x1 = 0 → y1 = 0) (z2 : x2 = 0x80000000 → y2 = 0)
    (h : (f32_isInf x1 = true ∨ (9010913 : ℚ) / 1000000 < |f32_toRat x1|) ∨
      (f32_isInf x2 = true ∨ (9010913 : ℚ) / 1000000 < |f32_toRat x2|) ∨
      (f32_toRat x1 ≤ 0 ∧ 0 ≤ f32_toRat x2)) : y1 ≤ y2 := by
  rcases h with h | h | ⟨a, b⟩
  · exact tanh_mono_of_sign_and_bound x1 x2 y1 y2 hlt b1 b2 n1 p2 t1 t2 (Or.inl h)
  · exact tanh_mono_of_sign_and_bound x1 x2 y1 y2 hlt b1 b2 n1 p2 t1 t2 (Or.inr (Or.inl h))
  · rcases f32_sign_cases x1 with s1 | s1
    · have v1 := f32_toRat_nonneg x1 s1
      have e1 : f32_toRat x1 = 0 := le_antisymm a v1
      have m1 := f32_zero_of_mag x1 hx1 (f32_mag_of_toRat_zero x1 e1)
      rw [s1] at m1
      have s2 : f32_sign x2 = 0 := by
        rcases f32_sign_cases x2 with c | c
        · exact c
        · have := f32_toRat_nonpos x2 c
          linarith
      rw [z1 (by omega)]
      exact p2 s2
    · rcases f32_sign_cases x2 with s2 | s2
      · exact tanh_mono_of_sign_and_bound x1 x2 y1 y2 hlt b1 b2 n1 p2 t1 t2
          (Or.inr (Or.inr ⟨s1, s2⟩))
      · have v2 := f32_toRat_nonpos x2 s2
        have e2 : f32_toRat x2 = 0 := le_antisymm v2 b
        have m2 := f32_zero_of_mag x2 hx2 (f32_mag_of_toRat_zero x2 e2)
        rw [s2] at m2
        rw [z2 (by omega)]
        exact n1 s1

/-- The three variants at `+0` and `-0`: the scalar variant returns the input, the WASM SIMD
variant returns the zero of the other sign, and the FMA variant returns the input when the first
entry of the table is `1.0`; the value is zero in each case. -/
theorem tanh_at_zero (tbl : Nat → Nat) (h0 : tbl 0 = 0x3F800000) :
    tanh_scalar_expm1_rr2_p6_div.vy 0 = 0 ∧
    tanh_scalar_expm1_rr2_p6_div.vy 0x80000000 = 0x80000000 ∧
    tanh_wasmsimd_lane 0 = 0x80000000 ∧ tanh_wasmsimd_lane 0x80000000 = 0 ∧
    tanh_fma_expm1_rr1_lut8_p4_div.vy tbl 0 = 0 ∧
    tanh_fma_expm1_rr1_lut8_p4_div.vy tbl 0x80000000 = 0x80000000 ∧
    f32_toRat 0 = 0 ∧ f32_toRat 0x80000000 = 0 := by
  have hi : tanh_fma_expm1_rr1_lut8_p4_div.vidx 0 = 0 := by decide!
  have hs : tanh_fma_expm1_rr1_lut8_p4_div.vs tbl 0
      = tanh_fma_expm1_rr1_lut8_p4_div.vs (fun _ => 0x3F800000) 0 := by
    unfold tanh_fma_expm1_rr1_lut8_p4_div.vs
    rw [hi, h0]
  have hv : tanh_fma_expm1_rr1_lut8_p4_div.vabsy tbl 0 = 0 := by
    have e : tanh_fma_expm1_rr1_lut8_p4_div.vabsy tbl 0
        = f32_div (fmaf (tanh_fma_expm1_rr1_lut8_p4_div.vp 0)
            (f32_mul (tanh_fma_expm1_rr1_lut8_p4_div.vt 0)
              (tanh_fma_expm1_rr1_lut8_p4_div.vs tbl 0))
            (f32_sub (tanh_fma_expm1_rr1_lut8_p4_div.vs tbl 0) 0x3F800000))
          (f32_sub (fmaf (tanh_fma_expm1_rr1_lut8_p4_div.vp 0)
            (f32_mul (tanh_fma_expm1_rr1_lut8_p4_div.vt 0)
              (tanh_fma_expm1_rr1_lut8_p4_div.vs tbl 0))
            (f32_sub (tanh_fma_expm1_rr1_lut8_p4_div.vs tbl 0) 0x3F800000)) 0xC0000000) := rfl
    rw [e, hs]
    decide!
  have hg : f32_gt 0 0x41102CB3 = false := by decide
  have f0 : tanh_fma_expm1_rr1_lut8_p4_div.vy tbl 0
      = copysignf (if f32_gt 0 0x41102CB3 then 0x3F800000
          else tanh_fma_expm1_rr1_lut8_p4_div.vabsy tbl 0) 0 := rfl
  have f1 : tanh_fma_expm1_rr1_lut8_p4_div.vy tbl 0x80000000
      = copysignf (if f32_gt 0 0x41102CB3 then 0x3F800000
          else tanh_fma_expm1_rr1_lut8_p4_div.vabsy tbl 0) 0x80000000 := rfl
  have m0 : f32_mag 0 = 0 := by decide
  have m1 : f32_mag 0x80000000 = 0 := by decide
  refine ⟨by decide!, by decide!, by decide!, by decide!, ?_, ?_, ?_, ?_⟩
  · rw [f0, hg, hv]; decide
  · rw [f1, hg, hv]; decide
  · rw [f32_toRat_of_pos _ (by decide), m0]; simp
  · rw [f32_toRat_of_neg _ (by decide), m1]; simp

/-- With the example table the FMA variant also decreases across a boundary where the
range-reduction value `n` changes: the neighbouring inputs `0x3CB17218` and `0x3CB17219` have
the biased `n` patterns `0x49400000` and `0x493FFFFF` and give `0x3CB16AFE` and the smaller
`0x3CB16AFC`. -/
theorem tanh_fma_example_not_monotone_across_n :
    tanh_fma_expm1_rr1_lut8_p4_div.vn_biased 0x3CB17218 = 0x49400000 ∧
    tanh_fma_expm1_rr1_lut8_p4_div.vn_biased 0x3CB17219 = 0x493FFFFF ∧
    tanh_fma_expm1_rr1_lut8_p4_div.vy table_exp2minus_k_over_8_example 0x3CB17218 = 0x3CB16AFE ∧
    tanh_fma_expm1_rr1_lut8_p4_div.vy table_exp2minus_k_over_8_example 0x3CB17219
      = 0x3CB16AFC := by
  decide!

/-- C15 as amended: each tanh variant is monotone non-decreasing across the saturation cutoff
and across zero.  For non-NaN binary32 inputs `x1 < x2` such that at least one of them is
saturated (infinite or beyond 9.010913 in magnitude) or `x1 ≤ 0 ≤ x2`, the outputs satisfy
`tanh_approx(x1) ≤ tanh_approx(x2)`: for the scalar variant; for every lane of the WASM SIMD
variant; for the FMA variant with a table built from eight patterns `E k` in `[1.0, 2.0)`, each
decremented by `k << 20`, when at least one input is saturated or the sign bits of the inputs
differ or `E 0` is `1.0`; and for the FMA variant with every table when both inputs are
saturated.  Between two non-saturated inputs of the same sign the outputs can decrease by a few
units in the last place. -/
theorem tanh_monotone_across_cutoff_and_zero (tbl E : Nat → Nat) (x1 x2 : Nat)
    (hx1 : x1 < 2 ^ 32) (hx2 : x2 < 2 ^ 32)
    (hnan1 : f32_isNaN x1 = false) (hnan2 : f32_isNaN x2 = false)
    (hlt : f32_toRat x1 < f32_toRat x2)
    (h : (f32_isInf x1 = true ∨ (9010913 : ℚ) / 1000000 < |f32_toRat x1|) ∨
      (f32_isInf x2 = true ∨ (9010913 : ℚ) / 1000000 < |f32_toRat x2|) ∨
      (f32_toRat x1 ≤ 0 ∧ 0 ≤ f32_toRat x2)) :
    f32_toRat (tanh_scalar_expm1_rr2_p6_div.vy x1)
      ≤ f32_toRat (tanh_scalar_expm1_rr2_p6_div.vy x2) ∧
    f32_toRat (tanh_wasmsimd_lane x1) ≤ f32_toRat (tanh_wasmsimd_lane x2) ∧
    ((∀ k, k < 8 → 0x3F800000 ≤ E k ∧ E k < 0x40000000) →
      (∀ k, k < 8 → tbl k = E k - k * 2 ^ 20) →
      (E 0 = 0x3F800000 ∨ f32_sign x1 ≠ f32_sign x2 ∨
        (f32_isInf x1 = true ∨ (9010913 : ℚ) / 1000000 < |f32_toRat x1|) ∨
        (f32_isInf x2 = true ∨ (9010913 : ℚ) / 1000000 < |f32_toRat x2|)) →
      f32_toRat (tanh_fma_expm1_rr1_lut8_p4_div.vy tbl x1)
        ≤ f32_toRat (tanh_fma_expm1_rr1_lut8_p4_div.vy tbl x2)) ∧
    ((f32_isInf x1 = true ∨ (9010913 : ℚ) / 1000000 < |f32_toRat x1|) →
      (f32_isInf x2 = true ∨ (9010913 : ℚ) / 1000000 < |f32_toRat x2|) →
      f32_toRat (tanh_fma_expm1_rr1_lut8_p4_div.vy tbl x1)
        ≤ f32_toRat (tanh_fma_expm1_rr1_lut8_p4_div.vy tbl x2)) := by
  obtain ⟨zs0, zs1, zw0, zw1, -, -, v0, v1⟩ := tanh_at_zero (fun _ => 0x3F800000) rfl
  refine ⟨?_, ?_, ?_, ?_⟩
  · obtain ⟨b1, -, n1⟩ := scalar_vy_sign_and_bound x1 hnan1
    obtain ⟨b2, p2, -⟩ := scalar_vy_sign_and_bound x2 hnan2
    exact tanh_mono_of_sign_bound_zero x1 x2 _ _ hx1 hx2 hlt b1 b2 n1 p2
      (fun s => by rw [scalar_vy_saturated x1 hnan1 s, f32_toRat_sat_value])
      (fun s => by rw [scalar_vy_saturated x2 hnan2 s, f32_toRat_sat_value])
      (fun e => by rw [e, zs0, v0]) (fun e => by rw [e, zs1, v1]) h
  · obtain ⟨b1, -, n1⟩ := wasm_lane_sign_and_bound x1 hx1 hnan1
    obtain ⟨b2, p2, -⟩ := wasm_lane_sign_and_bound x2 hx2 hnan2
    exact tanh_mono_of_sign_bound_zero x1 x2 _ _ hx1 hx2 hlt b1 b2 n1 p2
      (fun s => by rw [wasm_vy_saturated x1 hx1 hnan1 s, f32_toRat_sat_value])
      (fun s => by rw [wasm_vy_saturated x2 hx2 hnan2 s, f32_toRat_sat_value])
      (fun e => by rw [e, zw0, v1]) (fun e => by rw [e, zw1, v0]) h
  · intro hE htbl hc
    obtain ⟨b1, -, n1⟩ := fma_vy_sign_and_bound tbl E hE htbl x1 hnan1
    obtain ⟨b2, p2, -⟩ := fma_vy_sign_and_bound tbl E hE htbl x2 hnan2
    have t1 : (f32_isInf x1 = true ∨ (9010913 : ℚ) / 1000000 < |f32_toRat x1|) →
        f32_toRat (tanh_fma_expm1_rr1_lut8_p4_div.vy tbl x1)
          = if f32_sign x1 = 1 then -1 else 1 :=
      fun s => by rw [fma_vy_saturated tbl x1 hnan1 s, f32_toRat_sat_value]
    have t2 : (f32_isInf x2 = true ∨ (9010913 : ℚ) / 1000000 < |f32_toRat x2|) →
        f32_toRat (tanh_fma_expm1_rr1_lut8_p4_div.vy tbl x2)
          = if f32_sign x2 = 1 then -1 else 1 :=
      fun s => by rw [fma_vy_saturated tbl x2 hnan2 s, f32_toRat_sat_value]
    rcases hc with e0 | hs | s1 | s2
    · have h0 : tbl 0 = 0x3F800000 := by
        rw [htbl 0 (by norm_num), e0]
        norm_num
      obtain ⟨-, -, -, -, zf0, zf1, -, -⟩ := tanh_at_zero tbl h0
      exact tanh_mono_of_sign_bound_zero x1 x2 _ _ hx1 hx2 hlt b1 b2 n1 p2 t1 t2
        (fun e => by rw [e, zf0, v0]) (fun e => by rw [e, zf1, v1]) h
    · have hsg : f32_sign x1 = 1 ∧ f32_sign x2 = 0 := by
        rcases f32_sign_cases x1 with c1 | c1 <;> rcases f32_sign_cases x2 with c2 | c2
        · exact absurd (c1.trans c2.symm) hs
        · have := f32_toRat_nonneg x1 c1
          have := f32_toRat_nonpos x2 c2
          linarith
        · exact ⟨c1, c2⟩
        · exact absurd (c1.trans c2.symm) hs
      exact tanh_mono_of_sign_and_bound x1 x2 _ _ hlt b1 b2 n1 p2 t1 t2 (Or.inr (Or.inr hsg))
    · exact tanh_mono_of_sign_and_bound x1 x2 _ _ hlt b1 b2 n1 p2 t1 t2 (Or.inl s1)
    · exact tanh_mono_of_sign_and_bound x1 x2 _ _ hlt b1 b2 n1 p2 t1 t2 (Or.inr (Or.inl s2))
  · intro s1 s2
    rw [fma_vy_saturated tbl x1 hnan1 s1, fma_vy_saturated tbl x2 hnan2 s2]
    exact sat_values_mono x1 x2 hlt

/-- C15 as amended, across the cutoff: `x1 = 1.0` is not saturated, `x2 = 10.0` is, and the
outputs of the three variants are ordered, the FMA variant with the example table. -/
theorem tanh_monotone_across_cutoff_and_zero_witness :
    f32_toRat 0x3F800000 < f32_toRat 0x41200000 ∧
    ¬ ((9010913 : ℚ) / 1000000 < |f32_toRat 0x3F800000|) ∧
    (9010913 : ℚ) / 1000000 < |f32_toRat 0x41200000| ∧
    f32_toRat (tanh_scalar_expm1_rr2_p6_div.vy 0x3F800000)
      ≤ f32_toRat (tanh_scalar_expm1_rr2_p6_div.vy 0x41200000) ∧
    f32_toRat (tanh_wasmsimd_lane 0x3F800000) ≤ f32_toRat (tanh_wasmsimd_lane 0x41200000) ∧
    f32_toRat (tanh_fma_expm1_rr1_lut8_p4_div.vy table_exp2minus_k_over_8_example 0x3F800000)
      ≤ f32_toRat
        (tanh_fma_expm1_rr1_lut8_p4_div.vy table_exp2minus_k_over_8_example 0x41200000) := by
  have m1 : f32_mag 0x3F800000 = 2 ^ 149 := by decide
  have m2 : f32_mag 0x41200000 = 10 * 2 ^ 149 := by decide
  have hlt : f32_toRat 0x3F800000 < f32_toRat 0x41200000 := by
    rw [f32_toRat_of_pos _ (by decide), f32_toRat_of_pos _ (by decide), m1, m2]
    norm_num
  have h1 : ¬ ((9010913 : ℚ) / 1000000 < |f32_toRat 0x3F800000|) := by
    rw [abs_f32_toRat, m1]; norm_num
  have h2 : (9010913 : ℚ) / 1000000 < |f32_toRat 0x41200000| := by
    rw [abs_f32_toRat, m2]; norm_num
  have key := tanh_monotone_across_cutoff_and_zero table_exp2minus_k_over_8_example
    exp2_k_over_8_example 0x3F800000 0x41200000 (by norm_num) (by norm_num) (by decide)
    (by decide) hlt (Or.inr (Or.inl (Or.inr h2)))
  exact ⟨hlt, h1, h2, key.1, key.2.1,
    key.2.2.1
      (fun k hk => ⟨(exp2_k_over_8_example_nearest k hk).1,
        (exp2_k_over_8_example_nearest k hk).2.1⟩)
      (fun _ _ => rfl) (Or.inl rfl)⟩
